import Mathlib

/-!
# AbiMusicSheet: the AMS front-ends and the MIDI emitter

A shallow embedding of `src/Parsers/AMS_Parser_JSON.cpp` and
`src/Parsers/AMS_Parser_MIDI.cpp`.

Conventions of the embedding

* `std::string` is `Str = List Char`; one `Char` stands for one C++ `char`.
* `int` is `Int`; `uint8_t`, `uint32_t` and `size_t` are `Nat`, reduced
  modulo `2^8` resp. `2^32` at the places where the C++ code converts.
* `double` is `ℚ`: every duration the parsers produce is one of
  `1/4, 1/2, 3/4, 1, 3/2, 2, 3, 4`, all exact in binary64.
* `std::vector` is `List`; `std::map` is an association list read with
  `List.lookup` (the maps of the program are never iterated).
* A thrown exception, a division by zero and an out-of-range `double → int`
  cast are the `Fault` side of `Except Fault`.
* A `while` loop becomes a function recursive on a fuel argument; running out
  of fuel is the fault `Fault.out_of_fuel`.
-/

namespace AMS

/-- A C++ `std::string`. -/
abbrev Str := List Char

/-- The ways a run of the C++ code can fail to return. -/
inductive Fault where
  | invalid_argument
  | out_of_range
  | division_by_zero
  | undefined_cast
  | out_of_fuel
deriving DecidableEq

deriving instance DecidableEq for Except

/-! ## Data structures (identical in both source files) -/

/-- The `struct Note`; the defaults are those of the constructor `Note()`. -/
structure Note where
  degree : Int := 0
  accidental : Str := []
  octave_shift : Int := 0
  duration : ℚ := 1
  is_dotted : Bool := false
  articulation : Str := []
  dynamic : Str := []
  is_rest : Bool := false
deriving DecidableEq

/-- The `struct Chord`; the defaults are those of the constructor `Chord()`. -/
structure Chord where
  notes : List Note := []
  duration : ℚ := 1
  is_dotted : Bool := false
deriving DecidableEq

/-- The `struct Hand`. -/
structure Hand where
  chunks : List (List Chord) := []
deriving DecidableEq

/-- The `struct Segment`. -/
structure Segment where
  id : Int
  name : Str
  tempo : Int
  left : Hand := {}
  right : Hand := {}
  definition_line : Nat
deriving DecidableEq

/-- The `struct Metadata`. -/
structure Metadata where
  title : Str := []
  composer : Str := []
  key : Str := []
  tempo : Int
  time_signature : Str := []
  difficulty : Int
deriving DecidableEq

/-- The `struct MapBlock`; `note_mapping` is the `std::map<int, std::string>`. -/
structure MapBlock where
  key : Str := []
  scale : Str := []
  note_mapping : List (Int × Str) := []
  defined : Bool := false
  line_number : Nat := 0
deriving DecidableEq

/-! ## Utility functions (identical in both source files) -/

/-- Membership in the set `" \t\n\r"` used by `trim`. -/
def isTrimChar (c : Char) : Bool :=
  c = ' ' || c = Char.ofNat 9 || c = Char.ofNat 10 || c = Char.ofNat 13

/-- The function `trim`: the substring from the first to the last character
that is not one of `" \t\n\r"`, empty when there is none. -/
def trim (str : Str) : Str :=
  ((str.dropWhile isTrimChar).reverse.dropWhile isTrimChar).reverse

/-- The `std::getline` loop of `split`, before trimming: `cur` is the item
being read. At the end of the stream an item is produced only when at least
one character was extracted for it. -/
def splitItems (delim : Char) : Str → Str → List Str
  | [], cur => if cur.isEmpty then [] else [cur]
  | c :: cs, cur =>
    if c = delim then cur :: splitItems delim cs [] else splitItems delim cs (cur ++ [c])

/-- The function `split`. -/
def split (str : Str) (delim : Char) : List Str :=
  (splitItems delim str []).map trim

/-- The function `startsWith`. -/
def startsWith (str pfx : Str) : Bool :=
  decide (str.length ≥ pfx.length) && decide (str.take pfx.length = pfx)

/-- The position search `line.find("//")` followed by `substr(0, pos)`. -/
def removeComments : Str → Str
  | [] => []
  | [c] => [c]
  | c :: d :: rest =>
    if c = '/' ∧ d = '/' then [] else c :: removeComments (d :: rest)

/-- The character class of `std::isspace` in the "C" locale. -/
def isspace (c : Char) : Bool :=
  c = ' ' || (9 ≤ c.toNat && c.toNat ≤ 13)

/-- The character class of `std::isdigit`. -/
def isdigit (c : Char) : Bool :=
  48 ≤ c.toNat && c.toNat ≤ 57

/-- The value of a run of decimal digits. -/
def digitsValue (ds : Str) : Nat :=
  ds.foldl (fun acc c => 10 * acc + (c.toNat - 48)) 0

/-- The function `std::stoi` (base 10): leading white space is skipped, an
optional sign and the longest run of digits are read; no digit throws
`std::invalid_argument`, a value outside `int` throws `std::out_of_range`. -/
def stoi (s : Str) : Except Fault Int :=
  let s1 := s.dropWhile isspace
  let signed : Bool × Str :=
    match s1 with
    | '-' :: r => (true, r)
    | '+' :: r => (false, r)
    | _ => (false, s1)
  let ds := signed.2.takeWhile isdigit
  if ds.isEmpty then .error .invalid_argument
  else
    let v : Int := if signed.1 then -(digitsValue ds : Int) else (digitsValue ds : Int)
    if v < -2147483648 ∨ 2147483647 < v then .error .out_of_range else .ok v

/-- The function `std::to_string(int)`. -/
def to_string (n : Int) : Str :=
  if n < 0 then '-' :: Nat.toDigits 10 n.natAbs else Nat.toDigits 10 n.natAbs

/-- The function `extractValue`: the trimmed text after the first `:`, with
one pair of surrounding double quotes removed. -/
def extractValue (line : Str) : Str :=
  match line.dropWhile (fun c => c != ':') with
  | [] => []
  | _ :: after =>
    let value := trim after
    if value.length ≥ 2 ∧ value.head? = some (Char.ofNat 34)
        ∧ value.getLast? = some (Char.ofNat 34) then
      (value.drop 1).take (value.length - 2)
    else value

/-! ## `std::map` and `std::regex` -/

/-- The assignment `m[k] = v` on a `std::map`. -/
def mapSet {κ ν : Type} [DecidableEq κ] (m : List (κ × ν)) (k : κ) (v : ν) : List (κ × ν) :=
  (k, v) :: m.filter (fun e => e.1 ≠ k)

/-- One item of a regular expression of the program: a literal character, or
a character class repeated greedily at least `min` times, captured or not. -/
inductive RegexItem where
  | lit (c : Char)
  | cls (p : Char → Bool) (min : Nat) (capture : Bool)

/-- The literal characters of a string as regular-expression items. -/
def lits (s : String) : List RegexItem := s.toList.map RegexItem.lit

/-- Greedy repetition with backtracking: the continuation `f` is tried on the
run lengths `k, k - 1, ..., min`. -/
def tryLengths {α : Type} (f : Nat → Option α) (min : Nat) : Nat → Option α
  | 0 => if min = 0 then f 0 else none
  | k + 1 =>
    if k + 1 < min then none
    else
      match f (k + 1) with
      | some r => some r
      | none => tryLengths f min k

/-- A match of the items at the start of `s`; the result is the list of the
captured groups. -/
def matchItems : List RegexItem → Str → Option (List Str)
  | [], _ => some []
  | RegexItem.lit c :: items, s =>
    match s with
    | [] => none
    | d :: rest => if d = c then matchItems items rest else none
  | RegexItem.cls p min capture :: items, s =>
    tryLengths
      (fun k => (matchItems items (s.drop k)).map
        (fun caps => if capture then s.take k :: caps else caps))
      min (s.takeWhile p).length

/-- The function `std::regex_search`: the leftmost match. -/
def regex_search (items : List RegexItem) : Str → Option (List Str)
  | [] => matchItems items []
  | c :: rest =>
    match matchItems items (c :: rest) with
    | some caps => some caps
    | none => regex_search items rest

/-- The class `[A-Z_]`. -/
def isUpperOrUnderscore (c : Char) : Bool :=
  (65 ≤ c.toNat && c.toNat ≤ 90) || c = '_'

/-- The pattern `Segment\((\d+),\s*([A-Z_]+)\)`. -/
def seg_regex : List RegexItem :=
  lits "Segment(" ++ [RegexItem.cls isdigit 1 true] ++ lits ","
    ++ [RegexItem.cls isspace 0 false, RegexItem.cls isUpperOrUnderscore 1 true] ++ lits ")"

/-- The pattern `\d+`. -/
def num_regex : List RegexItem := [RegexItem.cls isdigit 1 true]

/-- The function `extractNumber`. -/
def extractNumber (line : Str) : Except Fault Int :=
  match regex_search num_regex line with
  | some (m0 :: _) => stoi m0
  | _ => .ok 0

/-- The lines read by the `std::getline` loop of the constructors. -/
def getlines (content : Str) : List Str := splitItems (Char.ofNat 10) content []

/-! ## Notes compared apart from the dynamic marking -/

/-- A note with its dynamic marking cleared. -/
def noteWithoutDynamic (n : Note) : Note := { n with dynamic := [] }

/-! ## MIDI file writer -/

namespace MIDIProg

/-- The class `MIDIWriter`: the byte vector `data`. -/
structure MIDIWriter where
  data : List Nat := []
deriving DecidableEq

/-- The method `writeByte`; the parameter is a `uint8_t`. -/
def MIDIWriter.writeByte (w : MIDIWriter) (byte : Nat) : MIDIWriter :=
  { data := w.data ++ [byte % 256] }

/-- The method `writeBytes`; the elements are `uint8_t`. -/
def MIDIWriter.writeBytes (w : MIDIWriter) (bytes : List Nat) : MIDIWriter :=
  { data := w.data ++ bytes.map (· % 256) }

/-- The method `writeInt16`; the parameter is a `uint16_t`. -/
def MIDIWriter.writeInt16 (w : MIDIWriter) (value0 : Nat) : MIDIWriter :=
  let value := value0 % 65536
  { data := w.data ++ [(value >>> 8) &&& 0xFF, value &&& 0xFF] }

/-- The method `writeInt32`; the parameter is a `uint32_t`. -/
def MIDIWriter.writeInt32 (w : MIDIWriter) (value0 : Nat) : MIDIWriter :=
  let value := value0 % 4294967296
  { data := w.data ++
      [(value >>> 24) &&& 0xFF, (value >>> 16) &&& 0xFF, (value >>> 8) &&& 0xFF, value &&& 0xFF] }

/-- The method `writeVarLen`; the parameter is a `uint32_t`. -/
def MIDIWriter.writeVarLen (w : MIDIWriter) (value0 : Nat) : MIDIWriter :=
  let value := value0 % 4294967296
  let w1 := if value ≥ 0x10000000 then w.writeByte (0x80 ||| ((value >>> 28) &&& 0x7F)) else w
  let w2 := if value ≥ 0x200000 then w1.writeByte (0x80 ||| ((value >>> 21) &&& 0x7F)) else w1
  let w3 := if value ≥ 0x4000 then w2.writeByte (0x80 ||| ((value >>> 14) &&& 0x7F)) else w2
  let w4 := if value ≥ 0x80 then w3.writeByte (0x80 ||| ((value >>> 7) &&& 0x7F)) else w3
  w4.writeByte (value &&& 0x7F)

/-- The method `writeString`: each `char` is cast to `uint8_t`. -/
def MIDIWriter.writeString (w : MIDIWriter) (str : Str) : MIDIWriter :=
  str.foldl (fun acc c => acc.writeByte c.toNat) w

/-- The method `writeHeader`; the parameters are `uint16_t`. -/
def MIDIWriter.writeHeader (w : MIDIWriter) (format num_tracks division : Nat) : MIDIWriter :=
  ((((w.writeString "MThd".toList).writeInt32 6).writeInt16 format).writeInt16
    num_tracks).writeInt16 division

/-- The method `startTrack`. -/
def MIDIWriter.startTrack (w : MIDIWriter) : MIDIWriter :=
  (w.writeString "MTrk".toList).writeInt32 0

/-- The method `size`. -/
def MIDIWriter.size (w : MIDIWriter) : Nat := w.data.length

/-- The method `getTrackLengthPosition`. -/
def MIDIWriter.getTrackLengthPosition (w : MIDIWriter) : Nat := w.data.length - 4

/-- The method `updateTrackLength`; `length` is a `uint32_t`. -/
def MIDIWriter.updateTrackLength (w : MIDIWriter) (pos length0 : Nat) : MIDIWriter :=
  let length := length0 % 4294967296
  { data := (((w.data.set pos ((length >>> 24) &&& 0xFF)).set (pos + 1)
      ((length >>> 16) &&& 0xFF)).set (pos + 2) ((length >>> 8) &&& 0xFF)).set (pos + 3)
      (length &&& 0xFF) }

/-- The method `writeDeltaTime`. -/
def MIDIWriter.writeDeltaTime (w : MIDIWriter) (delta : Nat) : MIDIWriter :=
  w.writeVarLen delta

/-- The method `writeMetaEvent`; `data.size()` is converted to `uint32_t` by
`writeVarLen`. -/
def MIDIWriter.writeMetaEvent (w : MIDIWriter) (type : Nat) (data : List Nat) : MIDIWriter :=
  (((w.writeByte 0xFF).writeByte type).writeVarLen data.length).writeBytes data

/-- The method `writeNoteOn`; the parameters are `uint8_t`. -/
def MIDIWriter.writeNoteOn (w : MIDIWriter) (channel note velocity : Nat) : MIDIWriter :=
  ((w.writeByte (0x90 ||| channel)).writeByte note).writeByte velocity

/-- The method `writeNoteOff`; the parameters are `uint8_t`. -/
def MIDIWriter.writeNoteOff (w : MIDIWriter) (channel note : Nat) : MIDIWriter :=
  ((w.writeByte (0x80 ||| channel)).writeByte note).writeByte 64

/-- The method `writeProgramChange`; the parameters are `uint8_t`. -/
def MIDIWriter.writeProgramChange (w : MIDIWriter) (channel program : Nat) : MIDIWriter :=
  (w.writeByte (0xC0 ||| channel)).writeByte program

/-- The method `writeTempoChange`; the parameter is a `uint32_t`. -/
def MIDIWriter.writeTempoChange (w : MIDIWriter) (microseconds_per_quarter0 : Nat) :
    MIDIWriter :=
  let microseconds_per_quarter := microseconds_per_quarter0 % 4294967296
  w.writeMetaEvent 0x51
    [(microseconds_per_quarter >>> 16) &&& 0xFF, (microseconds_per_quarter >>> 8) &&& 0xFF,
      microseconds_per_quarter &&& 0xFF]

/-- The loop `while (temp > 1) { temp >>= 1; denom_log2++; }` of
`writeTimeSignature`; `temp` is a `uint8_t`, so eight rounds are enough. -/
def denomLog2Loop : Nat → Nat → Nat → Nat
  | 0, _, denom_log2 => denom_log2
  | fuel + 1, temp, denom_log2 =>
    if temp > 1 then denomLog2Loop fuel (temp >>> 1) (denom_log2 + 1) else denom_log2

/-- The method `writeTimeSignature`; the parameters are `uint8_t`. -/
def MIDIWriter.writeTimeSignature (w : MIDIWriter) (numerator denominator : Nat) :
    MIDIWriter :=
  let denom_log2 := denomLog2Loop 8 (denominator % 256) 0
  w.writeMetaEvent 0x58 [numerator % 256, denom_log2, 24, 8]

/-- The method `writeTrackName`. -/
def MIDIWriter.writeTrackName (w : MIDIWriter) (name : Str) : MIDIWriter :=
  w.writeMetaEvent 0x03 (name.map (fun c => c.toNat % 256))

/-- The method `writeEndOfTrack`. -/
def MIDIWriter.writeEndOfTrack (w : MIDIWriter) : MIDIWriter :=
  w.writeMetaEvent 0x2F []

/-! ## MIDI note conversion -/

/-- The table `note_to_midi` of `MIDINoteConverter`. -/
def note_to_midi : List (Str × Int) :=
  [("C".toList, 0), ("C#".toList, 1), ("Db".toList, 1),
   ("D".toList, 2), ("D#".toList, 3), ("Eb".toList, 3),
   ("E".toList, 4),
   ("F".toList, 5), ("F#".toList, 6), ("Gb".toList, 6),
   ("G".toList, 7), ("G#".toList, 8), ("Ab".toList, 8),
   ("A".toList, 9), ("A#".toList, 10), ("Bb".toList, 10),
   ("B".toList, 11)]

/-- The value of an `int` operation in 32 bits. Signed overflow is undefined
in C++; the embedding gives the result the two's-complement targets give, the
exact value wrapped into the range of `int`. -/
def toInt32 (x : Int) : Int := (x + 2147483648) % 4294967296 - 2147483648

/-- The method `pitchToMIDI`; each of its four `int` operations is taken in
32 bits. -/
def pitchToMIDI (pitch : Str) (octave : Int) (octave_shift : Int) : Int :=
  match note_to_midi.lookup pitch with
  | none => 60
  | some base_note =>
    let total_octave := toInt32 (octave + octave_shift)
    toInt32 (toInt32 (toInt32 (total_octave + 1) * 12) + base_note)

/-- The method `velocityFromDynamic`. -/
def velocityFromDynamic (dynamic : Str) : Int :=
  if dynamic = "pp".toList then 40
  else if dynamic = "p".toList then 60
  else if dynamic = "mp".toList then 75
  else if dynamic = "mf".toList then 90
  else if dynamic = "f".toList then 105
  else if dynamic = "ff".toList then 120
  else 90

/-- Conversion of an `int` to `uint8_t`. -/
def toUInt8 (x : Int) : Nat := (x % 256).toNat

/-- Conversion of an `int` to `uint32_t`. -/
def toUInt32 (x : Int) : Nat := (x % 4294967296).toNat

/-! ## The parser of the MIDI program -/

/-- The class `AMSParser` of `AMS_Parser_MIDI.cpp`. The `int` members of
`metadata` are indeterminate after construction; `parseMetadata` assigns them
before any read, and the embedding starts them at `0`. -/
structure AMSParser where
  lines : List Str := []
  original_lines : List Str := []
  current_line : Nat := 0
  metadata : Metadata := { tempo := 0, difficulty := 0 }
  map_block : MapBlock := {}
  segments : List Segment := []
  errors : List Str := []
deriving DecidableEq

/-- The constructor, on the content of a file that could be opened. -/
def AMSParser.new (content : Str) : AMSParser :=
  { lines := (getlines content).map (fun line => trim (removeComments line))
    original_lines := getlines content }

/-- The cursor moved one line on. -/
def AMSParser.advance (p : AMSParser) : AMSParser :=
  { p with current_line := p.current_line + 1 }

/-- The method `parseDuration`. -/
def parseDuration (str : Str) (note : Note) : Note :=
  if str.isEmpty then { note with duration := 1 }
  else if str = ".h".toList then { note with duration := 2 }
  else if str = ".w".toList then { note with duration := 4 }
  else if str = ".e".toList then { note with duration := mkRat 1 2 }
  else if str = ".s".toList then { note with duration := mkRat 1 4 }
  else if str = ".h.".toList then { note with duration := 3, is_dotted := true }
  else if str = ".".toList then { note with duration := mkRat 3 2, is_dotted := true }
  else if str = ".e.".toList then { note with duration := mkRat 3 4, is_dotted := true }
  else { note with duration := 1 }

/-- A character of a dynamic marking. -/
def isDynamicChar (c : Char) : Bool := c = 'p' || c = 'f' || c = 'm'

/-- The second `while` loop of `parseNote`, on the characters from index `i`
on. Every round consumes a character, so `str.size() + 1` rounds are enough. -/
def parseNoteLoop : Nat → Str → Note → Except Fault Note
  | 0, _, _ => .error .out_of_fuel
  | _ + 1, [], note => .ok note
  | fuel + 1, c :: rest, note =>
    if c = '#' then parseNoteLoop fuel rest { note with accidental := "#".toList }
    else if c = 'b' then parseNoteLoop fuel rest { note with accidental := "b".toList }
    else if c = '^' then
      let sign : Str × Str :=
        match rest with
        | '-' :: r => (['-'], r)
        | _ => ([], rest)
      let shift_str := sign.1 ++ sign.2.takeWhile isdigit
      let rest2 := sign.2.dropWhile isdigit
      if shift_str.isEmpty then parseNoteLoop fuel rest2 note
      else do
        let v ← stoi shift_str
        parseNoteLoop fuel rest2 { note with octave_shift := v }
    else if isDynamicChar c then
      parseNoteLoop fuel (rest.dropWhile isDynamicChar)
        { note with dynamic := note.dynamic ++ c :: rest.takeWhile isDynamicChar }
    else if c = '.' then .ok (parseDuration (c :: rest) note)
    else parseNoteLoop fuel rest note

/-- The method `parseNote`. -/
def parseNote (str : Str) : Except Fault Note :=
  let note : Note := {}
  match str with
  | [] => .ok note
  | c0 :: tail =>
    if c0 = 'R' then .ok (parseDuration tail { note with is_rest := true })
    else
      let degree_str := str.takeWhile isdigit
      let rest := str.dropWhile isdigit
      if degree_str.isEmpty then parseNoteLoop (str.length + 1) rest note
      else do
        let d ← stoi degree_str
        parseNoteLoop (str.length + 1) rest { note with degree := d }

/-- The chord test of `parseChord`: some `.` stands between two digits. -/
def hasDigitDotDigit : Str → Bool
  | a :: b :: c :: rest =>
    (isdigit a && b = '.' && isdigit c) || hasDigitDotDigit (b :: c :: rest)
  | _ => false

/-- The splitting loop of `parseChord`: a `.` followed by a digit ends the
current part, which is kept when it is not empty. -/
def splitNoteParts : Str → Str → List Str
  | [], current => if current.isEmpty then [] else [current]
  | c :: rest, current =>
    if c = '.' ∧ (rest.head?.map isdigit = some true) then
      if current.isEmpty then splitNoteParts rest []
      else current :: splitNoteParts rest []
    else splitNoteParts rest (current ++ [c])

/-- The loop over `note_parts` of `parseChord`. -/
def chordNotesLoop (chord : Chord) : List Str → Except Fault Chord
  | [] => .ok chord
  | np :: nps =>
    if np.head?.map isdigit = some true then do
      let d ← stoi np
      let n : Note := { degree := d, duration := chord.duration, is_dotted := chord.is_dotted }
      chordNotesLoop { chord with notes := chord.notes ++ [n] } nps
    else chordNotesLoop chord nps

/-- The method `parseChord`; it is called on non-empty tokens only. -/
def parseChord (str : Str) : Except Fault Chord :=
  let chord : Chord := {}
  if hasDigitDotDigit str then
    let note_parts := splitNoteParts str []
    match note_parts.getLast? with
    | none => .ok chord
    | some last => do
      let note_parts := note_parts.dropLast
      let duration_note ← parseNote last
      let chord := { chord with duration := duration_note.duration,
                                is_dotted := duration_note.is_dotted }
      let note_parts :=
        if duration_note.degree > 0 then note_parts ++ [to_string duration_note.degree]
        else note_parts
      chordNotesLoop chord note_parts
  else do
    let n ← parseNote str
    .ok { chord with notes := chord.notes ++ [n], duration := n.duration,
                     is_dotted := n.is_dotted }

/-- The method `parseChordSequence`. -/
def parseChordSequence (str : Str) : Except Fault (List Chord) :=
  (split str ',').foldlM
    (fun chords part =>
      let trimmed := trim part
      if trimmed.isEmpty then .ok chords
      else do
        let chord ← parseChord trimmed
        .ok (chords ++ [chord]))
    []

/-- The method `parseChunks`. -/
def parseChunks (data : Str) : Except Fault (List (List Chord)) :=
  (split data '|').foldlM
    (fun result chunk_str =>
      if chunk_str.isEmpty then .ok result
      else do
        let chords ← parseChordSequence chunk_str
        .ok (if chords.isEmpty then result else result ++ [chords]))
    []

/-- The loop of `parseHand`; `chunk_data` is the text gathered so far. The
cursor stays on the closing line. -/
def parseHandLoop : Nat → Str → AMSParser → Except Fault (Hand × AMSParser)
  | 0, _, _ => .error .out_of_fuel
  | fuel + 1, chunk_data, p =>
    match p.lines[p.current_line]? with
    | none => .ok ({}, p)
    | some l =>
      if l.isEmpty then parseHandLoop fuel chunk_data p.advance
      else
        let line := trim l
        if line = "\x7d".toList then
          if chunk_data.isEmpty then .ok ({}, p)
          else do
            let chunks ← parseChunks chunk_data
            .ok ({ chunks := chunks }, p)
        else if !startsWith line "SYNC()".toList && !startsWith line "Position(".toList then
          parseHandLoop fuel (chunk_data ++ line ++ " ".toList) p.advance
        else parseHandLoop fuel chunk_data p.advance

/-- The method `parseHand`. -/
def parseHand (p : AMSParser) : Except Fault (Hand × AMSParser) :=
  parseHandLoop (p.lines.length + 1) [] p.advance

/-- The loop of `parseSegment`. -/
def parseSegmentLoop : Nat → Segment → AMSParser → Except Fault AMSParser
  | 0, _, _ => .error .out_of_fuel
  | fuel + 1, seg, p =>
    match p.lines[p.current_line]? with
    | none => .ok p
    | some l =>
      if l.isEmpty then parseSegmentLoop fuel seg p.advance
      else
        let line := trim l
        if line = "END;".toList then
          .ok { p with segments := p.segments ++ [seg], current_line := p.current_line + 1 }
        else if startsWith line "Tempo(".toList then do
          let t ← extractNumber line
          parseSegmentLoop fuel { seg with tempo := t } p.advance
        else if startsWith line "Begin.LEFT \x7b".toList then do
          let r ← parseHand p
          parseSegmentLoop fuel { seg with left := r.1 } r.2.advance
        else if startsWith line "Begin.RIGHT \x7b".toList then do
          let r ← parseHand p
          parseSegmentLoop fuel { seg with right := r.1 } r.2.advance
        else parseSegmentLoop fuel seg p.advance

/-- The method `parseSegment`. When the header does not match, nothing is
done and the cursor stays. -/
def parseSegment (p : AMSParser) : Except Fault AMSParser :=
  match regex_search seg_regex (p.lines.getD p.current_line []) with
  | some [m1, m2] => do
    let id ← stoi m1
    let seg : Segment :=
      { id := id, name := m2, tempo := p.metadata.tempo, definition_line := p.current_line }
    parseSegmentLoop (p.lines.length + 1) seg p.advance
  | _ => .ok p

/-- The loop of `parseMetadata`. -/
def parseMetadataLoop : Nat → AMSParser → Except Fault AMSParser
  | 0, _ => .error .out_of_fuel
  | fuel + 1, p =>
    match p.lines[p.current_line]? with
    | none => .ok p
    | some line =>
      if line.isEmpty then parseMetadataLoop fuel p.advance
      else if startsWith line "Title:".toList then
        parseMetadataLoop fuel
          { p with metadata := { p.metadata with title := extractValue line } }.advance
      else if startsWith line "Composer:".toList then
        parseMetadataLoop fuel
          { p with metadata := { p.metadata with composer := extractValue line } }.advance
      else if startsWith line "Key:".toList then
        parseMetadataLoop fuel
          { p with metadata := { p.metadata with key := extractValue line } }.advance
      else if startsWith line "Tempo:".toList then
        match stoi (extractValue line) with
        | .ok t =>
          parseMetadataLoop fuel { p with metadata := { p.metadata with tempo := t } }.advance
        | .error _ => parseMetadataLoop fuel p.advance
      else if startsWith line "TimeSignature:".toList then
        parseMetadataLoop fuel
          { p with metadata := { p.metadata with time_signature := extractValue line } }.advance
      else if startsWith line "Difficulty:".toList then
        match stoi (extractValue line) with
        | .ok d =>
          parseMetadataLoop fuel
            { p with metadata := { p.metadata with difficulty := d } }.advance
        | .error _ => parseMetadataLoop fuel p.advance
      else if startsWith line "Map \x7b".toList then .ok p
      else parseMetadataLoop fuel p.advance

/-- The method `parseMetadata`. -/
def parseMetadata (p : AMSParser) : Except Fault AMSParser :=
  parseMetadataLoop (p.lines.length + 1)
    { p with metadata :=
        { p.metadata with tempo := 120, difficulty := 0, time_signature := "4/4".toList } }

/-- The loop of `parseMap`. -/
def parseMapLoop : Nat → AMSParser → Except Fault (Bool × AMSParser)
  | 0, _ => .error .out_of_fuel
  | fuel + 1, p =>
    match p.lines[p.current_line]? with
    | none => .ok (false, p)
    | some l =>
      if l.isEmpty then parseMapLoop fuel p.advance
      else
        let line := trim l
        if line = "\x7d".toList then .ok (true, p.advance)
        else if startsWith line "Key:".toList then
          parseMapLoop fuel
            { p with map_block := { p.map_block with key := extractValue line } }.advance
        else if startsWith line "Scale:".toList then
          parseMapLoop fuel
            { p with map_block := { p.map_block with scale := extractValue line } }.advance
        else parseMapLoop fuel p.advance

/-- The method `parseMap`. -/
def parseMap (p : AMSParser) : Except Fault (Bool × AMSParser) :=
  match p.lines[p.current_line]? with
  | none => .ok (false, p)
  | some l =>
    if !startsWith l "Map \x7b".toList then .ok (false, p)
    else
      parseMapLoop (p.lines.length + 1)
        { p with map_block := { p.map_block with defined := true } }.advance

/-- The table `scale_mappings` of the MIDI program. -/
def scale_mappings : List (Str × List Str) :=
  [("C_Major".toList, ["C", "D", "E", "F", "G", "A", "B"].map String.toList),
   ("D_Major".toList, ["D", "E", "F#", "G", "A", "B", "C#"].map String.toList),
   ("G_Major".toList, ["G", "A", "B", "C", "D", "E", "F#"].map String.toList),
   ("A_Minor".toList, ["A", "B", "C", "D", "E", "F", "G"].map String.toList)]

/-- The loop `for (int i = 0; i < 7; i++) note_mapping[i + 1] = scale[i]`. -/
def storeScale (scale : List Str) (m : List (Int × Str)) : List (Int × Str) :=
  (List.range 7).foldl (fun acc i => mapSet acc (Int.ofNat i + 1) (scale.getD i [])) m

/-- The method `generateNoteMapping`. -/
def generateNoteMapping (p : AMSParser) : AMSParser :=
  let key := p.map_block.key ++ "_".toList ++ p.map_block.scale
  let scale :=
    match scale_mappings.lookup key with
    | some sc => sc
    | none => (scale_mappings.lookup "C_Major".toList).getD []
  { p with map_block := { p.map_block with note_mapping := storeScale scale p.map_block.note_mapping } }

/-- The `while` loop of `parse`. A `Segment(` line whose header does not
match leaves the cursor where it is, and the loop does not end. -/
def parseLoop : Nat → AMSParser → Except Fault AMSParser
  | 0, _ => .error .out_of_fuel
  | fuel + 1, p =>
    match p.lines[p.current_line]? with
    | none => .ok p
    | some line =>
      if line.isEmpty then parseLoop fuel p.advance
      else if startsWith line "Segment(".toList then do
        let p1 ← parseSegment p
        parseLoop fuel p1
      else if startsWith line "Main()".toList then .ok p
      else parseLoop fuel p.advance

/-- The method `parse`; `fuel` bounds the rounds of its `while` loop. -/
def parse (fuel : Nat) (p : AMSParser) : Except Fault (Bool × AMSParser) := do
  let p1 ← parseMetadata p
  let r ← parseMap p1
  if !r.1 then .ok (false, r.2)
  else do
    let p2 := generateNoteMapping r.2
    let p3 ← parseLoop fuel p2
    .ok (!p3.segments.isEmpty, p3)

/-! ## MIDI generator -/

/-- The method `calculateTicks`: `static_cast<int>(beats * 480)`, the product
cut towards zero. A product outside `int` makes the cast undefined. -/
def calculateTicks (beats : ℚ) : Except Fault Int :=
  let v := Int.tdiv (beats.num * 480) beats.den
  if v < -2147483648 ∨ 2147483647 < v then .error .undefined_cast else .ok v

/-- The method `tempoToMicroseconds`: the `int` quotient, converted to
`uint32_t`. -/
def tempoToMicroseconds (bpm : Int) : Except Fault Nat :=
  if bpm = 0 then .error .division_by_zero else .ok (toUInt32 (Int.tdiv 60000000 bpm))

/-- The lookup `note_mapping.at(degree)`, which throws `std::out_of_range`. -/
def mapAt (m : List (Int × Str)) (degree : Int) : Except Fault Str :=
  match m.lookup degree with
  | some pitch => .ok pitch
  | none => .error .out_of_range

/-- The first loop over the notes of a chord in `generateHandTrack`. -/
def noteOnLoop (map_block : MapBlock) (channel : Nat) (default_octave : Int) :
    List Note → MIDIWriter → Except Fault MIDIWriter
  | [], midi => .ok midi
  | note :: rest, midi =>
    if note.is_rest ∨ note.degree = 0 then noteOnLoop map_block channel default_octave rest midi
    else do
      let pitch ← mapAt map_block.note_mapping note.degree
      let midi_note := pitchToMIDI pitch default_octave note.octave_shift
      let velocity := velocityFromDynamic note.dynamic
      let velocity := if note.articulation = "!".toList then min 127 (velocity + 20) else velocity
      let velocity := if note.articulation = "~".toList then max 40 (velocity - 10) else velocity
      let velocity := if note.articulation = ">".toList then min 127 (velocity + 30) else velocity
      noteOnLoop map_block channel default_octave rest
        ((midi.writeDeltaTime 0).writeNoteOn channel (toUInt8 midi_note) (toUInt8 velocity))

/-- The second loop over the notes of a chord in `generateHandTrack`. -/
def noteOffLoop (map_block : MapBlock) (channel : Nat) (default_octave : Int)
    (duration_ticks : Int) : Bool → List Note → MIDIWriter → Except Fault MIDIWriter
  | _, [], midi => .ok midi
  | first_note, note :: rest, midi =>
    if note.is_rest ∨ note.degree = 0 then
      noteOffLoop map_block channel default_octave duration_ticks first_note rest midi
    else do
      let pitch ← mapAt map_block.note_mapping note.degree
      let midi_note := pitchToMIDI pitch default_octave note.octave_shift
      noteOffLoop map_block channel default_octave duration_ticks false rest
        ((midi.writeDeltaTime (toUInt32 (if first_note then duration_ticks else 0))).writeNoteOff
          channel (toUInt8 midi_note))

/-- The body of the innermost `for` loop of `generateHandTrack`, for one chord. -/
def chordEvents (map_block : MapBlock) (channel : Nat) (default_octave : Int)
    (midi : MIDIWriter) (chord : Chord) : Except Fault MIDIWriter :=
  if chord.notes.isEmpty then .ok midi
  else do
    let ticks ← calculateTicks chord.duration
    let duration_ticks :=
      if (chord.notes.head?.map (fun n => n.articulation)) = some "!".toList then
        Int.tdiv ticks 2
      else ticks
    let midi1 ← noteOnLoop map_block channel default_octave chord.notes midi
    noteOffLoop map_block channel default_octave duration_ticks true chord.notes midi1

/-- The method `generateHandTrack`. -/
def generateHandTrack (midi : MIDIWriter) (segments : List Segment) (map_block : MapBlock)
    (is_left : Bool) (channel : Nat) (default_octave : Int) : Except Fault MIDIWriter :=
  segments.foldlM
    (fun midi segment =>
      let hand := if is_left then segment.left else segment.right
      hand.chunks.foldlM
        (fun midi chunk => chunk.foldlM (chordEvents map_block channel default_octave) midi)
        midi)
    midi

/-- The time-signature parsing of `generate`: both values start at 4; the
numerator is assigned before the denominator is parsed. -/
def timeSignatureValues (time_signature : Str) : Nat × Nat :=
  match split time_signature '/' with
  | [a, b] =>
    match stoi a with
    | .error _ => (4, 4)
    | .ok n =>
      match stoi b with
      | .error _ => (toUInt8 n, 4)
      | .ok d => (toUInt8 n, toUInt8 d)
  | _ => (4, 4)

/-- The method `generate`, up to the call of `writeToFile`: the bytes handed
to the file. -/
def generate (metadata : Metadata) (map_block : MapBlock) (segments : List Segment) :
    Except Fault (List Nat) := do
  let midi : MIDIWriter := {}
  let midi := midi.writeHeader 1 3 480
  -- Track 0: Meta
  let midi := midi.startTrack
  let track0_len_pos := midi.getTrackLengthPosition
  let track0_start := midi.size
  let midi := midi.writeDeltaTime 0
  let midi := midi.writeTrackName metadata.title
  let midi := midi.writeDeltaTime 0
  let us ← tempoToMicroseconds metadata.tempo
  let midi := midi.writeTempoChange us
  let midi := midi.writeDeltaTime 0
  let ts := timeSignatureValues metadata.time_signature
  let midi := midi.writeTimeSignature ts.1 ts.2
  let midi := midi.writeDeltaTime 0
  let midi := midi.writeEndOfTrack
  let midi := midi.updateTrackLength track0_len_pos (midi.size - track0_start)
  -- Track 1: Left
  let midi := midi.startTrack
  let track1_len_pos := midi.getTrackLengthPosition
  let track1_start := midi.size
  let midi := midi.writeDeltaTime 0
  let midi := midi.writeTrackName "Left Hand".toList
  let midi := midi.writeDeltaTime 0
  let midi := midi.writeProgramChange 0 0
  let midi ← generateHandTrack midi segments map_block true 0 3
  let midi := midi.writeDeltaTime 0
  let midi := midi.writeEndOfTrack
  let midi := midi.updateTrackLength track1_len_pos (midi.size - track1_start)
  -- Track 2: Right
  let midi := midi.startTrack
  let track2_len_pos := midi.getTrackLengthPosition
  let track2_start := midi.size
  let midi := midi.writeDeltaTime 0
  let midi := midi.writeTrackName "Right Hand".toList
  let midi := midi.writeDeltaTime 0
  let midi := midi.writeProgramChange 1 0
  let midi ← generateHandTrack midi segments map_block false 1 4
  let midi := midi.writeDeltaTime 0
  let midi := midi.writeEndOfTrack
  let midi := midi.updateTrackLength track2_len_pos (midi.size - track2_start)
  .ok midi.data

/-- The function `main` of the MIDI program on the content of a file:
`none` when parsing fails (exit status 1), else the bytes of the MIDI file. -/
def main (fuel : Nat) (content : Str) : Except Fault (Option (List Nat)) := do
  let r ← parse fuel (AMSParser.new content)
  if !r.1 then .ok none
  else do
    let bytes ← generate r.2.metadata r.2.map_block r.2.segments
    .ok (some bytes)

/-! ## The event bytes, as the specification words them

These definitions follow the text of the specification; the theorems below
compare them with what the code writes. -/

/-- The bytes of a variable-length quantity. -/
def varLenBytes (v : Nat) : List Nat := (MIDIWriter.writeVarLen {} v).data

/-- Reading a variable-length quantity back: the low seven bits of each byte,
most significant group first. -/
def varLenValue (bytes : List Nat) : Nat :=
  bytes.foldl (fun acc b => acc * 128 + b % 128) 0

/-- A byte whose most significant bit is set. -/
def msbSet (b : Nat) : Prop := b < 256 ∧ b / 128 = 1

/-- A byte whose most significant bit is clear. -/
def msbClear (b : Nat) : Prop := b < 128

/-- Reading a big-endian number back from its bytes. -/
def bigEndianValue (bytes : List Nat) : Nat :=
  bytes.foldl (fun acc b => acc * 256 + b) 0

/-- The four bytes `field` are the length of `body` as 32 bits big-endian:
they read back as the length modulo `2^32`, which is the length itself for a
body shorter than `2^32` bytes. -/
def isLengthField (field body : List Nat) : Prop :=
  field.length = 4 ∧ (∀ b ∈ field, b < 256)
    ∧ bigEndianValue field = body.length % 4294967296
    ∧ (body.length < 4294967296 → bigEndianValue field = body.length)

/-- A note that sounds: not a rest, and its degree is not 0. -/
def sounding (note : Note) : Bool := !note.is_rest && decide (note.degree ≠ 0)

/-- A chord `generateHandTrack` gets through: it has no note, or its duration
in ticks fits an `int` and every sounding note has its degree in the note
mapping. -/
def chordPlayable (map_block : MapBlock) (chord : Chord) : Bool :=
  chord.notes.isEmpty ||
    ((calculateTicks chord.duration).toBool &&
      chord.notes.all (fun n => !sounding n || (map_block.note_mapping.lookup n.degree).isSome))

/-- A hand all of whose chords are playable. -/
def handPlayable (segments : List Segment) (map_block : MapBlock) (is_left : Bool) : Bool :=
  segments.all (fun segment =>
    (if is_left then segment.left else segment.right).chunks.all (fun chunk =>
      chunk.all (chordPlayable map_block)))

/-- The base velocity of a dynamic marking: pp 40, p 60, mp 75, mf 90, f 105,
ff 120, anything else 90. -/
def specBaseVelocity (dynamic : Str) : Nat :=
  if dynamic = "pp".toList then 40
  else if dynamic = "p".toList then 60
  else if dynamic = "mp".toList then 75
  else if dynamic = "mf".toList then 90
  else if dynamic = "f".toList then 105
  else if dynamic = "ff".toList then 120
  else 90

/-- The velocity of a note: the base velocity adjusted by the articulation,
`!` by +20 capped at 127, `~` by -10 floored at 40, `>` by +30 capped at 127. -/
def specVelocity (note : Note) : Nat :=
  let base := specBaseVelocity note.dynamic
  if note.articulation = "!".toList then min 127 (base + 20)
  else if note.articulation = "~".toList then max 40 (base - 10)
  else if note.articulation = ">".toList then min 127 (base + 30)
  else base

/-- The note number of a note: its degree resolved to a letter, the letter to
a MIDI number, as a byte. -/
def specNoteNumber (map_block : MapBlock) (default_octave : Int) (note : Note) : Nat :=
  toUInt8 (pitchToMIDI ((map_block.note_mapping.lookup note.degree).getD []) default_octave
    note.octave_shift)

/-- The duration of a chord in ticks, halved when its first note is staccato. -/
def specChordTicks (chord : Chord) : Int :=
  let ticks := Int.tdiv (chord.duration.num * 480) chord.duration.den
  if (chord.notes.head?.map (fun n => n.articulation)) = some "!".toList then Int.tdiv ticks 2
  else ticks

/-- A note-on event at delta-time 0. -/
def specNoteOn (channel : Nat) (key velocity : Nat) : List Nat :=
  [0, (0x90 ||| channel) % 256, key, velocity]

/-- A note-off event after `delta` ticks, with release velocity 64. -/
def specNoteOff (delta : Nat) (channel : Nat) (key : Nat) : List Nat :=
  varLenBytes delta ++ [(0x80 ||| channel) % 256, key, 64]

/-- The note-off events of the sounding notes of a chord: the first after the
duration of the chord, the others at delta-time 0. -/
def specNoteOffs (map_block : MapBlock) (channel : Nat) (default_octave : Int)
    (duration_ticks : Int) : List Note → List Nat
  | [] => []
  | n :: rest =>
    specNoteOff (toUInt32 duration_ticks) channel (specNoteNumber map_block default_octave n)
      ++ rest.flatMap
        (fun m => specNoteOff 0 channel (specNoteNumber map_block default_octave m))

/-- The events of one chord: the note-on events of its sounding notes, then
their note-off events. -/
def specChordBytes (map_block : MapBlock) (channel : Nat) (default_octave : Int)
    (chord : Chord) : List Nat :=
  (chord.notes.filter sounding).flatMap
      (fun n => specNoteOn channel (specNoteNumber map_block default_octave n) (specVelocity n))
    ++ specNoteOffs map_block channel default_octave (specChordTicks chord)
        (chord.notes.filter sounding)

/-- The events of one hand: every segment in order, every chunk in order,
every chord in order. -/
def specHandBytes (segments : List Segment) (map_block : MapBlock) (is_left : Bool)
    (channel : Nat) (default_octave : Int) : List Nat :=
  segments.flatMap (fun segment =>
    (if is_left then segment.left else segment.right).chunks.flatMap (fun chunk =>
      chunk.flatMap (specChordBytes map_block channel default_octave)))

/-- A track chunk: `MTrk`, the length of the body as 32 bits big-endian, the
body. -/
def specTrackChunk (body : List Nat) : List Nat :=
  [77, 84, 114, 107] ++ (MIDIWriter.writeInt32 {} body.length).data ++ body

/-- The header chunk: `MThd`, length 6, format 1, 3 tracks, division 480. -/
def specHeader : List Nat := [77, 84, 104, 100, 0, 0, 0, 6, 0, 1, 0, 3, 1, 224]

/-- The end-of-track meta-event with its delta-time. -/
def specEndOfTrack : List Nat := [0, 255, 47, 0]

/-- A meta-event: `FF`, the type, the length of the data as a variable-length
quantity, the data. -/
def specMetaEvent (type : Nat) (data : List Nat) : List Nat :=
  [255, type] ++ varLenBytes data.length ++ data

/-- The track-name meta-event of a string. -/
def specTrackName (name : Str) : List Nat :=
  specMetaEvent 3 (name.map (fun c => c.toNat % 256))

/-- The tempo meta-event: type `0x51`, three data bytes, the microseconds per
quarter note big-endian. -/
def specTempoEvent (microseconds_per_quarter : Nat) : List Nat :=
  [255, 0x51, 3, (microseconds_per_quarter >>> 16) &&& 0xFF,
    (microseconds_per_quarter >>> 8) &&& 0xFF, microseconds_per_quarter &&& 0xFF]

/-- The time-signature meta-event: type `0x58`, four data bytes. -/
def specTimeSignatureEvent (numerator denominator : Nat) : List Nat :=
  [255, 0x58, 4, numerator % 256, denomLog2Loop 8 (denominator % 256) 0, 24, 8]

/-- The body of track 0: track name, tempo, time signature, end of track, each
at delta-time 0. -/
def specTrack0Body (metadata : Metadata) (microseconds_per_quarter : Nat) : List Nat :=
  [0] ++ specTrackName metadata.title ++ [0] ++ specTempoEvent microseconds_per_quarter
    ++ [0] ++ specTimeSignatureEvent (timeSignatureValues metadata.time_signature).1
      (timeSignatureValues metadata.time_signature).2
    ++ specEndOfTrack

/-- The body of a hand track: track name, program change to program 0, the
events of the hand, end of track. -/
def specHandTrackBody (name : Str) (segments : List Segment) (map_block : MapBlock)
    (is_left : Bool) (channel : Nat) (default_octave : Int) : List Nat :=
  [0] ++ specTrackName name ++ [0, (0xC0 ||| channel) % 256, 0]
    ++ specHandBytes segments map_block is_left channel default_octave ++ specEndOfTrack

/-! ## Models that differ in accidentals only -/

/-- A note with its accidental cleared. -/
def noteWithoutAccidental (n : Note) : Note := { n with accidental := [] }

/-- A chord with the accidentals of its notes cleared. -/
def chordWithoutAccidentals (c : Chord) : Chord :=
  { c with notes := c.notes.map noteWithoutAccidental }

/-- A hand with the accidentals of its notes cleared. -/
def handWithoutAccidentals (h : Hand) : Hand :=
  { chunks := h.chunks.map (fun chunk => chunk.map chordWithoutAccidentals) }

/-- A segment with the accidentals of its notes cleared. -/
def segmentWithoutAccidentals (s : Segment) : Segment :=
  { s with left := handWithoutAccidentals s.left, right := handWithoutAccidentals s.right }

/-! ## Pitch classes of a scale -/

/-- The steps, modulo 12, from each letter of a scale to the next: the
differences of the note numbers `pitchToMIDI` gives the letters in one
octave. -/
def pitchClassSteps (letters : List Str) : List Int :=
  let numbers := letters.map (fun letter => pitchToMIDI letter 4 0)
  List.zipWith (fun a b => (b - a) % 12) numbers numbers.tail

/-! ## Two sources that agree before the Main line -/

/-- The parser state with other lines: what the parser has built, over
another text. -/
def relines (p : AMSParser) (lines original_lines : List Str) : AMSParser :=
  { p with lines := lines, original_lines := original_lines }

/-- Two texts agree before line `k`, and line `k` of each begins with
`Main()`. -/
def sameUpTo (k : Nat) (lines1 lines2 : List Str) : Prop :=
  lines1.take k = lines2.take k
    ∧ (∃ m, lines1[k]? = some m ∧ startsWith m "Main()".toList = true)
    ∧ (∃ m, lines2[k]? = some m ∧ startsWith m "Main()".toList = true)

/-- What every function of the MIDI parser keeps: the lines stay and the
cursor does not move back. -/
def Steps (p q : AMSParser) : Prop :=
  q.lines = p.lines ∧ p.current_line ≤ q.current_line

/-- What the functions outside `parseSegment` keep as well: the segments. -/
def Moves (p q : AMSParser) : Prop :=
  q.lines = p.lines ∧ p.current_line ≤ q.current_line ∧ q.segments = p.segments

/-- The segments are in the order of their headers, all above the cursor. -/
def inDefinitionOrder (p : AMSParser) : Prop :=
  (p.segments.map (fun seg => seg.definition_line)).Pairwise (fun a b => a < b)
    ∧ ∀ seg ∈ p.segments, seg.definition_line < p.current_line

end MIDIProg

/-! ## The parser of the JSON program -/

namespace JSONProg

/-- The `struct ParseError`. -/
structure ParseError where
  line_number : Nat := 0
  line_content : Str := []
  error_message : Str := []
  error_type : Str := []
deriving DecidableEq

/-- The class `AMSParser` of `AMS_Parser_JSON.cpp`. -/
structure AMSParser where
  lines : List Str := []
  original_lines : List Str := []
  current_line : Nat := 0
  metadata : Metadata
  map_block : MapBlock := {}
  macros : List (Str × Str) := []
  macro_definitions : List (Str × Nat) := []
  segments : List Segment := []
  segment_definitions : List (Int × Nat) := []
  segment_name_definitions : List (Str × Nat) := []
  errors : List ParseError := []
  has_main_block : Bool := false
deriving DecidableEq

/-- The set `valid_keys`. -/
def valid_keys : List Str := ["C", "D", "E", "F", "G", "A", "B"].map String.toList

/-- The set `valid_scales`. -/
def valid_scales : List Str := ["Major", "Minor", "HarmonicMinor"].map String.toList

/-- The constructor, on the content of a file that could be opened. The
members `metadata.tempo` and `metadata.difficulty` are not initialised by the
C++ code; `tempo0` and `difficulty0` are the values they happen to hold. -/
def AMSParser.new (content : Str) (tempo0 difficulty0 : Int) : AMSParser :=
  { lines := (getlines content).map (fun line => trim (removeComments line))
    original_lines := getlines content
    metadata := { tempo := tempo0, difficulty := difficulty0 } }

/-- The cursor moved one line on. -/
def AMSParser.advance (p : AMSParser) : AMSParser :=
  { p with current_line := p.current_line + 1 }

/-- The method `addError`; `line_num = none` is the default argument `-1`,
which stands for the current line. -/
def AMSParser.addError (p : AMSParser) (type message : Str) (line_num : Option Nat := none) :
    AMSParser :=
  let n := line_num.getD p.current_line
  let err : ParseError :=
    { error_type := type
      error_message := message
      line_number := n + 1
      line_content := match p.original_lines[n]? with
        | some l => trim l
        | none => [] }
  { p with errors := p.errors ++ [err] }

/-- The method `parseDuration`. -/
def parseDuration (str : Str) (note : Note) : Note :=
  if str.isEmpty then { note with duration := 1 }
  else if str = ".h".toList then { note with duration := 2 }
  else if str = ".w".toList then { note with duration := 4 }
  else if str = ".e".toList then { note with duration := mkRat 1 2 }
  else if str = ".s".toList then { note with duration := mkRat 1 4 }
  else if str = ".h.".toList then { note with duration := 3, is_dotted := true }
  else if str = ".".toList then { note with duration := mkRat 3 2, is_dotted := true }
  else if str = ".e.".toList then { note with duration := mkRat 3 4, is_dotted := true }
  else { note with duration := 1 }

/-- A character of a dynamic marking. -/
def isDynamicChar (c : Char) : Bool := c = 'p' || c = 'f' || c = 'm'

/-- The second `while` loop of `parseNote`, on the characters from index `i`
on. Every round consumes a character, so `str.size() + 1` rounds are enough. -/
def parseNoteLoop : Nat → Str → Note → Except Fault Note
  | 0, _, _ => .error .out_of_fuel
  | _ + 1, [], note => .ok note
  | fuel + 1, c :: rest, note =>
    if c = '#' then parseNoteLoop fuel rest { note with accidental := "#".toList }
    else if c = 'b' then parseNoteLoop fuel rest { note with accidental := "b".toList }
    else if c = '^' then
      let sign : Str × Str :=
        match rest with
        | '-' :: r => (['-'], r)
        | _ => ([], rest)
      let shift_str := sign.1 ++ sign.2.takeWhile isdigit
      let rest2 := sign.2.dropWhile isdigit
      if shift_str.isEmpty then parseNoteLoop fuel rest2 note
      else do
        let v ← stoi shift_str
        parseNoteLoop fuel rest2 { note with octave_shift := v }
    else if c = '!' ∨ c = '~' ∨ c = '>' then
      parseNoteLoop fuel rest { note with articulation := [c] }
    else if c = '(' ∧ rest.head? = some 'h' then
      parseNoteLoop fuel (rest.drop 2) { note with articulation := "(h)".toList }
    else if isDynamicChar c then
      parseNoteLoop fuel (rest.dropWhile isDynamicChar)
        { note with dynamic := c :: rest.takeWhile isDynamicChar }
    else if c = '.' then .ok (parseDuration (c :: rest) note)
    else parseNoteLoop fuel rest note

/-- The method `parseNote`. -/
def parseNote (str : Str) : Except Fault Note :=
  let note : Note := {}
  match str with
  | [] => .ok note
  | c0 :: tail =>
    if c0 = 'R' then .ok (parseDuration tail { note with is_rest := true })
    else
      let degree_str := str.takeWhile isdigit
      let rest := str.dropWhile isdigit
      if degree_str.isEmpty then parseNoteLoop (str.length + 1) rest note
      else do
        let d ← stoi degree_str
        parseNoteLoop (str.length + 1) rest { note with degree := d }

/-- The chord test of `parseChord`: some `.` stands between two digits. -/
def hasDigitDotDigit : Str → Bool
  | a :: b :: c :: rest =>
    (isdigit a && b = '.' && isdigit c) || hasDigitDotDigit (b :: c :: rest)
  | _ => false

/-- The splitting loop of `parseChord`: a `.` followed by a digit ends the
current part, which is kept when it is not empty. -/
def splitNoteParts : Str → Str → List Str
  | [], current => if current.isEmpty then [] else [current]
  | c :: rest, current =>
    if c = '.' ∧ (rest.head?.map isdigit = some true) then
      if current.isEmpty then splitNoteParts rest []
      else current :: splitNoteParts rest []
    else splitNoteParts rest (current ++ [c])

/-- The loop over `note_parts` of `parseChord`. -/
def chordNotesLoop : List Str → Chord → AMSParser → Except Fault (Chord × AMSParser)
  | [], chord, p => .ok (chord, p)
  | np :: nps, chord, p =>
    if np.head?.map isdigit = some true then do
      let d ← stoi np
      let p1 :=
        if d < 1 ∨ d > 7 then
          p.addError "LOGIC".toList
            ("Invalid note degree in chord: ".toList ++ np ++ " (must be 1-7)".toList)
        else p
      let n : Note :=
        { degree := d, duration := chord.duration, is_dotted := chord.is_dotted,
          is_rest := false }
      chordNotesLoop nps { chord with notes := chord.notes ++ [n] } p1
    else chordNotesLoop nps chord p

/-- The method `parseChord`; it is called on non-empty tokens only. -/
def parseChord (str : Str) (p : AMSParser) : Except Fault (Chord × AMSParser) :=
  let chord : Chord := {}
  if hasDigitDotDigit str then
    let note_parts := splitNoteParts str []
    match note_parts.getLast? with
    | none => .ok (chord, p)
    | some last => do
      let note_parts := note_parts.dropLast
      let duration_note ← parseNote last
      let chord := { chord with duration := duration_note.duration,
                                is_dotted := duration_note.is_dotted }
      let note_parts :=
        if duration_note.degree > 0 then note_parts ++ [to_string duration_note.degree]
        else note_parts
      chordNotesLoop note_parts chord p
  else do
    let n ← parseNote str
    let p1 :=
      if !n.is_rest ∧ n.degree ≠ 0 ∧ (n.degree < 1 ∨ n.degree > 7) then
        p.addError "LOGIC".toList
          ("Invalid note degree: ".toList ++ str ++ " (must be 1-7)".toList)
      else p
    .ok ({ chord with notes := chord.notes ++ [n], duration := n.duration,
                      is_dotted := n.is_dotted }, p1)

/-- The method `parseChordSequence`. -/
def parseChordSequence (str : Str) (p : AMSParser) : Except Fault (List Chord × AMSParser) :=
  (split str ',').foldlM
    (fun (acc : List Chord × AMSParser) part =>
      let trimmed := trim part
      if trimmed.isEmpty then .ok acc
      else do
        let r ← parseChord trimmed acc.2
        .ok (acc.1 ++ [r.1], r.2))
    ([], p)

/-- The method `parseChunks`. -/
def parseChunks (data : Str) (p : AMSParser) :
    Except Fault (List (List Chord) × AMSParser) :=
  (split data '|').foldlM
    (fun (acc : List (List Chord) × AMSParser) chunk_str =>
      if chunk_str.isEmpty then .ok acc
      else do
        let r ← parseChordSequence chunk_str acc.2
        .ok (if r.1.isEmpty then acc.1 else acc.1 ++ [r.1], r.2))
    ([], p)

/-- The loop of `parseHand`; the result carries `found_close`. The cursor
stays on the closing line. -/
def parseHandLoop : Nat → Str → AMSParser → Except Fault (Hand × Bool × AMSParser)
  | 0, _, _ => .error .out_of_fuel
  | fuel + 1, chunk_data, p =>
    match p.lines[p.current_line]? with
    | none => .ok ({}, false, p)
    | some l =>
      if l.isEmpty then parseHandLoop fuel chunk_data p.advance
      else
        let line := trim l
        if line = "\x7d".toList then
          if chunk_data.isEmpty then .ok ({}, true, p)
          else do
            let r ← parseChunks chunk_data p
            .ok ({ chunks := r.1 }, true, r.2)
        else if startsWith line "SYNC()".toList || startsWith line "Position(".toList then
          parseHandLoop fuel chunk_data p.advance
        else parseHandLoop fuel (chunk_data ++ line ++ " ".toList) p.advance

/-- The method `parseHand`. -/
def parseHand (p : AMSParser) : Except Fault (Hand × AMSParser) := do
  let hand_start_line := p.current_line
  let r ← parseHandLoop (p.lines.length + 1) [] p.advance
  if r.2.1 then .ok (r.1, r.2.2)
  else
    .ok (r.1, r.2.2.addError "SYNTAX".toList
      "Unclosed hand block - missing \x27\x7d\x27".toList (some hand_start_line))

/-- The loop of `parseMetadata`. -/
def parseMetadataLoop : Nat → AMSParser → Except Fault AMSParser
  | 0, _ => .error .out_of_fuel
  | fuel + 1, p =>
    match p.lines[p.current_line]? with
    | none => .ok p
    | some line =>
      if line.isEmpty then parseMetadataLoop fuel p.advance
      else if startsWith line "Title:".toList then
        parseMetadataLoop fuel
          { p with metadata := { p.metadata with title := extractValue line } }.advance
      else if startsWith line "Composer:".toList then
        parseMetadataLoop fuel
          { p with metadata := { p.metadata with composer := extractValue line } }.advance
      else if startsWith line "Key:".toList then
        parseMetadataLoop fuel
          { p with metadata := { p.metadata with key := extractValue line } }.advance
      else if startsWith line "Tempo:".toList then
        let tempo_str := extractValue line
        match stoi tempo_str with
        | .ok t =>
          let p1 := { p with metadata := { p.metadata with tempo := t } }
          let p2 :=
            if t ≤ 0 ∨ t > 300 then
              p1.addError "LOGIC".toList
                ("Tempo must be between 1 and 300 BPM, got: ".toList ++ tempo_str)
            else p1
          parseMetadataLoop fuel p2.advance
        | .error _ =>
          parseMetadataLoop fuel
            (p.addError "SYNTAX".toList ("Invalid tempo value: ".toList ++ tempo_str)).advance
      else if startsWith line "TimeSignature:".toList then
        parseMetadataLoop fuel
          { p with metadata := { p.metadata with time_signature := extractValue line } }.advance
      else if startsWith line "Difficulty:".toList then
        let diff_str := extractValue line
        match stoi diff_str with
        | .ok d =>
          let p1 := { p with metadata := { p.metadata with difficulty := d } }
          let p2 :=
            if d < 0 ∨ d > 10 then
              p1.addError "LOGIC".toList
                ("Difficulty must be between 0 and 10, got: ".toList ++ diff_str)
            else p1
          parseMetadataLoop fuel p2.advance
        | .error _ =>
          parseMetadataLoop fuel
            (p.addError "SYNTAX".toList
              ("Invalid difficulty value: ".toList ++ diff_str)).advance
      else if startsWith line "Map \x7b".toList then .ok p
      else parseMetadataLoop fuel p.advance

/-- The method `parseMetadata`. -/
def parseMetadata (p : AMSParser) : Except Fault AMSParser :=
  parseMetadataLoop (p.lines.length + 1) p

/-- The loop of `parseMap`. -/
def parseMapLoop : Nat → AMSParser → Except Fault (Bool × AMSParser)
  | 0, _ => .error .out_of_fuel
  | fuel + 1, p =>
    match p.lines[p.current_line]? with
    | none =>
      .ok (false, p.addError "SYNTAX".toList
        "Unclosed Map block - missing \x27\x7d\x27".toList (some p.map_block.line_number))
    | some l =>
      if l.isEmpty then parseMapLoop fuel p.advance
      else
        let line := trim l
        if line = "\x7d".toList then .ok (true, p.advance)
        else if startsWith line "Key:".toList then
          parseMapLoop fuel
            { p with map_block := { p.map_block with key := extractValue line } }.advance
        else if startsWith line "Scale:".toList then
          parseMapLoop fuel
            { p with map_block := { p.map_block with scale := extractValue line } }.advance
        else
          parseMapLoop fuel
            (p.addError "SYNTAX".toList
              ("Unexpected content in Map block: ".toList ++ line)).advance

/-- The method `parseMap`. -/
def parseMap (p : AMSParser) : Except Fault (Bool × AMSParser) :=
  match p.lines[p.current_line]? with
  | none => .ok (false, p)
  | some line =>
    if !startsWith line "Map \x7b".toList then .ok (false, p)
    else
      parseMapLoop (p.lines.length + 1)
        { p with map_block :=
            { p.map_block with defined := true, line_number := p.current_line } }.advance

/-- The method `validateMap`. -/
def validateMap (p : AMSParser) : Bool × AMSParser :=
  if p.map_block.key.isEmpty then
    (false, p.addError "SEMANTIC".toList "Map block must specify a Key".toList
      (some p.map_block.line_number))
  else if p.map_block.scale.isEmpty then
    (false, p.addError "SEMANTIC".toList "Map block must specify a Scale".toList
      (some p.map_block.line_number))
  else if p.map_block.key ∉ valid_keys then
    (false, p.addError "LOGIC".toList
      ("Invalid key \x27".toList ++ p.map_block.key
        ++ "\x27. Valid keys: C, D, E, F, G, A, B".toList)
      (some p.map_block.line_number))
  else if p.map_block.scale ∉ valid_scales then
    (false, p.addError "LOGIC".toList
      ("Invalid scale \x27".toList ++ p.map_block.scale
        ++ "\x27. Valid scales: Major, Minor, HarmonicMinor".toList)
      (some p.map_block.line_number))
  else (true, p)

/-- The table `scale_mappings` of the JSON program. -/
def scale_mappings : List (Str × List Str) :=
  [("C_Major".toList, ["C", "D", "E", "F", "G", "A", "B"].map String.toList),
   ("A_Minor".toList, ["A", "B", "C", "D", "E", "F", "G"].map String.toList),
   ("G_Major".toList, ["G", "A", "B", "C", "D", "E", "F#"].map String.toList),
   ("D_Major".toList, ["D", "E", "F#", "G", "A", "B", "C#"].map String.toList),
   ("E_Major".toList, ["E", "F#", "G#", "A", "B", "C#", "D#"].map String.toList),
   ("F_Major".toList, ["F", "G", "A", "Bb", "C", "D", "E"].map String.toList),
   ("B_Major".toList, ["B", "C#", "D#", "E", "F#", "G#", "A#"].map String.toList),
   ("E_Minor".toList, ["E", "F#", "G", "A", "B", "C", "D"].map String.toList),
   ("D_Minor".toList, ["D", "E", "F", "G", "A", "Bb", "C"].map String.toList)]

/-- The loop `for (int i = 0; i < 7; i++) note_mapping[i + 1] = scale[i]`. -/
def storeScale (scale : List Str) (m : List (Int × Str)) : List (Int × Str) :=
  (List.range 7).foldl (fun acc i => mapSet acc (Int.ofNat i + 1) (scale.getD i [])) m

/-- The method `generateNoteMapping`. -/
def generateNoteMapping (p : AMSParser) : AMSParser :=
  let key := p.map_block.key ++ "_".toList ++ p.map_block.scale
  let scale :=
    match scale_mappings.lookup key with
    | some sc => sc
    | none => (scale_mappings.lookup "C_Major".toList).getD []
  { p with map_block :=
      { p.map_block with note_mapping := storeScale scale p.map_block.note_mapping } }

/-- The pattern `Define\s+([A-Z_]+)\s*\{`. -/
def define_regex : List RegexItem :=
  lits "Define" ++ [RegexItem.cls isspace 1 false, RegexItem.cls isUpperOrUnderscore 1 true,
    RegexItem.cls isspace 0 false] ++ lits "\x7b"

/-- The pattern `Segment\((\d+),\s*([A-Z_]+)\);`. -/
def seg_call_regex : List RegexItem :=
  lits "Segment(" ++ [RegexItem.cls isdigit 1 true] ++ lits ","
    ++ [RegexItem.cls isspace 0 false, RegexItem.cls isUpperOrUnderscore 1 true] ++ lits ");"

/-- The pattern `Repeat\((\d+)\)\s*\{`. -/
def repeat_regex : List RegexItem :=
  lits "Repeat(" ++ [RegexItem.cls isdigit 1 true] ++ lits ")"
    ++ [RegexItem.cls isspace 0 false] ++ lits "\x7b"

/-- The body loop of `parseMacro`; the result carries `found_close`. -/
def parseMacroLoop (macro_name : Str) : Nat → Str → AMSParser → Except Fault (Bool × AMSParser)
  | 0, _, _ => .error .out_of_fuel
  | fuel + 1, macro_body, p =>
    match p.lines[p.current_line]? with
    | none => .ok (false, p)
    | some l =>
      let line := trim l
      if line = "\x7d".toList then
        .ok (true, { p with macros := mapSet p.macros macro_name macro_body }.advance)
      else parseMacroLoop macro_name fuel (macro_body ++ line ++ " ".toList) p.advance

/-- The method `parseMacro`. When the header does not match, an error is
recorded and the cursor stays. -/
def parseMacro (p : AMSParser) : Except Fault AMSParser :=
  match regex_search define_regex (p.lines.getD p.current_line []) with
  | some [macro_name] =>
    let definition_line := p.current_line
    match p.macro_definitions.lookup macro_name with
    | some line0 =>
      .ok (p.addError "REDEFINITION".toList
        ("Macro \x27".toList ++ macro_name ++ "\x27 already defined at line ".toList
          ++ to_string (Int.ofNat line0 + 1))).advance
    | none => do
      let p1 :=
        { p with macro_definitions := mapSet p.macro_definitions macro_name definition_line }
      let r ← parseMacroLoop macro_name (p.lines.length + 1) [] p1.advance
      if r.1 then .ok r.2
      else
        .ok (r.2.addError "SYNTAX".toList
          ("Unclosed Define block for macro \x27".toList ++ macro_name
            ++ "\x27 - missing \x27\x7d\x27".toList)
          (some definition_line))
  | _ =>
    .ok (p.addError "SYNTAX".toList
      "Invalid Define syntax - expected: Define MACRO_NAME \x7b".toList)

/-- The body loop of `parseSegment`; the state is the segment under
construction with `has_left` and `has_right`, the result carries `found_end`. -/
def parseSegmentLoop : Nat → Segment → Bool → Bool → AMSParser → Except Fault (Bool × AMSParser)
  | 0, _, _, _, _ => .error .out_of_fuel
  | fuel + 1, seg, has_left, has_right, p =>
    match p.lines[p.current_line]? with
    | none => .ok (false, p)
    | some l =>
      if l.isEmpty then parseSegmentLoop fuel seg has_left has_right p.advance
      else
        let line := trim l
        if line = "END;".toList then
          let p1 :=
            if !has_left ∧ !has_right then
              p.addError "LOGIC".toList
                ("Segment \x27".toList ++ seg.name ++ "\x27 has no hand blocks defined".toList)
                (some seg.definition_line)
            else p
          .ok (true, { p1 with segments := p1.segments ++ [seg] }.advance)
        else if startsWith line "Tempo(".toList then do
          let t ← extractNumber line
          let p1 :=
            if t ≤ 0 ∨ t > 300 then
              p.addError "LOGIC".toList ("Invalid tempo in segment: ".toList ++ to_string t)
            else p
          parseSegmentLoop fuel { seg with tempo := t } has_left has_right p1.advance
        else if startsWith line "Begin.LEFT \x7b".toList then do
          let p1 :=
            if has_left then
              p.addError "REDEFINITION".toList
                ("Multiple Begin.LEFT blocks in segment \x27".toList ++ seg.name
                  ++ "\x27".toList)
            else p
          let r ← parseHand p1
          parseSegmentLoop fuel { seg with left := r.1 } true has_right r.2.advance
        else if startsWith line "Begin.RIGHT \x7b".toList then do
          let p1 :=
            if has_right then
              p.addError "REDEFINITION".toList
                ("Multiple Begin.RIGHT blocks in segment \x27".toList ++ seg.name
                  ++ "\x27".toList)
            else p
          let r ← parseHand p1
          parseSegmentLoop fuel { seg with right := r.1 } has_left true r.2.advance
        else
          parseSegmentLoop fuel seg has_left has_right
            (p.addError "SYNTAX".toList
              ("Unexpected content in segment: ".toList ++ line)).advance

/-- The method `parseSegment`. When the header does not match, an error is
recorded and the cursor stays. -/
def parseSegment (p : AMSParser) : Except Fault AMSParser :=
  match regex_search seg_regex (p.lines.getD p.current_line []) with
  | some [m1, m2] => do
    let id ← stoi m1
    let seg : Segment :=
      { id := id, name := m2, tempo := p.metadata.tempo, definition_line := p.current_line }
    match p.segment_definitions.lookup seg.id with
    | some line0 =>
      .ok (p.addError "REDEFINITION".toList
        ("Segment with ID ".toList ++ to_string seg.id ++ " already defined at line ".toList
          ++ to_string (Int.ofNat line0 + 1))).advance
    | none =>
      match p.segment_name_definitions.lookup seg.name with
      | some line0 =>
        .ok (p.addError "REDEFINITION".toList
          ("Segment with name \x27".toList ++ seg.name
            ++ "\x27 already defined at line ".toList ++ to_string (Int.ofNat line0 + 1))).advance
      | none => do
        let p1 :=
          { p with
            segment_definitions := mapSet p.segment_definitions seg.id p.current_line
            segment_name_definitions :=
              mapSet p.segment_name_definitions seg.name p.current_line }
        let r ← parseSegmentLoop (p.lines.length + 1) seg false false p1.advance
        if r.1 then .ok r.2
        else
          .ok (r.2.addError "SYNTAX".toList
            ("Segment \x27".toList ++ seg.name ++ "\x27 missing END; terminator".toList)
            (some seg.definition_line))
  | _ =>
    .ok (p.addError "SYNTAX".toList
      "Invalid Segment syntax - expected: Segment(id, NAME)".toList)

/-- The search for the opening brace on the lines after `Main()`: the
result is `found_open`, or `none` when the method returns from inside the loop
after recording the error. -/
def findMainOpenLoop : Nat → AMSParser → Except Fault (Option Bool × AMSParser)
  | 0, _ => .error .out_of_fuel
  | fuel + 1, p =>
    match p.lines[p.current_line]? with
    | none => .ok (some false, p)
    | some l =>
      if l.isEmpty then findMainOpenLoop fuel p.advance
      else
        let line := trim l
        if line = "\x7b".toList then .ok (some true, p.advance)
        else
          .ok (none, p.addError "SYNTAX".toList
            "Expected \x27\x7b\x27 after Main()".toList)

/-- The content loop of `parseMain`; the result carries `found_close`. The
local set `used_segments` is written and never read, and is left out. -/
def parseMainLoop : Nat → AMSParser → Except Fault (Bool × AMSParser)
  | 0, _ => .error .out_of_fuel
  | fuel + 1, p =>
    match p.lines[p.current_line]? with
    | none => .ok (false, p)
    | some l =>
      if l.isEmpty then parseMainLoop fuel p.advance
      else
        let line := trim l
        if line = "\x7d".toList then .ok (true, p.advance)
        else if startsWith line "Segment(".toList then
          match regex_search seg_call_regex line with
          | some [m1, _] => do
            let seg_id ← stoi m1
            let p1 :=
              match p.segment_definitions.lookup seg_id with
              | none =>
                p.addError "SEMANTIC".toList
                  ("Undefined segment ID: ".toList ++ to_string seg_id
                    ++ " (Segment not defined before Main block)".toList)
              | some _ => p
            parseMainLoop fuel p1.advance
          | _ =>
            parseMainLoop fuel
              (p.addError "SYNTAX".toList
                "Invalid Segment call syntax - expected: Segment(id, NAME);".toList).advance
        else if startsWith line "Repeat(".toList then
          match regex_search repeat_regex line with
          | some [m1] => do
            let repeat_count ← stoi m1
            let p1 :=
              if repeat_count ≤ 0 then
                p.addError "LOGIC".toList
                  ("Repeat count must be positive, got: ".toList ++ to_string repeat_count)
              else p
            parseMainLoop fuel p1.advance
          | _ =>
            parseMainLoop fuel
              (p.addError "SYNTAX".toList
                "Invalid Repeat syntax - expected: Repeat(count) \x7b".toList).advance
        else if startsWith line "LEFT:".toList || startsWith line "RIGHT:".toList then
          parseMainLoop fuel p.advance
        else if line ≠ "\x7b".toList ∧ line ≠ "\x7d".toList then
          parseMainLoop fuel
            (p.addError "SYNTAX".toList
              ("Unexpected content in Main block: ".toList ++ line)).advance
        else parseMainLoop fuel p.advance

/-- The method `parseMain`. -/
def parseMain (p : AMSParser) : Except Fault AMSParser := do
  let main_line := p.current_line
  let line := p.lines.getD p.current_line []
  let opened ←
    if line.contains (Char.ofNat 123) then .ok (some true, p.advance)
    else findMainOpenLoop (p.lines.length + 1) p.advance
  match opened.1 with
  | none => .ok opened.2
  | some false =>
    .ok (opened.2.addError "SYNTAX".toList
      "Main() block missing opening \x27\x7b\x27".toList (some main_line))
  | some true => do
    let r ← parseMainLoop (p.lines.length + 1) opened.2
    if r.1 then .ok r.2
    else
      .ok (r.2.addError "SYNTAX".toList
        "Main() block missing closing \x27\x7d\x27".toList (some main_line))

/-- The function `std::to_string(double)`, the format `%f`: six decimals,
rounded to nearest, ties to even. -/
def to_string_double (x : ℚ) : Str :=
  let scaled : Nat := x.num.natAbs * 1000000
  let q := scaled / x.den
  let r := scaled % x.den
  let n := if 2 * r > x.den ∨ (2 * r = x.den ∧ q % 2 = 1) then q + 1 else q
  let frac := Nat.toDigits 10 (n % 1000000)
  let body :=
    Nat.toDigits 10 (n / 1000000) ++ ".".toList ++ List.replicate (6 - frac.length) '0' ++ frac
  if x < 0 then '-' :: body else body

/-- The sum of the chord durations of chunk `i` of a hand, `0.0` when the
hand has no such chunk. -/
def chunkDuration (hand : Hand) (i : Nat) : ℚ :=
  match hand.chunks[i]? with
  | some chunk => chunk.foldl (fun acc chord => acc + chord.duration) 0
  | none => 0

/-- The `double` denoted by the literal `0.01`. -/
def tolerance : ℚ := mkRat 5764607523034235 576460752303423488

/-- The method `validateChunkAlignment`. -/
def validateChunkAlignment (seg : Segment) (p : AMSParser) : AMSParser :=
  let max_chunks := max seg.left.chunks.length seg.right.chunks.length
  (List.range max_chunks).foldl
    (fun p i =>
      let left_duration := chunkDuration seg.left i
      let right_duration := chunkDuration seg.right i
      if |left_duration - right_duration| > tolerance then
        p.addError "LOGIC".toList
          ("Duration mismatch in segment \x27".toList ++ seg.name ++ "\x27 chunk ".toList
            ++ to_string (Int.ofNat i + 1) ++ ": LEFT=".toList
            ++ to_string_double left_duration ++ " beats, RIGHT=".toList
            ++ to_string_double right_duration ++ " beats".toList)
          (some seg.definition_line)
      else p)
    p

/-- The method `validateSegments`. -/
def validateSegments (p : AMSParser) : AMSParser :=
  p.segments.foldl
    (fun p seg =>
      let left_empty := seg.left.chunks.isEmpty
      let right_empty := seg.right.chunks.isEmpty
      if left_empty ∧ right_empty then
        p.addError "LOGIC".toList
          ("Segment \x27".toList ++ seg.name ++ "\x27 has no musical content".toList)
          (some seg.definition_line)
      else if !left_empty ∧ !right_empty then validateChunkAlignment seg p
      else p)
    p

/-- The `while` loop of `parse`. A `Define ` or `Segment(` line whose header
does not match leaves the cursor where it is, and the loop does not end. -/
def parseLoop : Nat → AMSParser → Except Fault AMSParser
  | 0, _ => .error .out_of_fuel
  | fuel + 1, p =>
    match p.lines[p.current_line]? with
    | none => .ok p
    | some line =>
      if line.isEmpty then parseLoop fuel p.advance
      else if startsWith line "Define ".toList then do
        let p1 ← parseMacro p
        parseLoop fuel p1
      else if startsWith line "Segment(".toList then do
        let p1 ← parseSegment p
        parseLoop fuel p1
      else if startsWith line "Main()".toList then
        parseMain { p with has_main_block := true }
      else parseLoop fuel p.advance

/-- The method `parse`; `fuel` bounds the rounds of its `while` loop. -/
def parse (fuel : Nat) (p : AMSParser) : Except Fault (Bool × AMSParser) := do
  let p1 ← parseMetadata p
  let r ← parseMap p1
  if !r.1 then
    .ok (false, r.2.addError "SEMANTIC".toList
      "Missing required Map block - every AMS file must define a Map".toList)
  else
    let v := validateMap r.2
    if !v.1 then .ok (false, v.2)
    else do
      let p2 := generateNoteMapping v.2
      let p3 ← parseLoop fuel p2
      if !p3.has_main_block then
        .ok (false, p3.addError "SEMANTIC".toList
          "Missing required Main() block - every AMS file must define playback order".toList)
      else
        let p4 := if !p3.segments.isEmpty then validateSegments p3 else p3
        .ok (p4.errors.isEmpty, p4)

/-- The `pitch` member `noteToJSON` writes for a note that is not a rest and
has a positive degree: the letter of the note mapping, the empty string when
the degree is not mapped; `none` for the notes that get no such member. -/
def noteToJSON_pitch (map_block : MapBlock) (note : Note) : Option Str :=
  if !note.is_rest ∧ note.degree > 0 then
    match map_block.note_mapping.lookup note.degree with
    | some pitch => some pitch
    | none => some []
  else none

/-! ## The errors of segment validation, spelled out -/

/-- The record `addError` appends for the line index `n`. -/
def errorRecord (original_lines : List Str) (type message : Str) (n : Nat) : ParseError :=
  { error_type := type
    error_message := message
    line_number := n + 1
    line_content := match original_lines[n]? with
      | some l => trim l
      | none => [] }

/-- The test of `validateChunkAlignment` at chunk index `i`: the sums of the
two hands differ by more than the `double` `0.01`. -/
def durationMismatch (seg : Segment) (i : Nat) : Bool :=
  decide (|chunkDuration seg.left i - chunkDuration seg.right i| > tolerance)

/-- The error `validateChunkAlignment` records at chunk index `i`. -/
def mismatchError (original_lines : List Str) (seg : Segment) (i : Nat) : ParseError :=
  errorRecord original_lines "LOGIC".toList
    ("Duration mismatch in segment \x27".toList ++ seg.name ++ "\x27 chunk ".toList
      ++ to_string (Int.ofNat i + 1) ++ ": LEFT=".toList
      ++ to_string_double (chunkDuration seg.left i) ++ " beats, RIGHT=".toList
      ++ to_string_double (chunkDuration seg.right i) ++ " beats".toList)
    seg.definition_line

/-- The error `validateSegments` records for a segment without content. -/
def noContentError (original_lines : List Str) (seg : Segment) : ParseError :=
  errorRecord original_lines "LOGIC".toList
    ("Segment \x27".toList ++ seg.name ++ "\x27 has no musical content".toList)
    seg.definition_line

/-- The members the uniqueness checks of `parseSegment` read and write. -/
def segmentView (p : AMSParser) : List Segment × List (Int × Nat) × List (Str × Nat) :=
  (p.segments, p.segment_definitions, p.segment_name_definitions)

/-- The invariant of the segment list: the id and the name of every retained
segment are registered, and the ids, like the names, are pairwise distinct. -/
def segmentsUnique (v : List Segment × List (Int × Nat) × List (Str × Nat)) : Prop :=
  (∀ s ∈ v.1, (v.2.1.lookup s.id).isSome ∧ (v.2.2.lookup s.name).isSome)
    ∧ (v.1.map (fun s => s.id)).Nodup ∧ (v.1.map (fun s => s.name)).Nodup

/-- The step of the segment list over the body of a segment definition: the
registrations are kept, and the list is kept or gains one segment with the id
and the name of the header. -/
def segmentPushed (id : Int) (name : Str)
    (v w : List Segment × List (Int × Nat) × List (Str × Nat)) : Prop :=
  w.2 = v.2 ∧ (w.1 = v.1 ∨ ∃ seg : Segment, seg.id = id ∧ seg.name = name ∧ w.1 = v.1 ++ [seg])

/-- What every parser function but `generateNoteMapping` and the `Main()`
branch of `parse` keeps: the lines, the flag `has_main_block` and the note
mapping stay, and the cursor does not move back. -/
def Keeps (p q : AMSParser) : Prop :=
  q.lines = p.lines ∧ q.original_lines = p.original_lines
    ∧ q.has_main_block = p.has_main_block
    ∧ q.map_block.note_mapping = p.map_block.note_mapping
    ∧ p.current_line ≤ q.current_line

/-! ## The JSON emitter -/

/-- The class `JSON`: the stream `ss`, the flag `first` and `indent_level`.
In the emitter every `end...` follows its `start...`, so the level never goes
below zero and is a natural number here. -/
structure JSON where
  ss : Str := []
  first : Bool := true
  indent_level : Nat := 0
deriving DecidableEq

/-- The method `indent`. -/
def JSON.indent (j : JSON) : Str := List.replicate (j.indent_level * 2) ' '

/-- The separator `",\n"` written before an item that is not the first. -/
def JSON.separator (j : JSON) : Str := if !j.first then ",\n".toList else []

/-- The method `startObject`. -/
def JSON.startObject (j : JSON) : JSON :=
  { ss := j.ss ++ "\x7b\n".toList, indent_level := j.indent_level + 1, first := true }

/-- The method `endObject`. -/
def JSON.endObject (j : JSON) : JSON :=
  { ss := j.ss ++ "\n".toList ++ List.replicate ((j.indent_level - 1) * 2) ' ' ++ "\x7d".toList
    indent_level := j.indent_level - 1, first := false }

/-- The method `startArray`. -/
def JSON.startArray (j : JSON) (key : Str) : JSON :=
  { ss := j.ss ++ j.separator ++ j.indent ++ [Char.ofNat 34] ++ key ++ "\": [\n".toList
    indent_level := j.indent_level + 1, first := true }

/-- The method `endArray`. -/
def JSON.endArray (j : JSON) : JSON :=
  { ss := j.ss ++ "\n".toList ++ List.replicate ((j.indent_level - 1) * 2) ' ' ++ "]".toList
    indent_level := j.indent_level - 1, first := false }

/-- The method `addString`; the value is written as it is, without escaping. -/
def JSON.addString (j : JSON) (key value : Str) : JSON :=
  { j with
    ss := j.ss ++ j.separator ++ j.indent ++ [Char.ofNat 34] ++ key ++ "\": \"".toList ++ value
      ++ [Char.ofNat 34]
    first := false }

/-- The method `addNumber` for an `int`. -/
def JSON.addInt (j : JSON) (key : Str) (value : Int) : JSON :=
  { j with
    ss := j.ss ++ j.separator ++ j.indent ++ [Char.ofNat 34] ++ key ++ "\": ".toList
      ++ to_string value
    first := false }

/-- The exponent of the leading decimal digit of `num / den` when it is below
1: the least `k` from the start value on with `num * 10 ^ k ≥ den`. -/
def leadingZeros (num den : Nat) : Nat → Nat → Nat
  | 0, k => k
  | fuel + 1, k => if num * 10 ^ k ≥ den then k else leadingZeros num den fuel (k + 1)

/-- A digit string without its trailing zeros. -/
def stripZeros (digits : Str) : Str := (digits.reverse.dropWhile (fun c => c = '0')).reverse

/-- The insertion `ss << value` of a `double` in the default format of a
stream, that of `printf("%g")` with precision 6: six significant digits,
rounded to nearest with ties to even, in fixed notation when the decimal
exponent is in -4..5 and in scientific notation otherwise, without trailing
zeros. -/
def double_to_stream (x : ℚ) : Str :=
  if x = 0 then "0".toList
  else
    let num := x.num.natAbs
    let den := x.den
    -- the decimal exponent before rounding
    let e0 : Int :=
      if num ≥ den then Int.ofNat ((Nat.toDigits 10 (num / den)).length - 1)
      else - Int.ofNat (leadingZeros num den ((Nat.toDigits 10 den).length + 1) 1)
    -- six significant digits: num / den * 10 ^ (5 - e0), rounded
    let scaledNum := if e0 ≤ 5 then num * 10 ^ (5 - e0).toNat else num
    let scaledDen := if e0 ≤ 5 then den else den * 10 ^ (e0 - 5).toNat
    let q := scaledNum / scaledDen
    let r := scaledNum % scaledDen
    let m0 := if 2 * r > scaledDen ∨ (2 * r = scaledDen ∧ q % 2 = 1) then q + 1 else q
    let m := if m0 ≥ 1000000 then m0 / 10 else m0
    let e : Int := if m0 ≥ 1000000 then e0 + 1 else e0
    let digits := Nat.toDigits 10 m
    let sign : Str := if x < 0 then "-".toList else []
    if -4 ≤ e ∧ e < 6 then
      if 0 ≤ e then
        let int_part := digits.take (e.toNat + 1)
        let frac := stripZeros (digits.drop (e.toNat + 1))
        sign ++ int_part ++ (if frac.isEmpty then [] else '.' :: frac)
      else
        sign ++ "0.".toList ++ List.replicate ((-e).toNat - 1) '0' ++ stripZeros digits
    else
      let frac := stripZeros (digits.drop 1)
      let exp_digits := Nat.toDigits 10 e.natAbs
      sign ++ digits.take 1 ++ (if frac.isEmpty then [] else '.' :: frac)
        ++ (if e < 0 then "e-".toList else "e+".toList)
        ++ (if exp_digits.length < 2 then '0' :: exp_digits else exp_digits)

/-- The method `addNumber` for a `double`. -/
def JSON.addDouble (j : JSON) (key : Str) (value : ℚ) : JSON :=
  { j with
    ss := j.ss ++ j.separator ++ j.indent ++ [Char.ofNat 34] ++ key ++ "\": ".toList
      ++ double_to_stream value
    first := false }

/-- The method `addBool`. -/
def JSON.addBool (j : JSON) (key : Str) (value : Bool) : JSON :=
  { j with
    ss := j.ss ++ j.separator ++ j.indent ++ [Char.ofNat 34] ++ key ++ "\": ".toList
      ++ (if value then "true".toList else "false".toList)
    first := false }

/-- The method `addRaw`. -/
def JSON.addRaw (j : JSON) (value : Str) : JSON :=
  { j with ss := j.ss ++ j.separator ++ j.indent ++ value, first := false }

/-- The method `noteToJSON`. -/
def noteToJSON (map_block : MapBlock) (note : Note) : Str :=
  let json : JSON := {}
  let json := json.startObject
  let json := json.addBool "isRest".toList note.is_rest
  let json :=
    if !note.is_rest ∧ note.degree > 0 then
      let json := json.addInt "degree".toList note.degree
      let json := json.addString "accidental".toList note.accidental
      let json := json.addInt "octaveShift".toList note.octave_shift
      match map_block.note_mapping.lookup note.degree with
      | some pitch => json.addString "pitch".toList pitch
      | none => json.addString "pitch".toList []
    else json
  let json := json.addDouble "duration".toList note.duration
  let json := json.addBool "isDotted".toList note.is_dotted
  let json := json.addString "articulation".toList note.articulation
  let json := json.addString "dynamic".toList note.dynamic
  json.endObject.ss

/-- The method `chordToJSON`. -/
def chordToJSON (map_block : MapBlock) (chord : Chord) : Str :=
  let json : JSON := {}
  let json := json.startObject
  let json := json.addDouble "duration".toList chord.duration
  let json := json.addBool "isDotted".toList chord.is_dotted
  let json := json.startArray "notes".toList
  let json := chord.notes.foldl (fun json note => json.addRaw (noteToJSON map_block note)) json
  json.endArray.endObject.ss

/-- The method `handToJSON`. -/
def handToJSON (map_block : MapBlock) (hand : Hand) : Str :=
  let json : JSON := {}
  let json := json.startArray "chunks".toList
  let json :=
    hand.chunks.foldl
      (fun json chunk =>
        let chunk_json : JSON := {}
        let chunk_json := chunk_json.startArray "chords".toList
        let chunk_json :=
          chunk.foldl (fun cj chord => cj.addRaw (chordToJSON map_block chord)) chunk_json
        json.addRaw chunk_json.endArray.ss)
      json
  "\x7b ".toList ++ json.endArray.ss ++ " \x7d".toList

/-- The method `segmentToJSON`. -/
def segmentToJSON (map_block : MapBlock) (seg : Segment) : Str :=
  let json : JSON := {}
  let json := json.startObject
  let json := json.addInt "id".toList seg.id
  let json := json.addString "name".toList seg.name
  let json := json.addInt "tempo".toList seg.tempo
  let json := json.addRaw ("\"left\": ".toList ++ handToJSON map_block seg.left)
  let json := json.addRaw ("\"right\": ".toList ++ handToJSON map_block seg.right)
  json.endObject.ss

/-- The method `toJSON`. The subscript `note_mapping[i]` gives the empty
string for a degree that is not mapped. -/
def toJSON (p : AMSParser) : Str :=
  let json : JSON := {}
  let json := json.startObject
  let json := json.addString "version".toList "3.0-Beta".toList
  let json := json.addString "title".toList p.metadata.title
  let json := json.addString "composer".toList p.metadata.composer
  let json := json.addString "key".toList p.metadata.key
  let json := json.addInt "tempo".toList p.metadata.tempo
  let json := json.addString "timeSignature".toList p.metadata.time_signature
  let json := json.addInt "difficulty".toList p.metadata.difficulty
  let json := json.startArray "map".toList
  let json := json.startObject
  let json := json.addString "key".toList p.map_block.key
  let json := json.addString "scale".toList p.map_block.scale
  let json := json.startArray "noteMapping".toList
  let json :=
    (List.range 7).foldl
      (fun json i =>
        json.addRaw ([Char.ofNat 34]
          ++ (p.map_block.note_mapping.lookup (Int.ofNat i + 1)).getD [] ++ [Char.ofNat 34]))
      json
  let json := json.endArray
  let json := json.endObject
  let json := json.endArray
  let json := json.startArray "segments".toList
  let json :=
    p.segments.foldl (fun json seg => json.addRaw (segmentToJSON p.map_block seg)) json
  let json := json.endArray
  json.endObject.ss

/-! ## Well-formed JSON texts (RFC 8259)

The grammar of JSON as a recogniser: each function takes the text that is left
and gives back what follows the item it has read, or `none`. -/

/-- JSON white space: space, tab, line feed, carriage return. -/
def jsonWs (c : Char) : Bool :=
  c = ' ' || c = Char.ofNat 9 || c = Char.ofNat 10 || c = Char.ofNat 13

/-- A hexadecimal digit. -/
def jsonHex (c : Char) : Bool :=
  isdigit c || (97 ≤ c.toNat && c.toNat ≤ 102) || (65 ≤ c.toNat && c.toNat ≤ 70)

/-- The rest of a string after its opening quote: unescaped characters from
U+0020 on other than the quote and the backslash, and the escapes. -/
def jsonStringRest : Str → Option Str
  | [] => none
  | c :: rest =>
    if c = Char.ofNat 34 then some rest
    else if c = Char.ofNat 92 then
      match rest with
      | 'u' :: h1 :: h2 :: h3 :: h4 :: rest2 =>
        if jsonHex h1 && jsonHex h2 && jsonHex h3 && jsonHex h4 then jsonStringRest rest2
        else none
      | e :: rest2 =>
        if e = Char.ofNat 34 || e = Char.ofNat 92 || e = '/' || e = 'b' || e = 'f' || e = 'n'
            || e = 'r' || e = 't' then jsonStringRest rest2
        else none
      | [] => none
    else if c.toNat < 32 then none
    else jsonStringRest rest

/-- A run of at least one digit. -/
def jsonDigits (s : Str) : Option Str :=
  if (s.takeWhile isdigit).isEmpty then none else some (s.dropWhile isdigit)

/-- A number: an optional minus, `0` or a digit run without leading zero, an
optional fraction, an optional exponent. -/
def jsonNumber (s : Str) : Option Str :=
  let s1 := match s with
    | '-' :: r => r
    | _ => s
  let afterInt : Option Str :=
    match s1 with
    | '0' :: r => some r
    | c :: _ => if isdigit c then jsonDigits s1 else none
    | [] => none
  match afterInt with
  | none => none
  | some s2 =>
    let afterFrac : Option Str :=
      match s2 with
      | '.' :: r => jsonDigits r
      | _ => some s2
    match afterFrac with
    | none => none
    | some s3 =>
      match s3 with
      | 'e' :: '+' :: r => jsonDigits r
      | 'e' :: '-' :: r => jsonDigits r
      | 'e' :: r => jsonDigits r
      | 'E' :: '+' :: r => jsonDigits r
      | 'E' :: '-' :: r => jsonDigits r
      | 'E' :: r => jsonDigits r
      | _ => some s3

/-- What the recogniser is reading: a value, the members of an object after
its opening brace, or the elements of an array after its opening bracket. -/
inductive JsonItem where
  | value
  | members
  | elements
deriving DecidableEq

/-- The recogniser of values, members and elements; every call it makes is on
a shorter text, so a fuel above the length of the text is enough. -/
def jsonItem : Nat → JsonItem → Str → Option Str
  | 0, _, _ => none
  | fuel + 1, .value, s =>
    match s with
    | '\x7b' :: rest =>
      match rest.dropWhile jsonWs with
      | '\x7d' :: r => some r
      | r => jsonItem fuel .members r
    | '[' :: rest =>
      match rest.dropWhile jsonWs with
      | ']' :: r => some r
      | r => jsonItem fuel .elements r
    | 't' :: 'r' :: 'u' :: 'e' :: rest => some rest
    | 'f' :: 'a' :: 'l' :: 's' :: 'e' :: rest => some rest
    | 'n' :: 'u' :: 'l' :: 'l' :: rest => some rest
    | c :: rest => if c = Char.ofNat 34 then jsonStringRest rest else jsonNumber (c :: rest)
    | [] => none
  | fuel + 1, .members, s =>
    match s with
    | c :: rest =>
      if c = Char.ofNat 34 then
        match jsonStringRest rest with
        | none => none
        | some r1 =>
          match r1.dropWhile jsonWs with
          | ':' :: r2 =>
            match jsonItem fuel .value (r2.dropWhile jsonWs) with
            | none => none
            | some r3 =>
              match r3.dropWhile jsonWs with
              | ',' :: r4 => jsonItem fuel .members (r4.dropWhile jsonWs)
              | '\x7d' :: r4 => some r4
              | _ => none
          | _ => none
      else none
    | [] => none
  | fuel + 1, .elements, s =>
    match jsonItem fuel .value s with
    | none => none
    | some r1 =>
      match r1.dropWhile jsonWs with
      | ',' :: r2 => jsonItem fuel .elements (r2.dropWhile jsonWs)
      | ']' :: r2 => some r2
      | _ => none

/-- A well-formed JSON text: white space, one value, white space. -/
def wellFormedJSON (s : Str) : Bool :=
  match jsonItem (s.length + 1) .value (s.dropWhile jsonWs) with
  | some rest => (rest.dropWhile jsonWs).isEmpty
  | none => false

/-- A well-formed JSON text whose value is an object. -/
def wellFormedJSONObject (s : Str) : Bool :=
  wellFormedJSON s && (s.dropWhile jsonWs).head? = some '\x7b'

/-! ## A parser state with one error more -/

/-- The parser state with the error `e` in front of its error list. -/
def withFirstError (e : ParseError) (p : AMSParser) : AMSParser :=
  { p with errors := e :: p.errors }

end JSONProg

/-! ## Sample inputs -/

/-- A minimal source: Map with Key C and Scale Major, one segment whose
right-hand block is the line `1,2,3,4`, and a Main block calling it. -/
def minimalSource : Str :=
  ("Map \x7b\nKey: C\nScale: Major\n\x7d\n"
    ++ "Segment(1, A)\nBegin.RIGHT \x7b\n1,2,3,4\n\x7d\nEND;\n"
    ++ "Main() \x7b\nSegment(1, A);\n\x7d\n").toList

/-- The minimal source with the right-hand body `1, R, 2`. -/
def restSource : Str :=
  ("Map \x7b\nKey: C\nScale: Major\n\x7d\n"
    ++ "Segment(1, A)\nBegin.RIGHT \x7b\n1, R, 2\n\x7d\nEND;\n"
    ++ "Main() \x7b\nSegment(1, A);\n\x7d\n").toList

/-- The minimal source with the metadata line `Tempo: 1` in front. -/
def slowSource : Str := "Tempo: 1\n".toList ++ minimalSource

/-- The minimal source with the right-hand body `1!`, a staccato quarter
note. -/
def staccatoSource : Str :=
  ("Map \x7b\nKey: C\nScale: Major\n\x7d\n"
    ++ "Segment(1, A)\nBegin.RIGHT \x7b\n1!\n\x7d\nEND;\n"
    ++ "Main() \x7b\nSegment(1, A);\n\x7d\n").toList

/-- A source that defines `Segment(1, A)` twice, first with a right hand,
then with a left hand. -/
def duplicateSource : Str :=
  ("Map \x7b\nKey: C\nScale: Major\n\x7d\n"
    ++ "Segment(1, A)\nBegin.RIGHT \x7b\n1,2,3,4\n\x7d\nEND;\n"
    ++ "Segment(1, A)\nBegin.LEFT \x7b\n5,6,7,1\n\x7d\nEND;\n"
    ++ "Main() \x7b\nSegment(1, A);\n\x7d\n").toList

/-- A segment whose only chunk sums to 4 beats in the left hand and to 3 beats
in the right hand. -/
def unevenSegment : Segment :=
  { id := 1, name := "A".toList, tempo := 120, definition_line := 4
    left := { chunks := [[{ notes := [{ degree := 1, duration := 4 }], duration := 4 }]] }
    right := { chunks := [[{ notes := [{ degree := 1, duration := 3 }], duration := 3 }]] } }

/-- A segment whose only chunk sums to 1.005 beats in the left hand and to 1
beat in the right hand. -/
def closeSegment : Segment :=
  { id := 1, name := "A".toList, tempo := 120, definition_line := 4
    left := { chunks := [[{ notes := [{ degree := 1, duration := mkRat 201 200 }],
                            duration := mkRat 201 200 }]] }
    right := { chunks := [[{ notes := [{ degree := 1, duration := 1 }], duration := 1 }]] } }

/-- Metadata lines with numbers: a tempo above the range, one inside it, a
difficulty above the range, and a tempo that is no number. -/
def numbersSource : Str :=
  "Tempo: 301\nTempo: 120\nDifficulty: 11\nTempo: fast\n".toList

/-- A source without a Map block: a title, a segment and a Main block. -/
def noMapSource : Str :=
  ("Title: Etude\nTempo: 500\n"
    ++ "Segment(1, A)\nBegin.RIGHT \x7b\n1,2,3,4\n\x7d\nEND;\n"
    ++ "Main() \x7b\nSegment(1, A);\n\x7d\n").toList

/-- A source without a Main block: the minimal source cut after `END;`. -/
def noMainSource : Str :=
  ("Map \x7b\nKey: C\nScale: Major\n\x7d\n"
    ++ "Segment(1, A)\nBegin.RIGHT \x7b\n1,2,3,4\n\x7d\nEND;\n").toList

/-- The minimal source with the metadata line `Tempo: 301` in front. -/
def fastSource : Str := "Tempo: 301\n".toList ++ minimalSource

/-- A source whose Main block calls the undefined segment 9 after a
`Repeat` block. -/
def callAfterRepeatSource : Str :=
  ("Map \x7b\nKey: C\nScale: Major\n\x7d\n"
    ++ "Segment(1, A)\nBegin.RIGHT \x7b\n1,2,3,4\n\x7d\nEND;\n"
    ++ "Main() \x7b\nRepeat(2) \x7b\nSegment(1, A);\n\x7d\nSegment(9, Z);\n\x7d\n").toList

/-- A source whose Main block calls segment 1 under another name, and the
undefined segment 9 inside a `Repeat` block. -/
def callInsideRepeatSource : Str :=
  ("Map \x7b\nKey: C\nScale: Major\n\x7d\n"
    ++ "Segment(1, A)\nBegin.RIGHT \x7b\n1,2,3,4\n\x7d\nEND;\n"
    ++ "Main() \x7b\nSegment(1, OTHER);\nRepeat(2) \x7b\nSegment(9, Z);\n\x7d\n\x7d\n").toList

/-- A source whose segment has four beats in the left hand and two in the
right hand. -/
def unalignedSource : Str :=
  ("Map \x7b\nKey: C\nScale: Major\n\x7d\n"
    ++ "Segment(1, A)\nBegin.LEFT \x7b\n1,2,3,4\n\x7d\nBegin.RIGHT \x7b\n1,2\n\x7d\nEND;\n"
    ++ "Main() \x7b\nSegment(1, A);\n\x7d\n").toList

/-- A source whose segment lacks its `END;` line before the Main block. -/
def unendedSource : Str :=
  ("Map \x7b\nKey: C\nScale: Major\n\x7d\n"
    ++ "Segment(1, A)\nBegin.RIGHT \x7b\n1,2,3,4\n\x7d\n"
    ++ "Main() \x7b\nSegment(1, A);\n\x7d\n").toList

/-- The same source up to its `Main()` line, with an `END;` line after it. -/
def endAfterMainSource : Str :=
  ("Map \x7b\nKey: C\nScale: Major\n\x7d\n"
    ++ "Segment(1, A)\nBegin.RIGHT \x7b\n1,2,3,4\n\x7d\n"
    ++ "Main() \x7b\nEND;\n\x7d\n").toList

/-- A source whose Map block names the key `H`. -/
def badKeySource : Str :=
  ("Map \x7b\nKey: H\nScale: Major\n\x7d\n"
    ++ "Segment(1, A)\nBegin.RIGHT \x7b\n1,2,3,4\n\x7d\nEND;\n"
    ++ "Main() \x7b\nSegment(1, A);\n\x7d\n").toList

/-- The minimal source with the right-hand body `8`. -/
def degreeEightSource : Str :=
  ("Map \x7b\nKey: C\nScale: Major\n\x7d\n"
    ++ "Segment(1, A)\nBegin.RIGHT \x7b\n8\n\x7d\nEND;\n"
    ++ "Main() \x7b\nSegment(1, A);\n\x7d\n").toList

/-- The minimal source with the right-hand body `1^9, 1^20` and the left-hand
body `1^-9, 1`. -/
def highNoteSource : Str :=
  ("Map \x7b\nKey: C\nScale: Major\n\x7d\n"
    ++ "Segment(1, A)\nBegin.LEFT \x7b\n1^-9, 1\n\x7d\nBegin.RIGHT \x7b\n1^9, 1^20\n\x7d\nEND;\n"
    ++ "Main() \x7b\nSegment(1, A);\n\x7d\n").toList

/-- The minimal source with the right-hand body `1#,2b,3,4`. -/
def accidentalSource : Str :=
  ("Map \x7b\nKey: C\nScale: Major\n\x7d\n"
    ++ "Segment(1, A)\nBegin.RIGHT \x7b\n1#,2b,3,4\n\x7d\nEND;\n"
    ++ "Main() \x7b\nSegment(1, A);\n\x7d\n").toList

/-- A source whose segment header does not match the pattern of a header. -/
def badSegmentSource : Str :=
  ("Map \x7b\nKey: C\nScale: Major\n\x7d\n"
    ++ "Segment(x, A)\nBegin.RIGHT \x7b\n1,2,3,4\n\x7d\nEND;\n"
    ++ "Main() \x7b\nSegment(1, A);\n\x7d\n").toList

/-- A source whose macro header does not match the pattern of a header. -/
def badDefineSource : Str :=
  ("Map \x7b\nKey: C\nScale: Major\n\x7d\n"
    ++ "Define foo \x7b\n1,2\n\x7d\n"
    ++ "Segment(1, A)\nBegin.RIGHT \x7b\n1,2,3,4\n\x7d\nEND;\n"
    ++ "Main() \x7b\nSegment(1, A);\n\x7d\n").toList

/-- The minimal source followed by a second definition of its segment: the
header `Segment(1, A)` again, a left hand and `END;`, after the Main block. -/
def duplicateAfterMainSource : Str :=
  minimalSource ++ "Segment(1, A)\nBegin.LEFT \x7b\n5,6,7,1\n\x7d\nEND;\n".toList

/-- The note mapping of C Major. -/
def sampleMapBlock : MapBlock :=
  { key := "C".toList, scale := "Major".toList, defined := true
    note_mapping :=
      MIDIProg.storeScale (["C", "D", "E", "F", "G", "A", "B"].map String.toList) [] }

/-- A metadata block with tempo 120 and time signature 4/4. -/
def sampleMetadata : Metadata :=
  { title := "Etude".toList, tempo := 120, time_signature := "4/4".toList, difficulty := 3 }

/-- One segment: the left hand holds a rest and a two-note chord, the right
hand a staccato `ff` note, a tied `pp` note, an accented `f` note and a plain
`mp` note. -/
def sampleSegments : List Segment :=
  [{ id := 1, name := "A".toList, tempo := 120, definition_line := 4
     left := { chunks := [[
       { notes := [{ is_rest := true, duration := 2 }], duration := 2 },
       { notes := [{ degree := 1, duration := 2 }, { degree := 5, duration := 2 }],
         duration := 2 }]] }
     right := { chunks := [[
       { notes := [{ degree := 1, dynamic := "ff".toList, articulation := "!".toList }] },
       { notes := [{ degree := 2, dynamic := "pp".toList, articulation := "~".toList }] },
       { notes := [{ degree := 3, dynamic := "f".toList, articulation := ">".toList }] },
       { notes := [{ degree := 4, dynamic := "mp".toList }] }]] } }]

namespace MIDIProg

/-- The state of the MIDI parser after the minimal source; the cursor rests
on the `Main()` line. -/
def minimalParsedMIDI : AMSParser :=
  { AMSParser.new minimalSource with
    current_line := 9
    metadata := { tempo := 120, difficulty := 0, time_signature := "4/4".toList }
    map_block := sampleMapBlock
    segments :=
      [{ id := 1, name := "A".toList, tempo := 120, definition_line := 4
         left := { chunks := [] }
         right := { chunks := [[
           { notes := [{ degree := 1 }] }, { notes := [{ degree := 2 }] },
           { notes := [{ degree := 3 }] }, { notes := [{ degree := 4 }] }]] } }] }

/-- The segments the MIDI parser builds from `accidentalSource`. -/
def accidentalSegments : List Segment :=
  [{ id := 1, name := "A".toList, tempo := 120, definition_line := 4
     left := { chunks := [] }
     right := { chunks := [[
       { notes := [{ degree := 1, accidental := "#".toList }] },
       { notes := [{ degree := 2, accidental := "b".toList }] },
       { notes := [{ degree := 3 }] }, { notes := [{ degree := 4 }] }]] } }]

end MIDIProg

namespace JSONProg

/-- The parser state after the Map block of the minimal source. -/
def minimalAfterMap (tempo0 difficulty0 : Int) : AMSParser :=
  { AMSParser.new minimalSource tempo0 difficulty0 with
    current_line := 4
    map_block :=
      { key := "C".toList, scale := "Major".toList, defined := true, line_number := 0
        note_mapping := storeScale (["C", "D", "E", "F", "G", "A", "B"].map String.toList) [] } }

/-- The parser state after the whole of the minimal source. -/
def minimalParsed (tempo0 difficulty0 : Int) : AMSParser :=
  { minimalAfterMap tempo0 difficulty0 with
    current_line := 12
    segments :=
      [{ id := 1, name := "A".toList, tempo := tempo0, definition_line := 4
         left := { chunks := [] }
         right := { chunks := [[
           { notes := [{ degree := 1, duration := 1, is_dotted := false, is_rest := false }],
             duration := 1, is_dotted := false },
           { notes := [{ degree := 2, duration := 1, is_dotted := false, is_rest := false }],
             duration := 1, is_dotted := false },
           { notes := [{ degree := 3, duration := 1, is_dotted := false, is_rest := false }],
             duration := 1, is_dotted := false },
           { notes := [{ degree := 4, duration := 1, is_dotted := false, is_rest := false }],
             duration := 1, is_dotted := false }]] } }]
    segment_definitions := [(1, 4)]
    segment_name_definitions := [("A".toList, 4)]
    has_main_block := true }

/-- The parser state after the Map block of the source with the segment
defined twice. -/
def duplicateAfterMap (tempo0 difficulty0 : Int) : AMSParser :=
  { AMSParser.new duplicateSource tempo0 difficulty0 with
    current_line := 4
    map_block :=
      { key := "C".toList, scale := "Major".toList, defined := true, line_number := 0
        note_mapping := storeScale (["C", "D", "E", "F", "G", "A", "B"].map String.toList) [] } }

/-- The parser state after the first definition of the segment. -/
def duplicateAfterFirst (tempo0 difficulty0 : Int) : AMSParser :=
  { duplicateAfterMap tempo0 difficulty0 with
    current_line := 9
    segments :=
      [{ id := 1, name := "A".toList, tempo := tempo0, definition_line := 4
         left := { chunks := [] }
         right := { chunks := [[
           { notes := [{ degree := 1, duration := 1, is_dotted := false, is_rest := false }],
             duration := 1, is_dotted := false },
           { notes := [{ degree := 2, duration := 1, is_dotted := false, is_rest := false }],
             duration := 1, is_dotted := false },
           { notes := [{ degree := 3, duration := 1, is_dotted := false, is_rest := false }],
             duration := 1, is_dotted := false },
           { notes := [{ degree := 4, duration := 1, is_dotted := false, is_rest := false }],
             duration := 1, is_dotted := false }]] } }]
    segment_definitions := [(1, 4)]
    segment_name_definitions := [("A".toList, 4)] }

/-- The parser state after the header of the second definition: one error
more, the cursor one line on. -/
def duplicateAfterHeader (tempo0 difficulty0 : Int) : AMSParser :=
  { duplicateAfterFirst tempo0 difficulty0 with
    current_line := 10
    errors :=
      [{ line_number := 10, line_content := "Segment(1, A)".toList
         error_type := "REDEFINITION".toList
         error_message := "Segment with ID 1 already defined at line 5".toList }] }

/-- The parser state after the whole of the source with the segment defined
twice. -/
def duplicateParsed (tempo0 difficulty0 : Int) : AMSParser :=
  { duplicateAfterHeader tempo0 difficulty0 with
    current_line := 17
    has_main_block := true }

/-- The parser state after the Map block of the source without a Main block,
started with tempo 120 and difficulty 0, before the scale is resolved. -/
def noMainAfterMap : AMSParser :=
  { AMSParser.new noMainSource 120 0 with
    current_line := 4
    map_block := { key := "C".toList, scale := "Major".toList, defined := true, line_number := 0 } }

/-- The parser state after the loop of `parse` on the source without a Main
block. -/
def noMainParsed : AMSParser :=
  { noMainAfterMap with
    current_line := 9
    map_block :=
      { key := "C".toList, scale := "Major".toList, defined := true, line_number := 0
        note_mapping := storeScale (["C", "D", "E", "F", "G", "A", "B"].map String.toList) [] }
    segments :=
      [{ id := 1, name := "A".toList, tempo := 120, definition_line := 4
         left := { chunks := [] }
         right := { chunks := [[
           { notes := [{ degree := 1, duration := 1, is_dotted := false, is_rest := false }],
             duration := 1, is_dotted := false },
           { notes := [{ degree := 2, duration := 1, is_dotted := false, is_rest := false }],
             duration := 1, is_dotted := false },
           { notes := [{ degree := 3, duration := 1, is_dotted := false, is_rest := false }],
             duration := 1, is_dotted := false },
           { notes := [{ degree := 4, duration := 1, is_dotted := false, is_rest := false }],
             duration := 1, is_dotted := false }]] } }]
    segment_definitions := [(1, 4)]
    segment_name_definitions := [("A".toList, 4)] }

/-- The parser state after the Map block of the source with the key `H`. -/
def badKeyAfterMap : AMSParser :=
  { AMSParser.new badKeySource 120 0 with
    current_line := 4
    map_block :=
      { key := "H".toList, scale := "Major".toList, defined := true, line_number := 0 } }

/-- The parser state after the Map block of a source whose first four lines
are the Map block of C Major. -/
def afterMapOf (source : Str) : AMSParser :=
  { AMSParser.new source 120 0 with
    current_line := 4
    map_block :=
      { key := "C".toList, scale := "Major".toList, defined := true, line_number := 0 } }

end JSONProg

/-! # Theorems -/

/-! ## The duration suffixes -/

/-- C1: on a freshly constructed note `parseDuration` (the same function in
both programs) decodes the suffixes "", ".e", ".s", ".h", ".w", ".", ".e." and
".h." to (1, plain), (1/2, plain), (1/4, plain), (2, plain), (4, plain),
(3/2, dotted), (3/4, dotted) and (3, dotted), and every other suffix to
(1, plain). -/
theorem parseDuration_suffix_table (str : Str) :
    (∀ s, MIDIProg.parseDuration s {} = JSONProg.parseDuration s {})
    ∧ ((JSONProg.parseDuration "".toList {}).duration = 1
        ∧ (JSONProg.parseDuration "".toList {}).is_dotted = false)
    ∧ ((JSONProg.parseDuration ".e".toList {}).duration = 1 / 2
        ∧ (JSONProg.parseDuration ".e".toList {}).is_dotted = false)
    ∧ ((JSONProg.parseDuration ".s".toList {}).duration = 1 / 4
        ∧ (JSONProg.parseDuration ".s".toList {}).is_dotted = false)
    ∧ ((JSONProg.parseDuration ".h".toList {}).duration = 2
        ∧ (JSONProg.parseDuration ".h".toList {}).is_dotted = false)
    ∧ ((JSONProg.parseDuration ".w".toList {}).duration = 4
        ∧ (JSONProg.parseDuration ".w".toList {}).is_dotted = false)
    ∧ ((JSONProg.parseDuration ".".toList {}).duration = 3 / 2
        ∧ (JSONProg.parseDuration ".".toList {}).is_dotted = true)
    ∧ ((JSONProg.parseDuration ".e.".toList {}).duration = 3 / 4
        ∧ (JSONProg.parseDuration ".e.".toList {}).is_dotted = true)
    ∧ ((JSONProg.parseDuration ".h.".toList {}).duration = 3
        ∧ (JSONProg.parseDuration ".h.".toList {}).is_dotted = true)
    ∧ (str ∉ ["", ".e", ".s", ".h", ".w", ".", ".e.", ".h."].map String.toList →
        (JSONProg.parseDuration str {}).duration = 1
          ∧ (JSONProg.parseDuration str {}).is_dotted = false) := by
  refine ⟨fun s => rfl, ⟨rfl, rfl⟩, ⟨?_, rfl⟩, ⟨?_, rfl⟩, ⟨rfl, rfl⟩, ⟨rfl, rfl⟩, ⟨?_, rfl⟩,
    ⟨?_, rfl⟩, ⟨rfl, rfl⟩, ?_⟩
  · show mkRat 1 2 = 1 / 2
    norm_num [Rat.mkRat_eq_div]
  · show mkRat 1 4 = 1 / 4
    norm_num [Rat.mkRat_eq_div]
  · show mkRat 3 2 = 3 / 2
    norm_num [Rat.mkRat_eq_div]
  · show mkRat 3 4 = 3 / 4
    norm_num [Rat.mkRat_eq_div]
  · intro h
    simp only [List.map, List.mem_cons, List.mem_singleton, not_or, List.not_mem_nil,
      or_false] at h
    obtain ⟨h1, h2, h3, h4, h5, h6, h7, h8⟩ := h
    have h0 : ¬ str.isEmpty = true := by
      cases str with
      | nil => exact absurd rfl h1
      | cons a b => simp
    unfold JSONProg.parseDuration
    rw [if_neg h0, if_neg h4, if_neg h5, if_neg h2, if_neg h3, if_neg h8, if_neg h6, if_neg h7]
    exact ⟨rfl, rfl⟩

/-- Witness of C1: the unlisted suffix ".q" decodes to (1, plain). -/
theorem parseDuration_suffix_table_witness :
    (JSONProg.parseDuration ".q".toList {}).duration = 1
      ∧ (JSONProg.parseDuration ".q".toList {}).is_dotted = false :=
  (parseDuration_suffix_table ".q".toList).2.2.2.2.2.2.2.2.2 (by decide)

namespace MIDIProg

/-! ## What the writer appends -/

theorem writeVarLen_data (w : MIDIWriter) (v : Nat) :
    (w.writeVarLen v).data = w.data ++ varLenBytes v := by
  simp only [varLenBytes, MIDIWriter.writeVarLen, MIDIWriter.writeByte]
  split_ifs <;> simp

theorem varLenBytes_zero : varLenBytes 0 = [0] := by decide

theorem writeNoteOn_data (w : MIDIWriter) (channel note velocity : Nat) :
    (w.writeNoteOn channel note velocity).data
      = w.data ++ [(0x90 ||| channel) % 256, note % 256, velocity % 256] := by
  simp [MIDIWriter.writeNoteOn, MIDIWriter.writeByte]

theorem writeNoteOff_data (w : MIDIWriter) (channel note : Nat) :
    (w.writeNoteOff channel note).data
      = w.data ++ [(0x80 ||| channel) % 256, note % 256, 64] := by
  simp [MIDIWriter.writeNoteOff, MIDIWriter.writeByte]

theorem toUInt8_lt (x : Int) : toUInt8 x < 256 := by
  unfold toUInt8
  omega

theorem toUInt8_mod (x : Int) : toUInt8 x % 256 = toUInt8 x :=
  Nat.mod_eq_of_lt (toUInt8_lt x)

theorem velocityFromDynamic_eq (dynamic : Str) :
    velocityFromDynamic dynamic = (specBaseVelocity dynamic : Int) := by
  unfold velocityFromDynamic specBaseVelocity
  split_ifs <;> rfl

theorem specBaseVelocity_bounds (dynamic : Str) :
    40 ≤ specBaseVelocity dynamic ∧ specBaseVelocity dynamic ≤ 120 := by
  unfold specBaseVelocity
  split_ifs <;> omega

/-- The three successive articulation tests of `generateHandTrack` compute the
velocity of the specification. -/
theorem velocity_byte (note : Note) :
    toUInt8
      (if note.articulation = ">".toList then
        min 127 ((if note.articulation = "~".toList then
          max 40 ((if note.articulation = "!".toList then
            min 127 (velocityFromDynamic note.dynamic + 20)
          else velocityFromDynamic note.dynamic) - 10)
        else (if note.articulation = "!".toList then
            min 127 (velocityFromDynamic note.dynamic + 20)
          else velocityFromDynamic note.dynamic)) + 30)
      else (if note.articulation = "~".toList then
          max 40 ((if note.articulation = "!".toList then
            min 127 (velocityFromDynamic note.dynamic + 20)
          else velocityFromDynamic note.dynamic) - 10)
        else (if note.articulation = "!".toList then
            min 127 (velocityFromDynamic note.dynamic + 20)
          else velocityFromDynamic note.dynamic)))
      = specVelocity note := by
  have hb := specBaseVelocity_bounds note.dynamic
  rw [velocityFromDynamic_eq]
  unfold specVelocity toUInt8
  by_cases h1 : note.articulation = "!".toList
  · have h2 : ¬ note.articulation = "~".toList := by rw [h1]; decide
    have h3 : ¬ note.articulation = ">".toList := by rw [h1]; decide
    simp only [if_pos h1, if_neg h2, if_neg h3]
    omega
  · by_cases h2 : note.articulation = "~".toList
    · have h3 : ¬ note.articulation = ">".toList := by rw [h2]; decide
      simp only [if_neg h1, if_pos h2, if_neg h3]
      omega
    · by_cases h3 : note.articulation = ">".toList
      · simp only [if_neg h1, if_neg h2, if_pos h3]
        omega
      · simp only [if_neg h1, if_neg h2, if_neg h3]
        omega

theorem specVelocity_le (note : Note) : specVelocity note ≤ 127 := by
  have hb := specBaseVelocity_bounds note.dynamic
  unfold specVelocity
  simp only []
  split_ifs <;> omega

theorem noteOnLoop_data (map_block : MapBlock) (channel : Nat) (default_octave : Int)
    (notes : List Note) : ∀ (midi midi' : MIDIWriter),
    noteOnLoop map_block channel default_octave notes midi = .ok midi' →
    midi'.data = midi.data ++ (notes.filter sounding).flatMap
      (fun n => specNoteOn channel (specNoteNumber map_block default_octave n)
        (specVelocity n)) := by
  induction notes with
  | nil =>
    intro midi midi' h
    simp only [noteOnLoop] at h
    cases h
    simp
  | cons note rest ih =>
    intro midi midi' h
    unfold noteOnLoop at h
    by_cases hs : note.is_rest ∨ note.degree = 0
    · rw [if_pos hs] at h
      have hf : sounding note = false := by
        unfold sounding
        rcases hs with hs | hs <;> simp [hs]
      rw [List.filter_cons_of_neg (by simp [hf])]
      exact ih _ _ h
    · rw [if_neg hs] at h
      have hf : sounding note = true := by
        unfold sounding
        simp only [not_or] at hs
        simp [hs.1, hs.2]
      rw [List.filter_cons_of_pos hf, List.flatMap_cons]
      cases hl : map_block.note_mapping.lookup note.degree with
      | none => simp [mapAt, hl, bind, Except.bind] at h
      | some pitch =>
        simp only [mapAt, hl, bind, Except.bind] at h
        have := ih _ _ h
        rw [this, writeNoteOn_data, MIDIWriter.writeDeltaTime, writeVarLen_data,
          varLenBytes_zero, velocity_byte, toUInt8_mod]
        have hv := specVelocity_le note
        simp [specNoteOn, specNoteNumber, hl]
        omega


theorem noteOffLoop_data (map_block : MapBlock) (channel : Nat) (default_octave : Int)
    (duration_ticks : Int) (notes : List Note) : ∀ (first_note : Bool) (midi midi' : MIDIWriter),
    noteOffLoop map_block channel default_octave duration_ticks first_note notes midi
      = .ok midi' →
    midi'.data = midi.data ++
      (if first_note then
        specNoteOffs map_block channel default_octave duration_ticks (notes.filter sounding)
      else
        (notes.filter sounding).flatMap
          (fun m => specNoteOff 0 channel (specNoteNumber map_block default_octave m))) := by
  induction notes with
  | nil =>
    intro first_note midi midi' h
    simp only [noteOffLoop] at h
    cases h
    cases first_note <;> simp [specNoteOffs]
  | cons note rest ih =>
    intro first_note midi midi' h
    unfold noteOffLoop at h
    by_cases hs : note.is_rest ∨ note.degree = 0
    · rw [if_pos hs] at h
      have hf : sounding note = false := by
        unfold sounding
        rcases hs with hs | hs <;> simp [hs]
      rw [List.filter_cons_of_neg (by simp [hf])]
      exact ih _ _ _ h
    · rw [if_neg hs] at h
      have hf : sounding note = true := by
        unfold sounding
        simp only [not_or] at hs
        simp [hs.1, hs.2]
      rw [List.filter_cons_of_pos hf]
      cases hl : map_block.note_mapping.lookup note.degree with
      | none => simp [mapAt, hl, bind, Except.bind] at h
      | some pitch =>
        simp only [mapAt, hl, bind, Except.bind] at h
        have := ih _ _ _ h
        rw [this, writeNoteOff_data, MIDIWriter.writeDeltaTime, writeVarLen_data, toUInt8_mod]
        cases first_note
        · simp [specNoteOff, specNoteNumber, hl, toUInt32]
        · simp [specNoteOffs, specNoteOff, specNoteNumber, hl]

/-- What the loop body of `generateHandTrack` appends for one chord. -/
theorem chordEvents_data (map_block : MapBlock) (channel : Nat) (default_octave : Int)
    (midi midi' : MIDIWriter) (chord : Chord)
    (h : chordEvents map_block channel default_octave midi chord = .ok midi') :
    midi'.data = midi.data ++ specChordBytes map_block channel default_octave chord := by
  unfold chordEvents at h
  by_cases he : chord.notes.isEmpty = true
  · rw [if_pos he] at h
    cases h
    have : chord.notes = [] := List.isEmpty_iff.mp he
    simp [specChordBytes, this, specNoteOffs]
  · rw [if_neg he] at h
    unfold calculateTicks at h
    simp only [] at h
    by_cases hr : Int.tdiv (chord.duration.num * 480) chord.duration.den < -2147483648
        ∨ 2147483647 < Int.tdiv (chord.duration.num * 480) chord.duration.den
    · rw [if_pos hr] at h
      simp [bind, Except.bind] at h
    · rw [if_neg hr] at h
      simp only [bind, Except.bind] at h
      cases hon : noteOnLoop map_block channel default_octave chord.notes midi with
      | error e => simp [hon] at h
      | ok midi1 =>
        simp only [hon] at h
        have a := noteOnLoop_data _ _ _ _ _ _ hon
        have b := noteOffLoop_data _ _ _ _ _ _ _ _ h
        rw [b, a, if_pos rfl]
        unfold specChordBytes specChordTicks
        simp only [List.append_assoc]

theorem foldlM_data {α : Type} (f : MIDIWriter → α → Except Fault MIDIWriter)
    (g : α → List Nat)
    (hf : ∀ w x w', f w x = .ok w' → w'.data = w.data ++ g x) (xs : List α) :
    ∀ w w', xs.foldlM f w = .ok w' → w'.data = w.data ++ xs.flatMap g := by
  induction xs with
  | nil =>
    intro w w' h
    simp only [List.foldlM_nil, pure, Except.pure] at h
    cases h
    simp
  | cons x rest ih =>
    intro w w' h
    simp only [List.foldlM_cons, bind, Except.bind] at h
    cases hx : f w x with
    | error e => simp [hx] at h
    | ok w1 =>
      simp only [hx] at h
      rw [ih _ _ h, hf _ _ _ hx]
      simp

/-- What `generateHandTrack` appends, when it returns. -/
theorem generateHandTrack_data (midi midi' : MIDIWriter) (segments : List Segment)
    (map_block : MapBlock) (is_left : Bool) (channel : Nat) (default_octave : Int)
    (h : generateHandTrack midi segments map_block is_left channel default_octave = .ok midi') :
    midi'.data = midi.data ++ specHandBytes segments map_block is_left channel default_octave := by
  unfold generateHandTrack at h
  unfold specHandBytes
  refine foldlM_data _ _ ?_ segments midi midi' h
  intro w seg w' hseg
  refine foldlM_data _ _ ?_ _ w w' hseg
  intro w chunk w' hchunk
  exact foldlM_data _ _ (fun a b c hc => chordEvents_data _ _ _ a c b hc) _ w w' hchunk

theorem writeString_data (str : Str) : ∀ (w : MIDIWriter),
    (w.writeString str).data = w.data ++ str.map (fun c => c.toNat % 256) := by
  unfold MIDIWriter.writeString
  induction str with
  | nil => intro w; simp
  | cons c rest ih =>
    intro w
    rw [List.foldl_cons, ih]
    simp [MIDIWriter.writeByte]

theorem writeInt32_data (w : MIDIWriter) (v : Nat) :
    (w.writeInt32 v).data = w.data ++ (MIDIWriter.writeInt32 {} v).data := by
  simp [MIDIWriter.writeInt32]

theorem writeHeader_data : (MIDIWriter.writeHeader {} 1 3 480).data = specHeader := by
  decide

theorem startTrack_data (w : MIDIWriter) :
    w.startTrack.data = w.data ++ [77, 84, 114, 107] ++ [0, 0, 0, 0] := by
  unfold MIDIWriter.startTrack
  rw [writeInt32_data, writeString_data]
  simp
  decide

theorem byte_and_mod (x : Nat) : (x &&& 255) % 256 = x &&& 255 := by
  apply Nat.mod_eq_of_lt
  exact Nat.lt_of_le_of_lt Nat.and_le_right (by norm_num)

theorem writeMetaEvent_data (w : MIDIWriter) (type : Nat) (data : List Nat) :
    (w.writeMetaEvent type data).data
      = w.data ++ specMetaEvent (type % 256) (data.map (· % 256)) := by
  unfold MIDIWriter.writeMetaEvent MIDIWriter.writeBytes
  simp only [writeVarLen_data]
  simp [MIDIWriter.writeByte, specMetaEvent]

theorem set_four (pre : List Nat) (a b c d x0 x1 x2 x3 : Nat) (body : List Nat) :
    ((((pre ++ a :: b :: c :: d :: body).set pre.length x0).set (pre.length + 1) x1).set
      (pre.length + 2) x2).set (pre.length + 3) x3 = pre ++ x0 :: x1 :: x2 :: x3 :: body := by
  rw [List.set_append_right _ _ (Nat.le_refl _), List.set_append_right _ _ (Nat.le_add_right _ _),
    List.set_append_right _ _ (Nat.le_add_right _ _),
    List.set_append_right _ _ (Nat.le_add_right _ _)]
  simp

/-- Patching the length of a track: the four placeholder bytes written by
`startTrack` become the length of the body written since. -/
theorem track_patch (w w' : MIDIWriter) (body : List Nat)
    (h : w'.data = w.startTrack.data ++ body) :
    (w'.updateTrackLength w.startTrack.getTrackLengthPosition
      (w'.size - w.startTrack.size)).data = w.data ++ specTrackChunk body := by
  unfold MIDIWriter.updateTrackLength MIDIWriter.getTrackLengthPosition MIDIWriter.size
  rw [h, startTrack_data]
  have hp : (w.data ++ [77, 84, 114, 107] ++ [0, 0, 0, 0]).length - 4
      = (w.data ++ [77, 84, 114, 107]).length := by simp
  have hl : (w.data ++ [77, 84, 114, 107] ++ [0, 0, 0, 0] ++ body).length
      - (w.data ++ [77, 84, 114, 107] ++ [0, 0, 0, 0]).length = body.length := by
    simp only [List.length_append, List.length_cons, List.length_nil]
    omega
  rw [hp, hl]
  have := set_four (w.data ++ [77, 84, 114, 107]) 0 0 0 0
    ((body.length % 4294967296) >>> 24 &&& 0xFF) ((body.length % 4294967296) >>> 16 &&& 0xFF)
    ((body.length % 4294967296) >>> 8 &&& 0xFF) ((body.length % 4294967296) &&& 0xFF) body
  simp only [List.append_assoc, List.cons_append, List.nil_append] at this ⊢
  rw [this]
  simp [specTrackChunk, MIDIWriter.writeInt32]

theorem denomLog2Loop_lt (fuel temp acc : Nat) (h : fuel + acc ≤ 8) :
    denomLog2Loop fuel temp acc % 256 = denomLog2Loop fuel temp acc := by
  apply Nat.mod_eq_of_lt
  induction fuel generalizing temp acc with
  | zero => simp only [denomLog2Loop]; omega
  | succ n ih =>
    simp only [denomLog2Loop]
    split_ifs
    · exact ih _ _ (by omega)
    · omega

theorem track0_data (w : MIDIWriter) (metadata : Metadata) (us : Nat) :
    ((((((((w.startTrack.writeDeltaTime 0).writeTrackName metadata.title).writeDeltaTime
      0).writeTempoChange us).writeDeltaTime 0).writeTimeSignature
        (timeSignatureValues metadata.time_signature).1
        (timeSignatureValues metadata.time_signature).2).writeDeltaTime 0).writeEndOfTrack).data
      = w.startTrack.data ++ specTrack0Body metadata (us % 4294967296) := by
  simp only [MIDIWriter.writeDeltaTime, MIDIWriter.writeTrackName, MIDIWriter.writeTempoChange,
    MIDIWriter.writeTimeSignature, MIDIWriter.writeEndOfTrack, writeMetaEvent_data,
    writeVarLen_data, varLenBytes_zero, specTrack0Body, specTrackName, specTempoEvent,
    specTimeSignatureEvent, specEndOfTrack]
  have hlog := denomLog2Loop_lt 8 ((timeSignatureValues metadata.time_signature).2 % 256) 0
    (by omega)
  have h3 : varLenBytes 3 = [3] := by decide
  have h4 : varLenBytes 4 = [4] := by decide
  simp [byte_and_mod, specMetaEvent, hlog, h3, h4, varLenBytes_zero]

theorem track0_patch (w : MIDIWriter) (metadata : Metadata) (us : Nat) :
    (((((((((w.startTrack.writeDeltaTime 0).writeTrackName metadata.title).writeDeltaTime
      0).writeTempoChange us).writeDeltaTime 0).writeTimeSignature
        (timeSignatureValues metadata.time_signature).1
        (timeSignatureValues metadata.time_signature).2).writeDeltaTime
          0).writeEndOfTrack).updateTrackLength w.startTrack.getTrackLengthPosition
      (((((((((w.startTrack.writeDeltaTime 0).writeTrackName metadata.title).writeDeltaTime
      0).writeTempoChange us).writeDeltaTime 0).writeTimeSignature
        (timeSignatureValues metadata.time_signature).1
        (timeSignatureValues metadata.time_signature).2).writeDeltaTime
          0).writeEndOfTrack).size - w.startTrack.size)).data
      = w.data ++ specTrackChunk (specTrack0Body metadata (us % 4294967296)) :=
  track_patch _ _ _ (track0_data w metadata us)

theorem hand_track_patch (w mH : MIDIWriter) (name : Str) (segments : List Segment)
    (map_block : MapBlock) (is_left : Bool) (channel : Nat) (default_octave : Int)
    (h : generateHandTrack
      ((((w.startTrack.writeDeltaTime 0).writeTrackName name).writeDeltaTime
        0).writeProgramChange channel 0) segments map_block is_left channel default_octave
        = .ok mH) :
    (((mH.writeDeltaTime 0).writeEndOfTrack).updateTrackLength w.startTrack.getTrackLengthPosition
      (((mH.writeDeltaTime 0).writeEndOfTrack).size - w.startTrack.size)).data
      = w.data ++ specTrackChunk
          (specHandTrackBody name segments map_block is_left channel default_octave) := by
  apply track_patch
  have hd := generateHandTrack_data _ _ _ _ _ _ _ h
  simp only [MIDIWriter.writeDeltaTime, MIDIWriter.writeTrackName,
    MIDIWriter.writeProgramChange, MIDIWriter.writeByte, writeMetaEvent_data, writeVarLen_data,
    varLenBytes_zero] at hd
  simp only [MIDIWriter.writeDeltaTime, MIDIWriter.writeEndOfTrack, writeMetaEvent_data,
    writeVarLen_data, varLenBytes_zero, hd, specHandTrackBody, specTrackName, specEndOfTrack]
  simp [specMetaEvent, varLenBytes_zero]

theorem tempoToMicroseconds_lt (bpm : Int) (us : Nat) (h : tempoToMicroseconds bpm = .ok us) :
    us < 4294967296 := by
  unfold tempoToMicroseconds at h
  split_ifs at h
  cases h
  unfold toUInt32
  omega

/-- The bytes of `generate`, when it returns: the header and the three track
chunks, each with its body spelled out. -/
theorem generate_bytes (metadata : Metadata) (map_block : MapBlock) (segments : List Segment)
    (bytes : List Nat) (h : generate metadata map_block segments = .ok bytes) :
    ∃ us, tempoToMicroseconds metadata.tempo = .ok us ∧
      bytes = specHeader ++ specTrackChunk (specTrack0Body metadata us)
        ++ specTrackChunk (specHandTrackBody "Left Hand".toList segments map_block true 0 3)
        ++ specTrackChunk (specHandTrackBody "Right Hand".toList segments map_block false 1 4) := by
  unfold generate at h
  simp only [bind, Except.bind] at h
  cases ht : tempoToMicroseconds metadata.tempo with
  | error e => simp [ht] at h
  | ok us =>
    simp only [ht] at h
    split at h
    · cases h
    · rename_i mL hL
      split at h
      · cases h
      · rename_i mR hR
        refine ⟨us, rfl, ?_⟩
        have e0 := track0_patch (MIDIWriter.writeHeader {} 1 3 480) metadata us
        have e1 := hand_track_patch _ _ _ _ _ _ _ _ hL
        have e2 := hand_track_patch _ _ _ _ _ _ _ _ hR
        cases h
        rw [e2, e1, e0, writeHeader_data, Nat.mod_eq_of_lt (tempoToMicroseconds_lt _ _ ht)]

theorem noteOnLoop_ok (map_block : MapBlock) (channel : Nat) (default_octave : Int)
    (notes : List Note)
    (h : notes.all (fun n => !sounding n || (map_block.note_mapping.lookup n.degree).isSome)
      = true) :
    ∀ midi, ∃ midi', noteOnLoop map_block channel default_octave notes midi = .ok midi' := by
  induction notes with
  | nil => intro midi; exact ⟨midi, rfl⟩
  | cons note rest ih =>
    intro midi
    rw [List.all_cons, Bool.and_eq_true] at h
    unfold noteOnLoop
    by_cases hs : note.is_rest ∨ note.degree = 0
    · rw [if_pos hs]
      exact ih h.2 midi
    · rw [if_neg hs]
      have hf : sounding note = true := by
        unfold sounding
        simp only [not_or] at hs
        simp [hs.1, hs.2]
      have hl := h.1
      rw [hf] at hl
      simp only [Bool.not_true, Bool.false_or] at hl
      obtain ⟨pitch, hp⟩ := Option.isSome_iff_exists.mp hl
      simp only [mapAt, hp, bind, Except.bind]
      exact ih h.2 _

theorem noteOffLoop_ok (map_block : MapBlock) (channel : Nat) (default_octave : Int)
    (duration_ticks : Int) (notes : List Note)
    (h : notes.all (fun n => !sounding n || (map_block.note_mapping.lookup n.degree).isSome)
      = true) :
    ∀ first_note midi, ∃ midi',
      noteOffLoop map_block channel default_octave duration_ticks first_note notes midi
        = .ok midi' := by
  induction notes with
  | nil => intro first_note midi; exact ⟨midi, by simp [noteOffLoop]⟩
  | cons note rest ih =>
    intro first_note midi
    rw [List.all_cons, Bool.and_eq_true] at h
    unfold noteOffLoop
    by_cases hs : note.is_rest ∨ note.degree = 0
    · rw [if_pos hs]
      exact ih h.2 _ midi
    · rw [if_neg hs]
      have hf : sounding note = true := by
        unfold sounding
        simp only [not_or] at hs
        simp [hs.1, hs.2]
      have hl := h.1
      rw [hf] at hl
      simp only [Bool.not_true, Bool.false_or] at hl
      obtain ⟨pitch, hp⟩ := Option.isSome_iff_exists.mp hl
      simp only [mapAt, hp, bind, Except.bind]
      exact ih h.2 _ _

theorem chordEvents_ok (map_block : MapBlock) (channel : Nat) (default_octave : Int)
    (chord : Chord) (h : chordPlayable map_block chord = true) (midi : MIDIWriter) :
    ∃ midi', chordEvents map_block channel default_octave midi chord = .ok midi' := by
  unfold chordEvents
  by_cases he : chord.notes.isEmpty = true
  · rw [if_pos he]
    exact ⟨midi, rfl⟩
  · rw [if_neg he]
    unfold chordPlayable at h
    simp only [he, Bool.false_or, Bool.and_eq_true] at h
    obtain ⟨ht, hn⟩ := h
    cases hc : calculateTicks chord.duration with
    | error e => simp [hc, Except.toBool] at ht
    | ok ticks =>
      simp only [bind, Except.bind]
      obtain ⟨m1, h1⟩ := noteOnLoop_ok map_block channel default_octave chord.notes hn midi
      rw [h1]
      exact noteOffLoop_ok _ _ _ _ _ hn _ _

theorem foldlM_ok {α : Type} (f : MIDIWriter → α → Except Fault MIDIWriter) (xs : List α)
    (hf : ∀ x ∈ xs, ∀ w, ∃ w', f w x = .ok w') :
    ∀ w, ∃ w', xs.foldlM f w = .ok w' := by
  induction xs with
  | nil => intro w; exact ⟨w, rfl⟩
  | cons x rest ih =>
    intro w
    obtain ⟨w1, h1⟩ := hf x (List.mem_cons_self _ _) w
    simp only [List.foldlM_cons, bind, Except.bind, h1]
    exact ih (fun y hy => hf y (List.mem_cons_of_mem _ hy)) w1

/-- `generateHandTrack` returns on a playable hand. -/
theorem generateHandTrack_ok (segments : List Segment) (map_block : MapBlock) (is_left : Bool)
    (channel : Nat) (default_octave : Int)
    (h : handPlayable segments map_block is_left = true) (midi : MIDIWriter) :
    ∃ midi', generateHandTrack midi segments map_block is_left channel default_octave
      = .ok midi' := by
  unfold generateHandTrack
  unfold handPlayable at h
  rw [List.all_eq_true] at h
  refine foldlM_ok _ _ ?_ midi
  intro seg hseg w
  have h1 := h seg hseg
  rw [List.all_eq_true] at h1
  refine foldlM_ok _ _ ?_ w
  intro chunk hchunk w2
  have h2 := h1 chunk hchunk
  rw [List.all_eq_true] at h2
  refine foldlM_ok _ _ ?_ w2
  intro chord hchord w3
  exact chordEvents_ok _ _ _ _ (h2 chord hchord) w3

theorem generateHandTrack_ne_error (segments : List Segment) (map_block : MapBlock)
    (is_left : Bool) (channel : Nat) (default_octave : Int)
    (h : handPlayable segments map_block is_left = true) (midi : MIDIWriter) (e : Fault) :
    generateHandTrack midi segments map_block is_left channel default_octave ≠ .error e := by
  obtain ⟨m, hm⟩ := generateHandTrack_ok segments map_block is_left channel default_octave h midi
  rw [hm]
  intro hc
  cases hc

/-- `generate` returns when the tempo is not 0 and both hands are playable. -/
theorem generate_ok (metadata : Metadata) (map_block : MapBlock) (segments : List Segment)
    (ht : metadata.tempo ≠ 0) (hl : handPlayable segments map_block true = true)
    (hr : handPlayable segments map_block false = true) :
    ∃ bytes, generate metadata map_block segments = .ok bytes := by
  unfold generate
  simp only [bind, Except.bind, tempoToMicroseconds, if_neg ht]
  split
  · rename_i e heq
    exact absurd heq (generateHandTrack_ne_error _ _ _ _ _ hl _ _)
  · split
    · rename_i e heq
      exact absurd heq (generateHandTrack_ne_error _ _ _ _ _ hr _ _)
    · exact ⟨_, rfl⟩

theorem or_128_mod (x : Nat) : 128 ||| (x % 128) = 128 + x % 128 := by
  have h2 : ∀ y, y < 128 → 128 ||| y = 128 + y := by decide
  exact h2 _ (Nat.mod_lt _ (by norm_num))

theorem and_127 (x : Nat) : x &&& 127 = x % 128 := Nat.and_pow_two_sub_one_eq_mod x 7

theorem and_255 (x : Nat) : x &&& 255 = x % 256 := Nat.and_pow_two_sub_one_eq_mod x 8

/-- The bytes of a variable-length quantity, by the size of the value. -/
theorem varLenBytes_cases (v : Nat) (hv : v < 4294967296) :
    varLenBytes v =
      if v < 128 then [v]
      else if v < 16384 then [128 + v / 128, v % 128]
      else if v < 2097152 then [128 + v / 16384, 128 + v / 128 % 128, v % 128]
      else if v < 268435456 then
        [128 + v / 2097152, 128 + v / 16384 % 128, 128 + v / 128 % 128, v % 128]
      else [128 + v / 268435456, 128 + v / 2097152 % 128, 128 + v / 16384 % 128,
        128 + v / 128 % 128, v % 128] := by
  simp only [varLenBytes, MIDIWriter.writeVarLen, MIDIWriter.writeByte, and_127, or_128_mod,
    Nat.shiftRight_eq_div_pow, Nat.mod_eq_of_lt hv]
  split_ifs <;> first | omega | (simp; omega)

theorem writeInt32_isLengthField (body : List Nat) :
    isLengthField (MIDIWriter.writeInt32 {} body.length).data body := by
  have hval : bigEndianValue (MIDIWriter.writeInt32 {} body.length).data
      = body.length % 4294967296 := by
    have hlt : body.length % 4294967296 < 4294967296 := Nat.mod_lt _ (by norm_num)
    simp only [MIDIWriter.writeInt32, and_255, Nat.shiftRight_eq_div_pow, bigEndianValue,
      List.nil_append, List.foldl_cons, List.foldl_nil]
    omega
  refine ⟨by simp [MIDIWriter.writeInt32], ?_, hval, ?_⟩
  · intro b hb
    simp only [MIDIWriter.writeInt32, and_255, List.nil_append, List.mem_cons,
      List.mem_singleton, List.not_mem_nil, or_false] at hb
    rcases hb with hb | hb | hb | hb <;> (rw [hb]; exact Nat.mod_lt _ (by norm_num))
  · intro hb
    rw [hval, Nat.mod_eq_of_lt hb]

/-- C3: for every 32-bit value `v`, `writeVarLen` appends between one and five
bytes; all but the last have the most significant bit set, the last has it
clear, and the low seven bits of the bytes, most significant group first, read
back as `v`. The value 0 is written as `00`, the value 480 as `83 60`. -/
theorem writeVarLen_roundtrip (w : MIDIWriter) (v : Nat) (hv : v < 4294967296) :
    (∃ bytes last,
      (w.writeVarLen v).data = w.data ++ bytes ++ [last]
      ∧ bytes.length ≤ 4
      ∧ (∀ b ∈ bytes, msbSet b) ∧ msbClear last
      ∧ varLenValue (bytes ++ [last]) = v)
    ∧ (w.writeVarLen 0).data = w.data ++ [0x00]
    ∧ (w.writeVarLen 480).data = w.data ++ [0x83, 0x60] := by
  refine ⟨?_, ?_, ?_⟩
  · rw [writeVarLen_data, varLenBytes_cases v hv]
    split_ifs
    · exact ⟨[], v, by simp, by simp, by simp, by simp [msbClear]; omega,
        by simp [varLenValue]; omega⟩
    · exact ⟨[128 + v / 128], v % 128, by simp, by simp, by simp [msbSet]; omega,
        by simp [msbClear]; omega, by simp [varLenValue]; omega⟩
    · exact ⟨[128 + v / 16384, 128 + v / 128 % 128], v % 128, by simp, by simp,
        by simp [msbSet]; omega, by simp [msbClear]; omega, by simp [varLenValue]; omega⟩
    · exact ⟨[128 + v / 2097152, 128 + v / 16384 % 128, 128 + v / 128 % 128], v % 128,
        by simp, by simp, by simp [msbSet]; omega, by simp [msbClear]; omega,
        by simp [varLenValue]; omega⟩
    · exact ⟨[128 + v / 268435456, 128 + v / 2097152 % 128, 128 + v / 16384 % 128,
        128 + v / 128 % 128], v % 128, by simp, by simp, by simp [msbSet]; omega,
        by simp [msbClear]; omega, by simp [varLenValue]; omega⟩
  · rw [writeVarLen_data]
    rfl
  · rw [writeVarLen_data]
    rfl

/-- Witness of C3: the value 480 on an empty writer. -/
theorem writeVarLen_roundtrip_witness :
    (∃ bytes last,
      (MIDIWriter.writeVarLen {} 480).data = [] ++ bytes ++ [last]
      ∧ bytes.length ≤ 4
      ∧ (∀ b ∈ bytes, msbSet b) ∧ msbClear last
      ∧ varLenValue (bytes ++ [last]) = 480)
    ∧ (MIDIWriter.writeVarLen {} 0).data = [] ++ [0x00]
    ∧ (MIDIWriter.writeVarLen {} 480).data = [] ++ [0x83, 0x60] :=
  writeVarLen_roundtrip {} 480 (by decide)

/-- C4: whenever `generate` returns, its bytes begin with the 14 bytes
`MThd`, 00 00 00 06, 00 01, 00 03, 01 E0; and it returns for every model whose
tempo is not 0 and whose two hands are playable. -/
theorem generate_header (metadata : Metadata) (map_block : MapBlock)
    (segments : List Segment) :
    (∀ bytes, generate metadata map_block segments = .ok bytes →
      bytes.take 14 = [77, 84, 104, 100, 0, 0, 0, 6, 0, 1, 0, 3, 1, 224])
    ∧ (metadata.tempo ≠ 0 → handPlayable segments map_block true = true →
        handPlayable segments map_block false = true →
        ∃ bytes, generate metadata map_block segments = .ok bytes) := by
  refine ⟨?_, generate_ok metadata map_block segments⟩
  intro bytes h
  obtain ⟨us, _, hb⟩ := generate_bytes metadata map_block segments bytes h
  rw [hb]
  simp [specHeader]

/-- Witness of C4: the sample model. -/
theorem generate_header_witness :
    ∃ bytes, generate sampleMetadata sampleMapBlock sampleSegments = .ok bytes
      ∧ bytes.take 14 = [77, 84, 104, 100, 0, 0, 0, 6, 0, 1, 0, 3, 1, 224] := by
  obtain ⟨bytes, h⟩ := (generate_header sampleMetadata sampleMapBlock sampleSegments).2
    (by decide) (by decide) (by decide)
  exact ⟨bytes, h, (generate_header sampleMetadata sampleMapBlock sampleSegments).1 bytes h⟩

/-- C5: whenever `generate` returns, its bytes are the 14-byte header followed
by exactly three chunks, each `MTrk`, a four-byte big-endian length field and
a body; each length field reads back as the number of bytes of its body (modulo
`2^32`, the width of the field), and each body ends with the end-of-track
event 00 FF 2F 00. It returns for every model whose tempo is not 0 and whose
two hands are playable. -/
theorem generate_track_chunks (metadata : Metadata) (map_block : MapBlock)
    (segments : List Segment) :
    (∀ bytes, generate metadata map_block segments = .ok bytes →
      ∃ len0 body0 len1 body1 len2 body2 : List Nat,
        bytes = [77, 84, 104, 100, 0, 0, 0, 6, 0, 1, 0, 3, 1, 224]
          ++ ([77, 84, 114, 107] ++ len0 ++ body0)
          ++ ([77, 84, 114, 107] ++ len1 ++ body1)
          ++ ([77, 84, 114, 107] ++ len2 ++ body2)
        ∧ isLengthField len0 body0 ∧ isLengthField len1 body1 ∧ isLengthField len2 body2
        ∧ (∃ events, body0 = events ++ [0, 255, 47, 0])
        ∧ (∃ events, body1 = events ++ [0, 255, 47, 0])
        ∧ (∃ events, body2 = events ++ [0, 255, 47, 0]))
    ∧ (metadata.tempo ≠ 0 → handPlayable segments map_block true = true →
        handPlayable segments map_block false = true →
        ∃ bytes, generate metadata map_block segments = .ok bytes) := by
  refine ⟨?_, generate_ok metadata map_block segments⟩
  intro bytes h
  obtain ⟨us, _, hb⟩ := generate_bytes metadata map_block segments bytes h
  refine ⟨_, specTrack0Body metadata us, _,
    specHandTrackBody "Left Hand".toList segments map_block true 0 3, _,
    specHandTrackBody "Right Hand".toList segments map_block false 1 4, ?_,
    writeInt32_isLengthField _, writeInt32_isLengthField _, writeInt32_isLengthField _,
    ⟨_, rfl⟩, ⟨_, rfl⟩, ⟨_, rfl⟩⟩
  rw [hb]
  rfl

/-- Witness of C5: the sample model. -/
theorem generate_track_chunks_witness :
    ∃ bytes, generate sampleMetadata sampleMapBlock sampleSegments = .ok bytes
      ∧ ∃ len0 body0 len1 body1 len2 body2 : List Nat,
        bytes = [77, 84, 104, 100, 0, 0, 0, 6, 0, 1, 0, 3, 1, 224]
          ++ ([77, 84, 114, 107] ++ len0 ++ body0)
          ++ ([77, 84, 114, 107] ++ len1 ++ body1)
          ++ ([77, 84, 114, 107] ++ len2 ++ body2)
        ∧ isLengthField len0 body0 ∧ isLengthField len1 body1 ∧ isLengthField len2 body2
        ∧ (∃ events, body0 = events ++ [0, 255, 47, 0])
        ∧ (∃ events, body1 = events ++ [0, 255, 47, 0])
        ∧ (∃ events, body2 = events ++ [0, 255, 47, 0]) := by
  obtain ⟨bytes, h⟩ := (generate_track_chunks sampleMetadata sampleMapBlock sampleSegments).2
    (by decide) (by decide) (by decide)
  exact ⟨bytes, h,
    (generate_track_chunks sampleMetadata sampleMapBlock sampleSegments).1 bytes h⟩

set_option maxRecDepth 1000000 in
/-- C6 (the code departs from the claim): at 1, 2 and 3 BPM the quotient
60,000,000 / BPM needs more than 24 bits, and `writeTempoChange` keeps its low
three bytes only: at 1 BPM the event is FF 51 03 93 87 00, which reads back as
9,668,352, not 60,000,000, and that is what the MIDI program writes into track
0 for a source with the line `Tempo: 1`. From 4 to 300 BPM the three bytes
read back as the quotient. -/
theorem tempo_event_wraps_below_4_bpm :
    (tempoToMicroseconds 1 = .ok 60000000
      ∧ (MIDIWriter.writeTempoChange {} 60000000).data = [0xFF, 0x51, 0x03, 0x93, 0x87, 0x00]
      ∧ bigEndianValue [0x93, 0x87, 0x00] = 9668352)
    ∧ (tempoToMicroseconds 2 = .ok 30000000
      ∧ (MIDIWriter.writeTempoChange {} 30000000).data = [0xFF, 0x51, 0x03, 0xC9, 0xC3, 0x80]
      ∧ bigEndianValue [0xC9, 0xC3, 0x80] = 13222784)
    ∧ (tempoToMicroseconds 3 = .ok 20000000
      ∧ (MIDIWriter.writeTempoChange {} 20000000).data = [0xFF, 0x51, 0x03, 0x31, 0x2D, 0x00]
      ∧ bigEndianValue [0x31, 0x2D, 0x00] = 3222784)
    ∧ (main 20 slowSource).map (Option.map (fun bytes => (bytes.drop 26).take 7))
        = .ok (some [0x00, 0xFF, 0x51, 0x03, 0x93, 0x87, 0x00])
    ∧ (∀ n ∈ List.range 301, 4 ≤ n →
        (tempoToMicroseconds (Int.ofNat n)).map
          (fun us => ((MIDIWriter.writeTempoChange {} us).data.take 3,
            bigEndianValue ((MIDIWriter.writeTempoChange {} us).data.drop 3)))
        = .ok ([0xFF, 0x51, 0x03], 60000000 / n)) := by
  decide

set_option maxRecDepth 100000 in
/-- C7: the MIDI program turns the minimal source into a file whose third
chunk, the right-hand track on channel 1, holds after the track name and the
program change exactly four note-on/note-off pairs at the note numbers 60, 62,
64, 65, each note-on at delta-time 0 and each note-off 480 ticks (the bytes
83 60) later. -/
theorem main_minimalSource :
    varLenBytes 480 = [0x83, 0x60]
    ∧ main 20 minimalSource = .ok (some
      ([77, 84, 104, 100, 0, 0, 0, 6, 0, 1, 0, 3, 1, 224]
        ++ ([77, 84, 114, 107, 0, 0, 0, 23] ++ [0, 0xFF, 0x03, 0]
          ++ [0, 0xFF, 0x51, 3, 0x07, 0xA1, 0x20] ++ [0, 0xFF, 0x58, 4, 4, 2, 24, 8]
          ++ [0, 0xFF, 0x2F, 0])
        ++ ([77, 84, 114, 107, 0, 0, 0, 20]
          ++ ([0, 0xFF, 0x03, 9] ++ "Left Hand".toList.map Char.toNat) ++ [0, 0xC0, 0]
          ++ [0, 0xFF, 0x2F, 0])
        ++ ([77, 84, 114, 107, 0, 0, 0, 57]
          ++ ([0, 0xFF, 0x03, 10] ++ "Right Hand".toList.map Char.toNat) ++ [0, 0xC1, 0]
          ++ ([0, 0x91, 60, 90] ++ varLenBytes 480 ++ [0x81, 60, 64])
          ++ ([0, 0x91, 62, 90] ++ varLenBytes 480 ++ [0x81, 62, 64])
          ++ ([0, 0x91, 64, 90] ++ varLenBytes 480 ++ [0x81, 64, 64])
          ++ ([0, 0x91, 65, 90] ++ varLenBytes 480 ++ [0x81, 65, 64])
          ++ [0, 0xFF, 0x2F, 0]))) := by
  decide

set_option maxRecDepth 100000 in
/-- C9 (the code departs from the claim): for the right-hand body `1, R, 2`
the parser keeps three chords of one beat each, and `generateHandTrack` writes
nothing at all for the rest, so the note-on of degree 2 follows the note-off of
degree 1 at delta-time 0: it starts 480 ticks after the note-on of degree 1,
and the delta-times of the track add up to 960 ticks, not 1440. -/
theorem main_restSource :
    (parse 20 (AMSParser.new restSource)).map
        (fun r => r.2.segments.map (fun s => s.right.chunks.map (fun chunk =>
          chunk.map (fun c => c.notes.map (fun n => (n.is_rest, n.degree))))))
      = .ok [[[[(false, 1)], [(true, 0)], [(false, 2)]]]]
    ∧ (parse 20 (AMSParser.new restSource)).map
        (fun r => r.2.segments.map (fun s => s.right.chunks.map (fun chunk =>
          chunk.map (fun c => c.duration))))
      = .ok [[[1, 1, 1]]]
    ∧ varLenBytes 480 = [0x83, 0x60]
    ∧ main 20 restSource = .ok (some
      ([77, 84, 104, 100, 0, 0, 0, 6, 0, 1, 0, 3, 1, 224]
        ++ ([77, 84, 114, 107, 0, 0, 0, 23] ++ [0, 0xFF, 0x03, 0]
          ++ [0, 0xFF, 0x51, 3, 0x07, 0xA1, 0x20] ++ [0, 0xFF, 0x58, 4, 4, 2, 24, 8]
          ++ [0, 0xFF, 0x2F, 0])
        ++ ([77, 84, 114, 107, 0, 0, 0, 20]
          ++ ([0, 0xFF, 0x03, 9] ++ "Left Hand".toList.map Char.toNat) ++ [0, 0xC0, 0]
          ++ [0, 0xFF, 0x2F, 0])
        ++ ([77, 84, 114, 107, 0, 0, 0, 39]
          ++ ([0, 0xFF, 0x03, 10] ++ "Right Hand".toList.map Char.toNat) ++ [0, 0xC1, 0]
          ++ ([0, 0x91, 60, 90] ++ varLenBytes 480 ++ [0x81, 60, 64])
          ++ ([0, 0x91, 62, 90] ++ varLenBytes 480 ++ [0x81, 62, 64])
          ++ [0, 0xFF, 0x2F, 0]))) := by
  decide

/-- C10: whenever `generateHandTrack` returns, the bytes it appended are, chord
by chord, one note-on per sounding note, whose velocity byte is the base
velocity of the dynamic marking adjusted by the articulation (`specVelocity`),
followed by the note-offs, each with release velocity 64; and it returns for
every playable hand. -/
theorem generateHandTrack_note_events (midi : MIDIWriter) (segments : List Segment)
    (map_block : MapBlock) (is_left : Bool) (channel : Nat) (default_octave : Int) :
    (∀ midi', generateHandTrack midi segments map_block is_left channel default_octave
        = .ok midi' →
      midi'.data
        = midi.data ++ specHandBytes segments map_block is_left channel default_octave)
    ∧ (handPlayable segments map_block is_left = true →
        ∃ midi', generateHandTrack midi segments map_block is_left channel default_octave
          = .ok midi') :=
  ⟨fun midi' h => generateHandTrack_data midi midi' segments map_block is_left channel
      default_octave h,
    fun h => generateHandTrack_ok segments map_block is_left channel default_octave h midi⟩

/-- Witness of C10: the right hand of the sample model, with a staccato `ff`
note (velocity 127), a tied `pp` note (40), an accented `f` note (127) and a
plain `mp` note (75). -/
theorem generateHandTrack_note_events_witness :
    ∃ midi', generateHandTrack {} sampleSegments sampleMapBlock false 1 4 = .ok midi'
      ∧ midi'.data = [] ++ specHandBytes sampleSegments sampleMapBlock false 1 4
      ∧ specHandBytes sampleSegments sampleMapBlock false 1 4
        = [0, 0x91, 60, 127] ++ varLenBytes 240 ++ [0x81, 60, 64]
          ++ ([0, 0x91, 62, 40] ++ varLenBytes 480 ++ [0x81, 62, 64])
          ++ ([0, 0x91, 64, 127] ++ varLenBytes 480 ++ [0x81, 64, 64])
          ++ ([0, 0x91, 65, 75] ++ varLenBytes 480 ++ [0x81, 65, 64]) := by
  obtain ⟨midi', h⟩ :=
    (generateHandTrack_note_events {} sampleSegments sampleMapBlock false 1 4).2 (by decide)
  exact ⟨midi', h,
    (generateHandTrack_note_events {} sampleSegments sampleMapBlock false 1 4).1 midi' h,
    by decide⟩

/-! ## Articulation marks in the MIDI program -/

theorem parseDuration_articulation (str : Str) (note : Note) :
    (parseDuration str note).articulation = note.articulation := by
  unfold parseDuration
  split_ifs <;> rfl

theorem parseNoteLoop_articulation (fuel : Nat) :
    ∀ (str : Str) (note result : Note), parseNoteLoop fuel str note = .ok result →
      result.articulation = note.articulation := by
  induction fuel with
  | zero => intro str note result h; simp [parseNoteLoop] at h
  | succ fuel ih =>
    intro str note result h
    cases str with
    | nil => simp [parseNoteLoop] at h; rw [← h]
    | cons c rest =>
      simp only [parseNoteLoop] at h
      split_ifs at h with h1 h2 h3 h4 h5 h6
      · exact (ih _ _ _ h :)
      · exact (ih _ _ _ h :)
      · exact (ih _ _ _ h :)
      · simp only [bind, Except.bind] at h
        split at h
        · simp at h
        · exact (ih _ _ _ h :)
      · exact (ih _ _ _ h :)
      · simp at h; rw [← h]; exact parseDuration_articulation _ _
      · exact (ih _ _ _ h :)

theorem parseNote_articulation (str : Str) (result : Note) (h : parseNote str = .ok result) :
    result.articulation = [] := by
  unfold parseNote at h
  cases str with
  | nil => simp at h; rw [← h]
  | cons c0 tail =>
    simp only at h
    split_ifs at h with h1 h2
    · simp at h; rw [← h]; exact parseDuration_articulation _ _
    · exact parseNoteLoop_articulation _ _ _ _ h
    · simp only [bind, Except.bind] at h
      split at h
      · simp at h
      · exact parseNoteLoop_articulation _ _ _ _ h

set_option maxRecDepth 100000 in
/-- C11 (the code departs from the claim): `parseNote` of the MIDI program has
no branch for an articulation mark, so every note it returns has an empty
articulation; for the right-hand body `1!` the right-hand track holds the
note-on of note 60 at velocity 90, not 110, and the note-off 480 ticks (the
bytes 83 60) later, not 240. -/
theorem main_staccatoSource :
    (∀ (str : Str) (note : Note), parseNote str = .ok note → note.articulation = [])
    ∧ varLenBytes 480 = [0x83, 0x60]
    ∧ main 20 staccatoSource = .ok (some
      ([77, 84, 104, 100, 0, 0, 0, 6, 0, 1, 0, 3, 1, 224]
        ++ ([77, 84, 114, 107, 0, 0, 0, 23] ++ [0, 0xFF, 0x03, 0]
          ++ [0, 0xFF, 0x51, 3, 0x07, 0xA1, 0x20] ++ [0, 0xFF, 0x58, 4, 4, 2, 24, 8]
          ++ [0, 0xFF, 0x2F, 0])
        ++ ([77, 84, 114, 107, 0, 0, 0, 20]
          ++ ([0, 0xFF, 0x03, 9] ++ "Left Hand".toList.map Char.toNat) ++ [0, 0xC0, 0]
          ++ [0, 0xFF, 0x2F, 0])
        ++ ([77, 84, 114, 107, 0, 0, 0, 30]
          ++ ([0, 0xFF, 0x03, 10] ++ "Right Hand".toList.map Char.toNat) ++ [0, 0xC1, 0]
          ++ ([0, 0x91, 60, 90] ++ varLenBytes 480 ++ [0x81, 60, 64])
          ++ [0, 0xFF, 0x2F, 0]))) :=
  ⟨parseNote_articulation, by decide, by decide⟩

/-! ## Note numbers -/

theorem lookup_none_of_not_mem {α β : Type} [BEq α] [LawfulBEq α] (l : List (α × β)) (a : α)
    (h : a ∉ l.map Prod.fst) : l.lookup a = none := by
  induction l with
  | nil => rfl
  | cons x xs ih =>
    obtain ⟨k, v⟩ := x
    simp only [List.map_cons, List.mem_cons, not_or] at h
    have hk : (a == k) = false := by simpa using h.1
    simp only [List.lookup, hk]
    exact ih h.2

theorem toInt32_chain (o s b : Int) :
    toInt32 (toInt32 (toInt32 (toInt32 (o + s) + 1) * 12) + b)
      = toInt32 ((o + s + 1) * 12 + b) := by
  unfold toInt32
  omega

theorem toInt32_of_range (x : Int) (h1 : -2147483648 ≤ x) (h2 : x ≤ 2147483647) :
    toInt32 x = x := by
  unfold toInt32
  omega

theorem pitchToMIDI_of_lookup (pitch : Str) (b o s : Int)
    (h : note_to_midi.lookup pitch = some b) :
    pitchToMIDI pitch o s = toInt32 ((o + s + 1) * 12 + b) := by
  unfold pitchToMIDI
  rw [h]
  exact toInt32_chain o s b

set_option maxRecDepth 100000 in
/-- C12 (the code departs from the claim): for every octave `o` and octave
shift `s`, `pitchToMIDI` returns for each of the seventeen letters of the table
(C 0, C# and Db 1, D 2, D# and Eb 3, E 4, F 5, F# and Gb 6, G 7, G# and Ab 8,
A 9, A# and Bb 10, B 11) the value of `(o + s + 1) * 12` plus the pitch class
in 32 bits, which is that number whenever it lies in the range of `int`, and 60
for every other string. The token "1^178956970" is decoded with the octave
shift 178956970; in the right hand the number is 2147483700, above the range
of `int`, and `pitchToMIDI` returns -2147483596. The note number of an event is
the byte of `pitchToMIDI` at the default octave of the track, and `generate`
builds the left-hand track with default octave 3 and the right-hand track with
default octave 4. -/
theorem pitchToMIDI_overflows (o s : Int) :
    (∀ e ∈ [("C", 0), ("C#", 1), ("Db", 1), ("D", 2), ("D#", 3), ("Eb", 3), ("E", 4), ("F", 5),
        ("F#", 6), ("Gb", 6), ("G", 7), ("G#", 8), ("Ab", 8), ("A", 9), ("A#", 10), ("Bb", 10),
        ("B", 11)],
      pitchToMIDI (String.toList e.1) o s = toInt32 ((o + s + 1) * 12 + e.2)
        ∧ (-2147483648 ≤ (o + s + 1) * 12 → (o + s + 1) * 12 + e.2 ≤ 2147483647 →
            pitchToMIDI (String.toList e.1) o s = (o + s + 1) * 12 + e.2))
    ∧ (∀ pitch : Str,
        pitch ∉ ["C", "C#", "Db", "D", "D#", "Eb", "E", "F", "F#", "Gb", "G", "G#", "Ab", "A",
          "A#", "Bb", "B"].map String.toList →
        pitchToMIDI pitch o s = 60)
    ∧ (parseNote "1^178956970".toList).map (fun n => (n.degree, n.octave_shift))
        = .ok (1, 178956970)
    ∧ pitchToMIDI "C".toList 4 178956970 = -2147483596
    ∧ (4 + 178956970 + 1) * 12 + 0 = (2147483700 : Int)
    ∧ (∀ (map_block : MapBlock) (default_octave : Int) (note : Note),
        specNoteNumber map_block default_octave note
          = toUInt8 (pitchToMIDI ((map_block.note_mapping.lookup note.degree).getD [])
              default_octave note.octave_shift))
    ∧ (∀ (metadata : Metadata) (map_block : MapBlock) (segments : List Segment) (bytes : List Nat),
        generate metadata map_block segments = .ok bytes →
        ∃ us, bytes = specHeader ++ specTrackChunk (specTrack0Body metadata us)
          ++ specTrackChunk (specHandTrackBody "Left Hand".toList segments map_block true 0 3)
          ++ specTrackChunk (specHandTrackBody "Right Hand".toList segments map_block false 1 4)) := by
  refine ⟨?_, ?_, by decide, by decide, by decide, fun _ _ _ => rfl, ?_⟩
  · intro e he
    have hl : note_to_midi.lookup (String.toList e.1) = some e.2 := by
      simp only [List.mem_cons, List.mem_singleton, List.not_mem_nil, or_false] at he
      rcases he with h | h | h | h | h | h | h | h | h | h | h | h | h | h | h | h | h <;>
        subst h <;> rfl
    have hv := pitchToMIDI_of_lookup _ e.2 o s hl
    refine ⟨hv, fun h1 h2 => ?_⟩
    have h0 : 0 ≤ e.2 := by
      simp only [List.mem_cons, List.mem_singleton, List.not_mem_nil, or_false] at he
      rcases he with h | h | h | h | h | h | h | h | h | h | h | h | h | h | h | h | h <;>
        subst h <;> decide
    rw [hv]
    exact toInt32_of_range _ (by omega) h2
  · intro pitch hp
    have : note_to_midi.lookup pitch = none := lookup_none_of_not_mem _ _ hp
    simp [pitchToMIDI, this]
  · intro md mb segs bytes h
    obtain ⟨us, _, hb⟩ := generate_bytes md mb segs bytes h
    exact ⟨us, hb⟩

/-! ## The MIDI parser does not read past the Main line -/

theorem steps_refl (p : AMSParser) : Steps p p := ⟨rfl, Nat.le_refl _⟩

theorem steps_trans {p q r : AMSParser} (h1 : Steps p q) (h2 : Steps q r) : Steps p r :=
  ⟨h2.1.trans h1.1, Nat.le_trans h1.2 h2.2⟩

theorem steps_succ {p q x : AMSParser} (h : Steps x q) (hl : x.lines = p.lines)
    (hc : x.current_line = p.current_line + 1) : Steps p q :=
  ⟨h.1.trans hl, by have := h.2; omega⟩

theorem moves_refl (p : AMSParser) : Moves p p := ⟨rfl, Nat.le_refl _, rfl⟩

theorem moves_succ {p q x : AMSParser} (h : Moves x q) (hl : x.lines = p.lines)
    (hc : x.current_line = p.current_line + 1) (hg : x.segments = p.segments) : Moves p q :=
  ⟨h.1.trans hl, by have := h.2.1; omega, h.2.2.trans hg⟩

theorem moves_steps {p q : AMSParser} (h : Moves p q) : Steps p q := ⟨h.1, h.2.1⟩

theorem parseHandLoop_moves :
    ∀ (fuel : Nat) (chunk_data : Str) (p : AMSParser) (r : Hand × AMSParser),
      parseHandLoop fuel chunk_data p = .ok r → Moves p r.2
  | 0, _, _, _, h => by simp [parseHandLoop] at h
  | fuel + 1, chunk_data, p, r, h => by
    simp only [parseHandLoop] at h
    split at h
    · simp only [Except.ok.injEq] at h; rw [← h]; exact moves_refl p
    · split_ifs at h
      all_goals first
        | (simp only [Except.ok.injEq] at h; rw [← h]; exact moves_refl p)
        | exact moves_succ (parseHandLoop_moves fuel _ _ r h) rfl rfl rfl
        | (simp only [bind, Except.bind] at h
           split at h
           · simp at h
           · simp only [Except.ok.injEq] at h; rw [← h]; exact moves_refl p)

theorem parseHand_moves (p : AMSParser) (r : Hand × AMSParser) (h : parseHand p = .ok r) :
    Moves p r.2 :=
  moves_succ (parseHandLoop_moves _ _ _ r h) rfl rfl rfl

theorem parseSegmentLoop_steps :
    ∀ (fuel : Nat) (seg : Segment) (p q : AMSParser),
      parseSegmentLoop fuel seg p = .ok q → Steps p q
  | 0, _, _, _, h => by simp [parseSegmentLoop] at h
  | fuel + 1, seg, p, q, h => by
    simp only [parseSegmentLoop] at h
    split at h
    · simp only [Except.ok.injEq] at h; rw [← h]; exact steps_refl p
    · split_ifs at h
      all_goals first
        | (simp only [Except.ok.injEq] at h; rw [← h]; exact ⟨rfl, Nat.le_succ _⟩)
        | exact steps_succ (parseSegmentLoop_steps fuel _ _ q h) rfl rfl
        | (simp only [bind, Except.bind] at h
           split at h
           · simp at h
           · exact steps_succ (parseSegmentLoop_steps fuel _ _ q h) rfl rfl)
        | (simp only [bind, Except.bind] at h
           split at h
           · simp at h
           · rename_i c hc
             exact steps_trans (moves_steps (parseHand_moves p c hc))
               (steps_succ (parseSegmentLoop_steps fuel _ _ q h) rfl rfl))

theorem parseSegment_steps (p q : AMSParser) (h : parseSegment p = .ok q) : Steps p q := by
  unfold parseSegment at h
  split at h
  · simp only [bind, Except.bind] at h
    split at h
    · simp at h
    · exact steps_succ (parseSegmentLoop_steps _ _ _ q h) rfl rfl
  · simp only [Except.ok.injEq] at h; rw [← h]; exact steps_refl p

theorem parseMetadataLoop_moves :
    ∀ (fuel : Nat) (p q : AMSParser), parseMetadataLoop fuel p = .ok q → Moves p q
  | 0, _, _, h => by simp [parseMetadataLoop] at h
  | fuel + 1, p, q, h => by
    simp only [parseMetadataLoop] at h
    split at h
    · simp only [Except.ok.injEq] at h; rw [← h]; exact moves_refl p
    · split_ifs at h
      all_goals first
        | (simp only [Except.ok.injEq] at h; rw [← h]; exact moves_refl p)
        | exact moves_succ (parseMetadataLoop_moves fuel _ q h) rfl rfl rfl
        | (split at h
           · exact moves_succ (parseMetadataLoop_moves fuel _ q h) rfl rfl rfl
           · exact moves_succ (parseMetadataLoop_moves fuel _ q h) rfl rfl rfl)

theorem parseMetadata_moves (p q : AMSParser) (h : parseMetadata p = .ok q) : Moves p q := by
  have hr := parseMetadataLoop_moves _ _ q h
  exact ⟨hr.1, hr.2.1, hr.2.2⟩

theorem parseMapLoop_moves :
    ∀ (fuel : Nat) (p : AMSParser) (r : Bool × AMSParser),
      parseMapLoop fuel p = .ok r → Moves p r.2
  | 0, _, _, h => by simp [parseMapLoop] at h
  | fuel + 1, p, r, h => by
    simp only [parseMapLoop] at h
    split at h
    · simp only [Except.ok.injEq] at h; rw [← h]; exact moves_refl p
    · split_ifs at h
      all_goals first
        | (simp only [Except.ok.injEq] at h; rw [← h]; exact ⟨rfl, Nat.le_succ _, rfl⟩)
        | exact moves_succ (parseMapLoop_moves fuel _ r h) rfl rfl rfl

theorem parseMap_moves (p : AMSParser) (r : Bool × AMSParser) (h : parseMap p = .ok r) :
    Moves p r.2 := by
  unfold parseMap at h
  split at h
  · simp only [Except.ok.injEq] at h; rw [← h]; exact moves_refl p
  · split_ifs at h
    · simp only [Except.ok.injEq] at h; rw [← h]; exact moves_refl p
    · exact moves_succ (parseMapLoop_moves _ _ r h) rfl rfl rfl

theorem parseLoop_steps :
    ∀ (fuel : Nat) (p q : AMSParser), parseLoop fuel p = .ok q → Steps p q
  | 0, _, _, h => by simp [parseLoop] at h
  | fuel + 1, p, q, h => by
    simp only [parseLoop] at h
    split at h
    · simp only [Except.ok.injEq] at h; rw [← h]; exact steps_refl p
    · split_ifs at h
      · exact steps_succ (parseLoop_steps fuel _ q h) rfl rfl
      · simp only [bind, Except.bind] at h
        split at h
        · simp at h
        · rename_i p1 h1
          exact steps_trans (parseSegment_steps p p1 h1) (parseLoop_steps fuel p1 q h)
      · simp only [Except.ok.injEq] at h; rw [← h]; exact steps_refl p
      · exact steps_succ (parseLoop_steps fuel _ q h) rfl rfl

/-! ### A line that begins with `Main()` -/

theorem dropWhile_snoc {α : Type} (f : α → Bool) (a : α) (ha : f a = false) :
    ∀ xs : List α, ∃ ys, (xs ++ [a]).dropWhile f = ys ++ [a]
  | [] => ⟨[], by simp [List.dropWhile, ha]⟩
  | x :: xs => by
    obtain ⟨ys, hys⟩ := dropWhile_snoc f a ha xs
    by_cases hx : f x = true
    · exact ⟨ys, by rw [List.cons_append, List.dropWhile_cons_of_pos hx, hys]⟩
    · exact ⟨x :: xs, by rw [List.cons_append, List.dropWhile_cons_of_neg hx]⟩

theorem main_line (m : Str) (h : startsWith m "Main()".toList = true) :
    ∃ t u, m = 'M' :: t ∧ trim m = 'M' :: u := by
  unfold startsWith at h
  simp only [Bool.and_eq_true, decide_eq_true_eq] at h
  cases m with
  | nil => exact absurd h.2 (by decide)
  | cons c t =>
    have hc : c = 'M' := by
      have := h.2
      simp only [String.toList, List.length_cons, List.length_nil, List.take_succ_cons,
        List.cons.injEq] at this
      exact this.1
    subst hc
    obtain ⟨ys, hys⟩ := dropWhile_snoc isTrimChar 'M' (by decide) t.reverse
    refine ⟨t, ys.reverse, rfl, ?_⟩
    unfold trim
    rw [List.dropWhile_cons_of_neg (by decide), List.reverse_cons, hys]
    simp

theorem startsWith_head (c d : Char) (t pfx : Str) (h : c ≠ d) :
    startsWith (c :: t) (d :: pfx) = false := by
  unfold startsWith
  simp only [List.length_cons, List.take_succ_cons, List.cons.injEq, Bool.and_eq_false_imp,
    decide_eq_true_eq, decide_eq_false_iff_not, not_and]
  intro _ hc
  exact absurd hc h

theorem cons_ne_of_head (c d : Char) (u v : Str) (h : c ≠ d) : c :: u ≠ d :: v :=
  fun e => h (List.head_eq_of_cons_eq e)

/-! ### The parser over two texts that agree before the Main line -/

theorem sameUpTo_line {k : Nat} {lines1 lines2 : List Str} (h : sameUpTo k lines1 lines2)
    (i : Nat) (hi : i < k) : lines2[i]? = lines1[i]? := by
  have h1 := congrArg (fun l => l[i]?) h.1
  simp only [List.getElem?_take, hi, if_true] at h1
  exact h1.symm

theorem parseHandLoop_sim (k : Nat) (L O : List Str) :
    ∀ (fuel1 fuel2 : Nat) (chunk_data : Str) (p : AMSParser) (r : Hand × AMSParser),
      parseHandLoop fuel1 chunk_data p = .ok r → sameUpTo k p.lines L →
      r.2.current_line ≤ k → k + 1 ≤ p.current_line + fuel2 →
      parseHandLoop fuel2 chunk_data (relines p L O) = .ok (r.1, relines r.2 L O)
  | 0, _, _, _, _, h, _, _, _ => by simp [parseHandLoop] at h
  | fuel1 + 1, fuel2, chunk_data, p, r, h, hs, hk, hf => by
    have hst := moves_steps (parseHandLoop_moves _ _ _ _ h)
    rcases Nat.lt_or_ge p.current_line k with hlt | hge
    · obtain ⟨f2, rfl⟩ : ∃ f2, fuel2 = f2 + 1 := ⟨fuel2 - 1, by omega⟩
      have hl : (relines p L O).lines[(relines p L O).current_line]?
          = p.lines[p.current_line]? := sameUpTo_line hs _ hlt
      simp only [parseHandLoop] at h ⊢
      rw [hl]
      cases hline : p.lines[p.current_line]? with
      | none =>
        simp only [hline, Except.ok.injEq] at h ⊢
        rw [← h]
      | some l =>
        simp only [hline] at h ⊢
        split_ifs at h ⊢
        all_goals first
          | (simp only [Except.ok.injEq] at h ⊢; rw [← h])
          | exact parseHandLoop_sim k L O fuel1 f2 _ p.advance r h hs hk
              (by simp only [AMSParser.advance]; omega)
          | (simp only [bind, Except.bind] at h ⊢
             split at h
             · simp at h
             · simp only [Except.ok.injEq] at h; rw [← h])
    · exfalso
      have hke : p.current_line = k := Nat.le_antisymm (Nat.le_trans hst.2 hk) hge
      obtain ⟨m, hm, hmain⟩ := hs.2.1
      obtain ⟨t, u, rfl, hu⟩ := main_line m hmain
      rw [← hke] at hm
      simp only [parseHandLoop, hm, hu, List.isEmpty_cons, Bool.false_eq_true, if_false] at h
      have hb : ¬ ('M' :: u = "\x7d".toList) := cons_ne_of_head 'M' '\x7d' u [] (by decide)
      rw [if_neg hb] at h
      split_ifs at h
      all_goals
        (have h2 := (moves_steps (parseHandLoop_moves _ _ _ _ h)).2
         simp only [AMSParser.advance] at h2
         omega)

theorem sameUpTo_length {k : Nat} {lines1 lines2 : List Str} (h : sameUpTo k lines1 lines2) :
    k < lines2.length := by
  obtain ⟨m, hm, _⟩ := h.2.2
  exact (List.getElem?_eq_some_iff.mp hm).1

theorem parseHand_sim (k : Nat) (L O : List Str) (p : AMSParser) (r : Hand × AMSParser)
    (h : parseHand p = .ok r) (hs : sameUpTo k p.lines L) (hk : r.2.current_line ≤ k) :
    parseHand (relines p L O) = .ok (r.1, relines r.2 L O) := by
  have hlen := sameUpTo_length hs
  have hr := parseHandLoop_sim k L O _ (L.length + 1) _ _ r h hs hk
    (by simp only [AMSParser.advance]; omega)
  exact hr

theorem parseSegmentLoop_sim (k : Nat) (L O : List Str) :
    ∀ (fuel1 fuel2 : Nat) (seg : Segment) (p q : AMSParser),
      parseSegmentLoop fuel1 seg p = .ok q → sameUpTo k p.lines L →
      q.current_line ≤ k → k + 1 ≤ p.current_line + fuel2 →
      parseSegmentLoop fuel2 seg (relines p L O) = .ok (relines q L O)
  | 0, _, _, _, _, h, _, _, _ => by simp [parseSegmentLoop] at h
  | fuel1 + 1, fuel2, seg, p, q, h, hs, hk, hf => by
    have hst := parseSegmentLoop_steps _ _ _ _ h
    rcases Nat.lt_or_ge p.current_line k with hlt | hge
    · obtain ⟨f2, rfl⟩ : ∃ f2, fuel2 = f2 + 1 := ⟨fuel2 - 1, by omega⟩
      have hl : (relines p L O).lines[(relines p L O).current_line]?
          = p.lines[p.current_line]? := sameUpTo_line hs _ hlt
      simp only [parseSegmentLoop] at h ⊢
      rw [hl]
      cases hline : p.lines[p.current_line]? with
      | none =>
        simp only [hline, Except.ok.injEq] at h ⊢
        rw [← h]
      | some l =>
        simp only [hline] at h ⊢
        split_ifs at h ⊢
        all_goals first
          | (simp only [Except.ok.injEq] at h ⊢; rw [← h]; rfl)
          | (have hr := parseSegmentLoop_sim k L O fuel1 f2 _ _ q h hs hk
               (by simp only [AMSParser.advance]; omega)
             exact hr)
          | (simp only [bind, Except.bind] at h ⊢
             cases hn : extractNumber (trim l) with
             | error e => simp [hn] at h
             | ok t =>
               simp only [hn] at h ⊢
               have hr := parseSegmentLoop_sim k L O fuel1 f2 _ _ q h hs hk
                 (by simp only [AMSParser.advance]; omega)
               exact hr)
          | (simp only [bind, Except.bind] at h ⊢
             cases hn : parseHand p with
             | error e => simp [hn] at h
             | ok c =>
               simp only [hn] at h ⊢
               have hm := parseHand_moves p c hn
               have h2 := (parseSegmentLoop_steps _ _ _ _ h).2
               simp only [AMSParser.advance] at h2
               rw [parseHand_sim k L O p c hn hs (by omega)]
               have hs2 : sameUpTo k c.2.advance.lines L := by
                 show sameUpTo k c.2.lines L
                 rw [hm.1]; exact hs
               have hr := parseSegmentLoop_sim k L O fuel1 f2 _ _ q h hs2 hk
                 (by have := hm.2.1; simp only [AMSParser.advance]; omega)
               exact hr)
    · exfalso
      have hke : p.current_line = k := Nat.le_antisymm (Nat.le_trans hst.2 hk) hge
      obtain ⟨m, hm, hmain⟩ := hs.2.1
      obtain ⟨t, u, rfl, hu⟩ := main_line m hmain
      rw [← hke] at hm
      have hb : ¬ ('M' :: u = "END;".toList) := cons_ne_of_head 'M' 'E' u _ (by decide)
      have h1 : startsWith ('M' :: u) "Tempo(".toList = false :=
        startsWith_head 'M' 'T' u _ (by decide)
      have h2 : startsWith ('M' :: u) "Begin.LEFT \x7b".toList = false :=
        startsWith_head 'M' 'B' u _ (by decide)
      have h3 : startsWith ('M' :: u) "Begin.RIGHT \x7b".toList = false :=
        startsWith_head 'M' 'B' u _ (by decide)
      simp only [parseSegmentLoop, hm, hu, List.isEmpty_cons, Bool.false_eq_true, if_false,
        h1, h2, h3] at h
      rw [if_neg hb] at h
      have h4 := (parseSegmentLoop_steps _ _ _ _ h).2
      simp only [AMSParser.advance] at h4
      omega

theorem parseSegment_sim (k : Nat) (L O : List Str) (p q : AMSParser)
    (h : parseSegment p = .ok q) (hs : sameUpTo k p.lines L) (hlt : p.current_line < k)
    (hk : q.current_line ≤ k) :
    parseSegment (relines p L O) = .ok (relines q L O) := by
  have hlen := sameUpTo_length hs
  have hl : (relines p L O).lines.getD (relines p L O).current_line []
      = p.lines.getD p.current_line [] := by
    show L.getD p.current_line [] = _
    rw [List.getD_eq_getElem?_getD, List.getD_eq_getElem?_getD, sameUpTo_line hs _ hlt]
  unfold parseSegment at h ⊢
  rw [hl]
  split at h
  · rename_i m1 m2 hre
    simp only [bind, Except.bind] at h ⊢
    cases hn : stoi m1 with
    | error e => simp [hn] at h
    | ok id =>
      simp only [hn] at h ⊢
      have hr := parseSegmentLoop_sim k L O _ (L.length + 1) _ _ q h hs hk
        (by simp only [AMSParser.advance]; omega)
      exact hr
  · simp only [Except.ok.injEq] at h
    rw [← h]

theorem parseMetadataLoop_sim (k : Nat) (L O : List Str) :
    ∀ (fuel1 fuel2 : Nat) (p q : AMSParser),
      parseMetadataLoop fuel1 p = .ok q → sameUpTo k p.lines L →
      q.current_line ≤ k → k + 1 ≤ p.current_line + fuel2 →
      parseMetadataLoop fuel2 (relines p L O) = .ok (relines q L O)
  | 0, _, _, _, h, _, _, _ => by simp [parseMetadataLoop] at h
  | fuel1 + 1, fuel2, p, q, h, hs, hk, hf => by
    have hst := moves_steps (parseMetadataLoop_moves _ _ _ h)
    rcases Nat.lt_or_ge p.current_line k with hlt | hge
    · obtain ⟨f2, rfl⟩ : ∃ f2, fuel2 = f2 + 1 := ⟨fuel2 - 1, by omega⟩
      have hl : (relines p L O).lines[(relines p L O).current_line]?
          = p.lines[p.current_line]? := sameUpTo_line hs _ hlt
      simp only [parseMetadataLoop] at h ⊢
      rw [hl]
      cases hline : p.lines[p.current_line]? with
      | none =>
        simp only [hline, Except.ok.injEq] at h ⊢
        rw [← h]
      | some l =>
        simp only [hline] at h ⊢
        split_ifs at h ⊢
        all_goals first
          | (simp only [Except.ok.injEq] at h ⊢; rw [← h])
          | (have hr := parseMetadataLoop_sim k L O fuel1 f2 _ q h hs hk
               (by simp only [AMSParser.advance]; omega)
             exact hr)
          | (cases hn : stoi (extractValue l) with
             | error e =>
               simp only [hn] at h ⊢
               have hr := parseMetadataLoop_sim k L O fuel1 f2 _ q h hs hk
                 (by simp only [AMSParser.advance]; omega)
               exact hr
             | ok t =>
               simp only [hn] at h ⊢
               have hr := parseMetadataLoop_sim k L O fuel1 f2 _ q h hs hk
                 (by simp only [AMSParser.advance]; omega)
               exact hr)
    · exfalso
      have hke : p.current_line = k := Nat.le_antisymm (Nat.le_trans hst.2 hk) hge
      obtain ⟨m, hm, hmain⟩ := hs.2.1
      obtain ⟨t, u, rfl, _⟩ := main_line m hmain
      rw [← hke] at hm
      have h1 : startsWith ('M' :: t) "Title:".toList = false :=
        startsWith_head 'M' 'T' t _ (by decide)
      have h2 : startsWith ('M' :: t) "Composer:".toList = false :=
        startsWith_head 'M' 'C' t _ (by decide)
      have h3 : startsWith ('M' :: t) "Key:".toList = false :=
        startsWith_head 'M' 'K' t _ (by decide)
      have h4 : startsWith ('M' :: t) "Tempo:".toList = false :=
        startsWith_head 'M' 'T' t _ (by decide)
      have h5 : startsWith ('M' :: t) "TimeSignature:".toList = false :=
        startsWith_head 'M' 'T' t _ (by decide)
      have h6 : startsWith ('M' :: t) "Difficulty:".toList = false :=
        startsWith_head 'M' 'D' t _ (by decide)
      have h7 : startsWith ('M' :: t) "Map \x7b".toList = true → False := by
        intro h7
        unfold startsWith at hmain h7
        simp only [Bool.and_eq_true, decide_eq_true_eq] at hmain h7
        have e1 := congrArg (List.take 3) hmain.2
        have e2 := congrArg (List.take 3) h7.2
        rw [List.take_take] at e1 e2
        exact absurd (e1.symm.trans e2) (by decide)
      simp only [parseMetadataLoop, hm, List.isEmpty_cons, Bool.false_eq_true, if_false,
        h1, h2, h3, h4, h5, h6] at h
      split_ifs at h with h8
      · exact h7 h8
      · have h9 := (moves_steps (parseMetadataLoop_moves _ _ _ h)).2
        simp only [AMSParser.advance] at h9
        omega

theorem parseMetadata_sim (k : Nat) (L O : List Str) (p q : AMSParser)
    (h : parseMetadata p = .ok q) (hs : sameUpTo k p.lines L) (hk : q.current_line ≤ k) :
    parseMetadata (relines p L O) = .ok (relines q L O) := by
  have hlen := sameUpTo_length hs
  have hr := parseMetadataLoop_sim k L O _ (L.length + 1) _ q h hs hk (by omega)
  exact hr

theorem parseMapLoop_sim (k : Nat) (L O : List Str) :
    ∀ (fuel1 fuel2 : Nat) (p : AMSParser) (r : Bool × AMSParser),
      parseMapLoop fuel1 p = .ok r → sameUpTo k p.lines L →
      r.2.current_line ≤ k → k + 1 ≤ p.current_line + fuel2 →
      parseMapLoop fuel2 (relines p L O) = .ok (r.1, relines r.2 L O)
  | 0, _, _, _, h, _, _, _ => by simp [parseMapLoop] at h
  | fuel1 + 1, fuel2, p, r, h, hs, hk, hf => by
    have hst := moves_steps (parseMapLoop_moves _ _ _ h)
    rcases Nat.lt_or_ge p.current_line k with hlt | hge
    · obtain ⟨f2, rfl⟩ : ∃ f2, fuel2 = f2 + 1 := ⟨fuel2 - 1, by omega⟩
      have hl : (relines p L O).lines[(relines p L O).current_line]?
          = p.lines[p.current_line]? := sameUpTo_line hs _ hlt
      simp only [parseMapLoop] at h ⊢
      rw [hl]
      cases hline : p.lines[p.current_line]? with
      | none =>
        simp only [hline, Except.ok.injEq] at h ⊢
        rw [← h]
      | some l =>
        simp only [hline] at h ⊢
        split_ifs at h ⊢
        all_goals first
          | (simp only [Except.ok.injEq] at h ⊢; rw [← h]; rfl)
          | (have hr := parseMapLoop_sim k L O fuel1 f2 _ r h hs hk
               (by simp only [AMSParser.advance]; omega)
             exact hr)
    · exfalso
      have hke : p.current_line = k := Nat.le_antisymm (Nat.le_trans hst.2 hk) hge
      obtain ⟨m, hm, hmain⟩ := hs.2.1
      obtain ⟨t, u, rfl, hu⟩ := main_line m hmain
      rw [← hke] at hm
      have hb : ¬ ('M' :: u = "\x7d".toList) := cons_ne_of_head 'M' '\x7d' u _ (by decide)
      simp only [parseMapLoop, hm, hu, List.isEmpty_cons, Bool.false_eq_true, if_false] at h
      rw [if_neg hb] at h
      split_ifs at h
      all_goals
        (have h2 := (moves_steps (parseMapLoop_moves _ _ _ h)).2
         simp only [AMSParser.advance] at h2
         omega)

theorem main_not_map (m : Str) (h : startsWith m "Main()".toList = true) :
    startsWith m "Map \x7b".toList = false := by
  cases hm : startsWith m "Map \x7b".toList with
  | false => rfl
  | true =>
    unfold startsWith at h hm
    simp only [Bool.and_eq_true, decide_eq_true_eq] at h hm
    have e1 := congrArg (List.take 3) h.2
    have e2 := congrArg (List.take 3) hm.2
    rw [List.take_take] at e1 e2
    exact absurd (e1.symm.trans e2) (by decide)

theorem parseMap_sim (k : Nat) (L O : List Str) (p : AMSParser) (r : Bool × AMSParser)
    (h : parseMap p = .ok r) (hs : sameUpTo k p.lines L) (hk : r.2.current_line ≤ k) :
    parseMap (relines p L O) = .ok (r.1, relines r.2 L O) := by
  have hst := moves_steps (parseMap_moves p r h)
  have hlen := sameUpTo_length hs
  rcases Nat.lt_or_ge p.current_line k with hlt | hge
  · have hl : (relines p L O).lines[(relines p L O).current_line]?
        = p.lines[p.current_line]? := sameUpTo_line hs _ hlt
    unfold parseMap at h ⊢
    rw [hl]
    cases hline : p.lines[p.current_line]? with
    | none =>
      simp only [hline, Except.ok.injEq] at h ⊢
      rw [← h]
    | some l =>
      simp only [hline] at h ⊢
      split_ifs at h ⊢
      · simp only [Except.ok.injEq] at h ⊢; rw [← h]
      · have hr := parseMapLoop_sim k L O _ (L.length + 1) _ r h hs hk
          (by simp only [AMSParser.advance]; omega)
        exact hr
  · have hke : p.current_line = k := Nat.le_antisymm (Nat.le_trans hst.2 hk) hge
    obtain ⟨m1, hm1, hmain1⟩ := hs.2.1
    obtain ⟨m2, hm2, hmain2⟩ := hs.2.2
    have hl2 : (relines p L O).lines[(relines p L O).current_line]? = some m2 := by
      show L[p.current_line]? = _
      rw [hke]; exact hm2
    rw [← hke] at hm1
    unfold parseMap at h ⊢
    rw [hl2]
    rw [hm1] at h
    simp only [main_not_map m1 hmain1, main_not_map m2 hmain2, Bool.not_false, if_true,
      Except.ok.injEq] at h ⊢
    rw [← h]

theorem parseLoop_sim (k : Nat) (L O : List Str) :
    ∀ (fuel : Nat) (p q : AMSParser),
      parseLoop fuel p = .ok q → sameUpTo k p.lines L → q.current_line ≤ k →
      parseLoop fuel (relines p L O) = .ok (relines q L O)
  | 0, _, _, h, _, _ => by simp [parseLoop] at h
  | fuel + 1, p, q, h, hs, hk => by
    have hst := parseLoop_steps _ _ _ h
    rcases Nat.lt_or_ge p.current_line k with hlt | hge
    · have hl : (relines p L O).lines[(relines p L O).current_line]?
          = p.lines[p.current_line]? := sameUpTo_line hs _ hlt
      simp only [parseLoop] at h ⊢
      rw [hl]
      cases hline : p.lines[p.current_line]? with
      | none =>
        simp only [hline, Except.ok.injEq] at h ⊢
        rw [← h]
      | some l =>
        simp only [hline] at h ⊢
        split_ifs at h ⊢
        · have hr := parseLoop_sim k L O fuel _ q h hs hk
          exact hr
        · simp only [bind, Except.bind] at h ⊢
          cases hn : parseSegment p with
          | error e => simp [hn] at h
          | ok p1 =>
            simp only [hn] at h ⊢
            have hs1 := parseSegment_steps p p1 hn
            have h2 := (parseLoop_steps _ _ _ h).2
            rw [parseSegment_sim k L O p p1 hn hs hlt (by omega)]
            have hs2 : sameUpTo k p1.lines L := by rw [hs1.1]; exact hs
            exact parseLoop_sim k L O fuel p1 q h hs2 hk
        · simp only [Except.ok.injEq] at h ⊢; rw [← h]
        · have hr := parseLoop_sim k L O fuel _ q h hs hk
          exact hr
    · have hke : p.current_line = k := Nat.le_antisymm (Nat.le_trans hst.2 hk) hge
      obtain ⟨m1, hm1, hmain1⟩ := hs.2.1
      obtain ⟨m2, hm2, hmain2⟩ := hs.2.2
      have hl2 : (relines p L O).lines[(relines p L O).current_line]? = some m2 := by
        show L[p.current_line]? = _
        rw [hke]; exact hm2
      rw [← hke] at hm1
      simp only [parseLoop] at h ⊢
      rw [hl2]
      rw [hm1] at h
      obtain ⟨t1, u1, rfl, _⟩ := main_line m1 hmain1
      obtain ⟨t2, u2, rfl, _⟩ := main_line m2 hmain2
      have e1 : startsWith ('M' :: t1) "Segment(".toList = false :=
        startsWith_head 'M' 'S' t1 _ (by decide)
      have e2 : startsWith ('M' :: t2) "Segment(".toList = false :=
        startsWith_head 'M' 'S' t2 _ (by decide)
      simp only [List.isEmpty_cons, Bool.false_eq_true, if_false, e1, e2, hmain1, hmain2,
        if_true, Except.ok.injEq] at h ⊢
      rw [← h]

theorem parse_sim (k : Nat) (L O : List Str) (fuel : Nat) (p : AMSParser)
    (r : Bool × AMSParser) (h : parse fuel p = .ok r) (hs : sameUpTo k p.lines L)
    (hk : r.2.current_line ≤ k) :
    parse fuel (relines p L O) = .ok (r.1, relines r.2 L O) := by
  unfold parse at h ⊢
  simp only [bind, Except.bind] at h ⊢
  cases h1 : parseMetadata p with
  | error e => simp [h1] at h
  | ok p1 =>
    simp only [h1] at h
    cases h2 : parseMap p1 with
    | error e => simp [h2] at h
    | ok c =>
      simp only [h2] at h
      have m1 := parseMetadata_moves p p1 h1
      have m2 := parseMap_moves p1 c h2
      have hs1 : sameUpTo k p1.lines L := by rw [m1.1]; exact hs
      have hg : generateNoteMapping (relines c.2 L O)
          = relines (generateNoteMapping c.2) L O := rfl
      cases hb : c.1 with
      | false =>
        simp only [hb, Bool.not_false, if_true, Except.ok.injEq] at h
        rw [← h] at hk ⊢
        have hc : c.2.current_line ≤ k := hk
        rw [parseMetadata_sim k L O p p1 h1 hs (by have := m2.2.1; omega)]
        simp only []
        rw [parseMap_sim k L O p1 c h2 hs1 hc]
        simp only [hb, Bool.not_false, if_true]
      | true =>
        simp only [hb, Bool.not_true, Bool.false_eq_true, if_false] at h
        cases h3 : parseLoop fuel (generateNoteMapping c.2) with
        | error e => simp [h3] at h
        | ok p3 =>
          simp only [h3, Except.ok.injEq] at h
          rw [← h] at hk ⊢
          have s3 := (parseLoop_steps _ _ _ h3).2
          have hc : c.2.current_line ≤ k := Nat.le_trans s3 hk
          have hs3 : sameUpTo k (generateNoteMapping c.2).lines L := by
            show sameUpTo k c.2.lines L
            rw [m2.1]; exact hs1
          rw [parseMetadata_sim k L O p p1 h1 hs (by have := m2.2.1; omega)]
          simp only []
          rw [parseMap_sim k L O p1 c h2 hs1 hc]
          simp only [hb, Bool.not_true, Bool.false_eq_true, if_false]
          rw [hg, parseLoop_sim k L O fuel _ p3 h3 hs3 hk]
          rfl

/-! ### The segments stay in the order of their headers -/

theorem order_push (p : AMSParser) (seg : Segment)
    (hlt : seg.definition_line < p.current_line)
    (hall : ∀ s ∈ p.segments, s.definition_line < seg.definition_line)
    (hpw : (p.segments.map (fun s => s.definition_line)).Pairwise (fun a b => a < b)) :
    inDefinitionOrder
      { p with segments := p.segments ++ [seg], current_line := p.current_line + 1 } := by
  constructor
  · show ((p.segments ++ [seg]).map (fun s => s.definition_line)).Pairwise (fun a b => a < b)
    rw [List.map_append, List.pairwise_append]
    refine ⟨hpw, List.pairwise_singleton _ _, ?_⟩
    intro a ha b hb
    obtain ⟨s, hs, rfl⟩ := List.mem_map.mp ha
    simp only [List.map_cons, List.map_nil, List.mem_singleton] at hb
    rw [hb]
    exact hall s hs
  · intro s hs
    show s.definition_line < p.current_line + 1
    rcases List.mem_append.mp hs with h1 | h1
    · exact Nat.lt_succ_of_lt (Nat.lt_trans (hall s h1) hlt)
    · rw [List.mem_singleton.mp h1]
      exact Nat.lt_succ_of_lt hlt

theorem parseSegmentLoop_order :
    ∀ (fuel : Nat) (seg : Segment) (p q : AMSParser),
      parseSegmentLoop fuel seg p = .ok q →
      seg.definition_line < p.current_line →
      (∀ s ∈ p.segments, s.definition_line < seg.definition_line) →
      (p.segments.map (fun s => s.definition_line)).Pairwise (fun a b => a < b) →
      inDefinitionOrder q
  | 0, _, _, _, h, _, _, _ => by simp [parseSegmentLoop] at h
  | fuel + 1, seg, p, q, h, hlt, hall, hpw => by
    have hp : inDefinitionOrder p := ⟨hpw, fun s hs => Nat.lt_trans (hall s hs) hlt⟩
    simp only [parseSegmentLoop] at h
    split at h
    · simp only [Except.ok.injEq] at h; rw [← h]; exact hp
    · split_ifs at h
      all_goals first
        | (simp only [Except.ok.injEq] at h; rw [← h]; exact order_push p seg hlt hall hpw)
        | exact parseSegmentLoop_order fuel _ _ q h (Nat.lt_succ_of_lt hlt) hall hpw
        | (simp only [bind, Except.bind] at h
           split at h
           · simp at h
           · exact parseSegmentLoop_order fuel _ _ q h (Nat.lt_succ_of_lt hlt) hall hpw)
        | (simp only [bind, Except.bind] at h
           split at h
           · simp at h
           · rename_i c hc
             have hm := parseHand_moves p c hc
             have hlt2 : seg.definition_line < c.2.advance.current_line :=
               Nat.lt_succ_of_le (Nat.le_trans (Nat.le_of_lt hlt) hm.2.1)
             have hall2 : ∀ s ∈ c.2.advance.segments,
                 s.definition_line < seg.definition_line := by
               intro s hs
               exact hall s (hm.2.2 ▸ hs)
             have hpw2 : (c.2.advance.segments.map (fun s => s.definition_line)).Pairwise
                 (fun a b => a < b) := by
               show (c.2.segments.map (fun s => s.definition_line)).Pairwise _
               rw [hm.2.2]; exact hpw
             exact parseSegmentLoop_order fuel _ _ q h hlt2 hall2 hpw2)

theorem parseSegment_order (p q : AMSParser) (h : parseSegment p = .ok q)
    (hp : inDefinitionOrder p) : inDefinitionOrder q := by
  unfold parseSegment at h
  split at h
  · simp only [bind, Except.bind] at h
    split at h
    · simp at h
    · exact parseSegmentLoop_order _ _ _ q h (Nat.lt_succ_self _) hp.2 hp.1
  · simp only [Except.ok.injEq] at h; rw [← h]; exact hp

theorem parseLoop_order :
    ∀ (fuel : Nat) (p q : AMSParser),
      parseLoop fuel p = .ok q → inDefinitionOrder p → inDefinitionOrder q
  | 0, _, _, h, _ => by simp [parseLoop] at h
  | fuel + 1, p, q, h, hp => by
    have hadv : inDefinitionOrder p.advance :=
      ⟨hp.1, fun s hs => Nat.lt_succ_of_lt (hp.2 s hs)⟩
    simp only [parseLoop] at h
    split at h
    · simp only [Except.ok.injEq] at h; rw [← h]; exact hp
    · split_ifs at h
      · exact parseLoop_order fuel _ q h hadv
      · simp only [bind, Except.bind] at h
        split at h
        · simp at h
        · rename_i p1 h1
          exact parseLoop_order fuel p1 q h (parseSegment_order p p1 h1 hp)
      · simp only [Except.ok.injEq] at h; rw [← h]; exact hp
      · exact parseLoop_order fuel _ q h hadv

theorem order_of_no_segments (p : AMSParser) (h : p.segments = []) : inDefinitionOrder p := by
  unfold inDefinitionOrder
  rw [h]
  exact ⟨List.Pairwise.nil, fun s hs => absurd hs (List.not_mem_nil s)⟩

theorem parse_order (fuel : Nat) (p : AMSParser) (r : Bool × AMSParser)
    (h : parse fuel p = .ok r) (hp : p.segments = []) : inDefinitionOrder r.2 := by
  unfold parse at h
  simp only [bind, Except.bind] at h
  cases h1 : parseMetadata p with
  | error e => simp [h1] at h
  | ok p1 =>
    simp only [h1] at h
    cases h2 : parseMap p1 with
    | error e => simp [h2] at h
    | ok c =>
      simp only [h2] at h
      have m1 := parseMetadata_moves p p1 h1
      have m2 := parseMap_moves p1 c h2
      have hc : c.2.segments = [] := by rw [m2.2.2, m1.2.2, hp]
      cases hb : c.1 with
      | false =>
        simp only [hb, Bool.not_false, if_true, Except.ok.injEq] at h
        rw [← h]
        exact order_of_no_segments _ hc
      | true =>
        simp only [hb, Bool.not_true, Bool.false_eq_true, if_false] at h
        cases h3 : parseLoop fuel (generateNoteMapping c.2) with
        | error e => simp [h3] at h
        | ok p3 =>
          simp only [h3, Except.ok.injEq] at h
          rw [← h]
          exact parseLoop_order fuel _ p3 h3 (order_of_no_segments _ hc)

/-! ### The Main block and the MIDI bytes -/

/-- C26 (amended): for two sources whose preprocessed lines agree before line
`k`, where line `k` of each begins with `Main()`: when `parse` of the MIDI
program returns on the first source with its cursor not past line `k`, it
returns on the second source the same verdict and the same parser state over
the other lines (metadata, map block, segments and errors are those of the
first), and `main` gives the same bytes for both. The segments of the result
stand in the order of their header lines, and the track `generateHandTrack`
writes for them is, for every split of that list, the track of the front part
followed by the track of the rest. -/
theorem main_block_not_consulted (fuel k : Nat) (src1 src2 : Str) (r : Bool × AMSParser)
    (hs : sameUpTo k (AMSParser.new src1).lines (AMSParser.new src2).lines)
    (hp : parse fuel (AMSParser.new src1) = .ok r)
    (hk : r.2.current_line ≤ k) :
    parse fuel (AMSParser.new src2)
        = .ok (r.1, relines r.2 (AMSParser.new src2).lines (AMSParser.new src2).original_lines)
      ∧ main fuel src2 = main fuel src1
      ∧ inDefinitionOrder r.2
      ∧ ∀ (midi : MIDIWriter) (front rest : List Segment) (is_left : Bool) (channel : Nat)
          (default_octave : Int), r.2.segments = front ++ rest →
          generateHandTrack midi r.2.segments r.2.map_block is_left channel default_octave
            = (generateHandTrack midi front r.2.map_block is_left channel default_octave).bind
                (fun m =>
                  generateHandTrack m rest r.2.map_block is_left channel default_octave) := by
  have h1 : parse fuel (AMSParser.new src2)
      = .ok (r.1, relines r.2 (AMSParser.new src2).lines (AMSParser.new src2).original_lines) :=
    parse_sim k _ _ fuel (AMSParser.new src1) r hp hs hk
  refine ⟨h1, ?_, parse_order fuel _ r hp rfl, ?_⟩
  · unfold main
    rw [h1, hp]
    rfl
  · intro midi front rest is_left channel default_octave hsplit
    rw [hsplit]
    unfold generateHandTrack
    rw [List.foldlM_append]
    rfl

/-- C26, an instance: the minimal source and the source that keeps its lines
up to `Main()` and then holds a `Repeat` block and a call of segment 9. -/
theorem main_block_not_consulted_witness :
    sameUpTo 9 (AMSParser.new minimalSource).lines (AMSParser.new callAfterRepeatSource).lines
      ∧ parse 20 (AMSParser.new minimalSource) = .ok (true, minimalParsedMIDI)
      ∧ minimalParsedMIDI.current_line ≤ 9
      ∧ parse 20 (AMSParser.new callAfterRepeatSource)
          = .ok (true, relines minimalParsedMIDI (AMSParser.new callAfterRepeatSource).lines
              (AMSParser.new callAfterRepeatSource).original_lines)
      ∧ main 20 callAfterRepeatSource = main 20 minimalSource
      ∧ inDefinitionOrder minimalParsedMIDI :=
  have hs : sameUpTo 9 (AMSParser.new minimalSource).lines
      (AMSParser.new callAfterRepeatSource).lines :=
    ⟨by decide, ⟨_, rfl, rfl⟩, ⟨_, rfl, rfl⟩⟩
  have hp : parse 20 (AMSParser.new minimalSource) = .ok (true, minimalParsedMIDI) := rfl
  have hk : minimalParsedMIDI.current_line ≤ 9 := Nat.le_refl 9
  have h := main_block_not_consulted 20 9 minimalSource callAfterRepeatSource
    (true, minimalParsedMIDI) hs hp hk
  ⟨hs, hp, hk, h.1, h.2.1, h.2.2.1⟩

/-- C26 (as written) fails: `unendedSource` and `endAfterMainSource` have the
same eight lines before their first line beginning with `Main()`, which is
line 8 of both. The segment of these lines has no `END;` before that line, so
`parseSegment` reads on through the Main block: the first source ends without
a segment, `parse` returns false and `main` writes no file; the second source
holds `END;` after the `Main()` line, `parse` returns true with one segment
and `main` writes the bytes. -/
theorem main_block_read_inside_segment :
    sameUpTo 8 (AMSParser.new unendedSource).lines (AMSParser.new endAfterMainSource).lines
      ∧ ((AMSParser.new unendedSource).lines.take 8).all
          (fun l => !startsWith l "Main()".toList) = true
      ∧ (parse 20 (AMSParser.new unendedSource)).map
          (fun r => (r.1, r.2.segments.length, r.2.current_line)) = .ok (false, 0, 11)
      ∧ (parse 20 (AMSParser.new endAfterMainSource)).map
          (fun r => (r.1, r.2.segments.length, r.2.current_line)) = .ok (true, 1, 11)
      ∧ main 20 unendedSource = .ok none
      ∧ (main 20 endAfterMainSource).map Option.isSome = .ok true :=
  ⟨⟨by decide, ⟨_, rfl, rfl⟩, ⟨_, rfl, rfl⟩⟩, by decide, rfl, rfl, rfl, rfl⟩

/-! ## A time signature that is read in part -/

set_option maxRecDepth 100000 in
/-- C34 (the code departs from the claim): `generate` assigns the numerator
before it converts the denominator, and the `catch` that follows keeps what was
assigned. The strings "", "4", "x/8" and "/8" give 4/4, but "3/x" gives the
numerator 3 with the denominator 4: the event written in track 0 is
FF 58 04 03 02 18 08. So does every string of two parts whose first part
converts and whose second part does not. -/
theorem time_signature_keeps_numerator :
    ["", "4", "x/8", "/8", "3/4/5", "3/x"].map (fun ts => timeSignatureValues ts.toList)
      = [(4, 4), (4, 4), (4, 4), (4, 4), (4, 4), (3, 4)]
    ∧ (({} : MIDIWriter).writeTimeSignature 3 4).data = [0xFF, 0x58, 4, 3, 2, 24, 8]
    ∧ (generate { tempo := 120, difficulty := 0, time_signature := "3/x".toList } {} []).map
        (fun bytes => (bytes.drop 33).take 8) = .ok [0, 0xFF, 0x58, 4, 3, 2, 24, 8]
    ∧ (generate { tempo := 120, difficulty := 0, time_signature := "x/8".toList } {} []).map
        (fun bytes => (bytes.drop 33).take 8) = .ok [0, 0xFF, 0x58, 4, 4, 2, 24, 8]
    ∧ (∀ (ts a b : Str) (n : Int) (e : Fault), split ts '/' = [a, b] → stoi a = .ok n →
        stoi b = .error e → timeSignatureValues ts = (toUInt8 n, 4)) := by
  refine ⟨by decide, by decide, by decide, by decide, ?_⟩
  intro ts a b n e hs ha hb
  unfold timeSignatureValues
  rw [hs]
  simp only [ha, hb]

/-! ## A `^` followed by `-` alone -/

theorem stoi_minus : stoi ['-'] = .error .invalid_argument := by decide

theorem takeWhile_nil_of_head {f : Char → Bool} (rest : Str)
    (h : rest.head?.map f ≠ some true) : rest.takeWhile f = [] := by
  cases rest with
  | nil => rfl
  | cons c r =>
    have hc : f c = false := by
      cases hf : f c with
      | false => rfl
      | true => exact absurd (by simp [hf]) h
    rw [List.takeWhile_cons, hc]
    rfl

/-- C32 (the code departs from the claim): after a `^` the note decoder
gathers an optional `-` and the digits that follow, and converts what it has
gathered whenever that is not empty. "1^" leaves the octave shift 0, "1^3" and
"1^-2" set it to 3 and to -2, but in "1^-" the gathered text is "-" and
`std::stoi` throws `std::invalid_argument`, in the MIDI program and in the JSON
program; so does every `^-` that no digit follows. -/
theorem parseNote_caret_minus_throws :
    ["1^", "1^3", "1^-2", "1^-"].map (fun s => (parseNote s.toList).map (fun n => n.octave_shift))
      = [.ok 0, .ok 3, .ok (-2), .error .invalid_argument]
    ∧ ["1^", "1^3", "1^-2", "1^-"].map
        (fun s => (JSONProg.parseNote s.toList).map (fun n => n.octave_shift))
      = [.ok 0, .ok 3, .ok (-2), .error .invalid_argument]
    ∧ (∀ (fuel : Nat) (rest : Str) (note : Note), rest.head?.map isdigit ≠ some true →
        parseNoteLoop (fuel + 1) ('^' :: '-' :: rest) note = .error .invalid_argument
          ∧ JSONProg.parseNoteLoop (fuel + 1) ('^' :: '-' :: rest) note
            = .error .invalid_argument) := by
  refine ⟨by decide, by decide, ?_⟩
  intro fuel rest note h
  have ht := takeWhile_nil_of_head rest h
  constructor
  · simp only [parseNoteLoop, ht, List.append_nil]
    rw [if_pos trivial, if_neg (by decide), stoi_minus]
    rfl
  · simp only [JSONProg.parseNoteLoop, ht, List.append_nil]
    rw [if_pos trivial, if_neg (by decide), stoi_minus]
    rfl

/-! ## Degrees and octaves the MIDI parser lets through -/

set_option maxRecDepth 100000 in
/-- C37 (the code departs from the claim): the MIDI parser checks no degree.
On the source with the right-hand body `8` it returns success with a note of
degree 8; the note mapping holds the degrees 1 to 7 only, so the lookup
`note_mapping.at(8)` of `generateHandTrack` throws `std::out_of_range` and
`main` ends with that exception. The JSON program records the LOGIC error for
the same source. -/
theorem degree_eight_crashes_generate :
    (parse 20 (AMSParser.new degreeEightSource)).map
        (fun r => (r.1, r.2.map_block.note_mapping.map Prod.fst,
          r.2.segments.map (fun seg => seg.right.chunks.map
            (fun chunk => chunk.map (fun chord => chord.notes.map
              (fun n => (n.degree, n.is_rest)))))))
      = .ok (true, [7, 6, 5, 4, 3, 2, 1], [[[[(8, false)]]]])
    ∧ (parse 20 (AMSParser.new degreeEightSource)).bind
        (fun r => generateHandTrack {} r.2.segments r.2.map_block false 1 4)
      = .error .out_of_range
    ∧ main 20 degreeEightSource = .error .out_of_range
    ∧ (JSONProg.parse 20 (JSONProg.AMSParser.new degreeEightSource 120 0)).map
        (fun r => (r.1, r.2.errors.map (fun e => (e.error_type, e.error_message))))
      = .ok (false, [("LOGIC".toList, "Invalid note degree: 8 (must be 1-7)".toList)]) := by
  refine ⟨rfl, by decide, by decide, by decide⟩

set_option maxRecDepth 100000 in
/-- C38 (the code departs from the claim): `pitchToMIDI` adds twelve per
octave of shift and nothing bounds the result. On the source with the tokens
`1^9` and `1^20` in the right hand and `1^-9` in the left hand, the note
numbers are 168, 300 and -60; the bytes written in the note-on and note-off
events are 168 (no data byte), 44 (300 wrapped modulo 256) and 196. -/
theorem note_number_leaves_data_range :
    [pitchToMIDI "C".toList 4 9, pitchToMIDI "C".toList 4 20, pitchToMIDI "C".toList 3 (-9)]
      = [168, 300, -60]
    ∧ [toUInt8 168, toUInt8 300, toUInt8 (-60)] = [168, 44, 196]
    ∧ (parse 20 (AMSParser.new highNoteSource)).map
        (fun r => (r.1, r.2.segments.map (fun seg =>
          (seg.left.chunks.map (fun chunk => chunk.map (fun chord => chord.notes.map
              (fun n => (n.degree, n.octave_shift)))),
            seg.right.chunks.map (fun chunk => chunk.map (fun chord => chord.notes.map
              (fun n => (n.degree, n.octave_shift))))))))
      = .ok (true, [([[[(1, -9)], [(1, 0)]]], [[[(1, 9)], [(1, 20)]]])])
    ∧ main 20 highNoteSource = .ok (some
      ([77, 84, 104, 100, 0, 0, 0, 6, 0, 1, 0, 3, 1, 224]
        ++ ([77, 84, 114, 107, 0, 0, 0, 23] ++ [0, 0xFF, 0x03, 0]
          ++ [0, 0xFF, 0x51, 3, 0x07, 0xA1, 0x20] ++ [0, 0xFF, 0x58, 4, 4, 2, 24, 8]
          ++ [0, 0xFF, 0x2F, 0])
        ++ ([77, 84, 114, 107, 0, 0, 0, 38]
          ++ ([0, 0xFF, 0x03, 9] ++ "Left Hand".toList.map Char.toNat) ++ [0, 0xC0, 0]
          ++ [0, 0x90, 196, 90, 0x83, 0x60, 0x80, 196, 64]
          ++ [0, 0x90, 48, 90, 0x83, 0x60, 0x80, 48, 64]
          ++ [0, 0xFF, 0x2F, 0])
        ++ ([77, 84, 114, 107, 0, 0, 0, 39]
          ++ ([0, 0xFF, 0x03, 10] ++ "Right Hand".toList.map Char.toNat) ++ [0, 0xC1, 0]
          ++ [0, 0x91, 168, 90, 0x83, 0x60, 0x81, 168, 64]
          ++ [0, 0x91, 44, 90, 0x83, 0x60, 0x81, 44, 64]
          ++ [0, 0xFF, 0x2F, 0]))) := by
  refine ⟨by decide, by decide, rfl, by decide⟩

/-! ## Accidentals and the MIDI bytes -/

theorem noteOnLoop_accidental (map_block : MapBlock) (channel : Nat) (default_octave : Int) :
    ∀ (notes : List Note) (midi : MIDIWriter),
      noteOnLoop map_block channel default_octave (notes.map noteWithoutAccidental) midi
        = noteOnLoop map_block channel default_octave notes midi
  | [], _ => rfl
  | n :: notes, midi => by
    have ih := noteOnLoop_accidental map_block channel default_octave notes
    simp only [List.map_cons, noteOnLoop, noteWithoutAccidental, ih]

theorem noteOffLoop_accidental (map_block : MapBlock) (channel : Nat) (default_octave : Int)
    (duration_ticks : Int) :
    ∀ (notes : List Note) (first_note : Bool) (midi : MIDIWriter),
      noteOffLoop map_block channel default_octave duration_ticks first_note
          (notes.map noteWithoutAccidental) midi
        = noteOffLoop map_block channel default_octave duration_ticks first_note notes midi
  | [], _, _ => rfl
  | n :: notes, first_note, midi => by
    have ih := noteOffLoop_accidental map_block channel default_octave duration_ticks notes
    simp only [List.map_cons, noteOffLoop, noteWithoutAccidental, ih]

theorem chordEvents_accidental (map_block : MapBlock) (channel : Nat) (default_octave : Int)
    (midi : MIDIWriter) (chord : Chord) :
    chordEvents map_block channel default_octave midi (chordWithoutAccidentals chord)
      = chordEvents map_block channel default_octave midi chord := by
  have hhead : ((chord.notes.map noteWithoutAccidental).head?.map (fun n => n.articulation))
      = chord.notes.head?.map (fun n => n.articulation) := by
    cases chord.notes with
    | nil => rfl
    | cons n ns => rfl
  have hempty : (chord.notes.map noteWithoutAccidental).isEmpty = chord.notes.isEmpty := by
    cases chord.notes with
    | nil => rfl
    | cons n ns => rfl
  simp only [chordEvents, chordWithoutAccidentals, hhead, hempty, noteOnLoop_accidental,
    noteOffLoop_accidental]

theorem generateHandTrack_accidental (segments : List Segment) (map_block : MapBlock)
    (is_left : Bool) (channel : Nat) (default_octave : Int) (midi : MIDIWriter) :
    generateHandTrack midi (segments.map segmentWithoutAccidentals) map_block is_left channel
        default_octave
      = generateHandTrack midi segments map_block is_left channel default_octave := by
  unfold generateHandTrack
  rw [List.foldlM_map]
  congr 1
  funext m segment
  have hh : (if is_left then (segmentWithoutAccidentals segment).left
        else (segmentWithoutAccidentals segment).right)
      = handWithoutAccidentals (if is_left then segment.left else segment.right) := by
    cases is_left <;> rfl
  simp only [hh, handWithoutAccidentals]
  rw [List.foldlM_map]
  congr 1
  funext m2 chunk
  rw [List.foldlM_map]
  congr 1
  funext m3 chord
  exact chordEvents_accidental map_block channel default_octave m3 chord

/-- C40: two lists of segments that are equal once the accidental of every
note is cleared give the same result of `generateHandTrack`, from every writer
state and for either hand, and the same bytes of `generate`. -/
theorem accidental_not_consulted (metadata : Metadata) (map_block : MapBlock)
    (segments1 segments2 : List Segment)
    (h : segments1.map segmentWithoutAccidentals = segments2.map segmentWithoutAccidentals) :
    (∀ (midi : MIDIWriter) (is_left : Bool) (channel : Nat) (default_octave : Int),
      generateHandTrack midi segments1 map_block is_left channel default_octave
        = generateHandTrack midi segments2 map_block is_left channel default_octave)
    ∧ generate metadata map_block segments1 = generate metadata map_block segments2 := by
  have hk : ∀ (midi : MIDIWriter) (is_left : Bool) (channel : Nat) (default_octave : Int),
      generateHandTrack midi segments1 map_block is_left channel default_octave
        = generateHandTrack midi segments2 map_block is_left channel default_octave := by
    intro midi is_left channel default_octave
    rw [← generateHandTrack_accidental segments1, ← generateHandTrack_accidental segments2, h]
  refine ⟨hk, ?_⟩
  unfold generate
  simp only [hk]

set_option maxRecDepth 100000 in
/-- C40, an instance: the minimal source and the source with the tokens `1#`
and `2b` in place of `1` and `2`. -/
theorem accidental_not_consulted_witness :
    (parse 20 (AMSParser.new accidentalSource)).map (fun r => r.2.segments)
        = .ok accidentalSegments
      ∧ (parse 20 (AMSParser.new minimalSource)).map (fun r => r.2.segments)
        = .ok minimalParsedMIDI.segments
      ∧ accidentalSegments ≠ minimalParsedMIDI.segments
      ∧ accidentalSegments.map segmentWithoutAccidentals
        = minimalParsedMIDI.segments.map segmentWithoutAccidentals
      ∧ generateHandTrack {} accidentalSegments sampleMapBlock false 1 4
        = generateHandTrack {} minimalParsedMIDI.segments sampleMapBlock false 1 4
      ∧ generate minimalParsedMIDI.metadata sampleMapBlock accidentalSegments
        = generate minimalParsedMIDI.metadata sampleMapBlock minimalParsedMIDI.segments
      ∧ main 20 accidentalSource = main 20 minimalSource :=
  have hs : accidentalSegments.map segmentWithoutAccidentals
      = minimalParsedMIDI.segments.map segmentWithoutAccidentals := by decide
  have h := accidental_not_consulted minimalParsedMIDI.metadata sampleMapBlock
    accidentalSegments minimalParsedMIDI.segments hs
  ⟨rfl, rfl, by decide, hs, h.1 {} false 1 4, h.2, by decide⟩

end MIDIProg

namespace JSONProg

/-! ## The chord decoder -/

/-- C2: in any parser state `parseChord` decodes "1.3.5.h" to the chord of
degrees 1, 3, 5 with duration 2, not dotted; "1.h" to the single note of
degree 1 with duration 2; "1." to the single dotted note of degree 1 with
duration 3/2; the state, and so the error list, is returned unchanged. -/
theorem parseChord_examples (p : AMSParser) :
    parseChord "1.3.5.h".toList p
        = .ok ({ notes := [{ degree := 1, duration := 2 }, { degree := 3, duration := 2 },
                           { degree := 5, duration := 2 }],
                 duration := 2, is_dotted := false }, p)
    ∧ parseChord "1.h".toList p
        = .ok ({ notes := [{ degree := 1, duration := 2 }], duration := 2,
                 is_dotted := false }, p)
    ∧ parseChord "1.".toList p
        = .ok ({ notes := [{ degree := 1, duration := 3 / 2, is_dotted := true }],
                 duration := 3 / 2, is_dotted := true }, p) := by
  refine ⟨rfl, rfl, ?_⟩
  have h : mkRat 3 2 = 3 / 2 := by norm_num [Rat.mkRat_eq_div]
  rw [← h]
  rfl

/-! ## The JSON program on the minimal source -/

set_option maxRecDepth 100000 in
theorem minimal_parseMetadata (t d : Int) :
    parseMetadata (AMSParser.new minimalSource t d) = .ok (AMSParser.new minimalSource t d) := rfl

set_option maxRecDepth 100000 in
theorem minimal_parseMap (t d : Int) :
    parseMap (AMSParser.new minimalSource t d)
      = .ok (true, { minimalAfterMap t d with
          map_block := { (minimalAfterMap t d).map_block with note_mapping := [] } }) := rfl

set_option maxRecDepth 100000 in
theorem minimal_validateMap (t d : Int) :
    validateMap { minimalAfterMap t d with
        map_block := { (minimalAfterMap t d).map_block with note_mapping := [] } }
      = (true, { minimalAfterMap t d with
          map_block := { (minimalAfterMap t d).map_block with note_mapping := [] } }) := rfl

set_option maxRecDepth 100000 in
theorem minimal_generateNoteMapping (t d : Int) :
    generateNoteMapping { minimalAfterMap t d with
        map_block := { (minimalAfterMap t d).map_block with note_mapping := [] } }
      = minimalAfterMap t d := rfl

set_option maxRecDepth 100000 in
theorem minimal_parseLoop (t d : Int) :
    parseLoop 20 (minimalAfterMap t d) = .ok (minimalParsed t d) := rfl

set_option maxRecDepth 100000 in
theorem minimal_validateSegments (t d : Int) :
    validateSegments (minimalParsed t d) = minimalParsed t d := rfl

/-- The JSON `parse` on the minimal source, step by step. -/
theorem minimal_parse (t d : Int) :
    parse 20 (AMSParser.new minimalSource t d) = .ok (true, minimalParsed t d) := by
  unfold parse
  rw [minimal_parseMetadata]
  simp only [bind, Except.bind]
  rw [minimal_parseMap]
  simp only [Bool.not_true, Bool.false_eq_true, if_false]
  rw [minimal_validateMap]
  simp only [Bool.not_true, Bool.false_eq_true, if_false]
  rw [minimal_generateNoteMapping, minimal_parseLoop]
  simp only []
  rfl

/-- C8: whatever the uninitialised tempo and difficulty are, the JSON program
parses the minimal source with success and without error; the model has one
segment, with no chunk in the left hand and one chunk of four chords in the
right hand, each a single plain note of duration 1 with the degrees 1, 2, 3, 4
in order, and the note mapping resolves them to C, D, E and F. -/
theorem parse_minimalSource (tempo0 difficulty0 : Int) :
    ∃ p, parse 20 (AMSParser.new minimalSource tempo0 difficulty0) = .ok (true, p)
      ∧ p.errors = []
      ∧ p.segments =
        [{ id := 1, name := "A".toList, tempo := tempo0, definition_line := 4
           left := { chunks := [] }
           right := { chunks := [[
             { notes := [{ degree := 1, duration := 1, is_dotted := false, is_rest := false }],
               duration := 1, is_dotted := false },
             { notes := [{ degree := 2, duration := 1, is_dotted := false, is_rest := false }],
               duration := 1, is_dotted := false },
             { notes := [{ degree := 3, duration := 1, is_dotted := false, is_rest := false }],
               duration := 1, is_dotted := false },
             { notes := [{ degree := 4, duration := 1, is_dotted := false, is_rest := false }],
               duration := 1, is_dotted := false }]] } }]
      ∧ (p.segments.flatMap (fun s => s.right.chunks.flatMap (fun chunk =>
            chunk.flatMap (fun c => c.notes.map (noteToJSON_pitch p.map_block)))))
          = [some "C".toList, some "D".toList, some "E".toList, some "F".toList] :=
  ⟨minimalParsed tempo0 difficulty0, minimal_parse tempo0 difficulty0, rfl, rfl, rfl⟩

/-! ## The scale resolver -/

theorem lookup_filter_ne {κ ν : Type} [BEq κ] [LawfulBEq κ] [DecidableEq κ] (m : List (κ × ν))
    (k d : κ) (h : d ≠ k) : (m.filter (fun e => e.1 ≠ k)).lookup d = m.lookup d := by
  induction m with
  | nil => rfl
  | cons x xs ih =>
    obtain ⟨a, b⟩ := x
    simp only [ne_eq, decide_not] at ih
    by_cases ha : a = k
    · subst ha
      have hd : (d == a) = false := by simpa using h
      simp [List.filter, List.lookup, hd, ih]
    · by_cases hda : d = a
      · subst hda
        simp [List.filter, List.lookup, ha]
      · have hd : (d == a) = false := by simpa using hda
        simp [List.filter, List.lookup, ha, hd, ih]

theorem lookup_mapSet {κ ν : Type} [BEq κ] [LawfulBEq κ] [DecidableEq κ] (m : List (κ × ν))
    (k d : κ) (v : ν) :
    (mapSet m k v).lookup d = if d = k then some v else m.lookup d := by
  unfold mapSet
  by_cases h : d = k
  · subst h
    simp [List.lookup]
  · have hd : (d == k) = false := by simpa using h
    simp only [List.lookup, hd, if_neg h]
    exact lookup_filter_ne m k d h

theorem storeScale_lookup (scale : List Str) (m : List (Int × Str)) (d : Int) :
    (storeScale scale m).lookup d
      = if 1 ≤ d ∧ d ≤ 7 then some (scale.getD (d - 1).toNat []) else m.lookup d := by
  have hr : List.range 7 = [0, 1, 2, 3, 4, 5, 6] := rfl
  simp only [storeScale, hr, List.foldl, lookup_mapSet]
  by_cases h7 : d = 7
  · subst h7; rfl
  by_cases h6 : d = 6
  · subst h6; rfl
  by_cases h5 : d = 5
  · subst h5; rfl
  by_cases h4 : d = 4
  · subst h4; rfl
  by_cases h3 : d = 3
  · subst h3; rfl
  by_cases h2 : d = 2
  · subst h2; rfl
  by_cases h1 : d = 1
  · subst h1; rfl
  have hn : ¬ (1 ≤ d ∧ d ≤ 7) := by omega
  have e7 : ¬ d = Int.ofNat 6 + 1 := h7
  have e6 : ¬ d = Int.ofNat 5 + 1 := h6
  have e5 : ¬ d = Int.ofNat 4 + 1 := h5
  have e4 : ¬ d = Int.ofNat 3 + 1 := h4
  have e3 : ¬ d = Int.ofNat 2 + 1 := h3
  have e2 : ¬ d = Int.ofNat 1 + 1 := h2
  have e1 : ¬ d = Int.ofNat 0 + 1 := h1
  simp only [if_neg hn, if_neg e7, if_neg e6, if_neg e5, if_neg e4, if_neg e3, if_neg e2,
    if_neg e1]

theorem storeScale_keys (scale : List Str) :
    (storeScale scale []).map Prod.fst = [7, 6, 5, 4, 3, 2, 1] := rfl

/-- C13: for each of the nine pairs of key and scale in the table of the JSON
program (C, G, D, E, F, B Major and A, E, D Minor), whatever the parser state,
`generateNoteMapping` stores a letter at each of the degrees 1 to 7, leaves
every other degree of the note mapping as it was, and maps degree 1 to the
letter of the key; on the empty mapping a parser starts with, the degrees of
the result are exactly 1 to 7. -/
theorem generateNoteMapping_degrees (p : AMSParser) (key scale : String)
    (hmem : (key, scale) ∈ [("C", "Major"), ("G", "Major"), ("D", "Major"), ("E", "Major"),
      ("F", "Major"), ("B", "Major"), ("A", "Minor"), ("E", "Minor"), ("D", "Minor")])
    (hkey : p.map_block.key = key.toList) (hscale : p.map_block.scale = scale.toList) :
    (∀ d : Int, 1 ≤ d → d ≤ 7 →
        ∃ letter, (generateNoteMapping p).map_block.note_mapping.lookup d = some letter)
    ∧ (∀ d : Int, d < 1 ∨ 7 < d →
        (generateNoteMapping p).map_block.note_mapping.lookup d
          = p.map_block.note_mapping.lookup d)
    ∧ (generateNoteMapping p).map_block.note_mapping.lookup 1 = some key.toList
    ∧ (p.map_block.note_mapping = [] →
        (generateNoteMapping p).map_block.note_mapping.map Prod.fst = [7, 6, 5, 4, 3, 2, 1]) := by
  refine ⟨?_, ?_, ?_, ?_⟩
  · intro d h1 h7
    simp only [generateNoteMapping, storeScale_lookup, if_pos (And.intro h1 h7)]
    exact ⟨_, rfl⟩
  · intro d hd
    have hn : ¬ (1 ≤ d ∧ d ≤ 7) := by omega
    simp only [generateNoteMapping, storeScale_lookup, if_neg hn]
  · simp only [generateNoteMapping, storeScale_lookup, hkey, hscale]
    simp only [List.mem_cons, List.mem_singleton, List.not_mem_nil, or_false, Prod.mk.injEq]
      at hmem
    rcases hmem with h | h | h | h | h | h | h | h | h <;>
      (obtain ⟨hk, hs⟩ := h; subst hk hs; rfl)
  · intro he
    simp only [generateNoteMapping, he]
    exact storeScale_keys _

theorem generateNoteMapping_degrees_witness :
    (∀ d : Int, 1 ≤ d → d ≤ 7 →
        ∃ letter, (generateNoteMapping
          { metadata := { tempo := 0, difficulty := 0 }
            map_block := { key := "F".toList, scale := "Major".toList } }).map_block.note_mapping.lookup d
          = some letter)
    ∧ (generateNoteMapping
          { metadata := { tempo := 0, difficulty := 0 }
            map_block := { key := "F".toList, scale := "Major".toList } }).map_block.note_mapping.lookup 1
        = some "F".toList
    ∧ (generateNoteMapping
          { metadata := { tempo := 0, difficulty := 0 }
            map_block := { key := "F".toList, scale := "Major".toList } }).map_block.note_mapping.map
          Prod.fst = [7, 6, 5, 4, 3, 2, 1] :=
  have h := generateNoteMapping_degrees
    { metadata := { tempo := 0, difficulty := 0 }
      map_block := { key := "F".toList, scale := "Major".toList } } "F" "Major"
    (by decide) rfl rfl
  ⟨h.1, h.2.2.1, h.2.2.2 rfl⟩

/-- C14 (the code departs from the claim): the table of the MIDI program holds
only C, D, G Major and A Minor and falls back to C Major for every other pair.
Of the nine pairs of the JSON program the two resolvers agree on C, G, D Major
and A Minor and differ on E, F, B Major and E, D Minor; for F Major degree 4 is
`F` in the MIDI program and `Bb` in the JSON program. -/
theorem scale_resolvers_differ :
    [("C", "Major"), ("G", "Major"), ("D", "Major"), ("E", "Major"), ("F", "Major"),
        ("B", "Major"), ("A", "Minor"), ("E", "Minor"), ("D", "Minor")].map
      (fun e => decide
        ((MIDIProg.generateNoteMapping
            { map_block := { key := e.1.toList, scale := e.2.toList } }).map_block.note_mapping
          = (generateNoteMapping
            { metadata := { tempo := 0, difficulty := 0 }
              map_block := { key := e.1.toList, scale := e.2.toList } }).map_block.note_mapping))
      = [true, true, true, false, false, false, true, false, false]
    ∧ (MIDIProg.generateNoteMapping
        { map_block := { key := "F".toList, scale := "Major".toList } }).map_block.note_mapping.lookup 4
        = some "F".toList
    ∧ (generateNoteMapping
        { metadata := { tempo := 0, difficulty := 0 }
          map_block := { key := "F".toList, scale := "Major".toList } }).map_block.note_mapping.lookup 4
        = some "Bb".toList := by
  decide

/-! ## Segment validation -/

theorem addError_at (p : AMSParser) (type message : Str) (n : Nat) :
    p.addError type message (some n)
      = { p with errors := p.errors ++ [errorRecord p.original_lines type message n] } := rfl

theorem alignment_foldl (seg : Segment) (indices : List Nat) :
    ∀ p : AMSParser,
      indices.foldl
        (fun p i =>
          let left_duration := chunkDuration seg.left i
          let right_duration := chunkDuration seg.right i
          if |left_duration - right_duration| > tolerance then
            p.addError "LOGIC".toList
              ("Duration mismatch in segment \x27".toList ++ seg.name ++ "\x27 chunk ".toList
                ++ to_string (Int.ofNat i + 1) ++ ": LEFT=".toList
                ++ to_string_double left_duration ++ " beats, RIGHT=".toList
                ++ to_string_double right_duration ++ " beats".toList)
              (some seg.definition_line)
          else p) p
      = { p with errors := p.errors
            ++ (indices.filter (durationMismatch seg)).map (mismatchError p.original_lines seg) } := by
  induction indices with
  | nil => intro p; simp
  | cons i rest ih =>
    intro p
    simp only [List.foldl_cons]
    by_cases h : |chunkDuration seg.left i - chunkDuration seg.right i| > tolerance
    · have hm : durationMismatch seg i = true := by simp [durationMismatch, h]
      rw [if_pos h, ih, addError_at]
      simp [List.filter_cons, hm, mismatchError]
    · have hm : durationMismatch seg i = false := by simp [durationMismatch, h]
      rw [if_neg h, ih]
      simp [List.filter_cons, hm]

theorem validateChunkAlignment_eq (seg : Segment) (p : AMSParser) :
    validateChunkAlignment seg p
      = { p with errors := p.errors
            ++ ((List.range (max seg.left.chunks.length seg.right.chunks.length)).filter
                (durationMismatch seg)).map (mismatchError p.original_lines seg) } := by
  unfold validateChunkAlignment
  exact alignment_foldl seg _ p

theorem unevenSegment_mismatch : durationMismatch unevenSegment 0 = true := by
  simp [durationMismatch, unevenSegment, chunkDuration, tolerance, Rat.mkRat_eq_div]
  norm_num

theorem closeSegment_mismatch : durationMismatch closeSegment 0 = false := by
  simp [durationMismatch, closeSegment, chunkDuration, tolerance, Rat.mkRat_eq_div]
  rw [show (201 : ℚ) / 200 - 1 = 1 / 200 by norm_num,
    abs_of_pos (by norm_num : (0 : ℚ) < 1 / 200)]
  norm_num


/-- C17: for every segment and parser state, `validateChunkAlignment` changes
nothing but the error list, to which it appends, in order, one LOGIC error for
each chunk index below the larger of the two chunk counts at which the sums of
the chord durations of the two hands (0 for a missing chunk) differ by more
than the `double` 0.01, and nothing for any other index. For a chunk of 4
beats against one of 3 beats that is exactly one error, with the line number
of the segment header; for sums that differ by 0.005 it is none. -/
theorem validateChunkAlignment_errors (seg : Segment) (p : AMSParser) :
    validateChunkAlignment seg p
      = { p with errors := p.errors
            ++ ((List.range (max seg.left.chunks.length seg.right.chunks.length)).filter
                (fun i =>
                  decide (|chunkDuration seg.left i - chunkDuration seg.right i| > tolerance))
                ).map (mismatchError p.original_lines seg) }
    ∧ (∀ i, (mismatchError p.original_lines seg i).error_type = "LOGIC".toList
        ∧ (mismatchError p.original_lines seg i).line_number = seg.definition_line + 1)
    ∧ (1 : ℚ) / 100 ≤ tolerance ∧ tolerance < 1 / 100 + 1 / 10 ^ 18
    ∧ chunkDuration unevenSegment.left 0 = 4 ∧ chunkDuration unevenSegment.right 0 = 3
    ∧ (validateChunkAlignment unevenSegment p).errors
        = p.errors ++ [mismatchError p.original_lines unevenSegment 0]
    ∧ chunkDuration closeSegment.left 0 - chunkDuration closeSegment.right 0 = 5 / 1000
    ∧ (validateChunkAlignment closeSegment p).errors = p.errors := by
  refine ⟨validateChunkAlignment_eq seg p, fun i => ⟨rfl, rfl⟩, ?_, ?_, ?_, ?_, ?_, ?_, ?_⟩
  · norm_num [tolerance, Rat.mkRat_eq_div]
  · norm_num [tolerance, Rat.mkRat_eq_div]
  · simp [unevenSegment, chunkDuration]
  · simp [unevenSegment, chunkDuration]
  · rw [validateChunkAlignment_eq]
    have hr : List.range (max unevenSegment.left.chunks.length
        unevenSegment.right.chunks.length) = [0] := rfl
    simp [hr, List.filter_cons, unevenSegment_mismatch]
  · simp [closeSegment, chunkDuration, Rat.mkRat_eq_div]
    norm_num
  · rw [validateChunkAlignment_eq]
    have hr : List.range (max closeSegment.left.chunks.length
        closeSegment.right.chunks.length) = [0] := rfl
    simp [hr, List.filter_cons, closeSegment_mismatch]

theorem segments_foldl (segs : List Segment) :
    ∀ p : AMSParser,
      segs.foldl
        (fun p seg =>
          let left_empty := seg.left.chunks.isEmpty
          let right_empty := seg.right.chunks.isEmpty
          if left_empty ∧ right_empty then
            p.addError "LOGIC".toList
              ("Segment \x27".toList ++ seg.name ++ "\x27 has no musical content".toList)
              (some seg.definition_line)
          else if !left_empty ∧ !right_empty then validateChunkAlignment seg p
          else p) p
      = { p with errors := p.errors ++ segs.flatMap (fun seg =>
            if seg.left.chunks = [] ∧ seg.right.chunks = [] then
              [noContentError p.original_lines seg]
            else if seg.left.chunks ≠ [] ∧ seg.right.chunks ≠ [] then
              ((List.range (max seg.left.chunks.length seg.right.chunks.length)).filter
                (durationMismatch seg)).map (mismatchError p.original_lines seg)
            else []) } := by
  induction segs with
  | nil => intro p; simp
  | cons seg rest ih =>
    intro p
    simp only [List.foldl_cons, List.flatMap_cons]
    rw [ih]
    rcases hl : seg.left.chunks with _ | ⟨a, l⟩ <;> rcases hr : seg.right.chunks with _ | ⟨b, r⟩ <;>
      simp [hl, hr, addError_at, noContentError, validateChunkAlignment_eq]

/-- C18 (as the code has it): `validateSegments` changes nothing but the error
list. To it each retained segment contributes, in order: the error "has no
musical content" when both hands are without chunks; the duration-mismatch
errors of `validateChunkAlignment`, one for each chunk index below the larger
chunk count at which the sums differ by more than the `double` 0.01, when both
hands have at least one chunk; and nothing at all when exactly one hand has
chunks, for the hands of such a segment are not compared. A chunk that a hand
does not have counts as duration 0. -/
theorem validateSegments_errors (p : AMSParser) :
    validateSegments p
      = { p with errors := p.errors ++ p.segments.flatMap (fun seg =>
            if seg.left.chunks = [] ∧ seg.right.chunks = [] then
              [noContentError p.original_lines seg]
            else if seg.left.chunks ≠ [] ∧ seg.right.chunks ≠ [] then
              ((List.range (max seg.left.chunks.length seg.right.chunks.length)).filter
                (fun i =>
                  decide (|chunkDuration seg.left i - chunkDuration seg.right i| > tolerance))
                ).map (mismatchError p.original_lines seg)
            else []) }
    ∧ ((∀ seg ∈ p.segments, (seg.left.chunks = [] ∧ seg.right.chunks ≠ [])
          ∨ (seg.left.chunks ≠ [] ∧ seg.right.chunks = [])) →
        validateSegments p = p)
    ∧ (∀ (hand : Hand) (i : Nat), hand.chunks.length ≤ i → chunkDuration hand i = 0) := by
  have key := segments_foldl p.segments p
  refine ⟨key, fun hone => ?_, fun hand i hi => ?_⟩
  · unfold validateSegments
    rw [key]
    have hnil : p.segments.flatMap (fun seg =>
        if seg.left.chunks = [] ∧ seg.right.chunks = [] then
          [noContentError p.original_lines seg]
        else if seg.left.chunks ≠ [] ∧ seg.right.chunks ≠ [] then
          ((List.range (max seg.left.chunks.length seg.right.chunks.length)).filter
            (durationMismatch seg)).map (mismatchError p.original_lines seg)
        else []) = [] := by
      rw [List.flatMap_eq_nil_iff]
      intro seg hseg
      rcases hone seg hseg with ⟨h1, h2⟩ | ⟨h1, h2⟩
      · simp [h1, h2]
      · simp [h1, h2]
    rw [hnil, List.append_nil]
  · unfold chunkDuration
    rw [List.getElem?_eq_none hi]

/-- C18, the claim as worded fails: the segment the JSON program retains from
the minimal source has no chunk in the left hand and one chunk in the right
hand, whose durations add up to 4 beats, and `parse` ends with success and an
empty error list: validation records no duration mismatch for it. -/
theorem validateSegments_right_hand_only :
    parse 20 (AMSParser.new minimalSource 120 0) = .ok (true, minimalParsed 120 0)
    ∧ (minimalParsed 120 0).segments.map
        (fun seg => (seg.left.chunks.length, seg.right.chunks.length, chunkDuration seg.right 0))
      = [(0, 1, 4)]
    ∧ (validateSegments (minimalParsed 120 0)).errors = []
    ∧ ¬ ∃ e ∈ (validateSegments (minimalParsed 120 0)).errors, e.error_type = "LOGIC".toList := by
  refine ⟨minimal_parse 120 0, ?_, ?_, ?_⟩
  · simp [minimalParsed, chunkDuration]
    norm_num
  · rw [minimal_validateSegments]; rfl
  · rw [minimal_validateSegments]
    simp [minimalParsed, minimalAfterMap, AMSParser.new]

/-! ## The result of `parse` -/

theorem addError_errors_ne_nil (p : AMSParser) (type message : Str) (line_num : Option Nat) :
    (p.addError type message line_num).errors ≠ [] := by
  simp [AMSParser.addError]

theorem validateMap_false (p : AMSParser) (h : (validateMap p).1 = false) :
    (validateMap p).2.errors ≠ [] := by
  unfold validateMap at h ⊢
  split_ifs at h ⊢
  · exact addError_errors_ne_nil _ _ _ _
  · exact addError_errors_ne_nil _ _ _ _
  · exact addError_errors_ne_nil _ _ _ _
  · exact addError_errors_ne_nil _ _ _ _

/-- C20: whenever `parse` of the JSON program returns, from whatever parser
state and with whatever fuel, its result is `true` exactly when the error list
of the state it leaves is empty; so every return of `false` leaves at least
one recorded error. -/
theorem parse_true_iff_no_errors (fuel : Nat) (p : AMSParser) (result : Bool) (q : AMSParser)
    (h : parse fuel p = .ok (result, q)) :
    (result = true ↔ q.errors = []) ∧ (result = false → q.errors ≠ []) := by
  have key : result = true ↔ q.errors = [] := by
    unfold parse at h
    simp only [bind, Except.bind] at h
    split at h
    · simp at h
    · split at h
      · simp at h
      · rename_i r hr
        split_ifs at h with h1 h2
        · simp only [Except.ok.injEq, Prod.mk.injEq] at h
          obtain ⟨hb, hq⟩ := h
          subst hb hq
          simp [AMSParser.addError]
        · simp only [Except.ok.injEq, Prod.mk.injEq] at h
          obtain ⟨hb, hq⟩ := h
          subst hb hq
          have := validateMap_false r.2 (by simpa using h2)
          simp [this]
        · split at h
          · simp at h
          · rename_i p3 hp3
            split_ifs at h with h3 h4
            · simp only [Except.ok.injEq, Prod.mk.injEq] at h
              obtain ⟨hb, hq⟩ := h
              subst hb hq
              simp [AMSParser.addError]
            · simp only [Except.ok.injEq, Prod.mk.injEq] at h
              obtain ⟨hb, hq⟩ := h
              subst hb hq
              simp [List.isEmpty_iff]
            · simp only [Except.ok.injEq, Prod.mk.injEq] at h
              obtain ⟨hb, hq⟩ := h
              subst hb hq
              simp [List.isEmpty_iff]
  refine ⟨key, fun hf he => ?_⟩
  rw [key.mpr he] at hf
  exact Bool.noConfusion hf

theorem parse_true_iff_no_errors_witness :
    ((true = true ↔ (minimalParsed 120 0).errors = [])
      ∧ (true = false → (minimalParsed 120 0).errors ≠ [])) :=
  parse_true_iff_no_errors 20 (AMSParser.new minimalSource 120 0) true (minimalParsed 120 0)
    (minimal_parse 120 0)

/-! ## Tempo and difficulty lines -/

theorem startsWith_iff (str pfx : Str) :
    startsWith str pfx = true ↔ ∃ rest, str = pfx ++ rest := by
  unfold startsWith
  simp only [Bool.and_eq_true, decide_eq_true_eq]
  constructor
  · rintro ⟨_, h⟩
    have hs := List.take_append_drop pfx.length str
    rw [h] at hs
    exact ⟨_, hs.symm⟩
  · rintro ⟨rest, rfl⟩
    simp

theorem tempo_line_step (fuel : Nat) (p : AMSParser) (line : Str)
    (hl : p.lines[p.current_line]? = some line)
    (ht : startsWith line "Tempo:".toList = true) :
    parseMetadataLoop (fuel + 1) p = parseMetadataLoop fuel
      { p with
        current_line := p.current_line + 1
        metadata :=
          { p.metadata with
            tempo := match stoi (extractValue line) with
              | .ok n => n
              | .error _ => p.metadata.tempo }
        errors := p.errors ++
          match stoi (extractValue line) with
          | .ok n =>
            if n < 1 ∨ n > 300 then
              [errorRecord p.original_lines "LOGIC".toList
                ("Tempo must be between 1 and 300 BPM, got: ".toList ++ extractValue line)
                p.current_line]
            else []
          | .error _ =>
            [errorRecord p.original_lines "SYNTAX".toList
              ("Invalid tempo value: ".toList ++ extractValue line) p.current_line] } := by
  obtain ⟨rest, rfl⟩ := (startsWith_iff _ _).mp ht
  have h0 : ("Tempo:".toList ++ rest).isEmpty = false := rfl
  have h1 : startsWith ("Tempo:".toList ++ rest) "Title:".toList = false := by
    simp [startsWith]
  have h2 : startsWith ("Tempo:".toList ++ rest) "Composer:".toList = false := by
    simp [startsWith]
  have h3 : startsWith ("Tempo:".toList ++ rest) "Key:".toList = false := by
    simp [startsWith]
  simp only [parseMetadataLoop, hl, h0, h1, h2, h3, ht, Bool.false_eq_true, if_false, if_true]
  cases hs : stoi (extractValue ("Tempo:".toList ++ rest)) with
  | error e => simp only []; rfl
  | ok n =>
    simp only []
    by_cases hn : n < 1 ∨ n > 300
    · have hn' : n ≤ 0 ∨ n > 300 := by omega
      simp only [if_pos hn, if_pos hn']
      rfl
    · have hn' : ¬ (n ≤ 0 ∨ n > 300) := by omega
      simp only [if_neg hn, if_neg hn', List.append_nil]
      rfl

theorem difficulty_line_step (fuel : Nat) (p : AMSParser) (line : Str)
    (hl : p.lines[p.current_line]? = some line)
    (ht : startsWith line "Difficulty:".toList = true) :
    parseMetadataLoop (fuel + 1) p = parseMetadataLoop fuel
      { p with
        current_line := p.current_line + 1
        metadata :=
          { p.metadata with
            difficulty := match stoi (extractValue line) with
              | .ok n => n
              | .error _ => p.metadata.difficulty }
        errors := p.errors ++
          match stoi (extractValue line) with
          | .ok n =>
            if n < 0 ∨ n > 10 then
              [errorRecord p.original_lines "LOGIC".toList
                ("Difficulty must be between 0 and 10, got: ".toList ++ extractValue line)
                p.current_line]
            else []
          | .error _ =>
            [errorRecord p.original_lines "SYNTAX".toList
              ("Invalid difficulty value: ".toList ++ extractValue line) p.current_line] } := by
  obtain ⟨rest, rfl⟩ := (startsWith_iff _ _).mp ht
  have h0 : ("Difficulty:".toList ++ rest).isEmpty = false := rfl
  have h1 : startsWith ("Difficulty:".toList ++ rest) "Title:".toList = false := by
    simp [startsWith]
  have h2 : startsWith ("Difficulty:".toList ++ rest) "Composer:".toList = false := by
    simp [startsWith]
  have h3 : startsWith ("Difficulty:".toList ++ rest) "Key:".toList = false := by
    simp [startsWith]
  have h4 : startsWith ("Difficulty:".toList ++ rest) "Tempo:".toList = false := by
    simp [startsWith]
  have h5 : startsWith ("Difficulty:".toList ++ rest) "TimeSignature:".toList = false := by
    simp [startsWith]
  simp only [parseMetadataLoop, hl, h0, h1, h2, h3, h4, h5, ht, Bool.false_eq_true, if_false,
    if_true]
  cases hs : stoi (extractValue ("Difficulty:".toList ++ rest)) with
  | error e => simp only []; rfl
  | ok n =>
    simp only []
    by_cases hn : n < 0 ∨ n > 10
    · simp only [if_pos hn]
      rfl
    · simp only [if_neg hn, List.append_nil]
      rfl

set_option maxRecDepth 100000 in
/-- C19: in the metadata loop of the JSON program, a line that starts with
`Tempo:` and whose value `std::stoi` reads as the integer `n` stores `n` and
records one LOGIC error exactly when `n < 1` or `n > 300`; a line that starts
with `Difficulty:` does the same with the bounds `n < 0` and `n > 10`; when
`std::stoi` throws on the value, the stored number is left as it was and one
SYNTAX error is recorded instead. In every case the loop goes on at the next
line. On the lines `Tempo: 301`, `Tempo: 120`, `Difficulty: 11`, `Tempo: fast`
the errors are LOGIC at line 1, LOGIC at line 3 and SYNTAX at line 4. -/
theorem metadata_number_lines (fuel : Nat) (p : AMSParser) (line : Str)
    (hl : p.lines[p.current_line]? = some line) :
    (startsWith line "Tempo:".toList = true →
      parseMetadataLoop (fuel + 1) p = parseMetadataLoop fuel
        { p with
          current_line := p.current_line + 1
          metadata :=
            { p.metadata with
              tempo := match stoi (extractValue line) with
                | .ok n => n
                | .error _ => p.metadata.tempo }
          errors := p.errors ++
            match stoi (extractValue line) with
            | .ok n =>
              if n < 1 ∨ n > 300 then
                [errorRecord p.original_lines "LOGIC".toList
                  ("Tempo must be between 1 and 300 BPM, got: ".toList ++ extractValue line)
                  p.current_line]
              else []
            | .error _ =>
              [errorRecord p.original_lines "SYNTAX".toList
                ("Invalid tempo value: ".toList ++ extractValue line) p.current_line] })
    ∧ (startsWith line "Difficulty:".toList = true →
      parseMetadataLoop (fuel + 1) p = parseMetadataLoop fuel
        { p with
          current_line := p.current_line + 1
          metadata :=
            { p.metadata with
              difficulty := match stoi (extractValue line) with
                | .ok n => n
                | .error _ => p.metadata.difficulty }
          errors := p.errors ++
            match stoi (extractValue line) with
            | .ok n =>
              if n < 0 ∨ n > 10 then
                [errorRecord p.original_lines "LOGIC".toList
                  ("Difficulty must be between 0 and 10, got: ".toList ++ extractValue line)
                  p.current_line]
              else []
            | .error _ =>
              [errorRecord p.original_lines "SYNTAX".toList
                ("Invalid difficulty value: ".toList ++ extractValue line) p.current_line] })
    ∧ (parseMetadata (AMSParser.new numbersSource 90 5)).map
        (fun q => (q.current_line, q.metadata.tempo, q.metadata.difficulty,
          q.errors.map (fun e => (e.line_number, e.error_type, e.error_message))))
      = .ok (4, 120, 11,
          [(1, "LOGIC".toList, "Tempo must be between 1 and 300 BPM, got: 301".toList),
           (3, "LOGIC".toList, "Difficulty must be between 0 and 10, got: 11".toList),
           (4, "SYNTAX".toList, "Invalid tempo value: fast".toList)]) :=
  ⟨tempo_line_step fuel p line hl, difficulty_line_step fuel p line hl, rfl⟩

theorem metadata_number_lines_witness :
    parseMetadataLoop 5 (AMSParser.new numbersSource 90 5)
      = parseMetadataLoop 4
        { AMSParser.new numbersSource 90 5 with
          current_line := 1
          metadata := { tempo := 301, difficulty := 5 }
          errors :=
            [{ line_number := 1, line_content := "Tempo: 301".toList, error_type := "LOGIC".toList
               error_message := "Tempo must be between 1 and 300 BPM, got: 301".toList }] } :=
  (metadata_number_lines 4 (AMSParser.new numbersSource 90 5) "Tempo: 301".toList rfl).1 rfl

/-! ## A segment defined twice -/

/-- A header whose id is already defined: `parseSegment` records one
REDEFINITION error at the header and moves one line on; nothing else changes. -/
theorem parseSegment_redefinition (p : AMSParser) (m1 m2 : Str) (id : Int) (line0 : Nat)
    (hr : regex_search seg_regex (p.lines.getD p.current_line []) = some [m1, m2])
    (hs : stoi m1 = .ok id) (hd : p.segment_definitions.lookup id = some line0) :
    parseSegment p = .ok
      { p with
        current_line := p.current_line + 1
        errors := p.errors ++
          [errorRecord p.original_lines "REDEFINITION".toList
            ("Segment with ID ".toList ++ to_string id ++ " already defined at line ".toList
              ++ to_string (Int.ofNat line0 + 1)) p.current_line] } := by
  unfold parseSegment
  rw [hr]
  simp only [hs, bind, Except.bind, hd]
  rfl

/-- One round of the loop of `parse` on a `Segment(` line. -/
theorem parseLoop_segment (fuel : Nat) (p : AMSParser) (line : Str)
    (hl : p.lines[p.current_line]? = some line) (he : line.isEmpty = false)
    (hd : startsWith line "Define ".toList = false)
    (hs : startsWith line "Segment(".toList = true) :
    parseLoop (fuel + 1) p = (parseSegment p).bind (parseLoop fuel) := by
  simp only [parseLoop, hl, he, hd, hs, Bool.false_eq_true, if_false, if_true, bind]

set_option maxRecDepth 100000 in
theorem duplicate_parseMetadata (t d : Int) :
    parseMetadata (AMSParser.new duplicateSource t d)
      = .ok (AMSParser.new duplicateSource t d) := rfl

set_option maxRecDepth 100000 in
theorem duplicate_parseMap (t d : Int) :
    parseMap (AMSParser.new duplicateSource t d)
      = .ok (true, { duplicateAfterMap t d with
          map_block := { (duplicateAfterMap t d).map_block with note_mapping := [] } }) := rfl

set_option maxRecDepth 100000 in
theorem duplicate_validateMap (t d : Int) :
    validateMap { duplicateAfterMap t d with
        map_block := { (duplicateAfterMap t d).map_block with note_mapping := [] } }
      = (true, { duplicateAfterMap t d with
          map_block := { (duplicateAfterMap t d).map_block with note_mapping := [] } }) := rfl

set_option maxRecDepth 100000 in
theorem duplicate_generateNoteMapping (t d : Int) :
    generateNoteMapping { duplicateAfterMap t d with
        map_block := { (duplicateAfterMap t d).map_block with note_mapping := [] } }
      = duplicateAfterMap t d := rfl

set_option maxRecDepth 100000 in
theorem duplicate_first (t d : Int) :
    parseSegment (duplicateAfterMap t d) = .ok (duplicateAfterFirst t d) := rfl

set_option maxRecDepth 100000 in
theorem duplicate_header (t d : Int) :
    parseSegment (duplicateAfterFirst t d) = .ok (duplicateAfterHeader t d) := by
  rw [parseSegment_redefinition (duplicateAfterFirst t d) ['1'] ['A'] 1 4 rfl rfl rfl]
  rfl

set_option maxRecDepth 100000 in
theorem duplicate_rest (t d : Int) :
    parseLoop 28 (duplicateAfterHeader t d) = .ok (duplicateParsed t d) := rfl

theorem bind_ok {α β : Type} (a : α) (f : α → Except Fault β) :
    (Except.ok a : Except Fault α).bind f = f a := rfl

theorem duplicate_parseLoop (t d : Int) :
    parseLoop 30 (duplicateAfterMap t d) = .ok (duplicateParsed t d) := by
  rw [parseLoop_segment 29 (duplicateAfterMap t d) "Segment(1, A)".toList rfl rfl rfl rfl,
    duplicate_first, bind_ok,
    parseLoop_segment 28 (duplicateAfterFirst t d) "Segment(1, A)".toList rfl rfl rfl rfl,
    duplicate_header, bind_ok]
  exact duplicate_rest t d

set_option maxRecDepth 100000 in
theorem duplicate_validateSegments (t d : Int) :
    validateSegments (duplicateParsed t d) = duplicateParsed t d := rfl

/-- The JSON `parse` on the source with the segment defined twice, step by
step. -/
theorem duplicate_parse (t d : Int) :
    parse 30 (AMSParser.new duplicateSource t d) = .ok (false, duplicateParsed t d) := by
  unfold parse
  rw [duplicate_parseMetadata]
  simp only [bind, Except.bind]
  rw [duplicate_parseMap]
  simp only [Bool.not_true, Bool.false_eq_true, if_false]
  rw [duplicate_validateMap]
  simp only [Bool.not_true, Bool.false_eq_true, if_false]
  rw [duplicate_generateNoteMapping, duplicate_parseLoop]
  simp only []
  rfl

/-! ## Segment ids and names stay unique -/

theorem view_addError (p : AMSParser) (type message : Str) (line_num : Option Nat) :
    segmentView (p.addError type message line_num) = segmentView p := rfl

theorem view_advance (p : AMSParser) : segmentView p.advance = segmentView p := rfl

theorem chordNotesLoop_view :
    ∀ (nps : List Str) (chord : Chord) (p : AMSParser) (r : Chord × AMSParser),
      chordNotesLoop nps chord p = .ok r → segmentView r.2 = segmentView p
  | [], chord, p, r, h => by
    simp only [chordNotesLoop, Except.ok.injEq] at h
    rw [← h]
  | np :: nps, chord, p, r, h => by
    simp only [chordNotesLoop] at h
    split_ifs at h with h1
    · simp only [bind, Except.bind] at h
      split at h
      · simp at h
      · rw [chordNotesLoop_view nps _ _ r h]
        split_ifs <;> rfl
    · exact chordNotesLoop_view nps _ _ r h

theorem parseChord_view (str : Str) (p : AMSParser) (r : Chord × AMSParser)
    (h : parseChord str p = .ok r) : segmentView r.2 = segmentView p := by
  unfold parseChord at h
  simp only at h
  split_ifs at h with h1
  · split at h
    · simp only [Except.ok.injEq] at h
      rw [← h]
    · simp only [bind, Except.bind] at h
      split at h
      · simp at h
      · exact chordNotesLoop_view _ _ _ _ h
  · simp only [bind, Except.bind] at h
    split at h
    · simp at h
    · simp only [Except.ok.injEq] at h
      rw [← h]
      simp only
      split_ifs <;> rfl

theorem foldlM_view {α β : Type} (p : AMSParser) (f : β × AMSParser → α → Except Fault (β × AMSParser))
    (hf : ∀ acc a r, f acc a = .ok r → segmentView r.2 = segmentView acc.2) :
    ∀ (l : List α) (acc r : β × AMSParser), segmentView acc.2 = segmentView p →
      l.foldlM f acc = .ok r → segmentView r.2 = segmentView p
  | [], acc, r, hacc, h => by
    simp only [List.foldlM, pure, Except.pure, Except.ok.injEq] at h
    rw [← h]; exact hacc
  | a :: l, acc, r, hacc, h => by
    simp only [List.foldlM, bind, Except.bind] at h
    split at h
    · simp at h
    · rename_i acc1 h1
      exact foldlM_view p f hf l acc1 r ((hf acc a acc1 h1).trans hacc) h

theorem parseChordSequence_view (str : Str) (p : AMSParser) (r : List Chord × AMSParser)
    (h : parseChordSequence str p = .ok r) : segmentView r.2 = segmentView p := by
  unfold parseChordSequence at h
  refine foldlM_view p _ ?_ _ _ r rfl h
  intro acc part r1 h1
  simp only at h1
  split_ifs at h1
  · simp only [Except.ok.injEq] at h1; rw [← h1]
  · simp only [bind, Except.bind] at h1
    split at h1
    · simp at h1
    · rename_i c hc
      simp only [Except.ok.injEq] at h1
      rw [← h1]
      exact parseChord_view _ _ _ hc

theorem parseChunks_view (data : Str) (p : AMSParser) (r : List (List Chord) × AMSParser)
    (h : parseChunks data p = .ok r) : segmentView r.2 = segmentView p := by
  unfold parseChunks at h
  refine foldlM_view p _ ?_ _ _ r rfl h
  intro acc part r1 h1
  simp only at h1
  split_ifs at h1
  · simp only [Except.ok.injEq] at h1; rw [← h1]
  · simp only [bind, Except.bind] at h1
    split at h1
    · simp at h1
    · rename_i c hc
      simp only [Except.ok.injEq] at h1
      rw [← h1]
      exact parseChordSequence_view _ _ _ hc

theorem parseHandLoop_view :
    ∀ (fuel : Nat) (chunk_data : Str) (p : AMSParser) (r : Hand × Bool × AMSParser),
      parseHandLoop fuel chunk_data p = .ok r → segmentView r.2.2 = segmentView p
  | 0, _, _, _, h => by simp [parseHandLoop] at h
  | fuel + 1, chunk_data, p, r, h => by
    simp only [parseHandLoop] at h
    split at h
    · simp only [Except.ok.injEq] at h; rw [← h]
    · split_ifs at h
      · exact (parseHandLoop_view fuel _ _ r h).trans (view_advance p)
      · simp only [Except.ok.injEq] at h; rw [← h]
      · simp only [bind, Except.bind] at h
        split at h
        · simp at h
        · rename_i c hc
          simp only [Except.ok.injEq] at h
          rw [← h]
          exact parseChunks_view _ _ _ hc
      · exact (parseHandLoop_view fuel _ _ r h).trans (view_advance p)
      · exact (parseHandLoop_view fuel _ _ r h).trans (view_advance p)

theorem parseHand_view (p : AMSParser) (r : Hand × AMSParser) (h : parseHand p = .ok r) :
    segmentView r.2 = segmentView p := by
  unfold parseHand at h
  simp only [bind, Except.bind] at h
  split at h
  · simp at h
  · rename_i c hc
    have hv := (parseHandLoop_view _ _ _ c hc).trans (view_advance p)
    split_ifs at h
    · simp only [Except.ok.injEq] at h; rw [← h]; exact hv
    · simp only [Except.ok.injEq] at h; rw [← h]; exact hv

theorem parseMacroLoop_view (macro_name : Str) :
    ∀ (fuel : Nat) (macro_body : Str) (p : AMSParser) (r : Bool × AMSParser),
      parseMacroLoop macro_name fuel macro_body p = .ok r → segmentView r.2 = segmentView p
  | 0, _, _, _, h => by simp [parseMacroLoop] at h
  | fuel + 1, macro_body, p, r, h => by
    simp only [parseMacroLoop] at h
    split at h
    · simp only [Except.ok.injEq] at h; rw [← h]
    · split_ifs at h
      · simp only [Except.ok.injEq] at h; rw [← h]; rfl
      · exact (parseMacroLoop_view macro_name fuel _ _ r h).trans (view_advance p)

theorem parseMacro_view (p q : AMSParser) (h : parseMacro p = .ok q) :
    segmentView q = segmentView p := by
  unfold parseMacro at h
  split at h
  · simp only at h
    split at h
    · simp only [Except.ok.injEq] at h; rw [← h]; rfl
    · simp only [bind, Except.bind] at h
      split at h
      · simp at h
      · rename_i c hc
        have hv := parseMacroLoop_view _ _ _ _ c hc
        split_ifs at h
        · simp only [Except.ok.injEq] at h; rw [← h]; exact hv
        · simp only [Except.ok.injEq] at h; rw [← h]; exact hv
  · simp only [Except.ok.injEq] at h; rw [← h]; rfl

theorem findMainOpenLoop_view :
    ∀ (fuel : Nat) (p : AMSParser) (r : Option Bool × AMSParser),
      findMainOpenLoop fuel p = .ok r → segmentView r.2 = segmentView p
  | 0, _, _, h => by simp [findMainOpenLoop] at h
  | fuel + 1, p, r, h => by
    simp only [findMainOpenLoop] at h
    split at h
    · simp only [Except.ok.injEq] at h; rw [← h]
    · split_ifs at h
      · exact (findMainOpenLoop_view fuel _ r h).trans (view_advance p)
      · simp only [Except.ok.injEq] at h; rw [← h]; rfl
      · simp only [Except.ok.injEq] at h; rw [← h]; rfl

theorem parseMainLoop_view :
    ∀ (fuel : Nat) (p : AMSParser) (r : Bool × AMSParser),
      parseMainLoop fuel p = .ok r → segmentView r.2 = segmentView p
  | 0, _, _, h => by simp [parseMainLoop] at h
  | fuel + 1, p, r, h => by
    simp only [parseMainLoop] at h
    split at h
    · simp only [Except.ok.injEq] at h; rw [← h]
    · split_ifs at h
      · exact (parseMainLoop_view fuel _ r h).trans (view_advance p)
      · simp only [Except.ok.injEq] at h; rw [← h]; rfl
      · split at h
        · simp only [bind, Except.bind] at h
          split at h
          · simp at h
          · rw [parseMainLoop_view fuel _ r h]
            split <;> rfl
        · exact (parseMainLoop_view fuel _ r h).trans rfl
      · split at h
        · simp only [bind, Except.bind] at h
          split at h
          · simp at h
          · rw [parseMainLoop_view fuel _ r h]
            split_ifs <;> rfl
        · exact (parseMainLoop_view fuel _ r h).trans rfl
      · exact (parseMainLoop_view fuel _ r h).trans (view_advance p)
      · exact (parseMainLoop_view fuel _ r h).trans rfl
      · exact (parseMainLoop_view fuel _ r h).trans (view_advance p)

theorem parseMain_view (p q : AMSParser) (h : parseMain p = .ok q) :
    segmentView q = segmentView p := by
  unfold parseMain at h
  simp only [bind, Except.bind] at h
  split at h
  · split at h
    · simp at h
    · rename_i c hc
      have hv2 := (parseMainLoop_view _ _ c hc).trans (view_advance p)
      split_ifs at h
      · simp only [Except.ok.injEq] at h; rw [← h]; exact hv2
      · simp only [Except.ok.injEq] at h; rw [← h]; exact hv2
  · split at h
    · simp at h
    · rename_i opened ho
      have hv := (findMainOpenLoop_view _ _ opened ho).trans (view_advance p)
      split at h
      · simp only [Except.ok.injEq] at h; rw [← h]; exact hv
      · simp only [Except.ok.injEq] at h; rw [← h]; exact hv
      · split at h
        · simp at h
        · rename_i c hc
          have hv2 := (parseMainLoop_view _ _ c hc).trans hv
          split_ifs at h
          · simp only [Except.ok.injEq] at h; rw [← h]; exact hv2
          · simp only [Except.ok.injEq] at h; rw [← h]; exact hv2

theorem parseMetadataLoop_view :
    ∀ (fuel : Nat) (p q : AMSParser),
      parseMetadataLoop fuel p = .ok q → segmentView q = segmentView p
  | 0, _, _, h => by simp [parseMetadataLoop] at h
  | fuel + 1, p, q, h => by
    simp only [parseMetadataLoop] at h
    split at h
    · simp only [Except.ok.injEq] at h; rw [← h]
    · split_ifs at h
      · exact (parseMetadataLoop_view fuel _ q h).trans rfl
      · exact (parseMetadataLoop_view fuel _ q h).trans rfl
      · exact (parseMetadataLoop_view fuel _ q h).trans rfl
      · exact (parseMetadataLoop_view fuel _ q h).trans rfl
      · split at h
        · rw [parseMetadataLoop_view fuel _ q h]
          split_ifs <;> rfl
        · exact (parseMetadataLoop_view fuel _ q h).trans rfl
      · exact (parseMetadataLoop_view fuel _ q h).trans rfl
      · split at h
        · rw [parseMetadataLoop_view fuel _ q h]
          split_ifs <;> rfl
        · exact (parseMetadataLoop_view fuel _ q h).trans rfl
      · simp only [Except.ok.injEq] at h; rw [← h]
      · exact (parseMetadataLoop_view fuel _ q h).trans rfl

theorem parseMapLoop_view :
    ∀ (fuel : Nat) (p : AMSParser) (r : Bool × AMSParser),
      parseMapLoop fuel p = .ok r → segmentView r.2 = segmentView p
  | 0, _, _, h => by simp [parseMapLoop] at h
  | fuel + 1, p, r, h => by
    simp only [parseMapLoop] at h
    split at h
    · simp only [Except.ok.injEq] at h; rw [← h]; rfl
    · split_ifs at h
      · exact (parseMapLoop_view fuel _ r h).trans rfl
      · simp only [Except.ok.injEq] at h; rw [← h]; rfl
      · exact (parseMapLoop_view fuel _ r h).trans rfl
      · exact (parseMapLoop_view fuel _ r h).trans rfl
      · exact (parseMapLoop_view fuel _ r h).trans rfl

theorem parseMap_view (p : AMSParser) (r : Bool × AMSParser) (h : parseMap p = .ok r) :
    segmentView r.2 = segmentView p := by
  unfold parseMap at h
  split at h
  · simp only [Except.ok.injEq] at h; rw [← h]
  · split_ifs at h
    · simp only [Except.ok.injEq] at h; rw [← h]
    · exact (parseMapLoop_view _ _ r h).trans rfl

theorem validateMap_view (p : AMSParser) : segmentView (validateMap p).2 = segmentView p := by
  unfold validateMap
  split_ifs <;> rfl

theorem validateSegments_view (p : AMSParser) :
    segmentView (validateSegments p) = segmentView p := by
  unfold validateSegments
  rw [segments_foldl]
  rfl

theorem pushed_refl (id : Int) (name : Str)
    (v : List Segment × List (Int × Nat) × List (Str × Nat)) : segmentPushed id name v v :=
  ⟨rfl, Or.inl rfl⟩

theorem parseSegmentLoop_view :
    ∀ (fuel : Nat) (seg : Segment) (has_left has_right : Bool) (p : AMSParser)
      (r : Bool × AMSParser),
      parseSegmentLoop fuel seg has_left has_right p = .ok r →
      segmentPushed seg.id seg.name (segmentView p) (segmentView r.2)
  | 0, _, _, _, _, _, h => by simp [parseSegmentLoop] at h
  | fuel + 1, seg, has_left, has_right, p, r, h => by
    simp only [parseSegmentLoop] at h
    split at h
    · simp only [Except.ok.injEq] at h; rw [← h]; exact pushed_refl _ _ _
    · split_ifs at h
      all_goals first
        | (have hr := parseSegmentLoop_view fuel _ _ _ _ r h
           exact hr)
        | (simp only [Except.ok.injEq] at h
           rw [← h]
           exact ⟨rfl, Or.inr ⟨seg, rfl, rfl, rfl⟩⟩)
        | (simp only [bind, Except.bind] at h
           split at h
           · simp at h
           · have hr := parseSegmentLoop_view fuel _ _ _ _ r h
             split_ifs at hr <;> exact hr)
        | (simp only [bind, Except.bind] at h
           split at h
           · simp at h
           · rename_i c hc
             have hr := parseSegmentLoop_view fuel _ _ _ _ r h
             have hv : segmentView c.2.advance = segmentView p :=
               (view_advance _).trans ((parseHand_view _ _ hc).trans rfl)
             rw [hv] at hr
             exact hr)

theorem unique_push (v w : List Segment × List (Int × Nat) × List (Str × Nat))
    (id : Int) (name : Str) (line : Nat) (hinv : segmentsUnique v)
    (hid : v.2.1.lookup id = none) (hname : v.2.2.lookup name = none)
    (hp : segmentPushed id name (v.1, mapSet v.2.1 id line, mapSet v.2.2 name line) w) :
    segmentsUnique w := by
  obtain ⟨hreg, hids, hnames⟩ := hinv
  obtain ⟨h2, h1⟩ := hp
  have hold : ∀ s ∈ v.1, (w.2.1.lookup s.id).isSome ∧ (w.2.2.lookup s.name).isSome := by
    intro s hs
    rw [h2]
    simp only [lookup_mapSet]
    constructor
    · split_ifs
      · rfl
      · exact (hreg s hs).1
    · split_ifs
      · rfl
      · exact (hreg s hs).2
  rcases h1 with h1 | ⟨seg, hsid, hsname, h1⟩
  · exact ⟨fun s hs => hold s (h1 ▸ hs), h1 ▸ hids, h1 ▸ hnames⟩
  · have hfresh_id : id ∉ v.1.map (fun s => s.id) := by
      intro hmem
      obtain ⟨s, hs, hsi⟩ := List.mem_map.mp hmem
      have := (hreg s hs).1
      rw [hsi, hid] at this
      exact Bool.noConfusion this
    have hfresh_name : name ∉ v.1.map (fun s => s.name) := by
      intro hmem
      obtain ⟨s, hs, hsn⟩ := List.mem_map.mp hmem
      have := (hreg s hs).2
      rw [hsn, hname] at this
      exact Bool.noConfusion this
    refine ⟨?_, ?_, ?_⟩
    · intro s hs
      rw [h1] at hs
      rcases List.mem_append.mp hs with hs | hs
      · exact hold s hs
      · rw [List.mem_singleton] at hs
        rw [hs, h2, hsid, hsname]
        simp only [lookup_mapSet, if_true]
        exact ⟨rfl, rfl⟩
    · rw [h1, List.map_append, List.map_singleton, hsid]
      exact List.Nodup.append hids (List.nodup_singleton _)
        (by simpa [List.Disjoint] using hfresh_id)
    · rw [h1, List.map_append, List.map_singleton, hsname]
      exact List.Nodup.append hnames (List.nodup_singleton _)
        (by simpa [List.Disjoint] using hfresh_name)

theorem parseSegment_unique (p q : AMSParser) (h : parseSegment p = .ok q)
    (hinv : segmentsUnique (segmentView p)) : segmentsUnique (segmentView q) := by
  unfold parseSegment at h
  split at h
  · simp only [bind, Except.bind] at h
    split at h
    · simp at h
    · split at h
      · simp only [Except.ok.injEq] at h; rw [← h]; exact hinv
      · rename_i hnone
        split at h
        · simp only [Except.ok.injEq] at h; rw [← h]; exact hinv
        · rename_i hnone2
          split at h
          · simp at h
          · rename_i r hr
            have hp := parseSegmentLoop_view _ _ _ _ _ r hr
            have hu := unique_push (segmentView p) (segmentView r.2) _ _ p.current_line hinv
              hnone hnone2 hp
            split_ifs at h
            · simp only [Except.ok.injEq] at h; rw [← h]; exact hu
            · simp only [Except.ok.injEq] at h; rw [← h]; exact hu
  · simp only [Except.ok.injEq] at h; rw [← h]; exact hinv

theorem parseLoop_unique :
    ∀ (fuel : Nat) (p q : AMSParser), parseLoop fuel p = .ok q →
      segmentsUnique (segmentView p) → segmentsUnique (segmentView q)
  | 0, _, _, h, _ => by simp [parseLoop] at h
  | fuel + 1, p, q, h, hinv => by
    simp only [parseLoop] at h
    split at h
    · simp only [Except.ok.injEq] at h; rw [← h]; exact hinv
    · split_ifs at h
      · exact parseLoop_unique fuel _ q h hinv
      · simp only [bind, Except.bind] at h
        split at h
        · simp at h
        · rename_i p1 h1
          exact parseLoop_unique fuel p1 q h (by rw [parseMacro_view p p1 h1]; exact hinv)
      · simp only [bind, Except.bind] at h
        split at h
        · simp at h
        · rename_i p1 h1
          exact parseLoop_unique fuel p1 q h (parseSegment_unique p p1 h1 hinv)
      · rw [parseMain_view _ q h]; exact hinv
      · exact parseLoop_unique fuel _ q h hinv

theorem parse_unique (fuel : Nat) (p : AMSParser) (r : Bool × AMSParser)
    (h : parse fuel p = .ok r) (hinv : segmentsUnique (segmentView p)) :
    segmentsUnique (segmentView r.2) := by
  unfold parse at h
  simp only [bind, Except.bind] at h
  split at h
  · simp at h
  · rename_i p1 h1
    have hv1 := parseMetadataLoop_view _ _ _ h1
    split at h
    · simp at h
    · rename_i m hm
      have hv2 := (parseMap_view _ _ hm).trans hv1
      split_ifs at h
      · simp only [Except.ok.injEq] at h; rw [← h]
        exact (show segmentView m.2 = segmentView p from hv2) ▸ hinv
      · simp only [Except.ok.injEq] at h; rw [← h]
        exact ((validateMap_view m.2).trans hv2) ▸ hinv
      · split at h
        · simp at h
        · rename_i p3 h3
          have hinv3 : segmentsUnique (segmentView p3) :=
            parseLoop_unique fuel _ p3 h3
              ((show segmentView (generateNoteMapping (validateMap m.2).2) = segmentView p from
                (validateMap_view m.2).trans hv2) ▸ hinv)
          split_ifs at h
          · simp only [Except.ok.injEq] at h; rw [← h]; exact hinv3
          · simp only [Except.ok.injEq] at h; rw [← h]
            exact (validateSegments_view p3) ▸ hinv3
          · simp only [Except.ok.injEq] at h; rw [← h]; exact hinv3

/-- C16: whenever `parse` of the JSON program returns on a source, with
success or without, the segments it has retained have pairwise distinct ids
and pairwise distinct names. -/
theorem parse_segments_distinct (fuel : Nat) (content : Str) (tempo0 difficulty0 : Int)
    (result : Bool) (q : AMSParser)
    (h : parse fuel (AMSParser.new content tempo0 difficulty0) = .ok (result, q)) :
    (q.segments.map (fun seg => seg.id)).Nodup
      ∧ (q.segments.map (fun seg => seg.name)).Nodup :=
  (parse_unique fuel _ _ h
    ⟨fun _ hs => absurd hs (List.not_mem_nil _), List.nodup_nil, List.nodup_nil⟩).2

theorem parse_segments_distinct_witness :
    ((duplicateParsed 120 0).segments.map (fun seg => seg.id)).Nodup
      ∧ ((duplicateParsed 120 0).segments.map (fun seg => seg.name)).Nodup :=
  parse_segments_distinct 30 duplicateSource 120 0 false (duplicateParsed 120 0)
    (duplicate_parse 120 0)

/-! ## What the parser functions keep -/

theorem keeps_refl (p : AMSParser) : Keeps p p := ⟨rfl, rfl, rfl, rfl, Nat.le_refl _⟩

theorem keeps_trans {p q r : AMSParser} (h1 : Keeps p q) (h2 : Keeps q r) : Keeps p r :=
  ⟨h2.1.trans h1.1, h2.2.1.trans h1.2.1, h2.2.2.1.trans h1.2.2.1,
    h2.2.2.2.1.trans h1.2.2.2.1, Nat.le_trans h1.2.2.2.2 h2.2.2.2.2⟩

theorem keeps_addError (p : AMSParser) (type message : Str) (line_num : Option Nat) :
    Keeps p (p.addError type message line_num) := ⟨rfl, rfl, rfl, rfl, Nat.le_refl _⟩

theorem keeps_advance (p : AMSParser) : Keeps p p.advance :=
  ⟨rfl, rfl, rfl, rfl, Nat.le_succ _⟩

theorem chordNotesLoop_keeps :
    ∀ (nps : List Str) (chord : Chord) (p : AMSParser) (r : Chord × AMSParser),
      chordNotesLoop nps chord p = .ok r → Keeps p r.2
  | [], chord, p, r, h => by
    simp only [chordNotesLoop, Except.ok.injEq] at h
    rw [← h]; exact keeps_refl p
  | np :: nps, chord, p, r, h => by
    simp only [chordNotesLoop] at h
    split_ifs at h with h1
    · simp only [bind, Except.bind] at h
      split at h
      · simp at h
      · refine keeps_trans ?_ (chordNotesLoop_keeps nps _ _ r h)
        split_ifs
        · exact keeps_addError _ _ _ _
        · exact keeps_refl p
    · exact chordNotesLoop_keeps nps _ _ r h

theorem parseChord_keeps (str : Str) (p : AMSParser) (r : Chord × AMSParser)
    (h : parseChord str p = .ok r) : Keeps p r.2 := by
  unfold parseChord at h
  simp only at h
  split_ifs at h with h1
  · split at h
    · simp only [Except.ok.injEq] at h
      rw [← h]; exact keeps_refl p
    · simp only [bind, Except.bind] at h
      split at h
      · simp at h
      · exact chordNotesLoop_keeps _ _ _ _ h
  · simp only [bind, Except.bind] at h
    split at h
    · simp at h
    · simp only [Except.ok.injEq] at h
      rw [← h]
      simp only
      split_ifs
      · exact keeps_addError _ _ _ _
      · exact keeps_refl p

theorem foldlM_keeps {α β : Type} (p : AMSParser)
    (f : β × AMSParser → α → Except Fault (β × AMSParser))
    (hf : ∀ acc a r, f acc a = .ok r → Keeps acc.2 r.2) :
    ∀ (l : List α) (acc r : β × AMSParser), Keeps p acc.2 →
      l.foldlM f acc = .ok r → Keeps p r.2
  | [], acc, r, hacc, h => by
    simp only [List.foldlM, pure, Except.pure, Except.ok.injEq] at h
    rw [← h]; exact hacc
  | a :: l, acc, r, hacc, h => by
    simp only [List.foldlM, bind, Except.bind] at h
    split at h
    · simp at h
    · rename_i acc1 h1
      exact foldlM_keeps p f hf l acc1 r (keeps_trans hacc (hf acc a acc1 h1)) h

theorem parseChordSequence_keeps (str : Str) (p : AMSParser) (r : List Chord × AMSParser)
    (h : parseChordSequence str p = .ok r) : Keeps p r.2 := by
  unfold parseChordSequence at h
  refine foldlM_keeps p _ ?_ _ _ r (keeps_refl p) h
  intro acc part r1 h1
  simp only at h1
  split_ifs at h1
  · simp only [Except.ok.injEq] at h1; rw [← h1]; exact keeps_refl _
  · simp only [bind, Except.bind] at h1
    split at h1
    · simp at h1
    · rename_i c hc
      simp only [Except.ok.injEq] at h1
      rw [← h1]
      exact parseChord_keeps _ _ _ hc

theorem parseChunks_keeps (data : Str) (p : AMSParser) (r : List (List Chord) × AMSParser)
    (h : parseChunks data p = .ok r) : Keeps p r.2 := by
  unfold parseChunks at h
  refine foldlM_keeps p _ ?_ _ _ r (keeps_refl p) h
  intro acc part r1 h1
  simp only at h1
  split_ifs at h1
  · simp only [Except.ok.injEq] at h1; rw [← h1]; exact keeps_refl _
  · simp only [bind, Except.bind] at h1
    split at h1
    · simp at h1
    · rename_i c hc
      simp only [Except.ok.injEq] at h1
      rw [← h1]
      exact parseChordSequence_keeps _ _ _ hc

theorem parseHandLoop_keeps :
    ∀ (fuel : Nat) (chunk_data : Str) (p : AMSParser) (r : Hand × Bool × AMSParser),
      parseHandLoop fuel chunk_data p = .ok r → Keeps p r.2.2
  | 0, _, _, _, h => by simp [parseHandLoop] at h
  | fuel + 1, chunk_data, p, r, h => by
    simp only [parseHandLoop] at h
    split at h
    · simp only [Except.ok.injEq] at h; rw [← h]; exact keeps_refl p
    · split_ifs at h
      · exact keeps_trans (keeps_advance p) (parseHandLoop_keeps fuel _ _ r h)
      · simp only [Except.ok.injEq] at h; rw [← h]; exact keeps_refl p
      · simp only [bind, Except.bind] at h
        split at h
        · simp at h
        · rename_i c hc
          simp only [Except.ok.injEq] at h
          rw [← h]
          exact parseChunks_keeps _ _ _ hc
      · exact keeps_trans (keeps_advance p) (parseHandLoop_keeps fuel _ _ r h)
      · exact keeps_trans (keeps_advance p) (parseHandLoop_keeps fuel _ _ r h)

theorem parseHand_keeps (p : AMSParser) (r : Hand × AMSParser) (h : parseHand p = .ok r) :
    Keeps p r.2 := by
  unfold parseHand at h
  simp only [bind, Except.bind] at h
  split at h
  · simp at h
  · rename_i c hc
    have hv := keeps_trans (keeps_advance p) (parseHandLoop_keeps _ _ _ c hc)
    split_ifs at h
    · simp only [Except.ok.injEq] at h; rw [← h]; exact hv
    · simp only [Except.ok.injEq] at h; rw [← h]
      exact keeps_trans hv (keeps_addError _ _ _ _)

theorem parseMacroLoop_keeps (macro_name : Str) :
    ∀ (fuel : Nat) (macro_body : Str) (p : AMSParser) (r : Bool × AMSParser),
      parseMacroLoop macro_name fuel macro_body p = .ok r → Keeps p r.2
  | 0, _, _, _, h => by simp [parseMacroLoop] at h
  | fuel + 1, macro_body, p, r, h => by
    simp only [parseMacroLoop] at h
    split at h
    · simp only [Except.ok.injEq] at h; rw [← h]; exact keeps_refl p
    · split_ifs at h
      · simp only [Except.ok.injEq] at h; rw [← h]
        exact ⟨rfl, rfl, rfl, rfl, Nat.le_succ _⟩
      · exact keeps_trans (keeps_advance p) (parseMacroLoop_keeps macro_name fuel _ _ r h)

theorem parseMacro_keeps (p q : AMSParser) (h : parseMacro p = .ok q) : Keeps p q := by
  unfold parseMacro at h
  split at h
  · simp only at h
    split at h
    · simp only [Except.ok.injEq] at h; rw [← h]
      exact ⟨rfl, rfl, rfl, rfl, Nat.le_succ _⟩
    · simp only [bind, Except.bind] at h
      split at h
      · simp at h
      · rename_i c hc
        have h2 := parseMacroLoop_keeps _ _ _ _ c hc
        have hv : Keeps p c.2 :=
          ⟨h2.1, h2.2.1, h2.2.2.1, h2.2.2.2.1, Nat.le_of_succ_le h2.2.2.2.2⟩
        split_ifs at h
        · simp only [Except.ok.injEq] at h; rw [← h]; exact hv
        · simp only [Except.ok.injEq] at h; rw [← h]
          exact keeps_trans hv (keeps_addError _ _ _ _)
  · simp only [Except.ok.injEq] at h; rw [← h]; exact keeps_addError _ _ _ _

theorem parseSegmentLoop_keeps :
    ∀ (fuel : Nat) (seg : Segment) (has_left has_right : Bool) (p : AMSParser)
      (r : Bool × AMSParser),
      parseSegmentLoop fuel seg has_left has_right p = .ok r → Keeps p r.2
  | 0, _, _, _, _, _, h => by simp [parseSegmentLoop] at h
  | fuel + 1, seg, has_left, has_right, p, r, h => by
    simp only [parseSegmentLoop] at h
    split at h
    · simp only [Except.ok.injEq] at h; rw [← h]; exact keeps_refl p
    · split_ifs at h
      all_goals first
        | (have hr := parseSegmentLoop_keeps fuel _ _ _ _ r h
           exact ⟨hr.1, hr.2.1, hr.2.2.1, hr.2.2.2.1, Nat.le_of_succ_le hr.2.2.2.2⟩)
        | (simp only [Except.ok.injEq] at h
           rw [← h]
           exact ⟨rfl, rfl, rfl, rfl, Nat.le_succ _⟩)
        | (simp only [bind, Except.bind] at h
           split at h
           · simp at h
           · have hr := parseSegmentLoop_keeps fuel _ _ _ _ r h
             refine ⟨hr.1.trans ?_, hr.2.1.trans ?_, hr.2.2.1.trans ?_, hr.2.2.2.1.trans ?_,
               Nat.le_trans ?_ hr.2.2.2.2⟩
             all_goals split_ifs
             all_goals first | rfl | exact Nat.le_succ _)
        | (simp only [bind, Except.bind] at h
           split at h
           · simp at h
           · rename_i c hc
             have hr := parseSegmentLoop_keeps fuel _ _ _ _ r h
             have hh := parseHand_keeps _ _ hc
             exact keeps_trans (keeps_trans (keeps_trans (keeps_addError p _ _ _) hh)
               (keeps_advance _)) hr)
        | (simp only [bind, Except.bind] at h
           split at h
           · simp at h
           · rename_i c hc
             have hr := parseSegmentLoop_keeps fuel _ _ _ _ r h
             have hh := parseHand_keeps _ _ hc
             exact keeps_trans (keeps_trans hh (keeps_advance _)) hr)

theorem parseSegment_keeps (p q : AMSParser) (h : parseSegment p = .ok q) : Keeps p q := by
  unfold parseSegment at h
  split at h
  · simp only [bind, Except.bind] at h
    split at h
    · simp at h
    · split at h
      · simp only [Except.ok.injEq] at h; rw [← h]
        exact ⟨rfl, rfl, rfl, rfl, Nat.le_succ _⟩
      · split at h
        · simp only [Except.ok.injEq] at h; rw [← h]
          exact ⟨rfl, rfl, rfl, rfl, Nat.le_succ _⟩
        · split at h
          · simp at h
          · rename_i r hr
            have h2 := parseSegmentLoop_keeps _ _ _ _ _ r hr
            have hv : Keeps p r.2 :=
              ⟨h2.1, h2.2.1, h2.2.2.1, h2.2.2.2.1, Nat.le_of_succ_le h2.2.2.2.2⟩
            split_ifs at h
            · simp only [Except.ok.injEq] at h; rw [← h]; exact hv
            · simp only [Except.ok.injEq] at h; rw [← h]
              exact keeps_trans hv (keeps_addError _ _ _ _)
  · simp only [Except.ok.injEq] at h; rw [← h]; exact keeps_addError _ _ _ _

theorem parseMetadataLoop_keeps :
    ∀ (fuel : Nat) (p q : AMSParser), parseMetadataLoop fuel p = .ok q → Keeps p q
  | 0, _, _, h => by simp [parseMetadataLoop] at h
  | fuel + 1, p, q, h => by
    simp only [parseMetadataLoop] at h
    split at h
    · simp only [Except.ok.injEq] at h; rw [← h]; exact keeps_refl p
    · split_ifs at h
      all_goals first
        | (simp only [Except.ok.injEq] at h; rw [← h]; exact keeps_refl p)
        | (have hr := parseMetadataLoop_keeps fuel _ q h
           exact ⟨hr.1, hr.2.1, hr.2.2.1, hr.2.2.2.1, Nat.le_of_succ_le hr.2.2.2.2⟩)
        | (split at h
           · have hr := parseMetadataLoop_keeps fuel _ q h
             refine ⟨hr.1.trans ?_, hr.2.1.trans ?_, hr.2.2.1.trans ?_, hr.2.2.2.1.trans ?_,
               Nat.le_trans ?_ hr.2.2.2.2⟩
             all_goals split_ifs
             all_goals first | rfl | exact Nat.le_succ _
           · have hr := parseMetadataLoop_keeps fuel _ q h
             exact ⟨hr.1, hr.2.1, hr.2.2.1, hr.2.2.2.1, Nat.le_of_succ_le hr.2.2.2.2⟩)

theorem parseMapLoop_keeps :
    ∀ (fuel : Nat) (p : AMSParser) (r : Bool × AMSParser),
      parseMapLoop fuel p = .ok r → Keeps p r.2
  | 0, _, _, h => by simp [parseMapLoop] at h
  | fuel + 1, p, r, h => by
    simp only [parseMapLoop] at h
    split at h
    · simp only [Except.ok.injEq] at h; rw [← h]; exact keeps_addError _ _ _ _
    · split_ifs at h
      all_goals first
        | (simp only [Except.ok.injEq] at h; rw [← h]; exact keeps_advance p)
        | (have hr := parseMapLoop_keeps fuel _ r h
           exact ⟨hr.1, hr.2.1, hr.2.2.1, hr.2.2.2.1, Nat.le_of_succ_le hr.2.2.2.2⟩)

theorem parseMap_keeps (p : AMSParser) (r : Bool × AMSParser) (h : parseMap p = .ok r) :
    Keeps p r.2 := by
  unfold parseMap at h
  split at h
  · simp only [Except.ok.injEq] at h; rw [← h]; exact keeps_refl p
  · split_ifs at h
    · simp only [Except.ok.injEq] at h; rw [← h]; exact keeps_refl p
    · have hr := parseMapLoop_keeps _ _ r h
      exact ⟨hr.1, hr.2.1, hr.2.2.1, hr.2.2.2.1, Nat.le_of_succ_le hr.2.2.2.2⟩

theorem validateMap_keeps (p : AMSParser) : Keeps p (validateMap p).2 := by
  unfold validateMap
  split_ifs <;> exact keeps_refl p

theorem parseLoop_keeps :
    ∀ (fuel : Nat) (p q : AMSParser), parseLoop fuel p = .ok q →
      (∀ (i : Nat) (l : Str), p.current_line ≤ i → p.lines[i]? = some l →
        startsWith l "Main()".toList = false) →
      Keeps p q
  | 0, _, _, h, _ => by simp [parseLoop] at h
  | fuel + 1, p, q, h, hmain => by
    simp only [parseLoop] at h
    split at h
    · simp only [Except.ok.injEq] at h; rw [← h]; exact keeps_refl p
    · rename_i line hline
      have hnext : ∀ p1 : AMSParser, Keeps p p1 →
          ∀ (i : Nat) (l : Str), p1.current_line ≤ i → p1.lines[i]? = some l →
            startsWith l "Main()".toList = false := by
        intro p1 hk i l hi hl
        rw [hk.1] at hl
        exact hmain i l (Nat.le_trans hk.2.2.2.2 hi) hl
      split_ifs at h with h1 h2 h3 h4
      · exact keeps_trans (keeps_advance p)
          (parseLoop_keeps fuel _ q h (hnext _ (keeps_advance p)))
      · simp only [bind, Except.bind] at h
        split at h
        · simp at h
        · rename_i p1 hp1
          have hk := parseMacro_keeps p p1 hp1
          exact keeps_trans hk (parseLoop_keeps fuel p1 q h (hnext p1 hk))
      · simp only [bind, Except.bind] at h
        split at h
        · simp at h
        · rename_i p1 hp1
          have hk := parseSegment_keeps p p1 hp1
          exact keeps_trans hk (parseLoop_keeps fuel p1 q h (hnext p1 hk))
      · rw [hmain p.current_line line (Nat.le_refl _) hline] at h4
        exact absurd h4 (by decide)
      · exact keeps_trans (keeps_advance p)
          (parseLoop_keeps fuel _ q h (hnext _ (keeps_advance p)))

/-! ## The fatal conditions of `parse` -/

theorem parseMetadataLoop_no_map :
    ∀ (fuel : Nat) (p : AMSParser),
      (∀ (i : Nat) (l : Str), p.current_line ≤ i → p.lines[i]? = some l →
        startsWith l "Map \x7b".toList = false) →
      0 < fuel → p.lines.length + 1 ≤ p.current_line + fuel →
      ∃ q, parseMetadataLoop fuel p = .ok q ∧ p.lines.length ≤ q.current_line
        ∧ q.macros = p.macros
  | 0, _, _, h0, _ => absurd h0 (Nat.lt_irrefl 0)
  | fuel + 1, p, hmap, _, hfuel => by
    simp only [parseMetadataLoop]
    split
    · rename_i hnone
      exact ⟨p, rfl, List.getElem?_eq_none_iff.mp hnone, rfl⟩
    · rename_i line hline
      have hlt : p.current_line < p.lines.length := by
        by_contra hge
        rw [List.getElem?_eq_none (Nat.le_of_not_lt hge)] at hline
        exact Option.noConfusion hline
      have step : ∀ X : AMSParser, X.lines = p.lines → X.current_line = p.current_line + 1 →
          X.macros = p.macros →
          ∃ q, parseMetadataLoop fuel X = .ok q ∧ p.lines.length ≤ q.current_line
            ∧ q.macros = p.macros := by
        intro X h1 h2 h3
        have hX : ∀ (i : Nat) (l : Str), X.current_line ≤ i → X.lines[i]? = some l →
            startsWith l "Map \x7b".toList = false := by
          intro i l hi hl
          rw [h1] at hl
          exact hmap i l (by omega) hl
        obtain ⟨q, hq, hl, hm⟩ := parseMetadataLoop_no_map fuel X hX (by omega)
          (by rw [h1, h2]; omega)
        exact ⟨q, hq, h1 ▸ hl, hm.trans h3⟩
      have hno := hmap p.current_line line (Nat.le_refl _) hline
      simp only [hno, Bool.false_eq_true, if_false]
      split_ifs
      all_goals first
        | exact step _ rfl rfl rfl
        | (split
           · split_ifs <;> exact step _ rfl rfl rfl
           · exact step _ rfl rfl rfl)

/-- C22: for every source none of whose processed lines begins with `Map {`,
whatever the fuel and the uninitialised tempo and difficulty, `parse` of the
JSON program returns `false`; the last error it has recorded is the SEMANTIC
error reporting the missing Map block, and the model is as it started: no
segment, no macro, no note mapping, and `has_main_block` is not set. -/
theorem parse_missing_map (fuel : Nat) (content : Str) (tempo0 difficulty0 : Int)
    (hmap : ∀ l ∈ (AMSParser.new content tempo0 difficulty0).lines,
      startsWith l "Map \x7b".toList = false) :
    ∃ q e, parse fuel (AMSParser.new content tempo0 difficulty0) = .ok (false, q)
      ∧ q.errors.getLast? = some e
      ∧ e.error_type = "SEMANTIC".toList
      ∧ e.error_message
        = "Missing required Map block - every AMS file must define a Map".toList
      ∧ q.segments = [] ∧ q.macros = [] ∧ q.map_block.note_mapping = []
      ∧ q.has_main_block = false := by
  obtain ⟨p1, h1, hlen, hmac⟩ := parseMetadataLoop_no_map
    ((AMSParser.new content tempo0 difficulty0).lines.length + 1)
    (AMSParser.new content tempo0 difficulty0)
    (fun i l _ hl => hmap l (List.mem_iff_getElem?.mpr ⟨i, hl⟩)) (Nat.succ_pos _) (by omega)
  have hk := parseMetadataLoop_keeps _ _ _ h1
  have hv := parseMetadataLoop_view _ _ _ h1
  have hnone : p1.lines[p1.current_line]? = none := by
    rw [hk.1]
    exact List.getElem?_eq_none hlen
  refine ⟨p1.addError "SEMANTIC".toList
      "Missing required Map block - every AMS file must define a Map".toList,
    errorRecord p1.original_lines "SEMANTIC".toList
      "Missing required Map block - every AMS file must define a Map".toList p1.current_line,
    ?_, ?_, rfl, rfl, ?_, ?_, ?_, ?_⟩
  · unfold parse parseMetadata
    rw [h1]
    simp only [bind, Except.bind, parseMap, hnone]
    rfl
  · show (p1.errors ++ [_]).getLast? = _
    rw [List.getLast?_append]
    rfl
  · have := congrArg Prod.fst hv
    exact this
  · exact hmac
  · exact hk.2.2.2.1
  · exact hk.2.2.1

set_option maxRecDepth 100000 in
theorem parse_missing_map_witness :
    ∃ q e, parse 20 (AMSParser.new noMapSource 120 0) = .ok (false, q)
      ∧ q.errors.getLast? = some e
      ∧ e.error_type = "SEMANTIC".toList
      ∧ e.error_message
        = "Missing required Map block - every AMS file must define a Map".toList
      ∧ q.segments = [] ∧ q.macros = [] ∧ q.map_block.note_mapping = []
      ∧ q.has_main_block = false :=
  parse_missing_map 20 noMapSource 120 0 (by decide)

theorem parseLoop_plain :
    ∀ (fuel : Nat) (p : AMSParser),
      (∀ (i : Nat) (l : Str), p.current_line ≤ i → p.lines[i]? = some l →
        startsWith l "Define ".toList = false ∧ startsWith l "Segment(".toList = false
          ∧ startsWith l "Main()".toList = false) →
      0 < fuel → p.lines.length < p.current_line + fuel →
      ∃ q, parseLoop fuel p = .ok q
  | 0, _, _, h0, _ => absurd h0 (Nat.lt_irrefl 0)
  | fuel + 1, p, hplain, _, hfuel => by
    simp only [parseLoop]
    split
    · exact ⟨p, rfl⟩
    · rename_i line hline
      have hlt : p.current_line < p.lines.length := by
        by_contra hge
        rw [List.getElem?_eq_none (Nat.le_of_not_lt hge)] at hline
        exact Option.noConfusion hline
      obtain ⟨hd, hs, hm⟩ := hplain p.current_line line (Nat.le_refl _) hline
      have hnext := parseLoop_plain fuel p.advance
        (fun i l hi hl => hplain i l (Nat.le_of_succ_le hi) hl) (by omega)
        (by show p.lines.length < p.current_line + 1 + fuel; omega)
      simp only [hd, hs, hm, Bool.false_eq_true, if_false]
      split_ifs <;> exact hnext

/-! ## The loops return with fuel above the number of lines -/

theorem bind_ran {α β : Type} (x : Except Fault α) (f : α → Except Fault β)
    (hx : x ≠ .error .out_of_fuel) (hf : ∀ a, x = .ok a → f a ≠ .error .out_of_fuel) :
    (x >>= f) ≠ .error .out_of_fuel := by
  cases x with
  | error e =>
    intro h
    simp only [bind, Except.bind, Except.error.injEq] at h
    exact hx (by rw [h])
  | ok a => exact hf a rfl

theorem foldlM_ran {α β : Type} (f : β → α → Except Fault β)
    (hf : ∀ acc x, f acc x ≠ .error .out_of_fuel) :
    ∀ (l : List α) (init : β), l.foldlM f init ≠ .error .out_of_fuel
  | [], init => by simp [List.foldlM, pure, Except.pure]
  | x :: l, init => by
    rw [List.foldlM_cons]
    exact bind_ran _ _ (hf init x) (fun a _ => foldlM_ran f hf l a)

theorem stoi_ran (s : Str) : stoi s ≠ .error .out_of_fuel := by
  unfold stoi
  simp only []
  split_ifs <;> simp

theorem extractNumber_ran (line : Str) : extractNumber line ≠ .error .out_of_fuel := by
  unfold extractNumber
  split
  · exact stoi_ran _
  · simp

theorem parseNoteLoop_ran :
    ∀ (fuel : Nat) (str : Str) (note : Note), str.length < fuel →
      parseNoteLoop fuel str note ≠ .error .out_of_fuel
  | 0, _, _, h => absurd h (Nat.not_lt_zero _)
  | fuel + 1, [], note, _ => by simp [parseNoteLoop]
  | fuel + 1, c :: rest, note, h => by
    have hr : rest.length < fuel := by simpa using h
    have hdrop : ∀ (f : Char → Bool) (s : Str), s.length ≤ rest.length →
        (s.dropWhile f).length < fuel := fun f s hs =>
      Nat.lt_of_le_of_lt (Nat.le_trans (List.dropWhile_sublist f).length_le hs) hr
    simp only [parseNoteLoop]
    split_ifs
    all_goals first
      | exact parseNoteLoop_ran fuel _ _ hr
      | exact parseNoteLoop_ran fuel _ _ (hdrop _ _ (Nat.le_refl _))
      | exact parseNoteLoop_ran fuel _ _
          (Nat.lt_of_le_of_lt (by simp) hr)
      | (simp; done)
      | (split
         all_goals first
           | exact parseNoteLoop_ran fuel _ _ (hdrop _ _ (by simp))
           | exact bind_ran _ _ (stoi_ran _)
               (fun v _ => parseNoteLoop_ran fuel _ _ (hdrop _ _ (by simp))))

theorem parseNote_ran (str : Str) : parseNote str ≠ .error .out_of_fuel := by
  unfold parseNote
  have hd : (str.dropWhile isdigit).length < str.length + 1 :=
    Nat.lt_succ_of_le (List.dropWhile_sublist isdigit).length_le
  split
  · simp
  · simp only []
    split_ifs
    · simp
    · exact parseNoteLoop_ran _ _ _ hd
    · exact bind_ran _ _ (stoi_ran _) (fun d _ => parseNoteLoop_ran _ _ _ hd)

theorem chordNotesLoop_ran :
    ∀ (nps : List Str) (chord : Chord) (p : AMSParser),
      chordNotesLoop nps chord p ≠ .error .out_of_fuel
  | [], _, _ => by simp [chordNotesLoop]
  | np :: nps, chord, p => by
    simp only [chordNotesLoop]
    split_ifs
    · exact bind_ran _ _ (stoi_ran _) (fun d _ => chordNotesLoop_ran nps _ _)
    · exact chordNotesLoop_ran nps _ _

theorem parseChord_ran (str : Str) (p : AMSParser) :
    parseChord str p ≠ .error .out_of_fuel := by
  unfold parseChord
  simp only []
  split_ifs
  · split
    · simp
    · exact bind_ran _ _ (parseNote_ran _) (fun d _ => chordNotesLoop_ran _ _ _)
  · exact bind_ran _ _ (parseNote_ran _) (fun n _ => by simp)

theorem parseChordSequence_ran (str : Str) (p : AMSParser) :
    parseChordSequence str p ≠ .error .out_of_fuel := by
  unfold parseChordSequence
  apply foldlM_ran
  intro acc part
  simp only []
  split_ifs
  · simp
  · exact bind_ran _ _ (parseChord_ran _ _) (fun r _ => by simp)

theorem parseChunks_ran (data : Str) (p : AMSParser) :
    parseChunks data p ≠ .error .out_of_fuel := by
  unfold parseChunks
  apply foldlM_ran
  intro acc chunk_str
  split_ifs
  · simp
  · exact bind_ran _ _ (parseChordSequence_ran _ _) (fun r _ => by simp)

theorem cursor_in_lines (p : AMSParser) (l : Str) (h : p.lines[p.current_line]? = some l) :
    p.current_line < p.lines.length :=
  (List.getElem?_eq_some_iff.mp h).1

theorem parseHandLoop_ran :
    ∀ (fuel : Nat) (chunk_data : Str) (p : AMSParser),
      p.lines.length - p.current_line < fuel →
      parseHandLoop fuel chunk_data p ≠ .error .out_of_fuel
  | 0, _, _, h => absurd h (Nat.not_lt_zero _)
  | fuel + 1, chunk_data, p, h => by
    simp only [parseHandLoop]
    split
    · simp
    · rename_i l hl
      have hc := cursor_in_lines p l hl
      have hnext : p.advance.lines.length - p.advance.current_line < fuel := by
        show p.lines.length - (p.current_line + 1) < fuel
        omega
      split_ifs
      all_goals first
        | exact parseHandLoop_ran fuel _ _ hnext
        | (simp; done)
        | exact bind_ran _ _ (parseChunks_ran _ _) (fun r _ => by simp)

theorem parseHand_ran (p : AMSParser) : parseHand p ≠ .error .out_of_fuel := by
  unfold parseHand
  refine bind_ran _ _ (parseHandLoop_ran _ _ _ ?_) (fun r _ => ?_)
  · show p.lines.length - (p.current_line + 1) < p.lines.length + 1
    omega
  · split_ifs <;> simp

theorem parseMacroLoop_ran (macro_name : Str) :
    ∀ (fuel : Nat) (macro_body : Str) (p : AMSParser),
      p.lines.length - p.current_line < fuel →
      parseMacroLoop macro_name fuel macro_body p ≠ .error .out_of_fuel
  | 0, _, _, h => absurd h (Nat.not_lt_zero _)
  | fuel + 1, macro_body, p, h => by
    simp only [parseMacroLoop]
    split
    · simp
    · rename_i l hl
      have hc := cursor_in_lines p l hl
      split_ifs
      · simp
      · exact parseMacroLoop_ran macro_name fuel _ _
          (by show p.lines.length - (p.current_line + 1) < fuel; omega)

theorem parseMacro_ran (p : AMSParser) : parseMacro p ≠ .error .out_of_fuel := by
  unfold parseMacro
  split
  · simp only []
    split
    · simp
    · refine bind_ran _ _ (parseMacroLoop_ran _ _ _ _ ?_) (fun r _ => ?_)
      · show p.lines.length - (p.current_line + 1) < p.lines.length + 1
        omega
      · split_ifs <;> simp
  · simp

theorem parseMacro_advances (p q : AMSParser) (name : Str)
    (hre : regex_search define_regex (p.lines.getD p.current_line []) = some [name])
    (h : parseMacro p = .ok q) : p.current_line + 1 ≤ q.current_line := by
  unfold parseMacro at h
  rw [hre] at h
  simp only [] at h
  split at h
  · simp only [Except.ok.injEq] at h
    rw [← h]
    exact Nat.le_refl _
  · simp only [bind, Except.bind] at h
    split at h
    · simp at h
    · rename_i c hc
      have hk := (parseMacroLoop_keeps _ _ _ _ c hc).2.2.2.2
      split_ifs at h
      all_goals
        (simp only [Except.ok.injEq] at h
         rw [← h]
         exact hk)

theorem parseSegmentLoop_ran :
    ∀ (fuel : Nat) (seg : Segment) (has_left has_right : Bool) (p : AMSParser),
      p.lines.length - p.current_line < fuel →
      parseSegmentLoop fuel seg has_left has_right p ≠ .error .out_of_fuel
  | 0, _, _, _, _, h => absurd h (Nat.not_lt_zero _)
  | fuel + 1, seg, has_left, has_right, p, h => by
    simp only [parseSegmentLoop]
    split
    · simp
    · rename_i l hl
      have hc := cursor_in_lines p l hl
      have hnext : ∀ x : AMSParser, x.lines = p.lines → p.current_line ≤ x.current_line →
          x.advance.lines.length - x.advance.current_line < fuel := by
        intro x hx1 hx2
        show x.lines.length - (x.current_line + 1) < fuel
        rw [hx1]
        omega
      have herr : ∀ (c : Prop) [Decidable c] (a b : Str),
          Keeps p (if c then p.addError a b else p) := by
        intro c _ a b
        split_ifs
        · exact keeps_addError p a b none
        · exact keeps_refl p
      split_ifs
      all_goals first
        | exact parseSegmentLoop_ran fuel _ _ _ _ (hnext _ rfl (Nat.le_refl _))
        | (simp; done)
        | exact bind_ran _ _ (extractNumber_ran _) (fun t _ =>
            parseSegmentLoop_ran fuel _ _ _ _
              (hnext _ (herr _ _ _).1 (herr _ _ _).2.2.2.2))
        | exact bind_ran _ _ (parseHand_ran _) (fun r hr =>
            parseSegmentLoop_ran fuel _ _ _ _
              (hnext _ (parseHand_keeps _ r hr).1 (parseHand_keeps _ r hr).2.2.2.2))

theorem parseSegment_ran (p : AMSParser) : parseSegment p ≠ .error .out_of_fuel := by
  unfold parseSegment
  split
  · refine bind_ran _ _ (stoi_ran _) (fun id _ => ?_)
    simp only []
    split
    · simp
    · split
      · simp
      · refine bind_ran _ _ (parseSegmentLoop_ran _ _ _ _ _ ?_) (fun r _ => ?_)
        · show p.lines.length - (p.current_line + 1) < p.lines.length + 1
          omega
        · split_ifs <;> simp
  · simp

theorem parseSegment_advances (p q : AMSParser) (m1 m2 : Str)
    (hre : regex_search seg_regex (p.lines.getD p.current_line []) = some [m1, m2])
    (h : parseSegment p = .ok q) : p.current_line + 1 ≤ q.current_line := by
  unfold parseSegment at h
  rw [hre] at h
  simp only [bind, Except.bind] at h
  split at h
  · simp at h
  · split at h
    · simp only [Except.ok.injEq] at h
      rw [← h]
      exact Nat.le_refl _
    · split at h
      · simp only [Except.ok.injEq] at h
        rw [← h]
        exact Nat.le_refl _
      · split at h
        · simp at h
        · rename_i c hc
          have hk := (parseSegmentLoop_keeps _ _ _ _ _ c hc).2.2.2.2
          split_ifs at h
          all_goals
            (simp only [Except.ok.injEq] at h
             rw [← h]
             exact hk)

theorem parseLoop_ran :
    ∀ (fuel : Nat) (p : AMSParser),
      (∀ (i : Nat) (l : Str), p.current_line ≤ i → p.lines[i]? = some l →
        startsWith l "Main()".toList = false
          ∧ (startsWith l "Define ".toList = true →
              ∃ name, regex_search define_regex l = some [name])
          ∧ (startsWith l "Segment(".toList = true →
              ∃ m1 m2, regex_search seg_regex l = some [m1, m2])) →
      p.lines.length - p.current_line < fuel →
      parseLoop fuel p ≠ .error .out_of_fuel
  | 0, _, _, h => absurd h (Nat.not_lt_zero _)
  | fuel + 1, p, hw, h => by
    simp only [parseLoop]
    split
    · simp
    · rename_i l hl
      have hc := cursor_in_lines p l hl
      have hd : p.lines.getD p.current_line [] = l := by
        rw [List.getD_eq_getElem?_getD, hl]
        rfl
      obtain ⟨hmain, hdef, hseg⟩ := hw p.current_line l (Nat.le_refl _) hl
      have hrec : ∀ x : AMSParser, x.lines = p.lines → p.current_line + 1 ≤ x.current_line →
          parseLoop fuel x ≠ .error .out_of_fuel := by
        intro x hx1 hx2
        refine parseLoop_ran fuel x ?_ ?_
        · intro i l2 hi hl2
          rw [hx1] at hl2
          exact hw i l2 (by omega) hl2
        · rw [hx1]
          omega
      split_ifs with h1 h2 h3 h4
      · exact hrec _ rfl (Nat.le_refl _)
      · obtain ⟨name, hre⟩ := hdef h2
        rw [← hd] at hre
        exact bind_ran _ _ (parseMacro_ran p) (fun p1 hp1 =>
          hrec p1 (parseMacro_keeps p p1 hp1).1 (parseMacro_advances p p1 name hre hp1))
      · obtain ⟨m1, m2, hre⟩ := hseg h3
        rw [← hd] at hre
        exact bind_ran _ _ (parseSegment_ran p) (fun p1 hp1 =>
          hrec p1 (parseSegment_keeps p p1 hp1).1 (parseSegment_advances p p1 m1 m2 hre hp1))
      · rw [hmain] at h4
        exact absurd h4 (by decide)
      · exact hrec _ rfl (Nat.le_refl _)

/-- C23: when the Map block is closed and valid and no line from the end of
the Map block on begins with `Main()`, every return of the loop of `parse`
makes `parse` return `false` in the state the loop has left plus one error,
the SEMANTIC error reporting the missing Main block: `has_main_block` is still
unset and `validateSegments` has added nothing. The loop does return, with
fuel above the number of lines, when none of those lines begins with `Define `
or `Segment(`; and when every such line matches the pattern of its header,
neither the loop nor `parse` runs out of fuel: `parse` returns, unless a
number conversion throws. -/
theorem parse_missing_main (fuel : Nat) (p0 p1 r : AMSParser)
    (h1 : parseMetadata p0 = .ok p1) (h2 : parseMap p1 = .ok (true, r))
    (hvalid : (validateMap r).1 = true) (hflag : p0.has_main_block = false)
    (hmain : ∀ (i : Nat) (l : Str), r.current_line ≤ i → r.lines[i]? = some l →
      startsWith l "Main()".toList = false) :
    (∀ p3, parseLoop fuel (generateNoteMapping r) = .ok p3 →
      p3.has_main_block = false
      ∧ parse fuel p0 = .ok (false,
          { p3 with errors := p3.errors ++
              [errorRecord p3.original_lines "SEMANTIC".toList
                "Missing required Main() block - every AMS file must define playback order".toList
                p3.current_line] }))
    ∧ ((∀ (i : Nat) (l : Str), r.current_line ≤ i → r.lines[i]? = some l →
          startsWith l "Define ".toList = false ∧ startsWith l "Segment(".toList = false) →
        r.lines.length < fuel →
        ∃ p3, parseLoop fuel (generateNoteMapping r) = .ok p3)
    ∧ ((∀ (i : Nat) (l : Str), r.current_line ≤ i → r.lines[i]? = some l →
          (startsWith l "Define ".toList = true →
              ∃ name, regex_search define_regex l = some [name])
            ∧ (startsWith l "Segment(".toList = true →
              ∃ m1 m2, regex_search seg_regex l = some [m1, m2])) →
        r.lines.length < fuel →
        parseLoop fuel (generateNoteMapping r) ≠ .error .out_of_fuel
          ∧ parse fuel p0 ≠ .error .out_of_fuel) := by
  have hr : (validateMap r).2 = r := by
    unfold validateMap at hvalid ⊢
    split_ifs at hvalid ⊢
    all_goals rfl
  refine ⟨?_, ?_, ?_⟩
  · intro p3 h3
    have hk := parseLoop_keeps fuel _ p3 h3 hmain
    have hf : p3.has_main_block = false := by
      rw [hk.2.2.1]
      show r.has_main_block = false
      rw [(parseMap_keeps _ _ h2).2.2.1, (parseMetadataLoop_keeps _ _ _ h1).2.2.1]
      exact hflag
    refine ⟨hf, ?_⟩
    unfold parse
    rw [h1]
    simp only [bind, Except.bind]
    rw [h2]
    simp only [Bool.not_true, Bool.false_eq_true, if_false, hvalid, hr]
    rw [h3]
    have hc : (!p3.has_main_block) = true := by rw [hf]; rfl
    simp only []
    rw [if_pos hc]
    rfl
  · intro hplain hfuel
    exact parseLoop_plain fuel (generateNoteMapping r)
      (fun i l hi hl => ⟨(hplain i l hi hl).1, (hplain i l hi hl).2, hmain i l hi hl⟩)
      (by omega) (by show r.lines.length < r.current_line + fuel; omega)
  · intro hheaders hfuel
    have hran : parseLoop fuel (generateNoteMapping r) ≠ .error .out_of_fuel :=
      parseLoop_ran fuel (generateNoteMapping r)
        (fun i l hi hl => ⟨hmain i l hi hl, (hheaders i l hi hl).1, (hheaders i l hi hl).2⟩)
        (by show r.lines.length - r.current_line < fuel; omega)
    refine ⟨hran, ?_⟩
    unfold parse
    rw [h1]
    simp only [bind, Except.bind]
    rw [h2]
    simp only [Bool.not_true, Bool.false_eq_true, if_false, hvalid, hr]
    cases h3 : parseLoop fuel (generateNoteMapping r) with
    | error e =>
      rw [h3] at hran
      intro hc
      simp only [Except.error.injEq] at hc
      rw [hc] at hran
      exact hran rfl
    | ok p3 =>
      simp only []
      split_ifs <;> simp

set_option maxRecDepth 100000 in
theorem parse_missing_main_witness :
    noMainParsed.segments.length = 1 ∧ noMainParsed.has_main_block = false
      ∧ parse 20 (AMSParser.new noMainSource 120 0) = .ok (false,
          { noMainParsed with errors :=
              [{ line_number := 10, line_content := [], error_type := "SEMANTIC".toList
                 error_message :=
                   "Missing required Main() block - every AMS file must define playback order".toList
               }] }) :=
  have h := (parse_missing_main 20 (AMSParser.new noMainSource 120 0)
    (AMSParser.new noMainSource 120 0) noMainAfterMap (by decide) (by decide) (by decide) rfl
    (fun i l _ hl =>
      (by decide : ∀ l ∈ noMainAfterMap.lines, startsWith l "Main()".toList = false) l
        (List.mem_iff_getElem?.mpr ⟨i, hl⟩))).1 noMainParsed (by decide)
  ⟨rfl, h.1, h.2⟩

/-- C24: `validateMap` returns `true` exactly when the key is one of C, D, E,
F, G, A, B and the scale one of Major, Minor, HarmonicMinor, and then leaves
the state as it is. When it returns `false` it appends exactly one error, at
the line of the Map block: SEMANTIC when the key is empty or the scale is
empty, LOGIC otherwise. After a `false` of `validateMap`, `parse` returns
`false` in the state `validateMap` has left: the note mapping, the segment
list and `has_main_block` are as they were before `parse`. -/
theorem validateMap_verdict (p : AMSParser) :
    ((validateMap p).1 = true ↔
      p.map_block.key ∈ ["C", "D", "E", "F", "G", "A", "B"].map String.toList
        ∧ p.map_block.scale ∈ ["Major", "Minor", "HarmonicMinor"].map String.toList)
    ∧ ((validateMap p).1 = true → (validateMap p).2 = p)
    ∧ ((validateMap p).1 = false →
        ∃ message, (validateMap p).2 = { p with errors := p.errors ++
          [errorRecord p.original_lines
            (if p.map_block.key = [] ∨ p.map_block.scale = [] then "SEMANTIC".toList
              else "LOGIC".toList)
            message p.map_block.line_number] })
    ∧ (∀ (fuel : Nat) (p0 p1 : AMSParser), parseMetadata p0 = .ok p1 →
        parseMap p1 = .ok (true, p) → (validateMap p).1 = false →
        parse fuel p0 = .ok (false, (validateMap p).2)
          ∧ (validateMap p).2.map_block.note_mapping = p0.map_block.note_mapping
          ∧ (validateMap p).2.segments = p0.segments
          ∧ (validateMap p).2.has_main_block = p0.has_main_block) := by
  refine ⟨?_, ?_, ?_, ?_⟩
  · unfold validateMap
    by_cases h1 : p.map_block.key.isEmpty = true
    · rw [if_pos h1]
      refine ⟨fun h => Bool.noConfusion h, fun h => ?_⟩
      rw [List.isEmpty_iff.mp h1] at h
      exact absurd h.1 (by decide)
    · rw [if_neg h1]
      by_cases h2 : p.map_block.scale.isEmpty = true
      · rw [if_pos h2]
        refine ⟨fun h => Bool.noConfusion h, fun h => ?_⟩
        rw [List.isEmpty_iff.mp h2] at h
        exact absurd h.2 (by decide)
      · rw [if_neg h2]
        by_cases h3 : p.map_block.key ∉ valid_keys
        · rw [if_pos h3]
          exact ⟨fun h => Bool.noConfusion h, fun h => absurd h.1 h3⟩
        · rw [if_neg h3]
          by_cases h4 : p.map_block.scale ∉ valid_scales
          · rw [if_pos h4]
            exact ⟨fun h => Bool.noConfusion h, fun h => absurd h.2 h4⟩
          · rw [if_neg h4]
            exact ⟨fun _ => ⟨not_not.mp h3, not_not.mp h4⟩, fun _ => rfl⟩
  · intro h
    unfold validateMap at h ⊢
    split_ifs at h ⊢
    all_goals rfl
  · intro h
    unfold validateMap at h ⊢
    by_cases h1 : p.map_block.key.isEmpty = true
    · rw [if_pos h1, if_pos (Or.inl (List.isEmpty_iff.mp h1))]
      exact ⟨_, rfl⟩
    · rw [if_neg h1] at h ⊢
      by_cases h2 : p.map_block.scale.isEmpty = true
      · rw [if_pos h2, if_pos (Or.inr (List.isEmpty_iff.mp h2))]
        exact ⟨_, rfl⟩
      · rw [if_neg h2] at h ⊢
        have hne : ¬ (p.map_block.key = [] ∨ p.map_block.scale = []) := fun e =>
          e.elim (fun e => h1 (List.isEmpty_iff.mpr e)) (fun e => h2 (List.isEmpty_iff.mpr e))
        rw [if_neg hne]
        by_cases h3 : p.map_block.key ∉ valid_keys
        · rw [if_pos h3]
          exact ⟨_, rfl⟩
        · rw [if_neg h3] at h ⊢
          by_cases h4 : p.map_block.scale ∉ valid_scales
          · rw [if_pos h4]
            exact ⟨_, rfl⟩
          · rw [if_neg h4] at h
            exact Bool.noConfusion h
  · intro fuel p0 p1 h1 h2 hv
    have hk := keeps_trans (keeps_trans (parseMetadataLoop_keeps _ _ _ h1)
      (parseMap_keeps _ _ h2)) (validateMap_keeps p)
    have hs := ((validateMap_view p).trans (parseMap_view _ _ h2)).trans
      (parseMetadataLoop_view _ _ _ h1)
    refine ⟨?_, hk.2.2.2.1, congrArg Prod.fst hs, hk.2.2.1⟩
    unfold parse
    rw [h1]
    simp only [bind, Except.bind]
    rw [h2]
    simp only [Bool.not_true, Bool.false_eq_true, if_false, hv, Bool.not_false, if_true]

/-- C24, an instance: the source whose Map block names the key `H`. The Map
block is read, `validateMap` returns `false` with one LOGIC error, and `parse`
returns `false` in that state, with no note mapping and no segment. -/
theorem validateMap_verdict_witness :
    parseMetadata (AMSParser.new badKeySource 120 0) = .ok (AMSParser.new badKeySource 120 0)
      ∧ parseMap (AMSParser.new badKeySource 120 0) = .ok (true, badKeyAfterMap)
      ∧ (validateMap badKeyAfterMap).1 = false
      ∧ parse 20 (AMSParser.new badKeySource 120 0) = .ok (false, (validateMap badKeyAfterMap).2)
      ∧ (validateMap badKeyAfterMap).2.errors.map (fun e => (e.error_type, e.line_number))
          = [("LOGIC".toList, 1)]
      ∧ (validateMap badKeyAfterMap).2.map_block.note_mapping = []
      ∧ (validateMap badKeyAfterMap).2.segments = [] :=
  have h := (validateMap_verdict badKeyAfterMap).2.2.2 20
    (AMSParser.new badKeySource 120 0) (AMSParser.new badKeySource 120 0) rfl rfl rfl
  ⟨rfl, rfl, rfl, h.1, rfl, h.2.1, h.2.2.1⟩

/-! ## Chord tokens -/

theorem hasDigitDotDigit_cons (x : Char) (s : Str) :
    hasDigitDotDigit (x :: s)
      = ((match s with
          | b :: c :: _ => isdigit x && b = '.' && isdigit c
          | _ => false) || hasDigitDotDigit s) := by
  rcases s with _ | ⟨b, _ | ⟨c, rest⟩⟩
  · rfl
  · rfl
  · simp only [hasDigitDotDigit]

theorem hasDigitDotDigit_iff (str : Str) :
    hasDigitDotDigit str = true ↔
      ∃ (pre : Str) (a c : Char) (post : Str),
        str = pre ++ a :: '.' :: c :: post ∧ isdigit a = true ∧ isdigit c = true := by
  induction str with
  | nil =>
    constructor
    · intro h; exact Bool.noConfusion (show false = true from h)
    · rintro ⟨pre, a, c, post, h, _⟩
      rcases pre with _ | ⟨x, pre⟩ <;> simp at h
  | cons x s ih =>
    rw [hasDigitDotDigit_cons, Bool.or_eq_true, ih]
    constructor
    · rintro (h | ⟨pre, a, c, post, h, ha, hc⟩)
      · rcases s with _ | ⟨b, _ | ⟨c, rest⟩⟩
        · exact Bool.noConfusion h
        · exact Bool.noConfusion h
        · simp only [Bool.and_eq_true, decide_eq_true_eq] at h
          exact ⟨[], x, c, rest, by rw [h.1.2]; rfl, h.1.1, h.2⟩
      · exact ⟨x :: pre, a, c, post, by rw [h]; rfl, ha, hc⟩
    · rintro ⟨pre, a, c, post, h, ha, hc⟩
      rcases pre with _ | ⟨y, pre⟩
      · left
        simp only [List.nil_append, List.cons.injEq] at h
        obtain ⟨hx, hs⟩ := h
        subst hx hs
        simp [ha, hc]
      · right
        simp only [List.cons_append, List.cons.injEq] at h
        exact ⟨pre, a, c, post, h.2, ha, hc⟩

theorem chordNotesLoop_notes :
    ∀ (nps : List Str) (chord : Chord) (p : AMSParser) (r : Chord × AMSParser),
      chordNotesLoop nps chord p = .ok r →
      r.1.duration = chord.duration ∧ r.1.is_dotted = chord.is_dotted
        ∧ ∃ added : List Note, r.1.notes = chord.notes ++ added
          ∧ List.Forall₂
            (fun np n => stoi np = .ok n.degree
              ∧ n = { degree := n.degree, duration := chord.duration,
                      is_dotted := chord.is_dotted })
            (nps.filter (fun np => np.head?.map isdigit = some true)) added
  | [], chord, p, r, h => by
    simp only [chordNotesLoop, Except.ok.injEq] at h
    rw [← h]
    exact ⟨rfl, rfl, [], (List.append_nil _).symm, List.Forall₂.nil⟩
  | np :: nps, chord, p, r, h => by
    simp only [chordNotesLoop] at h
    by_cases h1 : np.head?.map isdigit = some true
    · rw [if_pos h1] at h
      simp only [bind, Except.bind] at h
      split at h
      · simp at h
      · rename_i d hd
        obtain ⟨e1, e2, added, e3, e4⟩ := chordNotesLoop_notes nps _ _ r h
        refine ⟨e1, e2,
          ({ degree := d, duration := chord.duration, is_dotted := chord.is_dotted } : Note)
            :: added, ?_, ?_⟩
        · rw [e3]; simp
        · rw [List.filter_cons_of_pos (by simpa using h1)]
          exact List.Forall₂.cons ⟨hd, rfl⟩ e4
    · rw [if_neg h1] at h
      obtain ⟨e1, e2, added, e3, e4⟩ := chordNotesLoop_notes nps _ _ r h
      refine ⟨e1, e2, added, e3, ?_⟩
      rw [List.filter_cons_of_neg (by simpa using h1)]
      exact e4

theorem splitNoteParts_ne_nil :
    ∀ (s current : Str), (current ≠ [] ∨ ∃ c ∈ s, c ≠ '.') → splitNoteParts s current ≠ []
  | [], current, h => by
    rcases h with h | ⟨c, hc, _⟩
    · simp [splitNoteParts, h]
    · exact absurd hc (List.not_mem_nil c)
  | c :: rest, current, h => by
    simp only [splitNoteParts]
    by_cases hc : c = '.' ∧ (rest.head?.map isdigit = some true)
    · rw [if_pos hc]
      by_cases he : current.isEmpty = true
      · rw [if_pos he]
        apply splitNoteParts_ne_nil
        right
        rcases h with h | ⟨x, hx, hne⟩
        · exact absurd (List.isEmpty_iff.mp he) h
        · rcases List.mem_cons.mp hx with hx | hx
          · exact absurd (hx ▸ hc.1) hne
          · exact ⟨x, hx, hne⟩
      · rw [if_neg he]
        exact List.cons_ne_nil _ _
    · rw [if_neg hc]
      apply splitNoteParts_ne_nil
      left
      simp

theorem parseChord_chord (str : Str) (p : AMSParser) (chord : Chord) (q : AMSParser)
    (hc : hasDigitDotDigit str = true) (h : parseChord str p = .ok (chord, q)) :
    ∃ (last : Str) (d : Note),
      (splitNoteParts str []).getLast? = some last ∧ parseNote last = .ok d
        ∧ chord.duration = d.duration ∧ chord.is_dotted = d.is_dotted
        ∧ List.Forall₂
          (fun np n => stoi np = .ok n.degree
            ∧ n = { degree := n.degree, duration := d.duration, is_dotted := d.is_dotted })
          ((if d.degree > 0 then (splitNoteParts str []).dropLast ++ [to_string d.degree]
              else (splitNoteParts str []).dropLast).filter
            (fun np => np.head?.map isdigit = some true))
          chord.notes := by
  unfold parseChord at h
  simp only [hc, if_true] at h
  split at h
  · rename_i hnone
    obtain ⟨pre, a, c, post, hs, ha, _⟩ := (hasDigitDotDigit_iff str).mp hc
    have hne := splitNoteParts_ne_nil str [] (Or.inr ⟨a, by rw [hs]; simp, by
      intro e; rw [e] at ha; exact absurd ha (by decide)⟩)
    exact absurd (List.getLast?_eq_none_iff.mp hnone) hne
  · rename_i last hlast
    simp only [bind, Except.bind] at h
    split at h
    · simp at h
    · rename_i d hd
      obtain ⟨e1, e2, added, e3, e4⟩ := chordNotesLoop_notes _ _ _ _ h
      refine ⟨last, d, hlast, hd, e1, e2, ?_⟩
      have : chord.notes = added := by simpa using e3
      rw [this]
      exact e4

/-- C29: for every token, the chord test of `parseChord` holds exactly when
the token has a `.` with a decimal digit right before it and a decimal
digit right after it. When it fails, `parseChord` decodes the token with
`parseNote` as one note, whose duration and dotted flag become the chord's
(and throws when `parseNote` throws). When it holds, the duration and the
dotted flag come from the last split part and every digit-led part gives one
note. -/
theorem parseChord_chord_test (str : Str) (p : AMSParser) :
    (hasDigitDotDigit str = true ↔
      ∃ (pre : Str) (a c : Char) (post : Str),
        str = pre ++ a :: '.' :: c :: post ∧ isdigit a = true ∧ isdigit c = true)
    ∧ (hasDigitDotDigit str = false →
        parseChord str p =
          match parseNote str with
          | .error e => .error e
          | .ok n =>
            .ok ({ notes := [n], duration := n.duration, is_dotted := n.is_dotted },
              if !n.is_rest ∧ n.degree ≠ 0 ∧ (n.degree < 1 ∨ n.degree > 7) then
                p.addError "LOGIC".toList
                  ("Invalid note degree: ".toList ++ str ++ " (must be 1-7)".toList)
              else p))
    ∧ (hasDigitDotDigit str = true → ∀ (chord : Chord) (q : AMSParser),
        parseChord str p = .ok (chord, q) →
        ∃ (last : Str) (d : Note),
          (splitNoteParts str []).getLast? = some last ∧ parseNote last = .ok d
            ∧ chord.duration = d.duration ∧ chord.is_dotted = d.is_dotted
            ∧ chord.notes.length
              = ((if d.degree > 0 then (splitNoteParts str []).dropLast ++ [to_string d.degree]
                  else (splitNoteParts str []).dropLast).filter
                (fun np => np.head?.map isdigit = some true)).length) := by
  refine ⟨hasDigitDotDigit_iff str, fun hc => ?_, fun hc chord q h => ?_⟩
  · unfold parseChord
    simp only [hc, Bool.false_eq_true, if_false, bind, Except.bind]
    cases parseNote str with
    | error e => rfl
    | ok n => rfl
  · obtain ⟨last, d, h1, h2, h3, h4, h5⟩ := parseChord_chord str p chord q hc h
    exact ⟨last, d, h1, h2, h3, h4, h5.length_eq.symm⟩

/-- C30 (as the code has it): every note of a decoded chord token has the
degree `std::stoi` reads at the head of its split part (the last part
contributing the degree `parseNote` found in it, when positive), the duration
and dotted flag derived from the last part, and nothing else: no accidental,
no octave shift, no articulation, no dynamic. -/
theorem parseChord_chord_notes (str : Str) (p : AMSParser) (chord : Chord) (q : AMSParser)
    (hc : hasDigitDotDigit str = true) (h : parseChord str p = .ok (chord, q)) :
    ∃ (last : Str) (d : Note),
      (splitNoteParts str []).getLast? = some last ∧ parseNote last = .ok d
        ∧ chord.duration = d.duration ∧ chord.is_dotted = d.is_dotted
        ∧ List.Forall₂
          (fun np n => stoi np = .ok n.degree
            ∧ n = { degree := n.degree, accidental := [], octave_shift := 0,
                    duration := d.duration, is_dotted := d.is_dotted,
                    articulation := [], dynamic := [], is_rest := false })
          ((if d.degree > 0 then (splitNoteParts str []).dropLast ++ [to_string d.degree]
              else (splitNoteParts str []).dropLast).filter
            (fun np => np.head?.map isdigit = some true))
          chord.notes :=
  parseChord_chord str p chord q hc h

theorem parseChord_chord_notes_witness :
    splitNoteParts "1.3#.5".toList [] = ["1".toList, "3#".toList, "5".toList]
      ∧ ∃ (last : Str) (d : Note),
        (splitNoteParts "1.3#.5".toList []).getLast? = some last ∧ parseNote last = .ok d
          ∧ (1 : ℚ) = d.duration ∧ false = d.is_dotted
          ∧ List.Forall₂
            (fun (np : Str) (n : Note) => stoi np = .ok n.degree
              ∧ n = { degree := n.degree, accidental := [], octave_shift := 0,
                      duration := d.duration, is_dotted := d.is_dotted,
                      articulation := [], dynamic := [], is_rest := false })
            ((if d.degree > 0 then
                (splitNoteParts "1.3#.5".toList []).dropLast ++ [to_string d.degree]
              else (splitNoteParts "1.3#.5".toList []).dropLast).filter
              (fun np => np.head?.map isdigit = some true))
            ([{ degree := 1 }, { degree := 3 }, { degree := 5 }] : List Note) :=
  ⟨by decide,
    parseChord_chord_notes "1.3#.5".toList (AMSParser.new [] 0 0)
      { notes := [{ degree := 1 }, { degree := 3 }, { degree := 5 }] } (AMSParser.new [] 0 0)
      (by decide) rfl⟩

/-- C30, the claim as worded fails: in the token "1.3#.5" the part "3#"
decodes under `parseNote` to degree 3 with accidental "#", and the second note
of the chord `parseChord` returns has degree 3 and no accidental. -/
theorem parseChord_drops_accidental :
    (parseNote "3#".toList).map (fun n => (n.degree, n.accidental)) = .ok (3, "#".toList)
      ∧ (parseChord "1.3#.5".toList (AMSParser.new [] 0 0)).map
          (fun r => r.1.notes.map (fun n => (n.degree, n.accidental)))
        = .ok [(1, []), (3, []), (5, [])] := by
  decide

/-! ## The preprocessor -/

theorem splitItems_line (delim : Char) :
    ∀ (l : Str), delim ∉ l → ∀ (rest cur : Str),
      splitItems delim (l ++ delim :: rest) cur = (cur ++ l) :: splitItems delim rest []
  | [], _, rest, cur => by simp [splitItems]
  | c :: l, h, rest, cur => by
    have hc : c ≠ delim := fun e => h (e ▸ List.mem_cons_self _ _)
    have hl : delim ∉ l := fun e => h (List.mem_cons_of_mem _ e)
    show splitItems delim (c :: (l ++ delim :: rest)) cur = _
    rw [splitItems, if_neg hc, splitItems_line delim l hl rest (cur ++ [c])]
    simp

theorem splitItems_last (delim : Char) :
    ∀ (l : Str), delim ∉ l → ∀ (cur : Str),
      splitItems delim l cur = if (cur ++ l).isEmpty then [] else [cur ++ l]
  | [], _, cur => by simp [splitItems]
  | c :: l, h, cur => by
    have hc : c ≠ delim := fun e => h (e ▸ List.mem_cons_self _ _)
    have hl : delim ∉ l := fun e => h (List.mem_cons_of_mem _ e)
    rw [splitItems, if_neg hc, splitItems_last delim l hl (cur ++ [c])]
    simp

theorem getlines_join :
    ∀ (ls : List Str) (last : Str), (∀ l ∈ ls, Char.ofNat 10 ∉ l) → Char.ofNat 10 ∉ last →
      getlines (ls.flatMap (fun l => l ++ [Char.ofNat 10]) ++ last)
        = ls ++ (if last = [] then [] else [last])
  | [], last, _, hlast => by
    unfold getlines
    rw [List.flatMap_nil, List.nil_append, splitItems_last _ last hlast []]
    rcases last with _ | ⟨c, last⟩ <;> simp
  | l :: ls, last, hls, hlast => by
    have ih := getlines_join ls last (fun x hx => hls x (List.mem_cons_of_mem _ hx)) hlast
    unfold getlines at ih ⊢
    rw [List.flatMap_cons, List.append_assoc, List.append_assoc, List.singleton_append,
      splitItems_line _ l (hls l (List.mem_cons_self _ _)), ih]
    simp

theorem removeComments_cons (c x : Char) (r : Str) :
    removeComments (c :: x :: r)
      = if c = '/' ∧ x = '/' then [] else c :: removeComments (x :: r) := by
  simp only [removeComments]

theorem removeComments_cut :
    ∀ (a b : Str), ¬ (['/', '/'] <:+: a ++ ['/']) →
      removeComments (a ++ '/' :: '/' :: b) = a
  | [], b, _ => by simp [removeComments]
  | c :: a, b, h => by
    have h2 : ¬ (['/', '/'] <:+: a ++ ['/']) := fun hi => h (List.infix_cons hi)
    have ih := removeComments_cut a b h2
    rcases a with _ | ⟨x, a⟩
    · have hc : ¬ (c = '/' ∧ '/' = '/') := by
        rintro ⟨e, _⟩
        subst e
        exact h ⟨[], [], rfl⟩
      show removeComments (c :: '/' :: '/' :: b) = [c]
      rw [removeComments_cons, if_neg hc]
      exact congrArg (List.cons c) ih
    · have hcx : ¬ (c = '/' ∧ x = '/') := by
        rintro ⟨e1, e2⟩
        subst e1 e2
        exact h ⟨[], a ++ ['/'], rfl⟩
      show removeComments (c :: x :: (a ++ '/' :: '/' :: b)) = c :: x :: a
      rw [removeComments_cons, if_neg hcx]
      exact congrArg (List.cons c) ih

theorem removeComments_none :
    ∀ (s : Str), ¬ (['/', '/'] <:+: s) → removeComments s = s
  | [], _ => rfl
  | [_], _ => rfl
  | c :: x :: r, h => by
    have hcx : ¬ (c = '/' ∧ x = '/') := by
      rintro ⟨e1, e2⟩
      subst e1 e2
      exact h ⟨[], r, rfl⟩
    rw [removeComments_cons, if_neg hcx,
      removeComments_none (x :: r) (fun hi => h (List.infix_cons hi))]

theorem trim_parts (s : Str) :
    ∃ a b : Str, s = a ++ trim s ++ b
      ∧ (∀ c ∈ a, isTrimChar c = true) ∧ (∀ c ∈ b, isTrimChar c = true) := by
  refine ⟨s.takeWhile isTrimChar,
    (((s.dropWhile isTrimChar).reverse).takeWhile isTrimChar).reverse, ?_, ?_, ?_⟩
  · unfold trim
    rw [List.append_assoc, ← List.reverse_append, List.takeWhile_append_dropWhile,
      List.reverse_reverse, List.takeWhile_append_dropWhile]
  · intro c hc
    exact List.mem_takeWhile_imp hc
  · intro c hc
    exact List.mem_takeWhile_imp (List.mem_reverse.mp hc)

theorem trim_ends (s : Str) :
    (∀ c, (trim s).head? = some c → isTrimChar c = false)
      ∧ (∀ c, (trim s).getLast? = some c → isTrimChar c = false) := by
  have hlast : ∀ c, (trim s).getLast? = some c → isTrimChar c = false := by
    intro c hc
    unfold trim at hc
    rw [List.getLast?_reverse] at hc
    have := List.head?_dropWhile_not isTrimChar ((s.dropWhile isTrimChar).reverse)
    rw [hc] at this
    simpa using this
  refine ⟨fun c hc => ?_, hlast⟩
  obtain ⟨a, b, hs, ha, hb⟩ := trim_parts s
  have hne : trim s ≠ [] := by
    intro e; rw [e] at hc; exact Option.noConfusion hc
  have hd : (s.dropWhile isTrimChar).head? = some c := by
    have h1 : s.dropWhile isTrimChar
        = trim s ++ (((s.dropWhile isTrimChar).reverse).takeWhile isTrimChar).reverse := by
      unfold trim
      rw [← List.reverse_append, List.takeWhile_append_dropWhile, List.reverse_reverse]
    rw [h1, List.head?_append_of_ne_nil _ hne]
    exact hc
  have := List.head?_dropWhile_not isTrimChar s
  rw [hd] at this
  simpa using this

theorem trim_blank (s : Str) (h : ∀ c ∈ s, isTrimChar c = true) : trim s = [] := by
  unfold trim
  rw [List.dropWhile_eq_nil_iff.mpr h]
  rfl

/-- C28: a source text made of the lines `ls`, each ended by a newline, and a
last piece `last` without one (counted as a line when it is not empty) gives
the constructor of the JSON program exactly those lines as `original_lines`,
unchanged and in order, and as many processed lines, the line at index `i`
being the original line `i` cut by `removeComments` and stripped by `trim`; an
empty text gives empty sequences. `removeComments` returns the text before the
first `//` (the whole line when there is none); `trim` removes a run of
spaces, tabs, newlines and carriage returns at each end and leaves no such
character at either end; a line of such characters only, or with only such
characters before its `//`, becomes the empty line at its index. -/
theorem preprocess_lines (ls : List Str) (last : Str) (tempo0 difficulty0 : Int)
    (hls : ∀ l ∈ ls, Char.ofNat 10 ∉ l) (hlast : Char.ofNat 10 ∉ last) :
    (AMSParser.new (ls.flatMap (fun l => l ++ [Char.ofNat 10]) ++ last)
        tempo0 difficulty0).original_lines
      = ls ++ (if last = [] then [] else [last])
    ∧ (AMSParser.new (ls.flatMap (fun l => l ++ [Char.ofNat 10]) ++ last)
        tempo0 difficulty0).lines
      = (ls ++ (if last = [] then [] else [last])).map (fun l => trim (removeComments l))
    ∧ (AMSParser.new (ls.flatMap (fun l => l ++ [Char.ofNat 10]) ++ last)
        tempo0 difficulty0).lines.length
      = (ls ++ (if last = [] then [] else [last])).length
    ∧ (AMSParser.new [] tempo0 difficulty0).lines = []
    ∧ (AMSParser.new [] tempo0 difficulty0).original_lines = []
    ∧ (∀ a b : Str, ¬ ("//".toList <:+: a ++ "/".toList) →
        removeComments (a ++ "//".toList ++ b) = a)
    ∧ (∀ s : Str, ¬ ("//".toList <:+: s) → removeComments s = s)
    ∧ (∀ s : Str, ∃ a b : Str, s = a ++ trim s ++ b
        ∧ (∀ c ∈ a, c ∈ " \t\n\r".toList) ∧ (∀ c ∈ b, c ∈ " \t\n\r".toList)
        ∧ (∀ c, (trim s).head? = some c → c ∉ " \t\n\r".toList)
        ∧ (∀ c, (trim s).getLast? = some c → c ∉ " \t\n\r".toList))
    ∧ (∀ s rest : Str, (∀ c ∈ s, c ∈ " \t\n\r".toList) →
        trim (removeComments s) = [] ∧ trim (removeComments (s ++ "//".toList ++ rest)) = []) := by
  have hmem : ∀ c : Char, c ∈ " \t\n\r".toList ↔ isTrimChar c = true := by
    intro c
    simp [isTrimChar]
    constructor
    · rintro (h | h | h | h) <;> subst h <;> decide
    · intro h
      rcases h with ((h | h) | h) | h
      · exact Or.inl h
      · right; left; rw [h]
      · right; right; left; rw [h]
      · right; right; right; rw [h]
  have hmem' : ∀ c : Char, c ∉ " \t\n\r".toList ↔ isTrimChar c = false := by
    intro c
    rw [hmem c]
    simp
  have hlines := getlines_join ls last hls hlast
  refine ⟨?_, ?_, ?_, rfl, rfl, fun a b h => ?_, removeComments_none, fun s => ?_,
    fun s rest hs => ?_⟩
  · show getlines _ = _
    exact hlines
  · show (getlines _).map _ = _
    rw [hlines]
  · show ((getlines _).map _).length = _
    rw [hlines, List.length_map]
  · have := removeComments_cut a b h
    simpa using this
  · obtain ⟨a, b, h1, h2, h3⟩ := trim_parts s
    exact ⟨a, b, h1, fun c hc => (hmem c).mpr (h2 c hc), fun c hc => (hmem c).mpr (h3 c hc),
      fun c hc => (hmem' c).mpr ((trim_ends s).1 c hc),
      fun c hc => (hmem' c).mpr ((trim_ends s).2 c hc)⟩
  · have hslash : ∀ t : Str, (∀ c ∈ t, c ∈ " \t\n\r".toList) → '/' ∉ t := by
      intro t ht hin
      exact absurd (ht _ hin) (by decide)
    have hno : ¬ ("//".toList <:+: s) := by
      rintro ⟨u, v, huv⟩
      exact hslash s hs (by rw [← huv]; simp)
    have hno2 : ¬ ("//".toList <:+: s ++ "/".toList) := by
      rintro ⟨u, v, huv⟩
      have hv : v ≠ [] := by
        intro e
        rw [e, List.append_nil] at huv
        have hlen := congrArg List.length huv
        have hlast := congrArg List.getLast? huv
        rcases List.eq_nil_or_concat s with e2 | ⟨s2, c, e2⟩
        · rw [e2] at hlen; simp at hlen
        · rw [e2] at huv
          have h3 : u ++ ['/'] ++ ['/'] = s2 ++ [c] ++ ['/'] := by simpa using huv
          have h4 := List.append_inj_left' h3 rfl
          have h5 := List.append_inj_right' h4 rfl
          have : c = '/' := by simpa using h5.symm
          exact hslash s hs (by rw [e2, this]; simp)
      rcases List.eq_nil_or_concat v with e | ⟨v2, c, e⟩
      · exact hv e
      · rw [e] at huv
        have h3 : (u ++ "//".toList ++ v2) ++ [c] = s ++ ['/'] := by simpa using huv
        have h4 := List.append_inj_left' h3 rfl
        exact hslash s hs (by rw [← h4]; simp)
    constructor
    · rw [removeComments_none s hno]
      exact trim_blank s (fun c hc => (hmem c).mp (hs c hc))
    · have := removeComments_cut s rest hno2
      rw [show s ++ "//".toList ++ rest = s ++ '/' :: '/' :: rest by simp, this]
      exact trim_blank s (fun c hc => (hmem c).mp (hs c hc))

theorem preprocess_lines_witness :
    (AMSParser.new "Title: Etude // the name\n\n  // a remark\n  Tempo: 90 \t\nMap \x7b".toList
        120 0).original_lines
      = ["Title: Etude // the name", "", "  // a remark", "  Tempo: 90 \t", "Map \x7b"].map
          String.toList
    ∧ (AMSParser.new "Title: Etude // the name\n\n  // a remark\n  Tempo: 90 \t\nMap \x7b".toList
        120 0).lines
      = ["Title: Etude", "", "", "Tempo: 90", "Map \x7b"].map String.toList :=
  have h := preprocess_lines
    (["Title: Etude // the name", "", "  // a remark", "  Tempo: 90 \t"].map String.toList)
    "Map \x7b".toList 120 0 (by decide) (by decide)
  ⟨h.1, h.2.1.trans (by decide)⟩

/-! ## The two front-ends compared -/

set_option maxRecDepth 1000000 in
/-- C21 (the code departs from the claim): the parser of the MIDI program
records no error and checks nothing. On the source without a Main block, on
the source with `Tempo: 301`, on the source that defines segment 1 twice and
on the source whose hands have four and two beats, the MIDI program parses
with success and builds a file, while `parse` of the JSON program returns
`false` with one error: SEMANTIC, LOGIC, REDEFINITION and LOGIC. -/
theorem midi_accepts_invalid_sources :
    [noMainSource, fastSource, duplicateSource, unalignedSource].map
        (fun src => (MIDIProg.main 30 src).map Option.isSome)
      = [.ok true, .ok true, .ok true, .ok true]
    ∧ [noMainSource, fastSource, duplicateSource, unalignedSource].map
        (fun src => (parse 30 (AMSParser.new src 120 0)).map
          (fun r => (r.1, r.2.errors.map (fun e => e.error_type))))
      = [.ok (false, ["SEMANTIC".toList]), .ok (false, ["LOGIC".toList]),
         .ok (false, ["REDEFINITION".toList]), .ok (false, ["LOGIC".toList])]
    ∧ (MIDIProg.parse 30 (MIDIProg.AMSParser.new duplicateSource)).map
        (fun r => r.2.segments.map (fun seg => seg.id)) = .ok [1, 1]
    ∧ (MIDIProg.parse 30 (MIDIProg.AMSParser.new fastSource)).map
        (fun r => r.2.metadata.tempo) = .ok 301 := by
  refine ⟨by decide, by with_unfolding_all decide, by decide, by decide⟩

/-! ## Segment calls in the Main block -/

set_option maxRecDepth 1000000 in
/-- C25 (the code departs from the claim): the loop of `parseMain` ends at the
first line that is a closing brace, so the brace that closes a `Repeat` block
closes the Main block. The call `Segment(9, Z);` after a `Repeat` block, with
no segment 9 defined, is never read: `parse` returns `true` with an empty
error list. The same call inside the `Repeat` block records the SEMANTIC
error, and the call `Segment(1, OTHER);` of the segment defined as `A` records
nothing. -/
theorem call_after_repeat_unchecked :
    (parse 30 (AMSParser.new callAfterRepeatSource 120 0)).map
        (fun r => (r.1, r.2.errors, r.2.current_line, r.2.segment_definitions.lookup 9))
      = .ok (true, [], 13, none)
    ∧ (AMSParser.new callAfterRepeatSource 120 0).lines.drop 9
      = ["Main() \x7b", "Repeat(2) \x7b", "Segment(1, A);", "\x7d", "Segment(9, Z);",
          "\x7d"].map String.toList
    ∧ (parse 30 (AMSParser.new callInsideRepeatSource 120 0)).map
        (fun r => (r.1,
          r.2.errors.map (fun e => (e.line_number, e.line_content, e.error_type,
            e.error_message))))
      = .ok (false, [(13, "Segment(9, Z);".toList, "SEMANTIC".toList,
          "Undefined segment ID: 9 (Segment not defined before Main block)".toList)]) := by
  refine ⟨by rfl, by decide, by rfl⟩

/-! ## The emitted JSON text -/

set_option maxRecDepth 1000000 in
/-- C27 (the code departs from the claim): `handToJSON` adds every chunk to
the `chunks` array as the text `"chords": [ ... ]`, a key with its value and
no braces around them, which is no JSON value. The JSON program parses the
minimal source with success, and for the model it has built the text of the
right hand begins `{ "chunks": [`, newline, `"chords": [` and the whole text
`toJSON` returns is not a well-formed JSON text. The same model without its
segment, or with a segment whose hands have no chunk, gives a well-formed text
that is one object. -/
theorem toJSON_minimalSource_malformed :
    parse 20 (AMSParser.new minimalSource 120 0) = .ok (true, minimalParsed 120 0)
    ∧ (minimalParsed 120 0).segments.map
        (fun seg => (handToJSON (minimalParsed 120 0).map_block seg.right).take 31)
      = ["\x7b \"chunks\": [\n  \"chords\": [\n  \x7b".toList]
    ∧ (minimalParsed 120 0).segments.map
        (fun seg => wellFormedJSON (handToJSON (minimalParsed 120 0).map_block seg.right))
      = [false]
    ∧ wellFormedJSON (toJSON (minimalParsed 120 0)) = false
    ∧ wellFormedJSONObject (toJSON { minimalParsed 120 0 with segments := [] }) = true
    ∧ wellFormedJSONObject (toJSON { minimalParsed 120 0 with
        segments := [{ id := 1, name := "A".toList, tempo := 120, definition_line := 4 }] })
      = true := by
  refine ⟨minimal_parse 120 0, by decide, by decide, by decide, by decide, by decide⟩

/-! ## The scale table and the pitch table -/

set_option maxRecDepth 100000 in
/-- C39: every entry of the scale table of the JSON program has seven letters;
each of them is a key of the table `note_to_midi`, so `pitchToMIDI` never takes
its fallback 60 for it; each of the letter names A to G heads exactly one of
the seven; and the steps between consecutive letters, modulo 12, are
2, 2, 1, 2, 2, 2 for an entry named `_Major` and 2, 1, 2, 2, 1, 2 for an entry
named `_Minor` (every entry is one or the other). -/
theorem scale_table_letters :
    ∀ e ∈ scale_mappings,
      e.2.length = 7
        ∧ (∀ letter ∈ e.2, (MIDIProg.note_to_midi.lookup letter).isSome = true)
        ∧ (∀ c ∈ "ABCDEFG".toList, (e.2.filter (fun l => l.head? = some c)).length = 1)
        ∧ (e.1.drop 1 = "_Major".toList ∨ e.1.drop 1 = "_Minor".toList)
        ∧ (e.1.drop 1 = "_Major".toList → MIDIProg.pitchClassSteps e.2 = [2, 2, 1, 2, 2, 2])
        ∧ (e.1.drop 1 = "_Minor".toList → MIDIProg.pitchClassSteps e.2 = [2, 1, 2, 2, 1, 2]) := by
  decide

set_option maxRecDepth 100000 in
/-- C39, an instance: the entry of D Minor. -/
theorem scale_table_letters_witness :
    ("D_Minor".toList, ["D", "E", "F", "G", "A", "Bb", "C"].map String.toList) ∈ scale_mappings
      ∧ (∀ letter ∈ ["D", "E", "F", "G", "A", "Bb", "C"].map String.toList,
          (MIDIProg.note_to_midi.lookup letter).isSome = true)
      ∧ (∀ c ∈ "ABCDEFG".toList,
          ((["D", "E", "F", "G", "A", "Bb", "C"].map String.toList).filter
            (fun l => l.head? = some c)).length = 1)
      ∧ MIDIProg.pitchClassSteps (["D", "E", "F", "G", "A", "Bb", "C"].map String.toList)
        = [2, 1, 2, 2, 1, 2] :=
  have hmem : ("D_Minor".toList, ["D", "E", "F", "G", "A", "Bb", "C"].map String.toList)
      ∈ scale_mappings := by decide
  have h := scale_table_letters
    ("D_Minor".toList, ["D", "E", "F", "G", "A", "Bb", "C"].map String.toList) hmem
  ⟨hmem, h.2.1, h.2.2.1, h.2.2.2.2.2 rfl⟩

/-! ## Pairs of key and scale outside the table -/

/-- C35: when the pair of key and scale of the Map block is no key of the
table `scale_mappings`, `generateNoteMapping` stores C, D, E, F, G, A, B at
the degrees 1 to 7 and leaves every other degree as it was, in the JSON
program and in the MIDI program. -/
theorem generateNoteMapping_fallback (p : AMSParser) (q : MIDIProg.AMSParser)
    (hp : scale_mappings.lookup (p.map_block.key ++ "_".toList ++ p.map_block.scale) = none)
    (hq : MIDIProg.scale_mappings.lookup
      (q.map_block.key ++ "_".toList ++ q.map_block.scale) = none) :
    [1, 2, 3, 4, 5, 6, 7].map
        (fun d => (generateNoteMapping p).map_block.note_mapping.lookup d)
      = ["C", "D", "E", "F", "G", "A", "B"].map (fun s => some s.toList)
    ∧ [1, 2, 3, 4, 5, 6, 7].map
        (fun d => (MIDIProg.generateNoteMapping q).map_block.note_mapping.lookup d)
      = ["C", "D", "E", "F", "G", "A", "B"].map (fun s => some s.toList)
    ∧ (∀ d : Int, d < 1 ∨ 7 < d →
        (generateNoteMapping p).map_block.note_mapping.lookup d
            = p.map_block.note_mapping.lookup d
          ∧ (MIDIProg.generateNoteMapping q).map_block.note_mapping.lookup d
            = q.map_block.note_mapping.lookup d) := by
  have hj : (generateNoteMapping p).map_block.note_mapping
      = storeScale (["C", "D", "E", "F", "G", "A", "B"].map String.toList)
          p.map_block.note_mapping := by
    unfold generateNoteMapping
    simp only [hp]
    rfl
  have hm : (MIDIProg.generateNoteMapping q).map_block.note_mapping
      = storeScale (["C", "D", "E", "F", "G", "A", "B"].map String.toList)
          q.map_block.note_mapping := by
    unfold MIDIProg.generateNoteMapping
    simp only [hq]
    rfl
  rw [hj, hm]
  refine ⟨?_, ?_, ?_⟩
  · simp only [List.map, storeScale_lookup]
    rfl
  · simp only [List.map, storeScale_lookup]
    rfl
  · intro d hd
    have hn : ¬ (1 ≤ d ∧ d ≤ 7) := by omega
    rw [storeScale_lookup, storeScale_lookup, if_neg hn, if_neg hn]
    exact ⟨rfl, rfl⟩

/-- C35, an instance: A Major in the JSON program and C HarmonicMinor in the
MIDI program. Both pairs pass `validateMap`, and neither is in the table of
the JSON program. -/
theorem generateNoteMapping_fallback_witness :
    [("A", "Major"), ("C", "HarmonicMinor")].map
        (fun e => ((validateMap { AMSParser.new [] 0 0 with
            map_block := { key := e.1.toList, scale := e.2.toList } }).1,
          scale_mappings.lookup (e.1.toList ++ "_".toList ++ e.2.toList)))
      = [(true, none), (true, none)]
    ∧ [1, 2, 3, 4, 5, 6, 7].map
        (fun d => (generateNoteMapping { AMSParser.new [] 0 0 with
          map_block := { key := "A".toList, scale := "Major".toList } }).map_block.note_mapping.lookup
            d)
      = ["C", "D", "E", "F", "G", "A", "B"].map (fun s => some s.toList)
    ∧ [1, 2, 3, 4, 5, 6, 7].map
        (fun d => (MIDIProg.generateNoteMapping
          { map_block := { key := "C".toList, scale := "HarmonicMinor".toList } }
          ).map_block.note_mapping.lookup d)
      = ["C", "D", "E", "F", "G", "A", "B"].map (fun s => some s.toList) :=
  have h := generateNoteMapping_fallback
    { AMSParser.new [] 0 0 with map_block := { key := "A".toList, scale := "Major".toList } }
    { map_block := { key := "C".toList, scale := "HarmonicMinor".toList } } (by decide) (by decide)
  ⟨by decide, h.1, h.2.1⟩

/-! ## Headers that do not match -/

theorem getD_of_getElem? (lines : List Str) (i : Nat) (l : Str) (h : lines[i]? = some l) :
    lines.getD i [] = l := by
  rw [List.getD_eq_getElem?_getD, h]
  rfl

theorem parseSegment_stuck (p : AMSParser)
    (h : regex_search seg_regex (p.lines.getD p.current_line []) = none) :
    parseSegment p = .ok (p.addError "SYNTAX".toList
      "Invalid Segment syntax - expected: Segment(id, NAME)".toList) := by
  unfold parseSegment
  rw [h]

theorem parseMacro_stuck (p : AMSParser)
    (h : regex_search define_regex (p.lines.getD p.current_line []) = none) :
    parseMacro p = .ok (p.addError "SYNTAX".toList
      "Invalid Define syntax - expected: Define MACRO_NAME \x7b".toList) := by
  unfold parseMacro
  rw [h]

theorem parseLoop_stuck_segment :
    ∀ (fuel : Nat) (p : AMSParser) (l : Str), p.lines[p.current_line]? = some l →
      l.isEmpty = false → startsWith l "Define ".toList = false →
      startsWith l "Segment(".toList = true → regex_search seg_regex l = none →
      parseLoop fuel p = .error .out_of_fuel
  | 0, _, _, _, _, _, _, _ => rfl
  | fuel + 1, p, l, hl, he, hd, hs, hre => by
    have hg : regex_search seg_regex (p.lines.getD p.current_line []) = none := by
      rw [getD_of_getElem? _ _ l hl]; exact hre
    simp only [parseLoop, hl, he, hd, hs, Bool.false_eq_true, if_false, if_true,
      parseSegment_stuck p hg, bind, Except.bind]
    exact parseLoop_stuck_segment fuel _ l hl he hd hs hre

theorem parseLoop_stuck_define :
    ∀ (fuel : Nat) (p : AMSParser) (l : Str), p.lines[p.current_line]? = some l →
      l.isEmpty = false → startsWith l "Define ".toList = true →
      regex_search define_regex l = none →
      parseLoop fuel p = .error .out_of_fuel
  | 0, _, _, _, _, _, _ => rfl
  | fuel + 1, p, l, hl, he, hd, hre => by
    have hg : regex_search define_regex (p.lines.getD p.current_line []) = none := by
      rw [getD_of_getElem? _ _ l hl]; exact hre
    simp only [parseLoop, hl, he, hd, Bool.false_eq_true, if_false, if_true,
      parseMacro_stuck p hg, bind, Except.bind]
    exact parseLoop_stuck_define fuel _ l hl he hd hre

theorem parse_stuck (fuel : Nat) (p0 p1 r : AMSParser)
    (h1 : parseMetadata p0 = .ok p1) (h2 : parseMap p1 = .ok (true, r))
    (hvalid : validateMap r = (true, r))
    (h3 : parseLoop fuel (generateNoteMapping r) = .error .out_of_fuel) :
    parse fuel p0 = .error .out_of_fuel := by
  unfold parse
  rw [h1]
  simp only [bind, Except.bind]
  rw [h2]
  simp only [Bool.not_true, Bool.false_eq_true, if_false, hvalid]
  rw [h3]

theorem midi_parseLoop_stuck :
    ∀ (fuel : Nat) (p : MIDIProg.AMSParser) (l : Str), p.lines[p.current_line]? = some l →
      l.isEmpty = false → startsWith l "Segment(".toList = true →
      regex_search seg_regex l = none →
      MIDIProg.parseLoop fuel p = .error .out_of_fuel
  | 0, _, _, _, _, _, _ => rfl
  | fuel + 1, p, l, hl, he, hs, hre => by
    have hg : regex_search seg_regex (p.lines.getD p.current_line []) = none := by
      rw [getD_of_getElem? _ _ l hl]; exact hre
    have hp : MIDIProg.parseSegment p = .ok p := by
      unfold MIDIProg.parseSegment
      rw [hg]
    simp only [MIDIProg.parseLoop, hl, he, hs, Bool.false_eq_true, if_false, if_true, hp, bind,
      Except.bind]
    exact midi_parseLoop_stuck fuel p l hl he hs hre

set_option maxRecDepth 100000 in
/-- C36 (the code departs from the claim): when the header of a `Segment(` or
`Define ` line does not match its pattern, `parseSegment` and `parseMacro` of
the JSON program record a SYNTAX error and return with the cursor on the same
line, and `parseSegment` of the MIDI program returns without doing anything;
the loop of `parse` dispatches on the same line again. On the source with the
line `Segment(x, A)` and on the source with the line `Define foo {`, `parse`
does not return, whatever the number of rounds allowed. -/
theorem parse_loops_on_bad_header :
    (∀ fuel, parse fuel (AMSParser.new badSegmentSource 120 0) = .error .out_of_fuel)
    ∧ (∀ fuel, parse fuel (AMSParser.new badDefineSource 120 0) = .error .out_of_fuel)
    ∧ (∀ fuel, MIDIProg.parse fuel (MIDIProg.AMSParser.new badSegmentSource)
        = .error .out_of_fuel)
    ∧ (parseSegment (generateNoteMapping (afterMapOf badSegmentSource))).map
        (fun q => (q.current_line, q.errors.map (fun e => e.error_type)))
      = .ok (4, ["SYNTAX".toList])
    ∧ (parseMacro (generateNoteMapping (afterMapOf badDefineSource))).map
        (fun q => (q.current_line, q.errors.map (fun e => e.error_type)))
      = .ok (4, ["SYNTAX".toList]) := by
  refine ⟨fun fuel => ?_, fun fuel => ?_, fun fuel => ?_, by decide, by decide⟩
  · exact parse_stuck fuel _ (AMSParser.new badSegmentSource 120 0)
      (afterMapOf badSegmentSource) rfl rfl rfl
      (parseLoop_stuck_segment fuel _ "Segment(x, A)".toList rfl rfl rfl rfl (by decide))
  · exact parse_stuck fuel _ (AMSParser.new badDefineSource 120 0)
      (afterMapOf badDefineSource) rfl rfl rfl
      (parseLoop_stuck_define fuel _ "Define foo \x7b".toList rfl rfl rfl (by decide))
  · have h1 : MIDIProg.parseMetadata (MIDIProg.AMSParser.new badSegmentSource)
        = .ok { MIDIProg.AMSParser.new badSegmentSource with
            metadata := { tempo := 120, difficulty := 0, time_signature := "4/4".toList } } := rfl
    obtain ⟨r, h2, hl⟩ : ∃ r, MIDIProg.parseMap { MIDIProg.AMSParser.new badSegmentSource with
          metadata := { tempo := 120, difficulty := 0, time_signature := "4/4".toList } }
          = .ok (true, r)
        ∧ (MIDIProg.generateNoteMapping r).lines[(MIDIProg.generateNoteMapping r).current_line]?
          = some "Segment(x, A)".toList :=
      ⟨{ MIDIProg.AMSParser.new badSegmentSource with
          metadata := { tempo := 120, difficulty := 0, time_signature := "4/4".toList }
          current_line := 4
          map_block := { key := "C".toList, scale := "Major".toList, defined := true } },
        rfl, rfl⟩
    unfold MIDIProg.parse
    rw [h1]
    simp only [bind, Except.bind]
    rw [h2]
    simp only [Bool.not_true, Bool.false_eq_true, if_false]
    rw [midi_parseLoop_stuck fuel _ "Segment(x, A)".toList hl rfl rfl (by decide)]

/-! ## The two note decoders -/

theorem isDynamicChar_same : isDynamicChar = MIDIProg.isDynamicChar := rfl

theorem parseDuration_same : parseDuration = MIDIProg.parseDuration := rfl

theorem parseDuration_withoutDynamic (str : Str) (a b : Note)
    (h : noteWithoutDynamic a = noteWithoutDynamic b) :
    noteWithoutDynamic (MIDIProg.parseDuration str a)
      = noteWithoutDynamic (MIDIProg.parseDuration str b) := by
  obtain ⟨d1, a1, o1, du1, dot1, art1, dyn1, r1⟩ := a
  obtain ⟨d2, a2, o2, du2, dot2, art2, dyn2, r2⟩ := b
  simp only [noteWithoutDynamic, Note.mk.injEq, and_true, true_and] at h
  obtain ⟨rfl, rfl, rfl, rfl, rfl, rfl, rfl⟩ := h
  unfold MIDIProg.parseDuration
  split_ifs <;> rfl

theorem bind_map_congr {α β γ : Type} (x : Except Fault α) (f g : α → Except Fault β)
    (k : β → γ) (h : ∀ a, (f a).map k = (g a).map k) :
    (x >>= f).map k = (x >>= g).map k := by
  cases x with
  | error e => rfl
  | ok a => exact h a

theorem parseNoteLoop_agree :
    ∀ (fuel : Nat) (str : Str) (a b : Note),
      (∀ c ∈ str, c ∉ "!~>(".toList) → noteWithoutDynamic a = noteWithoutDynamic b →
      (MIDIProg.parseNoteLoop fuel str a).map noteWithoutDynamic
        = (parseNoteLoop fuel str b).map noteWithoutDynamic
  | 0, _, _, _, _, _ => rfl
  | fuel + 1, [], a, b, _, h => by
    simp only [MIDIProg.parseNoteLoop, parseNoteLoop, Except.map, h]
  | fuel + 1, c :: rest, a, b, hstr, h => by
    obtain ⟨d1, a1, o1, du1, dot1, art1, dyn1, r1⟩ := a
    obtain ⟨d2, a2, o2, du2, dot2, art2, dyn2, r2⟩ := b
    simp only [noteWithoutDynamic, Note.mk.injEq, and_true, true_and] at h
    obtain ⟨rfl, rfl, rfl, rfl, rfl, rfl, rfl⟩ := h
    have hc := hstr c (List.mem_cons_self c rest)
    have hrest : ∀ s : Str, (∀ x ∈ s, x ∈ rest) → ∀ x ∈ s, x ∉ "!~>(".toList :=
      fun s hs x hx => hstr x (List.mem_cons_of_mem c (hs x hx))
    have h1 : ¬ (c = '!' ∨ c = '~' ∨ c = '>') := by
      intro hh
      rcases hh with hh | hh | hh <;> (subst hh; exact hc (by decide))
    have h2 : ¬ (c = '(' ∧ rest.head? = some 'h') := by
      intro hh
      have := hh.1
      subst this
      exact hc (by decide)
    simp only [MIDIProg.parseNoteLoop, parseNoteLoop, isDynamicChar_same, parseDuration_same, h1,
      h2, if_false]
    have hdrop : ∀ (f : Char → Bool) (s : Str), (∀ x ∈ s, x ∈ rest) →
        ∀ x ∈ s.dropWhile f, x ∉ "!~>(".toList :=
      fun f s hs => hrest _ (fun x hx => hs x ((List.dropWhile_sublist f).subset hx))
    split_ifs
    · exact parseNoteLoop_agree fuel rest _ _ (hrest rest (fun x hx => hx)) rfl
    · exact parseNoteLoop_agree fuel rest _ _ (hrest rest (fun x hx => hx)) rfl
    · refine parseNoteLoop_agree fuel _ _ _ (hdrop _ _ ?_) rfl
      intro x hx
      split at hx
      · exact List.mem_cons_of_mem _ hx
      · exact hx
    · refine bind_map_congr _ _ _ _ (fun v => ?_)
      refine parseNoteLoop_agree fuel _ _ _ (hdrop _ _ ?_) rfl
      intro x hx
      split at hx
      · exact List.mem_cons_of_mem _ hx
      · exact hx
    · exact parseNoteLoop_agree fuel _ _ _ (hdrop _ _ (fun x hx => hx)) rfl
    · simp only [Except.map]
      exact congrArg Except.ok (parseDuration_withoutDynamic _ _ _ rfl)
    · exact parseNoteLoop_agree fuel rest _ _ (hrest rest (fun x hx => hx)) rfl

theorem parseNote_agree (str : Str) (hstr : ∀ c ∈ str, c ∉ "!~>(".toList) :
    (MIDIProg.parseNote str).map noteWithoutDynamic
      = (parseNote str).map noteWithoutDynamic := by
  unfold MIDIProg.parseNote parseNote
  cases str with
  | nil => rfl
  | cons c0 tail =>
    have hdrop : ∀ x ∈ (c0 :: tail).dropWhile isdigit, x ∉ "!~>(".toList :=
      fun x hx => hstr x ((List.dropWhile_sublist _).subset hx)
    simp only [parseDuration_same]
    split_ifs
    · rfl
    · exact parseNoteLoop_agree _ _ _ _ hdrop rfl
    · exact bind_map_congr _ _ _ _ (fun d => parseNoteLoop_agree _ _ _ _ hdrop rfl)

set_option maxRecDepth 100000 in
/-- C33 (the code departs from the claim): the MIDI program appends every run
of the letters p, f, m to the dynamic marking of the note (`note.dynamic +=`),
the JSON program replaces the marking by the last run. For the token "1p^1f"
the MIDI program returns the dynamic "pf" and the JSON program "f". For every
token without `!`, `~`, `>` and `(`, the two decoders throw alike or return
notes that agree in every field but the dynamic marking. -/
theorem parseNote_dynamic_runs :
    (MIDIProg.parseNote "1p^1f".toList).map
        (fun n => (n.degree, n.octave_shift, n.dynamic)) = .ok (1, 1, "pf".toList)
    ∧ (parseNote "1p^1f".toList).map
        (fun n => (n.degree, n.octave_shift, n.dynamic)) = .ok (1, 1, "f".toList)
    ∧ MIDIProg.parseNote "1p^1f".toList ≠ parseNote "1p^1f".toList
    ∧ MIDIProg.parseNote "1mf".toList = parseNote "1mf".toList
    ∧ (∀ str : Str, (∀ c ∈ str, c ∉ "!~>(".toList) →
        (MIDIProg.parseNote str).map noteWithoutDynamic
          = (parseNote str).map noteWithoutDynamic) :=
  ⟨by decide, by decide, by decide, by decide, parseNote_agree⟩

/-! ## Single notes with a degree out of range -/

theorem isdigit_facts (c : Char) (h : isdigit c = true) :
    isspace c = false ∧ c ≠ '-' ∧ c ≠ '+' ∧ c ≠ 'R' := by
  unfold isdigit at h
  simp only [Bool.and_eq_true, decide_eq_true_eq] at h
  refine ⟨?_, ?_, ?_, ?_⟩
  · unfold isspace
    have h1 : c ≠ ' ' := by
      intro hc
      rw [hc] at h
      exact absurd h.1 (by decide)
    simp only [Bool.or_eq_false_iff, decide_eq_false_iff_not, Bool.and_eq_false_imp,
      decide_eq_true_eq]
    exact ⟨h1, fun _ => by omega⟩
  all_goals
    (intro hc
     rw [hc] at h
     first
       | exact absurd h.1 (by decide)
       | exact absurd h.2 (by decide))

theorem stoi_digits_nonneg (ds : Str) (d : Int) (hall : ∀ c ∈ ds, isdigit c = true)
    (h : stoi ds = .ok d) : 0 ≤ d := by
  cases ds with
  | nil =>
    have h0 : stoi [] = .error .invalid_argument := by decide
    rw [h0] at h
    exact Except.noConfusion h
  | cons c t =>
    obtain ⟨hsp, hm, hp, _⟩ := isdigit_facts c (hall c (List.mem_cons_self c t))
    unfold stoi at h
    rw [List.dropWhile_cons_of_neg (by rw [hsp]; decide)] at h
    simp only [] at h
    split_ifs at h with h1 h2 h3
    · exfalso
      split at h2
      · rename_i r heq
        exact absurd (List.head_eq_of_cons_eq heq) hm
      · exact Bool.noConfusion h2
      · exact Bool.noConfusion h2
    · simp only [Except.ok.injEq] at h
      rw [← h]
      exact Int.natCast_nonneg _

theorem parseDuration_degree (str : Str) (note : Note) :
    (parseDuration str note).degree = note.degree
      ∧ (parseDuration str note).is_rest = note.is_rest := by
  unfold parseDuration
  split_ifs <;> exact ⟨rfl, rfl⟩

theorem parseNoteLoop_degree :
    ∀ (fuel : Nat) (str : Str) (note r : Note), parseNoteLoop fuel str note = .ok r →
      r.degree = note.degree ∧ r.is_rest = note.is_rest
  | 0, _, _, _, h => by simp [parseNoteLoop] at h
  | fuel + 1, [], note, r, h => by
    simp only [parseNoteLoop, Except.ok.injEq] at h
    rw [← h]
    exact ⟨rfl, rfl⟩
  | fuel + 1, c :: rest, note, r, h => by
    simp only [parseNoteLoop] at h
    split_ifs at h
    all_goals first
      | (have hr := parseNoteLoop_degree fuel _ _ r h
         exact hr)
      | (simp only [Except.ok.injEq] at h
         rw [← h]
         exact parseDuration_degree _ _)
      | (simp only [bind, Except.bind] at h
         split at h
         · simp at h
         · have hr := parseNoteLoop_degree fuel _ _ r h
           exact hr)

theorem parseNoteLoop_returns :
    ∀ (fuel : Nat) (str : Str) (note : Note), str.length < fuel → (∀ c ∈ str, c ≠ '^') →
      ∃ r, parseNoteLoop fuel str note = .ok r
  | 0, _, _, h, _ => absurd h (Nat.not_lt_zero _)
  | fuel + 1, [], note, _, _ => ⟨note, by simp [parseNoteLoop]⟩
  | fuel + 1, c :: rest, note, h, hno => by
    have hr : rest.length < fuel := by simpa using h
    have hc : c ≠ '^' := hno c (List.mem_cons_self c rest)
    have hrest : ∀ s : Str, s.Sublist rest → s.length < fuel ∧ ∀ x ∈ s, x ≠ '^' :=
      fun s hs => ⟨Nat.lt_of_le_of_lt hs.length_le hr,
        fun x hx => hno x (List.mem_cons_of_mem c (hs.subset hx))⟩
    simp only [parseNoteLoop, hc, if_false]
    split_ifs
    all_goals first
      | exact parseNoteLoop_returns fuel _ _ (hrest _ (List.Sublist.refl rest)).1
          (hrest _ (List.Sublist.refl rest)).2
      | exact parseNoteLoop_returns fuel _ _ (hrest _ (List.dropWhile_sublist _)).1
          (hrest _ (List.dropWhile_sublist _)).2
      | exact parseNoteLoop_returns fuel _ _ (hrest _ (List.drop_sublist 2 rest)).1
          (hrest _ (List.drop_sublist 2 rest)).2
      | exact ⟨_, rfl⟩

theorem parseNote_leading_digits (str : Str) (d : Int) (n : Note)
    (hd : stoi (str.takeWhile isdigit) = .ok d) (hn : parseNote str = .ok n) :
    n.degree = d ∧ n.is_rest = false := by
  have h0 : stoi [] = .error .invalid_argument := by decide
  cases str with
  | nil =>
    rw [List.takeWhile_nil, h0] at hd
    exact Except.noConfusion hd
  | cons c0 tail =>
    have hc : isdigit c0 = true := by
      cases hc : isdigit c0 with
      | true => rfl
      | false =>
        rw [List.takeWhile_cons_of_neg (by rw [hc]; decide), h0] at hd
        exact Except.noConfusion hd
    have hne : ((c0 :: tail).takeWhile isdigit).isEmpty = false := by
      rw [List.takeWhile_cons_of_pos hc]
      rfl
    unfold parseNote at hn
    simp only [(isdigit_facts c0 hc).2.2.2, if_false, hne, Bool.false_eq_true, hd, bind,
      Except.bind] at hn
    exact parseNoteLoop_degree _ _ _ n hn

theorem parseNote_returns (str : Str) (d : Int)
    (hd : stoi (str.takeWhile isdigit) = .ok d) (hno : ∀ c ∈ str, c ≠ '^') :
    ∃ n, parseNote str = .ok n := by
  have hloop : ∀ note, ∃ r, parseNoteLoop (str.length + 1) (str.dropWhile isdigit) note = .ok r :=
    fun note => parseNoteLoop_returns _ _ note
      (Nat.lt_succ_of_le (List.dropWhile_sublist isdigit).length_le)
      (fun c hc => hno c ((List.dropWhile_sublist isdigit).subset hc))
  unfold parseNote
  cases str with
  | nil => exact ⟨_, rfl⟩
  | cons c0 tail =>
    simp only []
    split_ifs
    · exact ⟨_, rfl⟩
    · exact hloop _
    · rw [hd]
      exact hloop _

/-- C31 (as the code has it): for a token that fails the chord test and whose
leading digits `std::stoi` converts to `d`, every note `parseNote` returns has
the degree `d` and is no rest, and `parseChord` returns the chord of that one
note, with its duration and dotted flag, in the state with one more LOGIC
error when `d` is above 7, and in the state as it was when `d` is 0 to 7.
`parseNote` returns for every such token without `^`. -/
theorem parseChord_degree_above_seven (str : Str) (p : AMSParser) (d : Int)
    (hsingle : hasDigitDotDigit str = false)
    (hd : stoi (str.takeWhile isdigit) = .ok d) :
    0 ≤ d
    ∧ (∀ n, parseNote str = .ok n →
        n.degree = d ∧ n.is_rest = false
          ∧ parseChord str p
            = .ok ({ notes := [n], duration := n.duration, is_dotted := n.is_dotted },
                if 7 < d then
                  { p with errors := p.errors ++
                      [errorRecord p.original_lines "LOGIC".toList
                        ("Invalid note degree: ".toList ++ str ++ " (must be 1-7)".toList)
                        p.current_line] }
                else p))
    ∧ ((∀ c ∈ str, c ≠ '^') → ∃ n, parseNote str = .ok n) := by
  have hpos : 0 ≤ d :=
    stoi_digits_nonneg _ d (fun c hc => List.mem_takeWhile_imp hc) hd
  refine ⟨hpos, ?_, parseNote_returns str d hd⟩
  intro n hn
  obtain ⟨hdeg, hrest⟩ := parseNote_leading_digits str d n hd hn
  refine ⟨hdeg, hrest, ?_⟩
  unfold parseChord
  simp only [hsingle, Bool.false_eq_true, if_false, hn, bind, Except.bind, hrest, hdeg,
    Bool.not_false, true_and, List.nil_append]
  by_cases h7 : 7 < d
  · have hc : d ≠ 0 ∧ (d < 1 ∨ d > 7) := ⟨by omega, Or.inr h7⟩
    rw [if_pos hc, if_pos h7]
    rfl
  · have hc : ¬ (d ≠ 0 ∧ (d < 1 ∨ d > 7)) := by omega
    rw [if_neg hc, if_neg h7]

set_option maxRecDepth 100000 in
/-- C31, an instance: the token "12.h". -/
theorem parseChord_degree_above_seven_witness :
    hasDigitDotDigit "12.h".toList = false
      ∧ stoi ("12.h".toList.takeWhile isdigit) = .ok 12
      ∧ parseNote "12.h".toList = .ok { degree := 12, duration := 2 }
      ∧ parseChord "12.h".toList (AMSParser.new [] 0 0)
        = .ok ({ notes := [{ degree := 12, duration := 2 }], duration := 2, is_dotted := false },
            { AMSParser.new [] 0 0 with errors :=
                [{ line_number := 1, line_content := [], error_type := "LOGIC".toList
                   error_message := "Invalid note degree: 12.h (must be 1-7)".toList }] }) :=
  have hn : parseNote "12.h".toList = .ok { degree := 12, duration := 2 } := by decide
  have h := ((parseChord_degree_above_seven "12.h".toList (AMSParser.new [] 0 0) 12
    (by decide) (by decide)).2.1 _ hn).2.2
  ⟨by decide, by decide, hn, h⟩

set_option maxRecDepth 100000 in
/-- C31, the claim as worded fails: the token "0" is a single note whose
digits denote the degree 0, outside 1..7, and `parseChord` records nothing for
it: the condition of the LOGIC error excludes the degree 0. The token "8"
records the error; the token "99999999999" makes `std::stoi` throw. -/
theorem parseChord_degree_zero_unflagged :
    ["0", "8"].map (fun s => (parseChord s.toList (AMSParser.new [] 0 0)).map
        (fun r => (r.1.notes.map (fun n => (n.degree, n.is_rest)),
          r.2.errors.map (fun e => e.error_type))))
      = [.ok ([(0, false)], []), .ok ([(8, false)], ["LOGIC".toList])]
    ∧ parseChord "99999999999".toList (AMSParser.new [] 0 0) = .error .out_of_range := by
  refine ⟨by decide, by decide⟩

/-! ## The error list is written and never read -/

theorem bind_frame {α β : Type} (g : α → α) (k : β → β) (x' x : Except Fault α)
    (f' f : α → Except Fault β) (hx : x' = x.map g) (hf : ∀ a, f' (g a) = (f a).map k) :
    (x' >>= f') = (x >>= f).map k := by
  subst hx
  cases x with
  | error err => rfl
  | ok a => exact hf a

theorem foldlM_frame {α β : Type} (g : β → β) (f : β → α → Except Fault β)
    (hf : ∀ acc x, f (g acc) x = (f acc x).map g) :
    ∀ (l : List α) (init : β), l.foldlM f (g init) = (l.foldlM f init).map g
  | [], _ => rfl
  | x :: l, init => by
    rw [List.foldlM_cons, List.foldlM_cons]
    exact bind_frame g g _ _ _ _ (hf init x) (fun a => foldlM_frame g f hf l a)

theorem map_id_except {α : Type} (x : Except Fault α) : x = x.map id := by
  cases x <;> rfl

theorem chordNotesLoop_frame (e : ParseError) :
    ∀ (nps : List Str) (chord : Chord) (p p' : AMSParser), p' = withFirstError e p →
      chordNotesLoop nps chord p'
        = (chordNotesLoop nps chord p).map (fun r => (r.1, withFirstError e r.2))
  | [], _, _, _, hp => by subst hp; rfl
  | np :: nps, chord, p, p', hp => by
    subst hp
    simp only [chordNotesLoop]
    split_ifs
    · refine bind_frame id _ _ _ _ _ (map_id_except _) (fun d => ?_)
      simp only [id]
      split_ifs
      · exact chordNotesLoop_frame e nps _ _ _ rfl
      · exact chordNotesLoop_frame e nps _ _ _ rfl
    · exact chordNotesLoop_frame e nps _ _ _ rfl

theorem parseChord_frame (e : ParseError) (str : Str) (p p' : AMSParser)
    (hp : p' = withFirstError e p) :
    parseChord str p' = (parseChord str p).map (fun r => (r.1, withFirstError e r.2)) := by
  subst hp
  unfold parseChord
  simp only []
  split_ifs
  · split
    · rfl
    · refine bind_frame id _ _ _ _ _ (map_id_except _) (fun d => ?_)
      exact chordNotesLoop_frame e _ _ _ _ rfl
  · refine bind_frame id _ _ _ _ _ (map_id_except _) (fun n => ?_)
    simp only [id]
    split_ifs <;> rfl

theorem parseChordSequence_frame (e : ParseError) (str : Str) (p p' : AMSParser)
    (hp : p' = withFirstError e p) :
    parseChordSequence str p'
      = (parseChordSequence str p).map (fun r => (r.1, withFirstError e r.2)) := by
  subst hp
  unfold parseChordSequence
  refine foldlM_frame (fun (r : List Chord × AMSParser) => (r.1, withFirstError e r.2)) _ ?_ _
    ([], p)
  intro acc part
  simp only []
  split_ifs
  · rfl
  · exact bind_frame (fun (r : Chord × AMSParser) => (r.1, withFirstError e r.2)) _ _ _ _ _
      (parseChord_frame e _ _ _ rfl) (fun r => rfl)

theorem parseChunks_frame (e : ParseError) (data : Str) (p p' : AMSParser)
    (hp : p' = withFirstError e p) :
    parseChunks data p' = (parseChunks data p).map (fun r => (r.1, withFirstError e r.2)) := by
  subst hp
  unfold parseChunks
  refine foldlM_frame (fun (r : List (List Chord) × AMSParser) => (r.1, withFirstError e r.2))
    _ ?_ _ ([], p)
  intro acc chunk_str
  split_ifs
  · rfl
  · exact bind_frame (fun (r : List Chord × AMSParser) => (r.1, withFirstError e r.2)) _ _ _ _ _
      (parseChordSequence_frame e _ _ _ rfl) (fun r => rfl)

theorem parseHandLoop_frame (e : ParseError) :
    ∀ (fuel : Nat) (chunk_data : Str) (p p' : AMSParser), p' = withFirstError e p →
      parseHandLoop fuel chunk_data p'
        = (parseHandLoop fuel chunk_data p).map (fun r => (r.1, r.2.1, withFirstError e r.2.2))
  | 0, _, _, _, hp => by subst hp; rfl
  | fuel + 1, chunk_data, p, p', hp => by
    subst hp
    have hl : (withFirstError e p).lines[(withFirstError e p).current_line]?
        = p.lines[p.current_line]? := rfl
    simp only [parseHandLoop]
    rw [hl]
    cases hline : p.lines[p.current_line]? with
    | none => rfl
    | some l =>
      simp only []
      split_ifs
      all_goals first
        | rfl
        | exact parseHandLoop_frame e fuel _ _ _ rfl
        | exact bind_frame (fun (r : List (List Chord) × AMSParser) =>
              (r.1, withFirstError e r.2)) _ _ _ _ _
            (parseChunks_frame e _ _ _ rfl) (fun r => rfl)

theorem parseHand_frame (e : ParseError) (p p' : AMSParser) (hp : p' = withFirstError e p) :
    parseHand p' = (parseHand p).map (fun r => (r.1, withFirstError e r.2)) := by
  subst hp
  unfold parseHand
  refine bind_frame (fun (r : Hand × Bool × AMSParser) => (r.1, r.2.1, withFirstError e r.2.2))
    _ _ _ _ _ (parseHandLoop_frame e _ _ _ _ rfl) (fun r => ?_)
  simp only []
  split_ifs <;> rfl

theorem parseMacroLoop_frame (e : ParseError) (macro_name : Str) :
    ∀ (fuel : Nat) (macro_body : Str) (p p' : AMSParser), p' = withFirstError e p →
      parseMacroLoop macro_name fuel macro_body p'
        = (parseMacroLoop macro_name fuel macro_body p).map
            (fun r => (r.1, withFirstError e r.2))
  | 0, _, _, _, hp => by subst hp; rfl
  | fuel + 1, macro_body, p, p', hp => by
    subst hp
    have hl : (withFirstError e p).lines[(withFirstError e p).current_line]?
        = p.lines[p.current_line]? := rfl
    simp only [parseMacroLoop]
    rw [hl]
    cases hline : p.lines[p.current_line]? with
    | none => rfl
    | some l =>
      simp only []
      split_ifs
      · rfl
      · exact parseMacroLoop_frame e macro_name fuel _ _ _ rfl

theorem parseMacro_frame (e : ParseError) (p p' : AMSParser) (hp : p' = withFirstError e p) :
    parseMacro p' = (parseMacro p).map (withFirstError e) := by
  subst hp
  have hl : (withFirstError e p).lines.getD (withFirstError e p).current_line []
      = p.lines.getD p.current_line [] := rfl
  have hm : (withFirstError e p).macro_definitions = p.macro_definitions := rfl
  unfold parseMacro
  rw [hl, hm]
  split
  · simp only []
    split
    · rfl
    · refine bind_frame (fun (r : Bool × AMSParser) => (r.1, withFirstError e r.2)) _ _ _ _ _
        (parseMacroLoop_frame e _ _ _ _ _ rfl) (fun r => ?_)
      simp only []
      split_ifs <;> rfl
  · rfl

theorem parseSegmentLoop_frame (e : ParseError) :
    ∀ (fuel : Nat) (seg : Segment) (has_left has_right : Bool) (p p' : AMSParser),
      p' = withFirstError e p →
      parseSegmentLoop fuel seg has_left has_right p'
        = (parseSegmentLoop fuel seg has_left has_right p).map
            (fun r => (r.1, withFirstError e r.2))
  | 0, _, _, _, _, _, hp => by subst hp; rfl
  | fuel + 1, seg, has_left, has_right, p, p', hp => by
    subst hp
    have hl : (withFirstError e p).lines[(withFirstError e p).current_line]?
        = p.lines[p.current_line]? := rfl
    simp only [parseSegmentLoop]
    rw [hl]
    cases hline : p.lines[p.current_line]? with
    | none => rfl
    | some l =>
      simp only []
      split_ifs
      all_goals first
        | rfl
        | exact parseSegmentLoop_frame e fuel _ _ _ _ _ rfl
        | (refine bind_frame id _ _ _ _ _ (map_id_except _) (fun t => ?_)
           simp only [id]
           split_ifs
           · exact parseSegmentLoop_frame e fuel _ _ _ _ _ rfl
           · exact parseSegmentLoop_frame e fuel _ _ _ _ _ rfl)
        | exact bind_frame (fun (r : Hand × AMSParser) => (r.1, withFirstError e r.2)) _ _ _ _ _
            (parseHand_frame e _ _ rfl)
            (fun r => parseSegmentLoop_frame e fuel _ _ _ _ _ rfl)

theorem parseSegment_frame (e : ParseError) (p p' : AMSParser) (hp : p' = withFirstError e p) :
    parseSegment p' = (parseSegment p).map (withFirstError e) := by
  subst hp
  have hl : (withFirstError e p).lines.getD (withFirstError e p).current_line []
      = p.lines.getD p.current_line [] := rfl
  have hd : (withFirstError e p).segment_definitions = p.segment_definitions := rfl
  have hn : (withFirstError e p).segment_name_definitions = p.segment_name_definitions := rfl
  unfold parseSegment
  rw [hl, hd, hn]
  split
  · rename_i m1 m2 hre
    refine bind_frame (fun (i : Int) => i) _ _ _ _ _ (map_id_except _) (fun i => ?_)
    simp only []
    cases h1 : List.lookup i p.segment_definitions with
    | some line0 => rfl
    | none =>
      simp only []
      cases h2 : List.lookup m2 p.segment_name_definitions with
      | some line0 => rfl
      | none =>
        simp only []
        refine bind_frame (fun (r : Bool × AMSParser) => (r.1, withFirstError e r.2)) _ _ _ _ _
          (parseSegmentLoop_frame e _ _ _ _ _ _ rfl) (fun r => ?_)
        simp only []
        split_ifs <;> rfl
  · rfl

theorem findMainOpenLoop_frame (e : ParseError) :
    ∀ (fuel : Nat) (p p' : AMSParser), p' = withFirstError e p →
      findMainOpenLoop fuel p'
        = (findMainOpenLoop fuel p).map (fun r => (r.1, withFirstError e r.2))
  | 0, _, _, hp => by subst hp; rfl
  | fuel + 1, p, p', hp => by
    subst hp
    have hl : (withFirstError e p).lines[(withFirstError e p).current_line]?
        = p.lines[p.current_line]? := rfl
    simp only [findMainOpenLoop]
    rw [hl]
    cases hline : p.lines[p.current_line]? with
    | none => rfl
    | some l =>
      simp only []
      split_ifs
      all_goals first
        | rfl
        | exact findMainOpenLoop_frame e fuel _ _ rfl

theorem parseMainLoop_frame (e : ParseError) :
    ∀ (fuel : Nat) (p p' : AMSParser), p' = withFirstError e p →
      parseMainLoop fuel p' = (parseMainLoop fuel p).map (fun r => (r.1, withFirstError e r.2))
  | 0, _, _, hp => by subst hp; rfl
  | fuel + 1, p, p', hp => by
    subst hp
    have hl : (withFirstError e p).lines[(withFirstError e p).current_line]?
        = p.lines[p.current_line]? := rfl
    have hd : (withFirstError e p).segment_definitions = p.segment_definitions := rfl
    simp only [parseMainLoop]
    rw [hl, hd]
    cases hline : p.lines[p.current_line]? with
    | none => rfl
    | some l =>
      simp only []
      split_ifs
      all_goals first
        | rfl
        | exact parseMainLoop_frame e fuel _ _ rfl
        | (split
           · refine bind_frame id _ _ _ _ _ (map_id_except _) (fun t => ?_)
             simp only [id]
             first
               | exact parseMainLoop_frame e fuel _ _ rfl
               | (split
                  · exact parseMainLoop_frame e fuel _ _ rfl
                  · exact parseMainLoop_frame e fuel _ _ rfl)
           · exact parseMainLoop_frame e fuel _ _ rfl)

theorem parseMain_frame (e : ParseError) (p p' : AMSParser) (hp : p' = withFirstError e p) :
    parseMain p' = (parseMain p).map (withFirstError e) := by
  subst hp
  have hl : (withFirstError e p).lines = p.lines := rfl
  have hc : (withFirstError e p).current_line = p.current_line := rfl
  unfold parseMain
  rw [hl, hc]
  simp only []
  have hk : ∀ r : Option Bool × AMSParser,
      (match (r.1, withFirstError e r.2).1 with
        | none => Except.ok (r.1, withFirstError e r.2).2
        | some false =>
          Except.ok ((r.1, withFirstError e r.2).2.addError "SYNTAX".toList
            "Main() block missing opening \x27\x7b\x27".toList (some p.current_line))
        | some true => do
          let r ← parseMainLoop (p.lines.length + 1) (r.1, withFirstError e r.2).2
          if r.1 then .ok r.2
          else
            .ok (r.2.addError "SYNTAX".toList
              "Main() block missing closing \x27\x7d\x27".toList (some p.current_line)))
        = (match r.1 with
        | none => Except.ok r.2
        | some false =>
          Except.ok (r.2.addError "SYNTAX".toList
            "Main() block missing opening \x27\x7b\x27".toList (some p.current_line))
        | some true => do
          let r ← parseMainLoop (p.lines.length + 1) r.2
          if r.1 then .ok r.2
          else
            .ok (r.2.addError "SYNTAX".toList
              "Main() block missing closing \x27\x7d\x27".toList (some p.current_line))).map
            (withFirstError e) := by
    intro r
    simp only []
    split
    · rfl
    · rfl
    · refine bind_frame (fun (r : Bool × AMSParser) => (r.1, withFirstError e r.2)) _ _ _ _ _
        (parseMainLoop_frame e _ _ _ rfl) (fun r => ?_)
      simp only []
      split_ifs <;> rfl
  split_ifs
  · exact hk (some true, p.advance)
  · exact bind_frame (fun (r : Option Bool × AMSParser) => (r.1, withFirstError e r.2)) _ _ _ _ _
      (findMainOpenLoop_frame e _ _ _ rfl) hk

theorem parseLoop_frame (e : ParseError) :
    ∀ (fuel : Nat) (p p' : AMSParser), p' = withFirstError e p →
      parseLoop fuel p' = (parseLoop fuel p).map (withFirstError e)
  | 0, _, _, hp => by subst hp; rfl
  | fuel + 1, p, p', hp => by
    subst hp
    have hl : (withFirstError e p).lines[(withFirstError e p).current_line]?
        = p.lines[p.current_line]? := rfl
    simp only [parseLoop]
    rw [hl]
    cases hline : p.lines[p.current_line]? with
    | none => rfl
    | some l =>
      simp only []
      split_ifs
      · exact parseLoop_frame e fuel _ _ rfl
      · exact bind_frame (withFirstError e) _ _ _ _ _ (parseMacro_frame e _ _ rfl)
          (fun a => parseLoop_frame e fuel _ _ rfl)
      · exact bind_frame (withFirstError e) _ _ _ _ _ (parseSegment_frame e _ _ rfl)
          (fun a => parseLoop_frame e fuel _ _ rfl)
      · exact parseMain_frame e _ _ rfl
      · exact parseLoop_frame e fuel _ _ rfl

theorem foldl_frame {α : Type} (e : ParseError) (f : AMSParser → α → AMSParser)
    (hf : ∀ p x, f (withFirstError e p) x = withFirstError e (f p x)) :
    ∀ (l : List α) (p : AMSParser),
      l.foldl f (withFirstError e p) = withFirstError e (l.foldl f p)
  | [], _ => rfl
  | x :: l, p => by
    rw [List.foldl_cons, List.foldl_cons, hf]
    exact foldl_frame e f hf l (f p x)

theorem validateChunkAlignment_frame (e : ParseError) (seg : Segment) (p : AMSParser) :
    validateChunkAlignment seg (withFirstError e p)
      = withFirstError e (validateChunkAlignment seg p) := by
  unfold validateChunkAlignment
  refine foldl_frame e _ (fun q i => ?_) _ p
  simp only []
  split_ifs <;> rfl

theorem validateSegments_frame (e : ParseError) (p : AMSParser) :
    validateSegments (withFirstError e p) = withFirstError e (validateSegments p) := by
  unfold validateSegments
  have hs : (withFirstError e p).segments = p.segments := rfl
  rw [hs]
  refine foldl_frame e _ (fun q seg => ?_) _ p
  simp only []
  split_ifs
  · rfl
  · exact validateChunkAlignment_frame e seg q
  · rfl

/-! ## A segment defined twice, in any source -/

theorem parseLoop_skip :
    ∀ (k fuel : Nat) (p : AMSParser) (c : Nat), c = p.current_line + k →
      (∀ i < k, ∃ l, p.lines[p.current_line + i]? = some l
        ∧ startsWith l "Define ".toList = false ∧ startsWith l "Segment(".toList = false
        ∧ startsWith l "Main()".toList = false) →
      parseLoop (fuel + k) p = parseLoop fuel { p with current_line := c }
  | 0, _, _, _, hc, _ => by subst hc; rfl
  | k + 1, fuel, p, c, hc, hbody => by
    obtain ⟨l, hl, hd, hs, hm⟩ := hbody 0 (Nat.succ_pos k)
    have hstep : parseLoop (fuel + k + 1) p = parseLoop (fuel + k) p.advance := by
      simp only [parseLoop]
      rw [show p.lines[p.current_line]? = some l from hl]
      simp only [hd, hs, hm, Bool.false_eq_true, if_false, ite_self]
    have hrec := parseLoop_skip k fuel p.advance c
      (by rw [hc]; show p.current_line + (k + 1) = p.current_line + 1 + k; omega)
      (fun i hi => by
        obtain ⟨l', hl', h'⟩ := hbody (i + 1) (Nat.succ_lt_succ hi)
        refine ⟨l', ?_, h'⟩
        rw [← hl']
        show p.lines[p.current_line + 1 + i]? = p.lines[p.current_line + (i + 1)]?
        rw [Nat.add_assoc, Nat.add_comm 1 i])
    rw [show fuel + (k + 1) = fuel + k + 1 from rfl, hstep, hrec]
    rfl

theorem first_push (v w : List Segment × List (Int × Nat) × List (Str × Nat))
    (id : Int) (name : Str) (line : Nat) (i : Int) (first : Segment)
    (hd : (v.2.1.lookup i).isSome = true)
    (hf : v.1.filter (fun s => decide (s.id = i)) = [first])
    (hid : v.2.1.lookup id = none)
    (hp : segmentPushed id name (v.1, mapSet v.2.1 id line, mapSet v.2.2 name line) w) :
    (w.2.1.lookup i).isSome = true ∧ w.1.filter (fun s => decide (s.id = i)) = [first] := by
  obtain ⟨h2, h1⟩ := hp
  have hne : i ≠ id := by
    intro he
    rw [he, hid] at hd
    exact Bool.noConfusion hd
  constructor
  · rw [h2]
    simp only [lookup_mapSet, if_neg hne]
    exact hd
  · rcases h1 with h1 | ⟨seg, hsid, _, h1⟩
    · rw [h1]; exact hf
    · rw [h1, List.filter_append, hf]
      have hs : decide (seg.id = i) = false := by
        rw [hsid]; exact decide_eq_false (fun he => hne he.symm)
      simp only [List.filter, hs, List.append_nil]

theorem parseSegment_first (i : Int) (first : Segment) (p q : AMSParser)
    (h : parseSegment p = .ok q)
    (hd : (p.segment_definitions.lookup i).isSome = true)
    (hf : p.segments.filter (fun s => decide (s.id = i)) = [first]) :
    (q.segment_definitions.lookup i).isSome = true
      ∧ q.segments.filter (fun s => decide (s.id = i)) = [first] := by
  have hkeep : ∀ x : AMSParser, segmentView x = segmentView p →
      (x.segment_definitions.lookup i).isSome = true
        ∧ x.segments.filter (fun s => decide (s.id = i)) = [first] := by
    intro x hx
    have h1 : x.segments = p.segments := congrArg Prod.fst hx
    have h2 : x.segment_definitions = p.segment_definitions :=
      congrArg (fun v => v.2.1) hx
    rw [h1, h2]
    exact ⟨hd, hf⟩
  unfold parseSegment at h
  split at h
  · simp only [bind, Except.bind] at h
    split at h
    · simp at h
    · split at h
      · simp only [Except.ok.injEq] at h; rw [← h]; exact hkeep _ rfl
      · rename_i hnone
        split at h
        · simp only [Except.ok.injEq] at h; rw [← h]; exact hkeep _ rfl
        · split at h
          · simp at h
          · rename_i r hr
            have hp := parseSegmentLoop_view _ _ _ _ _ r hr
            have hu := first_push (segmentView p) (segmentView r.2) _ _ p.current_line i first
              hd hf hnone hp
            split_ifs at h
            · simp only [Except.ok.injEq] at h; rw [← h]; exact hu
            · simp only [Except.ok.injEq] at h; rw [← h]; exact hu
  · simp only [Except.ok.injEq] at h; rw [← h]; exact hkeep _ rfl

theorem parseLoop_first (i : Int) (first : Segment) :
    ∀ (fuel : Nat) (p q : AMSParser), parseLoop fuel p = .ok q →
      (p.segment_definitions.lookup i).isSome = true →
      p.segments.filter (fun s => decide (s.id = i)) = [first] →
      q.segments.filter (fun s => decide (s.id = i)) = [first]
  | 0, _, _, h, _, _ => by simp [parseLoop] at h
  | fuel + 1, p, q, h, hd, hf => by
    simp only [parseLoop] at h
    split at h
    · simp only [Except.ok.injEq] at h; rw [← h]; exact hf
    · split_ifs at h
      · exact parseLoop_first i first fuel _ q h hd hf
      · simp only [bind, Except.bind] at h
        split at h
        · simp at h
        · rename_i p1 h1
          have hv := parseMacro_view p p1 h1
          have hs : p1.segments = p.segments := congrArg Prod.fst hv
          have hr : p1.segment_definitions = p.segment_definitions :=
            congrArg (fun v => v.2.1) hv
          exact parseLoop_first i first fuel p1 q h (by rw [hr]; exact hd) (by rw [hs]; exact hf)
      · simp only [bind, Except.bind] at h
        split at h
        · simp at h
        · rename_i p1 h1
          have hv := parseSegment_first i first p p1 h1 hd hf
          exact parseLoop_first i first fuel p1 q h hv.1 hv.2
      · have hv := parseMain_view _ q h
        have hs : q.segments = p.segments := congrArg Prod.fst hv
        rw [hs]; exact hf
      · exact parseLoop_first i first fuel _ q h hd hf

theorem segment_header_line (hdr : Str) (h : startsWith hdr "Segment(".toList = true) :
    hdr.isEmpty = false ∧ startsWith hdr "Define ".toList = false := by
  cases hdr with
  | nil => exact Bool.noConfusion h
  | cons c t =>
    refine ⟨rfl, ?_⟩
    by_cases hc : c = 'S'
    · subst hc
      exact MIDIProg.startsWith_head 'S' 'D' t _ (by decide)
    · have h0 : startsWith (c :: t) "Segment(".toList = false :=
        MIDIProg.startsWith_head c 'S' t _ hc
      rw [h0] at h
      exact Bool.noConfusion h

/-- The loop of `parse` from a header whose id is defined, in a state without
errors: the run is the run from the line after the body, with the REDEFINITION
error in front of its errors. -/
theorem parseLoop_redefinition (p q : AMSParser) (hdr m1 m2 : Str) (id : Int)
    (line0 k fuel : Nat)
    (hclean : p.errors = [])
    (hdef : p.segment_definitions.lookup id = some line0)
    (hhdr : p.lines[p.current_line]? = some hdr)
    (hseg : startsWith hdr "Segment(".toList = true)
    (hre : regex_search seg_regex hdr = some [m1, m2])
    (hid : stoi m1 = .ok id)
    (hbody : ∀ i < k, ∃ l, p.lines[p.current_line + 1 + i]? = some l
      ∧ startsWith l "Define ".toList = false ∧ startsWith l "Segment(".toList = false
      ∧ startsWith l "Main()".toList = false)
    (hrest : parseLoop fuel { p with current_line := p.current_line + 1 + k } = .ok q) :
    parseLoop (fuel + (1 + k)) p
      = .ok (withFirstError
          (errorRecord p.original_lines "REDEFINITION".toList
            ("Segment with ID ".toList ++ to_string id ++ " already defined at line ".toList
              ++ to_string (Int.ofNat line0 + 1)) p.current_line) q) := by
  obtain ⟨he, hd⟩ := segment_header_line hdr hseg
  have hg : regex_search seg_regex (p.lines.getD p.current_line []) = some [m1, m2] := by
    rw [getD_of_getElem? _ _ hdr hhdr]; exact hre
  have herr : ∀ e : ParseError, p.errors ++ [e] = e :: p.errors := by
    intro e; rw [hclean]; rfl
  rw [show fuel + (1 + k) = fuel + k + 1 by omega,
    parseLoop_segment (fuel + k) p hdr hhdr he hd hseg,
    parseSegment_redefinition p m1 m2 id line0 hg hid hdef, bind_ok, herr]
  have hframe := parseLoop_frame
    (errorRecord p.original_lines "REDEFINITION".toList
      ("Segment with ID ".toList ++ to_string id ++ " already defined at line ".toList
        ++ to_string (Int.ofNat line0 + 1)) p.current_line)
    (fuel + k) { p with current_line := p.current_line + 1 } _ rfl
  rw [parseLoop_skip k fuel { p with current_line := p.current_line + 1 }
      (p.current_line + 1 + k) rfl hbody, hrest] at hframe
  exact hframe

/-- C15 (amended): every source in which a segment is defined a second time
before the Main block, and which is valid otherwise. The source is `content`;
its metadata and its Map block are read and the Map is valid; after `n` rounds
the loop of `parse` stands, without an error so far, at the second header: a
line `hdr` that begins with `Segment(` and that the header pattern matches with
the id of `first`, the one segment of that id the parser holds, registered at
line index `line0` (`Segment(1, A)` after a first `Segment(1, A)` is such a
line). The loop ends with the Main block, so a header it comes to stands before
that block. The `k` lines after the header, the body and `END;`, begin with
none of `Define `, `Segment(` and `Main()`; and the rest of the source, read
from the state before the second header, has a Main block and gives no error,
neither in the loop nor in `validateSegments`. Then `parse` returns `false`;
its error list is exactly one error, the REDEFINITION at the second header;
exactly one segment of that id is retained, and it is `first` as it was before
the second header; the segments are those of the source read without the
second definition. -/
theorem parse_segment_defined_twice (content : Str) (tempo0 difficulty0 : Int)
    (p1 r p q : AMSParser) (first : Segment) (hdr m1 m2 : Str) (line0 n k fuel : Nat)
    (hmeta : parseMetadata (AMSParser.new content tempo0 difficulty0) = .ok p1)
    (hmap : parseMap p1 = .ok (true, r))
    (hvalid : (validateMap r).1 = true)
    (hreach : ∀ f, parseLoop (f + n) (generateNoteMapping (validateMap r).2) = parseLoop f p)
    (hclean : p.errors = [])
    (hfirst : p.segments.filter (fun s => decide (s.id = first.id)) = [first])
    (hdef : p.segment_definitions.lookup first.id = some line0)
    (hhdr : p.lines[p.current_line]? = some hdr)
    (hseg : startsWith hdr "Segment(".toList = true)
    (hre : regex_search seg_regex hdr = some [m1, m2])
    (hid : stoi m1 = .ok first.id)
    (hbody : ∀ i < k, ∃ l, p.lines[p.current_line + 1 + i]? = some l
      ∧ startsWith l "Define ".toList = false ∧ startsWith l "Segment(".toList = false
      ∧ startsWith l "Main()".toList = false)
    (hrest : parseLoop fuel { p with current_line := p.current_line + 1 + k } = .ok q)
    (hmain : q.has_main_block = true)
    (hnone : (validateSegments q).errors = []) :
    ∃ m : AMSParser,
      parse (fuel + (1 + k) + n) (AMSParser.new content tempo0 difficulty0) = .ok (false, m)
      ∧ m.errors =
        [errorRecord p.original_lines "REDEFINITION".toList
          ("Segment with ID ".toList ++ to_string first.id ++ " already defined at line ".toList
            ++ to_string (Int.ofNat line0 + 1)) p.current_line]
      ∧ m.errors.map (fun e => e.error_type) = ["REDEFINITION".toList]
      ∧ m.segments.filter (fun s => decide (s.id = first.id)) = [first]
      ∧ m.segments = q.segments := by
  have hloop := parseLoop_redefinition p q hdr m1 m2 first.id line0 k fuel hclean hdef hhdr
    hseg hre hid hbody hrest
  have hq : q.segments.filter (fun s => decide (s.id = first.id)) = [first] :=
    parseLoop_first first.id first fuel _ q hrest
      (by show (p.segment_definitions.lookup first.id).isSome = true; rw [hdef]; rfl) hfirst
  have hvs : (validateSegments q).segments = q.segments :=
    congrArg Prod.fst (validateSegments_view q)
  have hne : q.segments.isEmpty = false := by
    cases hs : q.segments with
    | nil => rw [hs] at hq; exact absurd hq (by simp)
    | cons s t => rfl
  refine ⟨withFirstError
    (errorRecord p.original_lines "REDEFINITION".toList
      ("Segment with ID ".toList ++ to_string first.id ++ " already defined at line ".toList
        ++ to_string (Int.ofNat line0 + 1)) p.current_line) (validateSegments q), ?_, ?_, ?_, ?_, hvs⟩
  · unfold parse
    rw [hmeta]
    simp only [bind, Except.bind]
    rw [hmap]
    simp only [hvalid, Bool.not_true, Bool.false_eq_true, if_false]
    rw [hreach, hloop]
    simp only []
    have h1 : (withFirstError
      (errorRecord p.original_lines "REDEFINITION".toList
        ("Segment with ID ".toList ++ to_string first.id ++ " already defined at line ".toList
          ++ to_string (Int.ofNat line0 + 1)) p.current_line) q).has_main_block = true := hmain
    have h2 : (withFirstError
      (errorRecord p.original_lines "REDEFINITION".toList
        ("Segment with ID ".toList ++ to_string first.id ++ " already defined at line ".toList
          ++ to_string (Int.ofNat line0 + 1)) p.current_line) q).segments.isEmpty = false := hne
    rw [h1, h2, validateSegments_frame]
    rfl
  · show _ :: (validateSegments q).errors = _
    rw [hnone]
  · show (_ :: (validateSegments q).errors).map _ = _
    rw [hnone]
    rfl
  · show (validateSegments q).segments.filter _ = _
    rw [hvs]; exact hq

set_option maxRecDepth 100000 in
/-- C15, an instance: the source that defines `Segment(1, A)` with the right
hand `1,2,3,4` and then, before the Main block, with the left hand `5,6,7,1`,
read with tempo 120 and difficulty 0. One round brings the loop to the second
header at line index 9, the body has four lines, and the one error is the
REDEFINITION at line 10. -/
theorem parse_segment_defined_twice_witness :
    ∃ m : AMSParser,
      parse 30 (AMSParser.new duplicateSource 120 0) = .ok (false, m)
      ∧ m.errors =
        [{ line_number := 10, line_content := "Segment(1, A)".toList
           error_type := "REDEFINITION".toList
           error_message := "Segment with ID 1 already defined at line 5".toList }]
      ∧ m.errors.map (fun e => e.error_type) = ["REDEFINITION".toList]
      ∧ m.segments.filter (fun s => decide (s.id = 1))
        = [{ id := 1, name := "A".toList, tempo := 120, definition_line := 4
             left := { chunks := [] }
             right := { chunks := [[
               { notes := [{ degree := 1, duration := 1, is_dotted := false, is_rest := false }],
                 duration := 1, is_dotted := false },
               { notes := [{ degree := 2, duration := 1, is_dotted := false, is_rest := false }],
                 duration := 1, is_dotted := false },
               { notes := [{ degree := 3, duration := 1, is_dotted := false, is_rest := false }],
                 duration := 1, is_dotted := false },
               { notes := [{ degree := 4, duration := 1, is_dotted := false, is_rest := false }],
                 duration := 1, is_dotted := false }]] } }]
      ∧ m.segments = (duplicateAfterFirst 120 0).segments :=
  parse_segment_defined_twice duplicateSource 120 0
    (AMSParser.new duplicateSource 120 0)
    { duplicateAfterMap 120 0 with
      map_block := { (duplicateAfterMap 120 0).map_block with note_mapping := [] } }
    (duplicateAfterFirst 120 0)
    { duplicateAfterFirst 120 0 with current_line := 17, has_main_block := true }
    { id := 1, name := "A".toList, tempo := 120, definition_line := 4
      left := { chunks := [] }
      right := { chunks := [[
        { notes := [{ degree := 1, duration := 1, is_dotted := false, is_rest := false }],
          duration := 1, is_dotted := false },
        { notes := [{ degree := 2, duration := 1, is_dotted := false, is_rest := false }],
          duration := 1, is_dotted := false },
        { notes := [{ degree := 3, duration := 1, is_dotted := false, is_rest := false }],
          duration := 1, is_dotted := false },
        { notes := [{ degree := 4, duration := 1, is_dotted := false, is_rest := false }],
          duration := 1, is_dotted := false }]] } }
    "Segment(1, A)".toList ['1'] ['A'] 4 1 4 24
    (duplicate_parseMetadata 120 0) (duplicate_parseMap 120 0) rfl
    (fun f => by
      rw [duplicate_validateMap, duplicate_generateNoteMapping,
        parseLoop_segment f (duplicateAfterMap 120 0) "Segment(1, A)".toList rfl rfl rfl rfl,
        duplicate_first, bind_ok])
    rfl rfl rfl rfl rfl rfl rfl
    (fun i hi => by
      interval_cases i
      · exact ⟨_, rfl, rfl, rfl, rfl⟩
      · exact ⟨_, rfl, rfl, rfl, rfl⟩
      · exact ⟨_, rfl, rfl, rfl, rfl⟩
      · exact ⟨_, rfl, rfl, rfl, rfl⟩)
    rfl rfl rfl

set_option maxRecDepth 100000 in
/-- C15, the claim as worded fails: `duplicateAfterMainSource` holds the twelve
lines of the minimal source, which `parse` accepts without an error, and after
them a second definition with the header `Segment(1, A)` of line index 4, a
well-formed left hand and `END;`. The loop of `parse` ends with the Main block
and the second definition is not read: `parse` returns `true` with the cursor
at line index 12, the error list is empty, so it holds no REDEFINITION error,
and the one segment retained is that of the first definition. -/
theorem redefinition_after_main_unread :
    (AMSParser.new duplicateAfterMainSource 120 0).lines[4]? = some "Segment(1, A)".toList
      ∧ (AMSParser.new duplicateAfterMainSource 120 0).lines.drop 12
          = ["Segment(1, A)", "Begin.LEFT \x7b", "5,6,7,1", "\x7d", "END;"].map String.toList
      ∧ (AMSParser.new duplicateAfterMainSource 120 0).lines.take 12
          = (AMSParser.new minimalSource 120 0).lines
      ∧ (parse 20 (AMSParser.new minimalSource 120 0)).map
          (fun r => (r.1, r.2.errors, r.2.segments))
        = .ok (true, [], (minimalParsed 120 0).segments)
      ∧ (parse 20 (AMSParser.new duplicateAfterMainSource 120 0)).map
          (fun r => (r.1, r.2.errors, r.2.segments, r.2.current_line))
        = .ok (true, [], (minimalParsed 120 0).segments, 12)
      ∧ (minimalParsed 120 0).segments.map
          (fun seg => (seg.id, seg.name, seg.left.chunks.length, seg.right.chunks.length))
        = [(1, "A".toList, 0, 1)] :=
  ⟨rfl, rfl, rfl, rfl, rfl, rfl⟩

end JSONProg

end AMS
